import Mathlib

/-!
# libfs: a FAT-style file system over a block device

A shallow embedding of `src/libfs/fs.c`.  The globals `fs` and `oft` and the
block device are gathered in one `State` that every operation takes and gives
back.  The constants of the two headers that the source includes (`fs.h`,
`disk.h`) are parameters, collected in `Consts`.

Conventions.
* Bytes, table slots, sizes and offsets are natural numbers; a C cast to a
  narrower type is written out as a remainder (`to_u32`, `to_int`, `size_t_add`).
* An operation returns `Option`: `none` stands for a run without a defined
  result, which is either an access outside an array or a buffer (undefined
  behaviour in C) or, for the two `while` loops that follow table links, a run
  that needs more passes than the `fuel` it was given.
* A device call returns `Option` as well; there `none` is the device's `-1`.
-/

namespace Libfs

/-! ## Constants and data model -/

/-- Constants declared in the headers `fs.h` and `disk.h`. -/
structure Consts where
  BLOCK_SIZE : Nat
  FS_FILENAME_LEN : Nat
  FS_FILE_MAX_COUNT : Nat
  FS_OPEN_MAX_COUNT : Nat
deriving DecidableEq, Repr

/-- Modelled from the spec: the values of the header constants (block size
4096, directory capacity 128, handle capacity 32); the file name field is the
16 bytes that make 128 packed directory records fill one block. -/
def ecs150 : Consts :=
  { BLOCK_SIZE := 4096, FS_FILENAME_LEN := 16, FS_FILE_MAX_COUNT := 128, FS_OPEN_MAX_COUNT := 32 }

/-- The end-of-chain mark, `#define FAT_EOC 0xFFFF`. -/
def FAT_EOC : Nat := 0xFFFF

/-- The fields of `struct superblock` (the trailing padding left out). -/
structure superblock where
  signature : List Nat
  total_blocks : Nat
  root_index : Nat
  data_index : Nat
  data_count : Nat
  fat_blocks : Nat
deriving DecidableEq, Repr

/-- One record of the root directory, `struct root_entry`. -/
structure root_entry where
  filename : List Nat
  size : Nat
  data_index : Nat
  padding : List Nat
deriving DecidableEq, Repr

/-- The global `struct fs_state fs`. -/
structure fs_state where
  sb : superblock
  fat : List Nat
  root : List root_entry
  mounted_status : Bool
deriving DecidableEq, Repr

/-- One slot of the open-file table, `struct open_file_entry`. -/
structure open_file_entry where
  used : Bool
  root_index : Int
  offset : Nat
deriving DecidableEq, Repr

/-- Everything the operations read and write: the global `fs`, the global
`oft`, and the blocks of the open device. -/
structure State where
  fs : fs_state
  oft : List open_file_entry
  disk : List (List Nat)
deriving DecidableEq, Repr

/-! ## Machine arithmetic -/

/-- The cast `(uint32_t) n`. -/
def to_u32 (n : Nat) : Nat := n % 2 ^ 32

/-- The cast `(int) n` of an unsigned value to a 32-bit signed one. -/
def to_int (n : Nat) : Int :=
  if n % 2 ^ 32 < 2 ^ 31 then ((n % 2 ^ 32 : Nat) : Int) else ((n % 2 ^ 32 : Nat) : Int) - 2 ^ 32

/-- Addition of two `size_t` values (64 bits). -/
def size_t_add (a b : Nat) : Nat := (a + b) % 2 ^ 64

/-! ## C strings -/

/-- The call `strlen(s)`: the bytes before the first NUL; the end of the list
stands for the terminating NUL. -/
def strlen : List Nat → Nat
  | [] => 0
  | ch :: rest => if ch = 0 then 0 else strlen rest + 1

/-- The call `strncmp(a, b, n)`: bytes are compared until they differ, until a
NUL, or until `n` bytes were compared. -/
def strncmp : List Nat → List Nat → Nat → Int
  | _, _, 0 => 0
  | a, b, n + 1 =>
    if a.headD 0 ≠ b.headD 0 then (a.headD 0 : Int) - (b.headD 0 : Int)
    else if a.headD 0 = 0 then 0
    else strncmp a.tail b.tail n

/-- The `n` bytes that `strncpy(dst, src, n)` stores: the string, then NULs. -/
def strncpy : List Nat → Nat → List Nat
  | _, 0 => []
  | src, n + 1 =>
    if src.headD 0 = 0 then List.replicate (n + 1) 0 else src.headD 0 :: strncpy src.tail n

/-- The bytes `src` stored over `dst` from position `pos` on. -/
def store_bytes (dst : List Nat) (pos : Nat) (src : List Nat) : List Nat :=
  dst.take pos ++ src ++ dst.drop (pos + src.length)

/-- The call `memcpy(tmp + pos, data, n)` seen as the new value of `tmp`. -/
def memcpy (tmp : List Nat) (pos : Nat) (data : List Nat) (n : Nat) : List Nat :=
  store_bytes tmp pos (data.take n)

/-- The string held in a byte array: the bytes before the first NUL. -/
def cstr (a : List Nat) : List Nat := a.takeWhile (fun ch => ch != 0)

/-- The string held in the first `n` bytes of a byte array. -/
def cstrn (n : Nat) (a : List Nat) : List Nat := cstr (a.take n)

/-! ## Loops over an index -/

/-- The loop `for (i = from; i < from + n; i++) if (p i) return i;`: the first
index at which the test holds, `some none` when the loop runs to its end, and
`none` when the test reads outside an array. -/
def first_index_from (p : Nat → Option Bool) : Nat → Nat → Option (Option Nat)
  | 0, _ => some none
  | n + 1, i =>
    match p i with
    | none => none
    | some true => some (some i)
    | some false => first_index_from p n (i + 1)

/-- The loop `for (i = 0; i < n; i++) if (p i) return i;`. -/
def first_index (n : Nat) (p : Nat → Option Bool) : Option (Option Nat) :=
  first_index_from p n 0

/-! ## The block device -/

/-- The call `block_read(block, buf)`: the bytes read, `none` for `-1`.
Modelled from the spec: a device is a store of fixed-size blocks, and a call
on a block it does not have fails. -/
def block_read (disk : List (List Nat)) (block : Nat) : Option (List Nat) :=
  disk[block]?

/-- The call `block_write(block, buf)`: the device afterwards, `none` for `-1`.
Modelled from the spec, as `block_read`. -/
def block_write (disk : List (List Nat)) (block : Nat) (buf : List Nat) :
    Option (List (List Nat)) :=
  if block < disk.length then some (disk.set block buf) else none

/-! ## Array accesses -/

/-- The assignment `a[i] = v`; `none` when `i` is outside the array. -/
def store {α : Type} (a : List α) (i : Nat) (v : α) : Option (List α) :=
  if i < a.length then some (a.set i v) else none

/-- The read `fs.root[k]` with a signed index. -/
def root_at (root : List root_entry) (k : Int) : Option root_entry :=
  if k < 0 then none else root[k.toNat]?

/-! ## Directory and open-file table lookups -/

/-- The test `fs.root[i].filename[0] == 0`: the slot is free. -/
def is_free (e : root_entry) : Bool := e.filename.headD 0 == 0

/-- The loop that looks a name up in the root directory, shared by
`fs_create`, `fs_delete` and `fs_open`. -/
def find_name (c : Consts) (root : List root_entry) (name : List Nat) : Option (Option Nat) :=
  first_index c.FS_FILE_MAX_COUNT
    (fun i => (root[i]?).map (fun e => decide (strncmp e.filename name c.FS_FILENAME_LEN = 0)))

/-- The loop of `fs_create` that finds an empty root entry. -/
def find_free_entry (c : Consts) (root : List root_entry) : Option (Option Nat) :=
  first_index c.FS_FILE_MAX_COUNT (fun i => (root[i]?).map is_free)

/-- The loop of `fs_open` that finds an unused slot of `oft`. -/
def find_free_handle (c : Consts) (oft : List open_file_entry) : Option (Option Nat) :=
  first_index c.FS_OPEN_MAX_COUNT (fun j => (oft[j]?).map (fun h => !h.used))

/-- The loop of `fs_delete` that looks for a handle open on entry `i`. -/
def find_open_on (c : Consts) (oft : List open_file_entry) (i : Nat) : Option (Option Nat) :=
  first_index c.FS_OPEN_MAX_COUNT
    (fun j => (oft[j]?).map (fun h => h.used && decide (h.root_index = (i : Int))))

/-- The first-fit scan of `fs_write`:
`for (i = 0; i < data_count; i++) if (fs.fat[i] == 0) { new_block = i; break; }`. -/
def find_free_block (fat : List Nat) (data_count : Nat) : Option (Option Nat) :=
  first_index data_count (fun i => (fat[i]?).map (fun v => decide (v = 0)))

/-- The count `fat_free` that `fs_info` reports: the free slots among the
first `data_count` ones. -/
def fat_free (fat : List Nat) (data_count : Nat) : Nat :=
  ((fat.take data_count).filter (fun v => decide (v = 0))).length

/-- The name of a directory entry: the string in its `filename` field. -/
def entry_name (c : Consts) (e : root_entry) : List Nat := cstrn c.FS_FILENAME_LEN e.filename

/-! ## fs_create -/

/-- The record that `fs_create` leaves in a claimed slot. -/
def created_entry (c : Consts) (e : root_entry) (name : List Nat) : root_entry :=
  { e with
    filename :=
      (store_bytes e.filename 0 (strncpy name (c.FS_FILENAME_LEN - 1))).set
        (c.FS_FILENAME_LEN - 1) 0
    size := 0
    data_index := FAT_EOC }

/-- The function `fs_create`. -/
def fs_create (c : Consts) (s : State) (filename : Option (List Nat)) : Option (Int × State) :=
  match filename with
  | none => some (-1, s)
  | some name =>
    if s.fs.mounted_status = false ∨ strlen name = 0 ∨ strlen name ≥ c.FS_FILENAME_LEN then
      some (-1, s)
    else
      match find_name c s.fs.root name with
      | none => none
      | some (some _) => some (-1, s)
      | some none =>
        match find_free_entry c s.fs.root with
        | none => none
        | some none => some (-1, s)
        | some (some i) =>
          match s.fs.root[i]? with
          | none => none
          | some e =>
            some (0, { s with fs := { s.fs with root := s.fs.root.set i (created_entry c e name) } })

/-- Calls of `fs_create` in a row, one for each name: the values returned and
the state after the last call. -/
def create_all (c : Consts) : State → List (List Nat) → Option (List Int × State)
  | s, [] => some ([], s)
  | s, name :: rest =>
    match fs_create c s (some name) with
    | none => none
    | some (r, s1) =>
      match create_all c s1 rest with
      | none => none
      | some (rs, s2) => some (r :: rs, s2)

/-! ## fs_delete -/

/-- The loop of `fs_delete` that frees a chain:
`while (block != FAT_EOC) { next = fat[block]; fat[block] = 0; block = next; }`. -/
def free_chain : Nat → List Nat → Nat → Option (List Nat)
  | 0, _, _ => none
  | fuel + 1, fat, block =>
    if block = FAT_EOC then some fat
    else
      match fat[block]? with
      | none => none
      | some next => free_chain fuel (fat.set block 0) next

/-- The record after `memset(&fs.root[i], 0, sizeof(struct root_entry))`. -/
def zeroed_entry (e : root_entry) : root_entry :=
  { filename := List.replicate e.filename.length 0
    size := 0
    data_index := 0
    padding := List.replicate e.padding.length 0 }

/-- The function `fs_delete`. -/
def fs_delete (c : Consts) (fuel : Nat) (s : State) (filename : Option (List Nat)) :
    Option (Int × State) :=
  match filename with
  | none => some (-1, s)
  | some name =>
    if s.fs.mounted_status = false then some (-1, s)
    else
      match find_name c s.fs.root name with
      | none => none
      | some none => some (-1, s)
      | some (some i) =>
        match find_open_on c s.oft i with
        | none => none
        | some (some _) => some (-1, s)
        | some none =>
          match s.fs.root[i]? with
          | none => none
          | some e =>
            match free_chain fuel s.fs.fat e.data_index with
            | none => none
            | some fat1 =>
              some (0, { s with fs := { s.fs with fat := fat1, root := s.fs.root.set i (zeroed_entry e) } })

/-! ## fs_open, fs_close, fs_stat, fs_lseek -/

/-- The function `fs_open`. -/
def fs_open (c : Consts) (s : State) (filename : Option (List Nat)) : Option (Int × State) :=
  match filename with
  | none => some (-1, s)
  | some name =>
    if s.fs.mounted_status = false then some (-1, s)
    else
      match find_name c s.fs.root name with
      | none => none
      | some none => some (-1, s)
      | some (some root_index) =>
        match find_free_handle c s.oft with
        | none => none
        | some none => some (-1, s)
        | some (some i) =>
          some ((i : Int),
            { s with oft := s.oft.set i { used := true, root_index := (root_index : Int), offset := 0 } })

/-- The guard shared by `fs_close`, `fs_stat`, `fs_lseek`, `fs_write` and
`fs_read`: `none` when the guard rejects the call, else the handle `oft[fd]`.
The outer `Option` is `none` when `oft[fd]` is outside the table. -/
def handle_of (c : Consts) (s : State) (fd : Int) : Option (Option open_file_entry) :=
  if s.fs.mounted_status = false ∨ fd < 0 ∨ fd ≥ (c.FS_OPEN_MAX_COUNT : Int) then some none
  else
    match s.oft[fd.toNat]? with
    | none => none
    | some h => if h.used = false then some none else some (some h)

/-- The function `fs_close`. -/
def fs_close (c : Consts) (s : State) (fd : Int) : Option (Int × State) :=
  match handle_of c s fd with
  | none => none
  | some none => some (-1, s)
  | some (some _) =>
    some (0, { s with oft := s.oft.set fd.toNat { used := false, root_index := -1, offset := 0 } })

/-- The function `fs_stat`. -/
def fs_stat (c : Consts) (s : State) (fd : Int) : Option Int :=
  match handle_of c s fd with
  | none => none
  | some none => some (-1)
  | some (some h) =>
    match root_at s.fs.root h.root_index with
    | none => none
    | some e => some (to_int e.size)

/-- The function `fs_lseek`. -/
def fs_lseek (c : Consts) (s : State) (fd : Int) (offset : Nat) : Option (Int × State) :=
  match handle_of c s fd with
  | none => none
  | some none => some (-1, s)
  | some (some h) =>
    match root_at s.fs.root h.root_index with
    | none => none
    | some e =>
      if offset > e.size then some (-1, s)
      else some (0, { s with oft := s.oft.set fd.toNat { h with offset := offset } })

/-! ## fs_write -/

/-- The walk to the starting block, shared by `fs_write` and `fs_read`:
`for (i = 0; i < n && f_index != FAT_EOC; i++) f_index = fs.fat[f_index];`. -/
def walk (fat : List Nat) : Nat → Nat → Option Nat
  | 0, f_index => some f_index
  | n + 1, f_index =>
    if f_index = FAT_EOC then some f_index
    else
      match fat[f_index]? with
      | none => none
      | some next => walk fat n next

/-- The loop of `fs_write` that finds the last block of a chain:
`while (fs.fat[prev] != FAT_EOC) prev = fs.fat[prev];`. -/
def last_block (fat : List Nat) : Nat → Nat → Option Nat
  | 0, _ => none
  | fuel + 1, prev =>
    match fat[prev]? with
    | none => none
    | some next => if next = FAT_EOC then some prev else last_block fat fuel next

/-- The device calls of one pass of the main loop of `fs_write`: a whole block
is written straight from the caller's bytes, a part of a block is read, overlaid
and written back.  `none` is a device call that returned `-1`. -/
def write_block (c : Consts) (disk : List (List Nat)) (disk_block block_offset to_copy : Nat)
    (data : List Nat) : Option (List (List Nat)) :=
  if block_offset = 0 ∧ to_copy = c.BLOCK_SIZE then
    block_write disk disk_block (data.take c.BLOCK_SIZE)
  else
    match block_read disk disk_block with
    | none => none
    | some tmp => block_write disk disk_block (memcpy tmp block_offset data to_copy)

/-- How the main loop of `fs_write` is left: `finished` by its condition or its
`break`, `returned` by a `return` after a failed device call. -/
inductive write_exit where
  | finished (curr_offset act_write : Nat) (fat : List Nat) (disk : List (List Nat))
  | returned (act_write : Nat) (fat : List Nat) (disk : List (List Nat))
deriving DecidableEq, Repr

/-- The main loop of `fs_write`, `while (to_write > 0) ...`.  The first argument
bounds the number of passes. -/
def write_loop (c : Consts) (data_index data_count : Nat) :
    Nat → List Nat → Nat → Nat → Nat → Nat → List Nat → List (List Nat) → Option write_exit
  | 0, _, _, _, _, _, _, _ => none
  | fuel + 1, data, to_write, curr_offset, act_write, f_index, fat, disk =>
    if to_write = 0 then some (write_exit.finished curr_offset act_write fat disk)
    else
      let block_offset := curr_offset % c.BLOCK_SIZE
      let to_copy :=
        if c.BLOCK_SIZE - block_offset > to_write then to_write else c.BLOCK_SIZE - block_offset
      if data.length < to_copy then none
      else
        match write_block c disk (data_index + f_index) block_offset to_copy data with
        | none => some (write_exit.returned act_write fat disk)
        | some disk1 =>
          if to_write - to_copy > 0 then
            match fat[f_index]? with
            | none => none
            | some next =>
              if next = FAT_EOC then
                match find_free_block fat data_count with
                | none => none
                | some found =>
                  if found.getD FAT_EOC = FAT_EOC then
                    some (write_exit.finished (size_t_add curr_offset to_copy)
                      (size_t_add act_write to_copy) fat disk1)
                  else
                    match store fat f_index (found.getD FAT_EOC) with
                    | none => none
                    | some fat1 =>
                      match store fat1 (found.getD FAT_EOC) FAT_EOC with
                      | none => none
                      | some fat2 =>
                        match fat2[f_index]? with
                        | none => none
                        | some f_next =>
                          write_loop c data_index data_count fuel (data.drop to_copy)
                            (to_write - to_copy) (size_t_add curr_offset to_copy)
                            (size_t_add act_write to_copy) f_next fat2 disk1
              else
                write_loop c data_index data_count fuel (data.drop to_copy) (to_write - to_copy)
                  (size_t_add curr_offset to_copy) (size_t_add act_write to_copy) next fat disk1
          else
            write_loop c data_index data_count fuel (data.drop to_copy) (to_write - to_copy)
              (size_t_add curr_offset to_copy) (size_t_add act_write to_copy) f_index fat disk1

/-- The main loop of `fs_write` and what follows it: the size and the handle's
offset are brought up to date, unless a device call failed. -/
def write_from (c : Consts) (s : State) (fd : Int) (h : open_file_entry) (file_size : Nat)
    (f_index : Nat) (data : List Nat) (count : Nat) : Option (Int × State) :=
  match write_loop c s.fs.sb.data_index s.fs.sb.data_count (count + 1) data count h.offset 0
      f_index s.fs.fat s.disk with
  | none => none
  | some (write_exit.returned act_write fat disk) =>
    some (to_int act_write, { s with fs := { s.fs with fat := fat }, disk := disk })
  | some (write_exit.finished curr_offset act_write fat disk) =>
    match root_at s.fs.root h.root_index with
    | none => none
    | some e =>
      let root1 :=
        if curr_offset > file_size then
          s.fs.root.set h.root_index.toNat { e with size := to_u32 curr_offset }
        else s.fs.root
      some (to_int act_write,
        { fs := { s.fs with fat := fat, root := root1 }
          oft := s.oft.set fd.toNat { h with offset := curr_offset }
          disk := disk })

/-- The function `fs_write`.  The fuel bounds the passes of the loop that looks
for the last block of the chain. -/
def fs_write (c : Consts) (fuel : Nat) (s : State) (fd : Int) (buf : Option (List Nat))
    (count : Nat) : Option (Int × State) :=
  match handle_of c s fd with
  | none => none
  | some none => some (-1, s)
  | some (some h) =>
    match buf with
    | none => some (-1, s)
    | some data =>
      match root_at s.fs.root h.root_index with
      | none => none
      | some e =>
        match (if e.size = 0 ∨ e.data_index = FAT_EOC then some FAT_EOC
               else walk s.fs.fat (h.offset / c.BLOCK_SIZE) e.data_index) with
        | none => none
        | some f_index =>
          if f_index = FAT_EOC ∧ h.offset < size_t_add e.size count then
            match (if e.size > 0 ∧ e.data_index ≠ FAT_EOC then last_block s.fs.fat fuel e.data_index
                   else some FAT_EOC) with
            | none => none
            | some prev =>
              match find_free_block s.fs.fat s.fs.sb.data_count with
              | none => none
              | some found =>
                if found.getD FAT_EOC = FAT_EOC then some (to_int 0, s)
                else
                  match store s.fs.fat (found.getD FAT_EOC) FAT_EOC with
                  | none => none
                  | some fat1 =>
                    if prev = FAT_EOC then
                      write_from c
                        { s with fs := { s.fs with
                                         fat := fat1
                                         root := s.fs.root.set h.root_index.toNat
                                           { e with data_index := found.getD FAT_EOC } } }
                        fd h e.size (found.getD FAT_EOC) data count
                    else
                      match store fat1 prev (found.getD FAT_EOC) with
                      | none => none
                      | some fat2 =>
                        write_from c { s with fs := { s.fs with fat := fat2 } }
                          fd h e.size (found.getD FAT_EOC) data count
          else write_from c s fd h e.size f_index data count

/-! ## fs_write with a record of its allocations -/

/-- The main loop of `fs_write` with a record of its allocations: the loop of
`write_loop`, where a pass that allocates a block also adds to `log` the slot
that the scan chose and the table that the scan read. -/
def write_loop_log (c : Consts) (data_index data_count : Nat) :
    Nat → List Nat → Nat → Nat → Nat → Nat → List Nat → List (List Nat) →
      List (Nat × List Nat) → Option (write_exit × List (Nat × List Nat))
  | 0, _, _, _, _, _, _, _, _ => none
  | fuel + 1, data, to_write, curr_offset, act_write, f_index, fat, disk, log =>
    if to_write = 0 then some (write_exit.finished curr_offset act_write fat disk, log)
    else
      let block_offset := curr_offset % c.BLOCK_SIZE
      let to_copy :=
        if c.BLOCK_SIZE - block_offset > to_write then to_write else c.BLOCK_SIZE - block_offset
      if data.length < to_copy then none
      else
        match write_block c disk (data_index + f_index) block_offset to_copy data with
        | none => some (write_exit.returned act_write fat disk, log)
        | some disk1 =>
          if to_write - to_copy > 0 then
            match fat[f_index]? with
            | none => none
            | some next =>
              if next = FAT_EOC then
                match find_free_block fat data_count with
                | none => none
                | some found =>
                  if found.getD FAT_EOC = FAT_EOC then
                    some (write_exit.finished (size_t_add curr_offset to_copy)
                      (size_t_add act_write to_copy) fat disk1, log)
                  else
                    match store fat f_index (found.getD FAT_EOC) with
                    | none => none
                    | some fat1 =>
                      match store fat1 (found.getD FAT_EOC) FAT_EOC with
                      | none => none
                      | some fat2 =>
                        match fat2[f_index]? with
                        | none => none
                        | some f_next =>
                          write_loop_log c data_index data_count fuel (data.drop to_copy)
                            (to_write - to_copy) (size_t_add curr_offset to_copy)
                            (size_t_add act_write to_copy) f_next fat2 disk1
                            (log ++ [(found.getD FAT_EOC, fat)])
              else
                write_loop_log c data_index data_count fuel (data.drop to_copy)
                  (to_write - to_copy) (size_t_add curr_offset to_copy)
                  (size_t_add act_write to_copy) next fat disk1 log
          else
            write_loop_log c data_index data_count fuel (data.drop to_copy) (to_write - to_copy)
              (size_t_add curr_offset to_copy) (size_t_add act_write to_copy) f_index fat disk1 log

/-- The main loop of `fs_write` and what follows it, with the record of the
allocations: `write_from` on `write_loop_log`. -/
def write_from_log (c : Consts) (s : State) (fd : Int) (h : open_file_entry) (file_size : Nat)
    (f_index : Nat) (data : List Nat) (count : Nat) (log : List (Nat × List Nat)) :
    Option ((Int × State) × List (Nat × List Nat)) :=
  match write_loop_log c s.fs.sb.data_index s.fs.sb.data_count (count + 1) data count h.offset 0
      f_index s.fs.fat s.disk log with
  | none => none
  | some (write_exit.returned act_write fat disk, log1) =>
    some ((to_int act_write, { s with fs := { s.fs with fat := fat }, disk := disk }), log1)
  | some (write_exit.finished curr_offset act_write fat disk, log1) =>
    match root_at s.fs.root h.root_index with
    | none => none
    | some e =>
      let root1 :=
        if curr_offset > file_size then
          s.fs.root.set h.root_index.toNat { e with size := to_u32 curr_offset }
        else s.fs.root
      some ((to_int act_write,
        { fs := { s.fs with fat := fat, root := root1 }
          oft := s.oft.set fd.toNat { h with offset := curr_offset }
          disk := disk }), log1)

/-- The function `fs_write` with a record of its allocations: what `fs_write`
returns, and for each block allocated during the call, in the order of the
allocations, the slot chosen and the table that the first-fit scan read. -/
def fs_write_log (c : Consts) (fuel : Nat) (s : State) (fd : Int) (buf : Option (List Nat))
    (count : Nat) : Option ((Int × State) × List (Nat × List Nat)) :=
  match handle_of c s fd with
  | none => none
  | some none => some ((-1, s), [])
  | some (some h) =>
    match buf with
    | none => some ((-1, s), [])
    | some data =>
      match root_at s.fs.root h.root_index with
      | none => none
      | some e =>
        match (if e.size = 0 ∨ e.data_index = FAT_EOC then some FAT_EOC
               else walk s.fs.fat (h.offset / c.BLOCK_SIZE) e.data_index) with
        | none => none
        | some f_index =>
          if f_index = FAT_EOC ∧ h.offset < size_t_add e.size count then
            match (if e.size > 0 ∧ e.data_index ≠ FAT_EOC then last_block s.fs.fat fuel e.data_index
                   else some FAT_EOC) with
            | none => none
            | some prev =>
              match find_free_block s.fs.fat s.fs.sb.data_count with
              | none => none
              | some found =>
                if found.getD FAT_EOC = FAT_EOC then some ((to_int 0, s), [])
                else
                  match store s.fs.fat (found.getD FAT_EOC) FAT_EOC with
                  | none => none
                  | some fat1 =>
                    if prev = FAT_EOC then
                      write_from_log c
                        { s with fs := { s.fs with
                                         fat := fat1
                                         root := s.fs.root.set h.root_index.toNat
                                           { e with data_index := found.getD FAT_EOC } } }
                        fd h e.size (found.getD FAT_EOC) data count
                        [(found.getD FAT_EOC, s.fs.fat)]
                    else
                      match store fat1 prev (found.getD FAT_EOC) with
                      | none => none
                      | some fat2 =>
                        write_from_log c { s with fs := { s.fs with fat := fat2 } }
                          fd h e.size (found.getD FAT_EOC) data count
                          [(found.getD FAT_EOC, s.fs.fat)]
          else write_from_log c s fd h e.size f_index data count []

/-! ## fs_read -/

/-- The main loop of `fs_read`, `while (remaining > 0 && f_index != FAT_EOC) ...`.
The first argument bounds the number of passes; `copied` holds the bytes stored
in the caller's buffer so far and `dest` the part of the buffer after them.
The result is the final `curr_offset`, `act_read` and the caller's buffer. -/
def read_loop (c : Consts) (data_index : Nat) (fat : List Nat) (disk : List (List Nat)) :
    Nat → List Nat → List Nat → Nat → Nat → Nat → Nat → Nat → Option (Nat × Nat × List Nat)
  | 0, _, _, _, _, _, _, _ => none
  | fuel + 1, copied, dest, remaining, curr_offset, act_read, block_offset, f_index =>
    if remaining = 0 ∨ f_index = FAT_EOC then some (curr_offset, act_read, copied ++ dest)
    else
      let to_copy :=
        if c.BLOCK_SIZE - block_offset > remaining then remaining else c.BLOCK_SIZE - block_offset
      match block_read disk (data_index + f_index) with
      | none => some (curr_offset, act_read, copied ++ dest)
      | some tmp =>
        if dest.length < to_copy then none
        else
          match fat[f_index]? with
          | none => none
          | some next =>
            read_loop c data_index fat disk fuel (copied ++ (tmp.drop block_offset).take to_copy)
              (dest.drop to_copy) (remaining - to_copy) (size_t_add curr_offset to_copy)
              (size_t_add act_read to_copy) 0 next

/-- The function `fs_read`: the value returned, the state afterwards and the
caller's buffer afterwards. -/
def fs_read (c : Consts) (s : State) (fd : Int) (buf : Option (List Nat)) (count : Nat) :
    Option (Int × State × Option (List Nat)) :=
  match handle_of c s fd with
  | none => none
  | some none => some (-1, s, buf)
  | some (some h) =>
    match buf with
    | none => some (-1, s, none)
    | some dest =>
      match root_at s.fs.root h.root_index with
      | none => none
      | some e =>
        if h.offset ≥ e.size then some (0, s, some dest)
        else
          let to_read := if size_t_add h.offset count > e.size then e.size - h.offset else count
          match walk s.fs.fat (h.offset / c.BLOCK_SIZE) e.data_index with
          | none => none
          | some f_index =>
            match read_loop c s.fs.sb.data_index s.fs.fat s.disk (to_read + 1) [] dest to_read
                h.offset 0 (h.offset % c.BLOCK_SIZE) f_index with
            | none => none
            | some (curr_offset, act_read, dest1) =>
              some (to_int act_read,
                { s with oft := s.oft.set fd.toNat { h with offset := curr_offset } },
                some dest1)

/-! ## Notions used to state the properties -/

/-- The chain that starts at slot `a` visits the slots `l`, in this order, and
ends after them with `FAT_EOC`: each slot is a data block of the volume (below
`data_count`) and holds `FAT_EOC` or the next slot, never the free mark 0. -/
def is_chain (fat : List Nat) (data_count : Nat) : Nat → List Nat → Bool
  | a, [] => a == FAT_EOC
  | a, b :: l =>
    a == b && b != FAT_EOC && decide (b < data_count) &&
      (match fat[b]? with
       | some next => next != 0 && is_chain fat data_count next l
       | none => false)

/-- The chain that starts at slot `a` visits the slots `l`, in this order, and
ends after them with `FAT_EOC`, each slot being a data block of the volume
(below `data_count`).  Unlike `is_chain`, a slot of the chain may hold the
value 0, which then leads to slot 0. -/
def links (fat : List Nat) (data_count : Nat) : Nat → List Nat → Bool
  | a, [] => a == FAT_EOC
  | a, b :: l =>
    a == b && b != FAT_EOC && decide (b < data_count) &&
      (match fat[b]? with
       | some next => links fat data_count next l
       | none => false)

/-- The slot `i` is what a first-fit scan of the table `fat` finds: the lowest
slot below `data_count` that holds 0. -/
def first_free (fat : List Nat) (data_count i : Nat) : Prop :=
  i < data_count ∧ fat[i]? = some 0 ∧ ∀ j, j < i → fat[j]? ≠ some 0

/-- The free slots among the first `data_count` ones, lowest first. -/
def free_slots (fat : List Nat) (data_count : Nat) : List Nat :=
  (List.range data_count).filter (fun i => fat[i]? == some 0)

/-- The bytes of the data blocks of the slots `l`, one block after the other. -/
def chain_bytes (disk : List (List Nat)) (data_index : Nat) : List Nat → List Nat
  | [] => []
  | b :: l => disk.getD (data_index + b) [] ++ chain_bytes disk data_index l

/-- Calls of `fs_close` in a row, one for each handle: the values returned and
the state after the last call. -/
def close_all (c : Consts) : State → List Int → Option (List Int × State)
  | s, [] => some ([], s)
  | s, fd :: rest =>
    match fs_close c s fd with
    | none => none
    | some (r, s1) =>
      match close_all c s1 rest with
      | none => none
      | some (rs, s2) => some (r :: rs, s2)

/-- What the main loop of `fs_write` leaves behind.  It was entered at slot `f`
of a chain that goes on with the slots `rest`, at position `bo` in the block,
with `tw` bytes of `data` to store, the free slots being `F`.  It stored `r`
bytes and linked the `k` lowest free slots after the chain; `fat1` and `disk1`
are the table and the device afterwards.  The table changed only in the chain
from `f` on and in the slots linked, the device only in the blocks of these
slots, and the bytes of the chain are the old ones with the `r` bytes stored
over them from position `bo` on. -/
def write_post (c : Consts) (di dc : Nat) (data : List Nat) (tw bo f : Nat)
    (rest F fat : List Nat) (disk : List (List Nat)) (k : Nat) (fat1 : List Nat)
    (disk1 : List (List Nat)) (r : Nat) : Prop :=
  r = min tw ((1 + rest.length + F.length) * c.BLOCK_SIZE - bo) ∧
  k ≤ F.length ∧
  is_chain fat1 dc f (f :: (rest ++ F.take k)) = true ∧
  free_slots fat1 dc = F.drop k ∧
  fat1.length = fat.length ∧ disk1.length = disk.length ∧
  (∀ blk ∈ disk1, blk.length = c.BLOCK_SIZE) ∧
  (∀ j, j ∉ f :: rest → j ∉ F.take k → fat1[j]? = fat[j]?) ∧
  (∀ n, (∀ b ∈ f :: (rest ++ F.take k), n ≠ di + b) → disk1[n]? = disk[n]?) ∧
  chain_bytes disk1 di (f :: (rest ++ F.take k)) =
    store_bytes (chain_bytes disk di (f :: (rest ++ F.take k))) bo (data.take r) ∧
  bo + r ≤ (1 + rest.length + k) * c.BLOCK_SIZE ∧
  (0 < k → (rest.length + k) * c.BLOCK_SIZE < bo + r)

/-- The conditions under which `fs_write` is studied: a mounted volume, a
handle `fd` in use, held in `h`, on the directory entry `e`, whose chain visits
the slots `l` and holds the size of the file; the offset of the handle is not
after the end of the file; the table, the device and the constants have the
shape of a formatted volume; and slot 0 of the table is not free, unless the
file has no block yet. -/
structure write_ready (c : Consts) (s : State) (fd : Int) (h : open_file_entry)
    (e : root_entry) (l : List Nat) : Prop where
  block_size_pos : 0 < c.BLOCK_SIZE
  sizes_fit_int : c.BLOCK_SIZE * 65535 < 2 ^ 31
  mounted : s.fs.mounted_status = true
  fd_nonneg : 0 ≤ fd
  fd_lt : fd < (c.FS_OPEN_MAX_COUNT : Int)
  handle : s.oft[fd.toNat]? = some h
  handle_used : h.used = true
  entry : root_at s.fs.root h.root_index = some e
  data_count_le : s.fs.sb.data_count ≤ 65535
  fat_length : s.fs.sb.data_count ≤ s.fs.fat.length
  disk_length : s.fs.sb.data_index + s.fs.sb.data_count ≤ s.disk.length
  block_length : ∀ blk ∈ s.disk, blk.length = c.BLOCK_SIZE
  chain : is_chain s.fs.fat s.fs.sb.data_count e.data_index l = true
  capacity : e.size ≤ l.length * c.BLOCK_SIZE
  empty_no_block : e.size = 0 → l = []
  offset_le : h.offset ≤ e.size
  slot_zero : l = [] ∨ 0 ∉ free_slots s.fs.fat s.fs.sb.data_count

/-- The shape of a mounted volume around a handle in use: the handle `fd`, held
in `h`, is in use and bound to the directory entry `e`; the table covers the
data blocks, which are at most 65535 (the slot values have 16 bits); the device
has every data block, each of `BLOCK_SIZE` bytes; and what the data blocks can
hold fits the `int` that the calls return. -/
structure handle_ready (c : Consts) (s : State) (fd : Int) (h : open_file_entry)
    (e : root_entry) : Prop where
  block_size_pos : 0 < c.BLOCK_SIZE
  sizes_fit_int : c.BLOCK_SIZE * 65535 < 2 ^ 31
  mounted : s.fs.mounted_status = true
  fd_nonneg : 0 ≤ fd
  fd_lt : fd < (c.FS_OPEN_MAX_COUNT : Int)
  handle : s.oft[fd.toNat]? = some h
  handle_used : h.used = true
  entry : root_at s.fs.root h.root_index = some e
  data_count_le : s.fs.sb.data_count ≤ 65535
  fat_length : s.fs.sb.data_count ≤ s.fs.fat.length
  disk_length : s.fs.sb.data_index + s.fs.sb.data_count ≤ s.disk.length
  block_length : ∀ blk ∈ s.disk, blk.length = c.BLOCK_SIZE

/-- What a call `fs_write(fd, data, count)` does under `write_ready`.  It
returns `r`, the smaller of `count` and the room that the chain and the free
slots have after the offset; it links the `k` lowest free slots after the chain;
`fat1` and `disk1` are the table and the device afterwards.  The size of the
entry becomes the larger of the old size and the offset after the call, the
first block of the entry is the first slot of the chain, the offset of the handle
moves forward by `r`; the table changes only in the slots of the chain and the
slots linked, the device only in their blocks; the bytes of the chain are the old
ones with the `r` bytes stored over them from the old offset on. -/
def write_result (c : Consts) (s : State) (fd : Int) (h : open_file_entry) (e : root_entry)
    (l : List Nat) (data : List Nat) (count k : Nat) (fat1 : List Nat) (disk1 : List (List Nat))
    (r : Nat) : Prop :=
  r = min count ((l.length + (free_slots s.fs.fat s.fs.sb.data_count).length) * c.BLOCK_SIZE
        - h.offset) ∧
  (∀ fuel, l.length ≤ fuel →
    fs_write c fuel s fd (some data) count =
      some ((r : Int),
        { fs := { s.fs with
                  fat := fat1
                  root := s.fs.root.set h.root_index.toNat
                    { e with
                      data_index :=
                        (l ++ (free_slots s.fs.fat s.fs.sb.data_count).take k).headD FAT_EOC
                      size := max e.size (h.offset + r) } }
          oft := s.oft.set fd.toNat { h with offset := h.offset + r }
          disk := disk1 })) ∧
  k ≤ (free_slots s.fs.fat s.fs.sb.data_count).length ∧
  is_chain fat1 s.fs.sb.data_count
    ((l ++ (free_slots s.fs.fat s.fs.sb.data_count).take k).headD FAT_EOC)
    (l ++ (free_slots s.fs.fat s.fs.sb.data_count).take k) = true ∧
  free_slots fat1 s.fs.sb.data_count = (free_slots s.fs.fat s.fs.sb.data_count).drop k ∧
  fat1.length = s.fs.fat.length ∧ disk1.length = s.disk.length ∧
  (∀ blk ∈ disk1, blk.length = c.BLOCK_SIZE) ∧
  (∀ j, j ∉ l → j ∉ (free_slots s.fs.fat s.fs.sb.data_count).take k →
    fat1[j]? = s.fs.fat[j]?) ∧
  (∀ n, (∀ b ∈ l ++ (free_slots s.fs.fat s.fs.sb.data_count).take k,
      n ≠ s.fs.sb.data_index + b) → disk1[n]? = s.disk[n]?) ∧
  chain_bytes disk1 s.fs.sb.data_index (l ++ (free_slots s.fs.fat s.fs.sb.data_count).take k) =
    store_bytes
      (chain_bytes s.disk s.fs.sb.data_index
        (l ++ (free_slots s.fs.fat s.fs.sb.data_count).take k))
      h.offset (data.take r) ∧
  max e.size (h.offset + r) ≤ (l.length + k) * c.BLOCK_SIZE ∧
  (0 < k → (l.length + k - 1) * c.BLOCK_SIZE < h.offset + r)

/-! ## Concrete volumes -/

/-- A directory slot with every byte zero. -/
def zero_entry (c : Consts) : root_entry :=
  { filename := List.replicate c.FS_FILENAME_LEN 0, size := 0, data_index := 0,
    padding := List.replicate 10 0 }

/-- A volume of four data blocks right after it was formatted and mounted, with
the constants of the headers: slot 0 of the table holds `FAT_EOC`, every other
slot and every directory entry is zero, no file is open. -/
def fresh_volume : State :=
  { fs :=
      { sb := { signature := [69, 67, 83, 49, 53, 48, 70, 83], total_blocks := 7, root_index := 2,
                data_index := 3, data_count := 4, fat_blocks := 1 }
        fat := FAT_EOC :: List.replicate 2047 0
        root := List.replicate 128 (zero_entry ecs150)
        mounted_status := true }
    oft := List.replicate 32 { used := false, root_index := 0, offset := 0 }
    disk := List.replicate 7 (List.replicate 4096 0) }

/-- Small constants for worked examples: blocks of 4 bytes, file name fields
of 4 bytes, 3 directory slots, 2 handles. -/
def small : Consts :=
  { BLOCK_SIZE := 4, FS_FILENAME_LEN := 4, FS_FILE_MAX_COUNT := 3, FS_OPEN_MAX_COUNT := 2 }

/-- A volume of six data blocks of 4 bytes right after it was formatted and
mounted: the superblock in block 0, the table in blocks 1 to 3, the directory
in block 4, the data blocks from block 5 on. -/
def small_empty : State :=
  { fs :=
      { sb := { signature := [69, 67, 83, 49, 53, 48, 70, 83], total_blocks := 11, root_index := 4,
                data_index := 5, data_count := 6, fat_blocks := 3 }
        fat := [FAT_EOC, 0, 0, 0, 0, 0]
        root := [zero_entry small, zero_entry small, zero_entry small]
        mounted_status := true }
    oft := [{ used := false, root_index := 0, offset := 0 },
            { used := false, root_index := 0, offset := 0 }]
    disk := List.replicate 11 [0, 0, 0, 0] }

/-- The small volume with one file, named `ab`, of 6 bytes in the data blocks
1 and 2, and nothing open. -/
def small_file : State :=
  { small_empty with
    fs := { small_empty.fs with
            fat := [FAT_EOC, 2, FAT_EOC, 0, 0, 0]
            root := [{ filename := [97, 98, 0, 0], size := 6, data_index := 1,
                       padding := List.replicate 10 0 },
                     zero_entry small, zero_entry small] }
    disk := [[0, 0, 0, 0], [0, 0, 0, 0], [0, 0, 0, 0], [0, 0, 0, 0], [0, 0, 0, 0],
             [0, 0, 0, 0], [10, 11, 12, 13], [14, 15, 7, 7], [0, 0, 0, 0], [0, 0, 0, 0],
             [0, 0, 0, 0]] }

/-- The small volume with the file `ab`, opened twice: handle 0 at offset 0,
handle 1 at offset 5. -/
def small_open : State :=
  { small_file with
    oft := [{ used := true, root_index := 0, offset := 0 },
            { used := true, root_index := 0, offset := 5 }] }

/-- The small volume right after `ab` was created and opened: the file has no
byte and no block, handle 0 is at offset 0. -/
def small_new : State :=
  { small_empty with
    fs := { small_empty.fs with
            root := [{ filename := [97, 98, 0, 0], size := 0, data_index := FAT_EOC,
                       padding := List.replicate 10 0 },
                     zero_entry small, zero_entry small] }
    oft := [{ used := true, root_index := 0, offset := 0 },
            { used := false, root_index := 0, offset := 0 }] }

/-- A volume of two data blocks with the constants of the headers, both in
use: slot 0 of the table holds `FAT_EOC`, the file `a` has 4096 bytes in the
data block 1 and is open through handle 0 at offset 0. -/
def full_volume : State :=
  { fs :=
      { sb := { signature := [69, 67, 83, 49, 53, 48, 70, 83], total_blocks := 5, root_index := 2,
                data_index := 3, data_count := 2, fat_blocks := 1 }
        fat := FAT_EOC :: FAT_EOC :: List.replicate 2046 0
        root := { filename := 97 :: List.replicate 15 0, size := 4096, data_index := 1,
                  padding := List.replicate 10 0 } :: List.replicate 127 (zero_entry ecs150)
        mounted_status := true }
    oft := { used := true, root_index := 0, offset := 0 } ::
           List.replicate 31 { used := false, root_index := 0, offset := 0 }
    disk := [List.replicate 4096 0, List.replicate 4096 0, List.replicate 4096 0,
             List.replicate 4096 0, List.replicate 4096 7] }

/-- A volume of four data blocks with the constants of the headers whose
table has slot 0 free: the file `a` has 4096 bytes, all of them 7, in the data
block 1, and is open twice, through handle 0 at the end of the file and through
handle 1 at its start. -/
def worn_volume : State :=
  { fs :=
      { sb := { signature := [69, 67, 83, 49, 53, 48, 70, 83], total_blocks := 7, root_index := 2,
                data_index := 3, data_count := 4, fat_blocks := 1 }
        fat := 0 :: FAT_EOC :: List.replicate 2046 0
        root := { filename := 97 :: List.replicate 15 0, size := 4096, data_index := 1,
                  padding := List.replicate 10 0 } :: List.replicate 127 (zero_entry ecs150)
        mounted_status := true }
    oft := { used := true, root_index := 0, offset := 4096 } ::
           { used := true, root_index := 0, offset := 0 } ::
           List.replicate 30 { used := false, root_index := 0, offset := 0 }
    disk := [List.replicate 4096 0, List.replicate 4096 0, List.replicate 4096 0,
             List.replicate 4096 0, List.replicate 4096 7, List.replicate 4096 0,
             List.replicate 4096 0] }

/-- A volume of two data blocks with the constants of the headers: the file
`a` has 6 bytes in the data block 1, whose bytes are all 7, and is open through
handle 0 at offset 5. -/
def short_volume : State :=
  { fs :=
      { sb := { signature := [69, 67, 83, 49, 53, 48, 70, 83], total_blocks := 5, root_index := 2,
                data_index := 3, data_count := 2, fat_blocks := 1 }
        fat := FAT_EOC :: FAT_EOC :: List.replicate 2046 0
        root := { filename := 97 :: List.replicate 15 0, size := 6, data_index := 1,
                  padding := List.replicate 10 0 } :: List.replicate 127 (zero_entry ecs150)
        mounted_status := true }
    oft := { used := true, root_index := 0, offset := 5 } ::
           List.replicate 31 { used := false, root_index := 0, offset := 0 }
    disk := [List.replicate 4096 0, List.replicate 4096 0, List.replicate 4096 0,
             List.replicate 4096 0, List.replicate 4096 7] }

/-- A volume of two data blocks with the constants of the headers whose table
has slot 0 free: the file `a` has 4096 bytes in the data block 1 and is open
through handle 0 at the end of the file. -/
def worn_pair : State :=
  { fs :=
      { sb := { signature := [69, 67, 83, 49, 53, 48, 70, 83], total_blocks := 5, root_index := 2,
                data_index := 3, data_count := 2, fat_blocks := 1 }
        fat := 0 :: FAT_EOC :: List.replicate 2046 0
        root := { filename := 97 :: List.replicate 15 0, size := 4096, data_index := 1,
                  padding := List.replicate 10 0 } :: List.replicate 127 (zero_entry ecs150)
        mounted_status := true }
    oft := { used := true, root_index := 0, offset := 4096 } ::
           List.replicate 31 { used := false, root_index := 0, offset := 0 }
    disk := [List.replicate 4096 0, List.replicate 4096 0, List.replicate 4096 0,
             List.replicate 4096 0, List.replicate 4096 7] }

/-- A volume of four data blocks with the constants of the headers whose table
and directory are those that `worn_volume` has after one block was appended to
the file `a`: the file has 8192 bytes, its chain goes from slot 1, which holds
0, to slot 0, which holds `FAT_EOC`; no file is open. -/
def linked_volume : State :=
  { fs :=
      { sb := { signature := [69, 67, 83, 49, 53, 48, 70, 83], total_blocks := 7, root_index := 2,
                data_index := 3, data_count := 4, fat_blocks := 1 }
        fat := FAT_EOC :: 0 :: List.replicate 2046 0
        root := { filename := 97 :: List.replicate 15 0, size := 8192, data_index := 1,
                  padding := List.replicate 10 0 } :: List.replicate 127 (zero_entry ecs150)
        mounted_status := true }
    oft := List.replicate 32 { used := false, root_index := 0, offset := 0 }
    disk := [List.replicate 4096 0, List.replicate 4096 0, List.replicate 4096 0,
             List.replicate 4096 1, List.replicate 4096 7, List.replicate 4096 0,
             List.replicate 4096 0] }

/-- A volume of four data blocks with the constants of the headers on which
the size field of the file `a` holds its largest value, 4294967295: the chain of
the file is the slot 1, the slots 2 and 3 are free, and handle 0 is in use at
the offset 4294967295. -/
def huge_volume : State :=
  { fs :=
      { sb := { signature := [69, 67, 83, 49, 53, 48, 70, 83], total_blocks := 7, root_index := 2,
                data_index := 3, data_count := 4, fat_blocks := 1 }
        fat := FAT_EOC :: FAT_EOC :: List.replicate 2046 0
        root := { filename := 97 :: List.replicate 15 0, size := 4294967295, data_index := 1,
                  padding := List.replicate 10 0 } :: List.replicate 127 (zero_entry ecs150)
        mounted_status := true }
    oft := { used := true, root_index := 0, offset := 4294967295 } ::
           List.replicate 31 { used := false, root_index := 0, offset := 0 }
    disk := [List.replicate 4096 0, List.replicate 4096 0, List.replicate 4096 0,
             List.replicate 4096 0, List.replicate 4096 7, List.replicate 4096 0,
             List.replicate 4096 0] }

/-! ## What fs_write leaves in the table -/

/-- The number of allocations that a table has room for: its free slots, and
one more when slot 0 is free, since the slot that links to slot 0 then holds the
free mark and is handed out again. -/
def free_room (fat : List Nat) (dc : Nat) : Nat :=
  (free_slots fat dc).length + (if fat[0]? = some 0 then 1 else 0)

/-- What the main loop of `fs_write` leaves in the table: the `k` lowest free
slots `F.take k` are linked, in this order, after the chain `f :: rest`, the
record `log1` has them in this order after what it had, the other free slots
are free and the slots outside the chain and outside the slots linked hold what
they held. -/
def loop_shape (dc f : Nat) (rest F fat : List Nat) (log : List (Nat × List Nat)) (k : Nat)
    (fat1 : List Nat) (log1 : List (Nat × List Nat)) : Prop :=
  log1.map Prod.fst = log.map Prod.fst ++ F.take k ∧
  k ≤ F.length ∧
  is_chain fat1 dc f (f :: (rest ++ F.take k)) = true ∧
  free_slots fat1 dc = F.drop k ∧
  fat1.length = fat.length ∧
  (∀ j, j ∉ f :: rest → j ∉ F.take k → fat1[j]? = fat[j]?)

/-- What a call of `fs_write` leaves, in the terms of the chain `l` of the file
and of the free slots `F` before the call: `kept` is the part of `l` that the
file keeps, all of it unless the size was 0 and a first block was allocated, and
`k` is the number of slots linked. -/
def write_shape (s : State) (h : open_file_entry) (e : root_entry) (l : List Nat)
    (s1 : State) (e1 : root_entry) (kept : List Nat) (k : Nat)
    (log : List (Nat × List Nat)) : Prop :=
  log.map Prod.fst = (free_slots s.fs.fat s.fs.sb.data_count).take k ∧
  k ≤ (free_slots s.fs.fat s.fs.sb.data_count).length ∧
  s1.fs.sb = s.fs.sb ∧
  s1.fs.root = s.fs.root.set h.root_index.toNat e1 ∧
  e1.filename = e.filename ∧
  is_chain s1.fs.fat s.fs.sb.data_count e1.data_index
    (kept ++ (free_slots s.fs.fat s.fs.sb.data_count).take k) = true ∧
  (kept = l ∨ (e.size = 0 ∧ kept = [])) ∧
  (∀ j, j ∉ l → j ∉ (free_slots s.fs.fat s.fs.sb.data_count).take k →
    s1.fs.fat[j]? = s.fs.fat[j]?)

/-- What `fs_write` returns and leaves, for the handle and the entry: a count
`r` of bytes, at most `count` and fit for an `int`; the volume stays mounted;
the offset of the handle moves forward by `r`; and the size of the entry, a
field of 32 bits, is set to the new offset when that is larger than
`file_size`. -/
def write_outcome (s1 : State) (fd : Int) (h : open_file_entry) (file_size count r : Nat)
    (e1 : root_entry) : Prop :=
  r ≤ count ∧ r < 2 ^ 31 ∧ s1.fs.mounted_status = true ∧
  s1.oft[fd.toNat]? = some { h with offset := h.offset + r } ∧
  root_at s1.fs.root h.root_index = some e1 ∧
  e1.size = (if h.offset + r > file_size then to_u32 (h.offset + r) else file_size)

/-! ## Chains of a whole volume -/

/-- The chains of the files of a volume: `ch i` lists the slots of the chain
of the directory entry `i`, for every entry in use, and the chains of two
entries in use share no slot. -/
def volume_chains (fs : fs_state) (ch : Nat → List Nat) : Prop :=
  (∀ (i : Nat) (e : root_entry), fs.root[i]? = some e → is_free e = false →
    is_chain fs.fat fs.sb.data_count e.data_index (ch i) = true) ∧
  (∀ (i j : Nat) (e1 e2 : root_entry), i ≠ j → fs.root[i]? = some e1 → fs.root[j]? = some e2 →
    is_free e1 = false → is_free e2 = false → ∀ b ∈ ch i, b ∉ ch j)

/-! ## fs_mount and fs_umount -/

/-- The unsigned integer held in a run of bytes, lowest byte first (the byte
order of the machines the library is built for). -/
def of_bytes : List Nat → Nat
  | [] => 0
  | b :: rest => b + 256 * of_bytes rest

/-- The `n` bytes that hold an unsigned integer, lowest byte first. -/
def to_bytes : Nat → Nat → List Nat
  | 0, _ => []
  | n + 1, v => v % 256 :: to_bytes n (v / 256)

/-- The fields of the packed `struct superblock` filled from the bytes of a
block. -/
def superblock_of_bytes (b : List Nat) : superblock :=
  { signature := b.take 8
    total_blocks := of_bytes ((b.drop 8).take 2)
    root_index := of_bytes ((b.drop 10).take 2)
    data_index := of_bytes ((b.drop 12).take 2)
    data_count := of_bytes ((b.drop 14).take 2)
    fat_blocks := of_bytes ((b.drop 16).take 1) }

/-- The array of `uint16_t` values held in a run of bytes. -/
def fat_of_bytes : List Nat → List Nat
  | a :: b :: rest => (a + 256 * b) :: fat_of_bytes rest
  | _ => []

/-- The bytes of an array of `uint16_t` values. -/
def bytes_of_fat : List Nat → List Nat
  | [] => []
  | v :: rest => v % 256 :: v / 256 % 256 :: bytes_of_fat rest

/-- The packed `struct root_entry` held at the start of a run of bytes. -/
def entry_of_bytes (c : Consts) (b : List Nat) : root_entry :=
  { filename := b.take c.FS_FILENAME_LEN
    size := of_bytes ((b.drop c.FS_FILENAME_LEN).take 4)
    data_index := of_bytes ((b.drop (c.FS_FILENAME_LEN + 4)).take 2)
    padding := (b.drop (c.FS_FILENAME_LEN + 6)).take 10 }

/-- The bytes of a packed `struct root_entry`. -/
def bytes_of_entry (e : root_entry) : List Nat :=
  e.filename ++ to_bytes 4 e.size ++ to_bytes 2 e.data_index ++ e.padding

/-- The array of `n` directory records held in a run of bytes. -/
def root_of_bytes (c : Consts) : Nat → List Nat → List root_entry
  | 0, _ => []
  | n + 1, b => entry_of_bytes c b :: root_of_bytes c n (b.drop (c.FS_FILENAME_LEN + 16))

/-- The bytes of the array `fs.root`. -/
def bytes_of_root : List root_entry → List Nat
  | [] => []
  | e :: rest => bytes_of_entry e ++ bytes_of_root rest

/-- The loop of `fs_mount` that reads the table,
`for (i = 0; i < fat_blocks; i++) block_read(1 + i, fat + i * BLOCK_SIZE)`, from
block `first` on: the bytes read, `none` when a call returned `-1`. -/
def read_blocks (disk : List (List Nat)) : Nat → Nat → Option (List Nat)
  | _, 0 => some []
  | first, n + 1 =>
    match block_read disk first with
    | none => none
    | some b =>
      match read_blocks disk (first + 1) n with
      | none => none
      | some rest => some (b ++ rest)

/-- The loop of `fs_umount` that writes the table,
`for (i = 0; i < fat_blocks; i++) block_write(1 + i, fat + i * BLOCK_SIZE)`, from
block `first` on.  The result holds the device afterwards and whether every
call succeeded; it is `none` when the loop reads after the end of the table in
memory. -/
def write_blocks (bs : Nat) : List Nat → List (List Nat) → Nat → Nat →
    Option (Bool × List (List Nat))
  | _, disk, _, 0 => some (true, disk)
  | bytes, disk, first, n + 1 =>
    if bytes.length < bs then none
    else
      match block_write disk first (bytes.take bs) with
      | none => some (false, disk)
      | some disk1 => write_blocks bs (bytes.drop bs) disk1 (first + 1) n

/-- The open-file table after `memset(oft, 0, sizeof(oft))`. -/
def cleared_oft (c : Consts) : List open_file_entry :=
  List.replicate c.FS_OPEN_MAX_COUNT { used := false, root_index := 0, offset := 0 }

/-- The function `fs_mount`.  `opened` is what `block_disk_open(diskname)`
gave: `none` for `-1`, else the blocks of the device it opened; `malloc_ok`
tells whether `malloc` returned memory.  The model covers block sizes from 17
bytes (the fields of the superblock) to 4096 bytes (the size of
`struct superblock`) and a directory that fills one block; other sizes are
reads and writes outside the structs.  After a failure the globals keep what
was stored in them before the failing step. -/
def fs_mount (c : Consts) (s : State) (opened : Option (List (List Nat))) (malloc_ok : Bool) :
    Option (Int × State) :=
  if s.fs.mounted_status = true then some (-1, s)
  else
    match opened with
    | none => some (-1, s)
    | some disk =>
      match block_read disk 0 with
      | none => some (-1, { s with disk := disk })
      | some b0 =>
        if c.BLOCK_SIZE < 17 ∨ 4096 < c.BLOCK_SIZE ∨ b0.length ≠ c.BLOCK_SIZE then none
        else if (superblock_of_bytes b0).signature ≠ [69, 67, 83, 49, 53, 48, 70, 83] then
          some (-1, { s with fs := { s.fs with sb := superblock_of_bytes b0 }, disk := disk })
        else if (superblock_of_bytes b0).total_blocks ≠ disk.length then
          some (-1, { s with fs := { s.fs with sb := superblock_of_bytes b0 }, disk := disk })
        else if malloc_ok = false then
          some (-1, { s with
                      fs := { s.fs with sb := superblock_of_bytes b0, fat := [] }, disk := disk })
        else
          match read_blocks disk 1 (superblock_of_bytes b0).fat_blocks with
          | none =>
            some (-1, { s with
                        fs := { s.fs with sb := superblock_of_bytes b0, fat := [] }, disk := disk })
          | some fat_bytes =>
            match block_read disk (superblock_of_bytes b0).root_index with
            | none =>
              some (-1, { s with
                          fs := { s.fs with sb := superblock_of_bytes b0, fat := [] }
                          disk := disk })
            | some root_bytes =>
              if c.FS_FILE_MAX_COUNT * (c.FS_FILENAME_LEN + 16) ≠ c.BLOCK_SIZE ∨
                  root_bytes.length ≠ c.BLOCK_SIZE then none
              else
                some (0,
                  { fs := { sb := superblock_of_bytes b0
                            fat := fat_of_bytes fat_bytes
                            root := root_of_bytes c c.FS_FILE_MAX_COUNT root_bytes
                            mounted_status := true }
                    oft := cleared_oft c
                    disk := disk })

/-- The function `fs_umount`.  `close_ok` tells whether `block_disk_close()`
succeeded.  The table is left empty for the pointer set to `NULL`. -/
def fs_umount (c : Consts) (s : State) (close_ok : Bool) : Option (Int × State) :=
  if s.fs.mounted_status = false then some (-1, s)
  else
    match first_index c.FS_OPEN_MAX_COUNT (fun i => (s.oft[i]?).map (fun h => h.used)) with
    | none => none
    | some (some _) => some (-1, s)
    | some none =>
      match write_blocks c.BLOCK_SIZE (bytes_of_fat s.fs.fat) s.disk 1 s.fs.sb.fat_blocks with
      | none => none
      | some (false, disk1) => some (-1, { s with disk := disk1 })
      | some (true, disk1) =>
        if c.FS_FILE_MAX_COUNT * (c.FS_FILENAME_LEN + 16) ≠ c.BLOCK_SIZE ∨
            (bytes_of_root s.fs.root).length ≠ c.BLOCK_SIZE then none
        else
          match block_write disk1 s.fs.sb.root_index (bytes_of_root s.fs.root) with
          | none => some (-1, { s with disk := disk1 })
          | some disk2 =>
            if close_ok = false then some (-1, { s with disk := disk2 })
            else
              some (0, { fs := { s.fs with fat := [], mounted_status := false }
                         oft := s.oft
                         disk := disk2 })

/-- The bytes of block 0 of a volume of four data blocks: the signature, 7
blocks in all, the directory in block 2, the data from block 3 on, one block for
the table. -/
def formatted_block : List Nat :=
  [69, 67, 83, 49, 53, 48, 70, 83, 7, 0, 2, 0, 3, 0, 4, 0, 1] ++ List.replicate 4079 0

/-- The volume `fresh_volume` on a device whose block 0 holds the
superblock. -/
def formatted_volume : State :=
  { fresh_volume with
    disk := formatted_block :: List.replicate 6 (List.replicate 4096 0) }

/-! ## Facts about the index loops -/

theorem first_index_from_none_iff (p : Nat → Option Bool) (n i : Nat) :
    first_index_from p n i = some none ↔ ∀ j, i ≤ j → j < i + n → p j = some false := by
  induction n generalizing i with
  | zero =>
    simp only [first_index_from, true_iff]
    intro j h1 h2
    omega
  | succ n ih =>
    unfold first_index_from
    constructor
    · intro h j h1 h2
      cases hp : p i with
      | none => simp [hp] at h
      | some b =>
        cases b with
        | true => simp [hp] at h
        | false =>
          simp only [hp] at h
          by_cases hj : j = i
          · subst hj; exact hp
          · exact (ih (i + 1)).1 h j (by omega) (by omega)
    · intro h
      have hi := h i (le_refl _) (by omega)
      simp only [hi]
      exact (ih (i + 1)).2 (fun j h1 h2 => h j (by omega) (by omega))

theorem first_index_from_some_iff (p : Nat → Option Bool) (n i k : Nat) :
    first_index_from p n i = some (some k) ↔
      i ≤ k ∧ k < i + n ∧ p k = some true ∧ ∀ j, i ≤ j → j < k → p j = some false := by
  induction n generalizing i with
  | zero =>
    simp only [first_index_from]
    constructor
    · intro h; simp at h
    · rintro ⟨h1, h2, _⟩; omega
  | succ n ih =>
    unfold first_index_from
    cases hp : p i with
    | none =>
      simp only []
      constructor
      · intro h; simp at h
      · rintro ⟨h1, h2, h3, h4⟩
        by_cases hk : k = i
        · subst hk; rw [hp] at h3; simp at h3
        · have := h4 i (le_refl _) (by omega); rw [hp] at this; simp at this
    | some b =>
      cases b with
      | true =>
        simp only [Option.some.injEq]
        constructor
        · intro h; subst h
          exact ⟨le_refl _, by omega, hp, fun j h1 h2 => by omega⟩
        · rintro ⟨h1, h2, h3, h4⟩
          by_cases hk : k = i
          · exact hk.symm
          · have := h4 i (le_refl _) (by omega); rw [hp] at this; simp at this
      | false =>
        simp only []
        rw [ih (i + 1)]
        constructor
        · rintro ⟨h1, h2, h3, h4⟩
          refine ⟨by omega, by omega, h3, fun j hj1 hj2 => ?_⟩
          by_cases hj : j = i
          · subst hj; exact hp
          · exact h4 j (by omega) hj2
        · rintro ⟨h1, h2, h3, h4⟩
          have hk : k ≠ i := by
            intro hk; subst hk; rw [hp] at h3; simp at h3
          exact ⟨by omega, by omega, h3, fun j hj1 hj2 => h4 j (by omega) hj2⟩

/-- A loop whose test never reads outside its array gives a result. -/
theorem first_index_from_total (p : Nat → Option Bool) (n i : Nat)
    (h : ∀ j, i ≤ j → j < i + n → (p j).isSome = true) :
    ∃ r, first_index_from p n i = some r := by
  induction n generalizing i with
  | zero => exact ⟨none, rfl⟩
  | succ n ih =>
    unfold first_index_from
    have hi := h i (le_refl _) (by omega)
    cases hp : p i with
    | none => rw [hp] at hi; simp at hi
    | some b =>
      cases b with
      | true => exact ⟨some i, rfl⟩
      | false => exact ih (i + 1) (fun j h1 h2 => h j (by omega) (by omega))

theorem first_index_none_iff (p : Nat → Option Bool) (n : Nat) :
    first_index n p = some none ↔ ∀ j, j < n → p j = some false := by
  unfold first_index
  rw [first_index_from_none_iff]
  constructor
  · intro h j hj; exact h j (Nat.zero_le _) (by omega)
  · intro h j _ hj; exact h j (by omega)

theorem first_index_some_iff (p : Nat → Option Bool) (n k : Nat) :
    first_index n p = some (some k) ↔
      k < n ∧ p k = some true ∧ ∀ j, j < k → p j = some false := by
  unfold first_index
  rw [first_index_from_some_iff]
  constructor
  · rintro ⟨_, h2, h3, h4⟩
    exact ⟨by omega, h3, fun j hj => h4 j (Nat.zero_le _) hj⟩
  · rintro ⟨h2, h3, h4⟩
    exact ⟨Nat.zero_le _, by omega, h3, fun j _ hj => h4 j hj⟩

theorem first_index_total (p : Nat → Option Bool) (n : Nat)
    (h : ∀ j, j < n → (p j).isSome = true) : ∃ r, first_index n p = some r :=
  first_index_from_total p n 0 (fun j _ hj => h j (by omega))

/-! ## Facts about C strings -/

theorem cstr_nil : cstr [] = [] := rfl

theorem cstr_cons (x : Nat) (xs : List Nat) :
    cstr (x :: xs) = if x = 0 then [] else x :: cstr xs := by
  unfold cstr
  rw [List.takeWhile_cons]
  by_cases hx : x = 0
  · simp [hx]
  · simp [hx]

theorem strlen_eq_length_cstr (a : List Nat) : strlen a = (cstr a).length := by
  induction a with
  | nil => rfl
  | cons x xs ih =>
    rw [cstr_cons]
    unfold strlen
    by_cases hx : x = 0
    · simp [hx]
    · simp [hx, ih]

theorem strncmp_eq_zero_iff (n : Nat) (a b : List Nat) :
    strncmp a b n = 0 ↔ cstrn n a = cstrn n b := by
  induction n generalizing a b with
  | zero => simp [strncmp, cstrn, cstr]
  | succ n ih =>
    unfold strncmp cstrn
    cases a with
    | nil =>
      cases b with
      | nil => simp [cstr]
      | cons y ys =>
        simp only [List.headD_nil, List.headD_cons, List.take_nil, List.take_succ_cons, cstr_nil,
          cstr_cons]
        by_cases hy : y = 0
        · simp [hy]
        · have h0 : (0 : Nat) ≠ y := fun h => hy h.symm
          simp only [hy, if_false, ne_eq, h0, not_false_eq_true, if_true]
          constructor
          · intro h; exfalso; omega
          · intro h; simp at h
    | cons x xs =>
      cases b with
      | nil =>
        simp only [List.headD_nil, List.headD_cons, List.take_nil, List.take_succ_cons, cstr_nil,
          cstr_cons]
        by_cases hx : x = 0
        · simp [hx]
        · simp only [hx, if_false, ne_eq, not_false_eq_true, if_true]
          constructor
          · intro h; exfalso; omega
          · intro h; simp at h
      | cons y ys =>
        simp only [List.headD_cons, List.take_succ_cons, cstr_cons, List.tail_cons]
        by_cases hxy : x = y
        · subst hxy
          by_cases hx : x = 0
          · simp [hx]
          · simp only [ne_eq, not_true_eq_false, if_false, hx, List.cons.injEq, true_and]
            exact ih xs ys
        · simp only [ne_eq, hxy, not_false_eq_true, if_true]
          constructor
          · intro h; exfalso; omega
          · intro h
            exfalso
            by_cases hx : x = 0
            · by_cases hy : y = 0
              · exact hxy (hx.trans hy.symm)
              · simp [hx, hy] at h
            · by_cases hy : y = 0
              · simp [hx, hy] at h
              · simp only [hx, hy, if_false, List.cons.injEq] at h
                exact hxy h.1

/-! ## The index loops over a list -/

theorem first_index_list_none {α : Type} (xs : List α) (q : α → Bool) (n : Nat)
    (hn : n = xs.length) :
    first_index n (fun i => (xs[i]?).map q) = some none ↔ ∀ x ∈ xs, q x = false := by
  rw [first_index_none_iff]
  constructor
  · intro h x hx
    obtain ⟨i, hi, rfl⟩ := List.getElem_of_mem hx
    have := h i (by omega)
    rw [List.getElem?_eq_getElem hi] at this
    simpa using this
  · intro h j hj
    have hj2 : j < xs.length := by omega
    rw [List.getElem?_eq_getElem hj2]
    simp [h _ (List.getElem_mem hj2)]

theorem first_index_list_some {α : Type} (xs : List α) (q : α → Bool) (n k : Nat) :
    first_index n (fun i => (xs[i]?).map q) = some (some k) ↔
      k < n ∧ (∃ x, xs[k]? = some x ∧ q x = true) ∧
        ∀ j, j < k → ∃ y, xs[j]? = some y ∧ q y = false := by
  rw [first_index_some_iff]
  constructor
  · rintro ⟨h1, h2, h3⟩
    refine ⟨h1, ?_, fun j hj => ?_⟩
    · cases hx : xs[k]? with
      | none => rw [hx] at h2; simp at h2
      | some x => rw [hx] at h2; exact ⟨x, rfl, by simpa using h2⟩
    · have := h3 j hj
      cases hy : xs[j]? with
      | none => rw [hy] at this; simp at this
      | some y => rw [hy] at this; exact ⟨y, rfl, by simpa using this⟩
  · rintro ⟨h1, ⟨x, hx, hq⟩, h3⟩
    refine ⟨h1, by simp [hx, hq], fun j hj => ?_⟩
    obtain ⟨y, hy, hqy⟩ := h3 j hj
    simp [hy, hqy]

theorem first_index_list_total {α : Type} (xs : List α) (q : α → Bool) (n : Nat)
    (hn : n ≤ xs.length) : ∃ r, first_index n (fun i => (xs[i]?).map q) = some r := by
  apply first_index_total
  intro j hj
  rw [List.getElem?_eq_getElem (by omega)]
  rfl

/-- A loop over a whole array finds the first element that passes the test, if
one does. -/
theorem first_index_list_of_mem {α : Type} (xs : List α) (q : α → Bool) (n : Nat)
    (hn : n = xs.length) (x : α) (hx : x ∈ xs) (hq : q x = true) :
    ∃ k, first_index n (fun i => (xs[i]?).map q) = some (some k) := by
  obtain ⟨r, hr⟩ := first_index_list_total xs q n (by omega)
  cases r with
  | none =>
    have := (first_index_list_none xs q n hn).1 hr x hx
    rw [hq] at this; simp at this
  | some k => exact ⟨k, hr⟩

/-- A loop finds an index when the test holds somewhere and every test before
that place reads inside the array. -/
theorem first_index_from_exists (p : Nat → Option Bool) (n : Nat) :
    ∀ (i j : Nat), i ≤ j → j < i + n → p j = some true →
      (∀ k, i ≤ k → k < j → (p k).isSome = true) →
      ∃ k, first_index_from p n i = some (some k) ∧ k ≤ j := by
  induction n with
  | zero => intro i j h1 h2; omega
  | succ n ih =>
    intro i j h1 h2 hj hall
    unfold first_index_from
    by_cases hij : i = j
    · subst hij
      rw [hj]
      exact ⟨i, rfl, le_refl _⟩
    · have hi := hall i (le_refl _) (by omega)
      cases hp : p i with
      | none => rw [hp] at hi; simp at hi
      | some b =>
        cases b with
        | true => exact ⟨i, rfl, h1⟩
        | false =>
          exact ih (i + 1) j (by omega) (by omega) hj (fun k hk1 hk2 => hall k (by omega) hk2)

theorem first_index_exists (p : Nat → Option Bool) (n j : Nat) (hj : j < n)
    (hp : p j = some true) (hall : ∀ k, k < j → (p k).isSome = true) :
    ∃ k, first_index n p = some (some k) ∧ k ≤ j :=
  first_index_from_exists p n 0 j (Nat.zero_le _) (by omega) hp (fun k _ hk => hall k hk)

/-! ## More on C strings: what `fs_create` stores -/

theorem cstr_ne_zero (a : List Nat) : ∀ x ∈ cstr a, x ≠ 0 := by
  induction a with
  | nil => intro x hx; simp [cstr_nil] at hx
  | cons y ys ih =>
    intro x hx
    rw [cstr_cons] at hx
    by_cases hy : y = 0
    · simp [hy] at hx
    · simp only [hy, if_false, List.mem_cons] at hx
      rcases hx with hx | hx
      · rw [hx]; exact hy
      · exact ih x hx

/-- A list that starts with the zero-free `p` and goes on with a NUL, or ends
there, holds the string `p`. -/
theorem cstr_eq_of_prefix (p : List Nat) (hp : ∀ x ∈ p, x ≠ 0) (l : List Nat)
    (h1 : ∀ i, i < p.length → l[i]? = p[i]?) (h2 : l.getD p.length 0 = 0) : cstr l = p := by
  induction p generalizing l with
  | nil =>
    cases l with
    | nil => rfl
    | cons y ys =>
      have : y = 0 := by simpa using h2
      rw [cstr_cons]; simp [this]
  | cons x xs ih =>
    cases l with
    | nil =>
      have := h1 0 (by simp)
      simp at this
    | cons y ys =>
      have h0 := h1 0 (by simp)
      simp only [List.getElem?_cons_zero, Option.some.injEq] at h0
      subst h0
      have hy : y ≠ 0 := hp y (by simp)
      rw [cstr_cons]
      simp only [hy, if_false, List.cons.injEq, true_and]
      apply ih (fun x hx => hp x (by simp [hx]))
      · intro i hi
        have := h1 (i + 1) (by simp; omega)
        simpa using this
      · simpa using h2

theorem cstr_getElem?_eq (a : List Nat) (i : Nat) (hi : i < (cstr a).length) :
    a[i]? = (cstr a)[i]? := by
  induction a generalizing i with
  | nil => simp [cstr_nil] at hi
  | cons y ys ih =>
    rw [cstr_cons] at hi ⊢
    by_cases hy : y = 0
    · simp [hy] at hi
    · simp only [hy, if_false] at hi ⊢
      cases i with
      | zero => simp
      | succ i =>
        simp only [List.getElem?_cons_succ]
        exact ih i (by simpa using hi)

theorem cstr_getD_length (a : List Nat) : a.getD (cstr a).length 0 = 0 := by
  induction a with
  | nil => simp [cstr_nil]
  | cons y ys ih =>
    rw [cstr_cons]
    by_cases hy : y = 0
    · simp [hy]
    · simpa [hy] using ih

/-- Cutting a byte array after its string leaves the string as it is. -/
theorem cstrn_eq_cstr (n : Nat) (a : List Nat) (h : (cstr a).length < n) : cstrn n a = cstr a := by
  unfold cstrn
  apply cstr_eq_of_prefix _ (cstr_ne_zero a)
  · intro i hi
    rw [List.getElem?_take_of_lt (by omega)]
    exact cstr_getElem?_eq a i hi
  · have h3 := cstr_getD_length a
    rw [List.getD_eq_getElem?_getD] at h3 ⊢
    rw [List.getElem?_take_of_lt h]
    exact h3

theorem strncpy_length (src : List Nat) (n : Nat) : (strncpy src n).length = n := by
  induction n generalizing src with
  | zero => rfl
  | succ n ih =>
    unfold strncpy
    by_cases h : src.headD 0 = 0
    · rw [if_pos h, List.length_replicate]
    · rw [if_neg h, List.length_cons, ih]

theorem strncpy_getElem?_lt (src : List Nat) (n i : Nat) (hi : i < (cstr src).length)
    (hn : i < n) : (strncpy src n)[i]? = (cstr src)[i]? := by
  induction n generalizing src i with
  | zero => omega
  | succ n ih =>
    unfold strncpy
    cases src with
    | nil => simp [cstr_nil] at hi
    | cons y ys =>
      rw [cstr_cons] at hi ⊢
      by_cases hy : y = 0
      · simp [hy] at hi
      · simp only [hy, if_false, List.headD_cons, List.tail_cons] at hi ⊢
        cases i with
        | zero => simp
        | succ i =>
          simp only [List.getElem?_cons_succ]
          exact ih ys i (by simpa using hi) (by omega)

theorem strncpy_getElem?_ge (src : List Nat) (n i : Nat) (hi : (cstr src).length ≤ i)
    (hn : i < n) : (strncpy src n)[i]? = some 0 := by
  induction n generalizing src i with
  | zero => omega
  | succ n ih =>
    unfold strncpy
    cases src with
    | nil => simp [List.getElem?_replicate, hn]
    | cons y ys =>
      rw [cstr_cons] at hi
      by_cases hy : y = 0
      · simp [hy, List.getElem?_replicate, hn]
      · simp only [hy, if_false, List.headD_cons, List.tail_cons, List.length_cons] at hi ⊢
        cases i with
        | zero => omega
        | succ i =>
          simp only [List.getElem?_cons_succ]
          exact ih ys i (by omega) (by omega)

/-- The file name field that `fs_create` writes holds the name it was given. -/
theorem created_entry_name (c : Consts) (e : root_entry) (name : List Nat)
    (h : strlen name < c.FS_FILENAME_LEN) :
    entry_name c (created_entry c e name) = cstr name := by
  rw [strlen_eq_length_cstr] at h
  unfold entry_name cstrn created_entry
  simp only []
  apply cstr_eq_of_prefix _ (cstr_ne_zero name)
  · intro i hi
    rw [List.getElem?_take_of_lt (by omega), List.getElem?_set_ne (by omega)]
    unfold store_bytes
    simp only [List.take_zero, List.nil_append, Nat.zero_add]
    rw [List.getElem?_append_left (by rw [strncpy_length]; omega)]
    exact strncpy_getElem?_lt name _ i hi (by omega)
  · rw [List.getD_eq_getElem?_getD, List.getElem?_take_of_lt h]
    unfold store_bytes
    simp only [List.take_zero, List.nil_append, Nat.zero_add]
    by_cases hlen : (cstr name).length = c.FS_FILENAME_LEN - 1
    · rw [hlen, List.getElem?_set]
      simp only [if_true]
      split <;> rfl
    · rw [List.getElem?_set_ne (by omega),
        List.getElem?_append_left (by rw [strncpy_length]; omega),
        strncpy_getElem?_ge name _ _ (le_refl _) (by omega)]
      rfl

/-- The slot that `fs_create` claims is no longer free. -/
theorem created_entry_not_free (c : Consts) (e : root_entry) (name : List Nat)
    (h0 : strlen name ≠ 0) (h : strlen name < c.FS_FILENAME_LEN) :
    is_free (created_entry c e name) = false := by
  rw [strlen_eq_length_cstr] at h h0
  unfold is_free created_entry
  simp only [beq_eq_false_iff_ne, ne_eq]
  rw [List.headD_eq_head?_getD, List.head?_eq_getElem?, List.getElem?_set_ne (by omega)]
  unfold store_bytes
  simp only [List.take_zero, List.nil_append, Nat.zero_add]
  rw [List.getElem?_append_left (by rw [strncpy_length]; omega),
    strncpy_getElem?_lt name _ 0 (by omega) (by omega)]
  have hpos : 0 < (cstr name).length := by omega
  rw [List.getElem?_eq_getElem hpos]
  exact cstr_ne_zero name _ (List.getElem_mem _)

/-- A free slot holds the empty name. -/
theorem entry_name_of_free (c : Consts) (e : root_entry) (h : is_free e = true) :
    entry_name c e = [] := by
  unfold is_free at h
  unfold entry_name cstrn
  cases hf : e.filename with
  | nil => simp [cstr_nil]
  | cons y ys =>
    rw [hf] at h
    have hy : y = 0 := by simpa using h
    cases c.FS_FILENAME_LEN with
    | zero => simp [cstr_nil]
    | succ n => rw [List.take_succ_cons, cstr_cons]; simp [hy]

/-- The comparison of the directory loops, said with names: a valid name
matches an entry when it is the entry's name. -/
theorem strncmp_entry_iff (c : Consts) (e : root_entry) (name : List Nat)
    (h : strlen name < c.FS_FILENAME_LEN) :
    strncmp e.filename name c.FS_FILENAME_LEN = 0 ↔ entry_name c e = cstr name := by
  rw [strncmp_eq_zero_iff]
  unfold entry_name
  rw [cstrn_eq_cstr c.FS_FILENAME_LEN name (by rw [← strlen_eq_length_cstr]; exact h)]

/-! ## fs_create -/

/-- A non-empty name is not the name of a free slot. -/
theorem free_entry_no_match (c : Consts) (e : root_entry) (name : List Nat)
    (h0 : strlen name ≠ 0) (h : strlen name < c.FS_FILENAME_LEN) (hf : is_free e = true) :
    strncmp e.filename name c.FS_FILENAME_LEN ≠ 0 := by
  rw [Ne, strncmp_entry_iff c e name h, entry_name_of_free c e hf]
  intro hc
  rw [strlen_eq_length_cstr, ← hc] at h0
  exact h0 rfl

/-- The lookup of a valid name finds nothing exactly when no entry in use has
that name. -/
theorem find_name_none_iff (c : Consts) (root : List root_entry) (name : List Nat)
    (hlen : root.length = c.FS_FILE_MAX_COUNT)
    (h0 : strlen name ≠ 0) (h : strlen name < c.FS_FILENAME_LEN) :
    find_name c root name = some none ↔
      ∀ e ∈ root, is_free e = false → entry_name c e ≠ cstr name := by
  unfold find_name
  rw [first_index_list_none root _ _ hlen.symm]
  constructor
  · intro hall e he _ hn
    have := hall e he
    rw [decide_eq_false_iff_not] at this
    exact this ((strncmp_entry_iff c e name h).2 hn)
  · intro hall e he
    rw [decide_eq_false_iff_not]
    cases hf : is_free e with
    | true => exact free_entry_no_match c e name h0 h hf
    | false =>
      intro hz
      exact hall e he hf ((strncmp_entry_iff c e name h).1 hz)

theorem find_name_total (c : Consts) (root : List root_entry) (name : List Nat)
    (hlen : root.length = c.FS_FILE_MAX_COUNT) : ∃ r, find_name c root name = some r :=
  first_index_list_total root _ _ (by omega)

theorem find_free_entry_total (c : Consts) (root : List root_entry)
    (hlen : root.length = c.FS_FILE_MAX_COUNT) : ∃ r, find_free_entry c root = some r :=
  first_index_list_total root _ _ (by omega)

theorem fs_create_fail_of_found (c : Consts) (s : State) (name : List Nat) (k : Nat)
    (hf : find_name c s.fs.root name = some (some k)) :
    fs_create c s (some name) = some (-1, s) := by
  unfold fs_create
  simp only [hf]
  split <;> rfl

theorem fs_create_fail_of_full (c : Consts) (s : State) (name : List Nat)
    (hf : find_name c s.fs.root name = some none) (hfull : find_free_entry c s.fs.root = some none) :
    fs_create c s (some name) = some (-1, s) := by
  unfold fs_create
  simp only [hf, hfull]
  split <;> rfl

theorem fs_create_ok (c : Consts) (s : State) (name : List Nat) (i : Nat) (e : root_entry)
    (hm : s.fs.mounted_status = true) (h0 : strlen name ≠ 0) (h : strlen name < c.FS_FILENAME_LEN)
    (hf : find_name c s.fs.root name = some none)
    (hfree : find_free_entry c s.fs.root = some (some i)) (he : s.fs.root[i]? = some e) :
    fs_create c s (some name) =
      some (0, { s with fs := { s.fs with root := s.fs.root.set i (created_entry c e name) } }) := by
  unfold fs_create
  simp only [hf, hfree, he, hm]
  rw [if_neg]
  simp only [Bool.true_eq_false, false_or, not_or, not_le]
  exact ⟨h0, h⟩

/-- What a call of `fs_create` that returned 0 went through. -/
theorem fs_create_zero_inv (c : Consts) (s s1 : State) (name : List Nat)
    (h : fs_create c s (some name) = some (0, s1)) :
    s.fs.mounted_status = true ∧ strlen name ≠ 0 ∧ strlen name < c.FS_FILENAME_LEN ∧
      find_name c s.fs.root name = some none ∧
      ∃ i e, find_free_entry c s.fs.root = some (some i) ∧ s.fs.root[i]? = some e ∧
        s1 = { s with fs := { s.fs with root := s.fs.root.set i (created_entry c e name) } } := by
  unfold fs_create at h
  simp only [] at h
  split at h
  · simp at h
  · rename_i hg
    simp only [not_or, not_le, Bool.not_eq_false] at hg
    obtain ⟨hm, h0, hl⟩ := hg
    refine ⟨hm, h0, hl, ?_⟩
    cases hf : find_name c s.fs.root name with
    | none => rw [hf] at h; simp at h
    | some r =>
      cases r with
      | some k => rw [hf] at h; simp at h
      | none =>
        rw [hf] at h
        simp only [] at h
        refine ⟨rfl, ?_⟩
        cases hfr : find_free_entry c s.fs.root with
        | none => rw [hfr] at h; simp at h
        | some r2 =>
          cases r2 with
          | none => rw [hfr] at h; simp at h
          | some i =>
            rw [hfr] at h
            simp only [] at h
            cases he : s.fs.root[i]? with
            | none => rw [he] at h; simp at h
            | some e =>
              rw [he] at h
              simp only [Option.some.injEq, Prod.mk.injEq, true_and] at h
              exact ⟨i, e, rfl, he, h.symm⟩

theorem set_length_append {α : Type} (xs : List α) (y x : α) (ys : List α) :
    (xs ++ y :: ys).set xs.length x = xs ++ x :: ys := by
  induction xs with
  | nil => rfl
  | cons a as ih => simp [ih]

theorem getElem?_length_append {α : Type} (xs : List α) (y : α) (ys : List α) :
    (xs ++ y :: ys)[xs.length]? = some y := by
  induction xs with
  | nil => simp
  | cons a as ih => simpa using ih

theorem find_free_entry_split (c : Consts) (act : List root_entry) (f : root_entry)
    (fre : List root_entry) (hlen : (act ++ f :: fre).length = c.FS_FILE_MAX_COUNT)
    (hact : ∀ e ∈ act, is_free e = false) (hf : is_free f = true) :
    find_free_entry c (act ++ f :: fre) = some (some act.length) := by
  unfold find_free_entry
  rw [first_index_list_some]
  refine ⟨?_, ⟨f, ?_, hf⟩, fun j hj => ?_⟩
  · rw [← hlen]; simp
  · exact getElem?_length_append act f fre
  · refine ⟨act[j], ?_, hact _ (List.getElem_mem hj)⟩
    rw [List.getElem?_append_left hj, List.getElem?_eq_getElem hj]

/-- Creating files in a directory whose slots in use come first: every call
succeeds and claims the next free slot, as long as free slots are left. -/
theorem create_all_fill (c : Consts) (todo : List (List Nat)) :
    ∀ (s : State) (act fre : List root_entry),
      s.fs.mounted_status = true → s.fs.root = act ++ fre →
      (act ++ fre).length = c.FS_FILE_MAX_COUNT →
      (∀ e ∈ act, is_free e = false) → (∀ e ∈ fre, is_free e = true) →
      todo.length ≤ fre.length →
      (∀ nm ∈ todo, strlen nm ≠ 0 ∧ strlen nm < c.FS_FILENAME_LEN) →
      (todo.map cstr).Nodup →
      (∀ nm ∈ todo, ∀ e ∈ act, entry_name c e ≠ cstr nm) →
      ∃ s1 act1, create_all c s todo = some (List.replicate todo.length 0, s1) ∧
        s1.fs.mounted_status = true ∧ s1.fs.root = act1 ++ fre.drop todo.length ∧
        (∀ e ∈ act1, is_free e = false) ∧ s1.fs.root.length = c.FS_FILE_MAX_COUNT ∧
        s1.fs.fat = s.fs.fat ∧ s1.fs.sb = s.fs.sb ∧ s1.oft = s.oft ∧ s1.disk = s.disk := by
  induction todo with
  | nil =>
    intro s act fre hm hroot hlen hact _ _ _ _ _
    refine ⟨s, act, rfl, hm, by simpa using hroot, hact, by rw [hroot]; exact hlen, rfl, rfl,
      rfl, rfl⟩
  | cons nm rest ih =>
    intro s act fre hm hroot hlen hact hfre hcount hvalid hnodup hnew
    cases fre with
    | nil => simp at hcount
    | cons f fre1 =>
      have hv := hvalid nm (by simp)
      have hfind : find_name c s.fs.root nm = some none := by
        rw [find_name_none_iff c _ nm (by rw [hroot]; exact hlen) hv.1 hv.2]
        intro e he hfe
        rw [hroot, List.mem_append] at he
        rcases he with he | he
        · exact hnew nm (by simp) e he
        · rw [hfre e he] at hfe; simp at hfe
      have hslot : find_free_entry c s.fs.root = some (some act.length) := by
        rw [hroot]
        exact find_free_entry_split c act f fre1 hlen hact (hfre f (by simp))
      have hget : s.fs.root[act.length]? = some f := by
        rw [hroot]; exact getElem?_length_append act f fre1
      have hstep := fs_create_ok c s nm act.length f hm hv.1 hv.2 hfind hslot hget
      have hnd : cstr nm ∉ rest.map cstr ∧ (rest.map cstr).Nodup := by
        rw [List.map_cons] at hnodup
        exact List.nodup_cons.1 hnodup
      obtain ⟨s1, act1, h1, h2, h3, h4, h5, h6, h7, h8, h9⟩ :=
        ih { s with fs := { s.fs with root := s.fs.root.set act.length (created_entry c f nm) } }
          (act ++ [created_entry c f nm]) fre1 hm
          (by simp only [hroot, set_length_append]; simp)
          (by simpa using hlen)
          (by
            intro e he
            rw [List.mem_append] at he
            rcases he with he | he
            · exact hact e he
            · simp only [List.mem_singleton] at he
              rw [he]; exact created_entry_not_free c f nm hv.1 hv.2)
          (fun e he => hfre e (by simp [he]))
          (by simpa using hcount)
          (fun n hn => hvalid n (by simp [hn]))
          hnd.2
          (by
            intro n hn e he
            rw [List.mem_append] at he
            rcases he with he | he
            · exact hnew n (by simp [hn]) e he
            · simp only [List.mem_singleton] at he
              rw [he, created_entry_name c f nm hv.2]
              intro hc
              exact hnd.1 (by rw [hc]; exact List.mem_map_of_mem cstr hn))
      refine ⟨s1, act1, ?_, h2, by simpa using h3, h4, h5, h6, h7, h8, h9⟩
      simp only [create_all, hstep, h1, List.length_cons, List.replicate_succ]

/-- In a directory without a free slot `fs_create` fails and changes nothing. -/
theorem fs_create_full (c : Consts) (s : State) (name : List Nat)
    (hlen : s.fs.root.length = c.FS_FILE_MAX_COUNT)
    (hfull : ∀ e ∈ s.fs.root, is_free e = false) :
    fs_create c s (some name) = some (-1, s) := by
  by_cases hg : s.fs.mounted_status = false ∨ strlen name = 0 ∨ strlen name ≥ c.FS_FILENAME_LEN
  · unfold fs_create
    simp only [hg, if_true]
  · obtain ⟨r, hr⟩ := find_name_total c s.fs.root name hlen
    cases r with
    | some k => exact fs_create_fail_of_found c s name k hr
    | none =>
      apply fs_create_fail_of_full c s name hr
      unfold find_free_entry
      rw [first_index_list_none _ _ _ hlen.symm]
      exact hfull

/-- C10. On a mounted volume `fs_create` returns 0 exactly when the name is
not empty, is shorter than `FS_FILENAME_LEN`, is not the name of an entry in
use, and a directory slot is free.  It then changes the lowest free slot alone, to
the name, size 0 and first block `FAT_EOC`; otherwise it returns -1 and leaves
the state as it was.  Starting from an empty directory, as many creations as the
directory has slots, with distinct valid names, all return 0, and one more
returns -1 and changes nothing. -/
theorem fs_create_contract (c : Consts) (s : State) (name : List Nat)
    (hm : s.fs.mounted_status = true) (hlen : s.fs.root.length = c.FS_FILE_MAX_COUNT) :
    ((strlen name ≠ 0 ∧ strlen name < c.FS_FILENAME_LEN ∧
        (∀ e ∈ s.fs.root, is_free e = false → entry_name c e ≠ cstr name) ∧
        (∃ e ∈ s.fs.root, is_free e = true)) →
      ∃ i e, s.fs.root[i]? = some e ∧ is_free e = true ∧
        (∀ j, j < i → ∃ e1, s.fs.root[j]? = some e1 ∧ is_free e1 = false) ∧
        fs_create c s (some name) =
          some (0, { s with fs := { s.fs with root := s.fs.root.set i (created_entry c e name) } }) ∧
        entry_name c (created_entry c e name) = cstr name ∧
        (created_entry c e name).size = 0 ∧ (created_entry c e name).data_index = FAT_EOC ∧
        (created_entry c e name).padding = e.padding ∧
        ∀ j, j ≠ i → (s.fs.root.set i (created_entry c e name))[j]? = s.fs.root[j]?) ∧
    (¬(strlen name ≠ 0 ∧ strlen name < c.FS_FILENAME_LEN ∧
        (∀ e ∈ s.fs.root, is_free e = false → entry_name c e ≠ cstr name) ∧
        (∃ e ∈ s.fs.root, is_free e = true)) →
      fs_create c s (some name) = some (-1, s)) ∧
    (∀ (names : List (List Nat)) (extra : List Nat),
      (∀ e ∈ s.fs.root, is_free e = true) → names.length = c.FS_FILE_MAX_COUNT →
      (∀ nm ∈ names, strlen nm ≠ 0 ∧ strlen nm < c.FS_FILENAME_LEN) → (names.map cstr).Nodup →
      ∃ s1, create_all c s names = some (List.replicate c.FS_FILE_MAX_COUNT 0, s1) ∧
        fs_create c s1 (some extra) = some (-1, s1)) := by
  refine ⟨?_, ?_, ?_⟩
  · rintro ⟨h0, h1, hnew, e0, he0, hfree0⟩
    have hfind := (find_name_none_iff c s.fs.root name hlen h0 h1).2 hnew
    obtain ⟨i, hi⟩ := first_index_list_of_mem s.fs.root is_free c.FS_FILE_MAX_COUNT hlen.symm
      e0 he0 hfree0
    have hi2 := (first_index_list_some s.fs.root is_free c.FS_FILE_MAX_COUNT i).1 hi
    obtain ⟨_, ⟨e, he, hfe⟩, hlow⟩ := hi2
    refine ⟨i, e, he, hfe, hlow, fs_create_ok c s name i e hm h0 h1 hfind hi he,
      created_entry_name c e name h1, rfl, rfl, rfl, fun j hj => ?_⟩
    rw [List.getElem?_set_ne (fun h => hj h.symm)]
  · intro hnot
    by_cases hg : s.fs.mounted_status = false ∨ strlen name = 0 ∨ strlen name ≥ c.FS_FILENAME_LEN
    · unfold fs_create
      simp only [hg, if_true]
    · simp only [not_or, not_le] at hg
      obtain ⟨_, h0, h1⟩ := hg
      obtain ⟨r, hr⟩ := find_name_total c s.fs.root name hlen
      cases r with
      | some k => exact fs_create_fail_of_found c s name k hr
      | none =>
        have hnew := (find_name_none_iff c s.fs.root name hlen h0 h1).1 hr
        apply fs_create_fail_of_full c s name hr
        unfold find_free_entry
        rw [first_index_list_none _ _ _ hlen.symm]
        intro e he
        cases hfe : is_free e with
        | false => rfl
        | true => exact absurd ⟨h0, h1, hnew, e, he, hfe⟩ hnot
  · intro names extra hfree hcount hvalid hnodup
    obtain ⟨s1, act1, h1, _, h3, h4, h5, _⟩ :=
      create_all_fill c names s [] s.fs.root hm rfl (by simpa using hlen) (by simp) hfree
        (by rw [hcount, hlen]) hvalid hnodup (by simp)
    refine ⟨s1, by rw [← hcount]; exact h1, ?_⟩
    apply fs_create_full c s1 extra h5
    rw [h3, List.drop_of_length_le (by rw [hcount, hlen]), List.append_nil]
    exact h4

/-- C10 at a concrete input: on the freshly formatted small volume the name
`a` is created in slot 0. -/
theorem fs_create_contract_witness :
    small_empty.fs.mounted_status = true ∧
    small_empty.fs.root.length = small.FS_FILE_MAX_COUNT ∧
    ∃ e, fs_create small small_empty (some [97]) =
      some (0, { small_empty with
                 fs := { small_empty.fs with
                         root := small_empty.fs.root.set 0 (created_entry small e [97]) } }) := by
  refine ⟨rfl, rfl, ?_⟩
  obtain ⟨i, e, _, _, hlow, h, _⟩ :=
    (fs_create_contract small small_empty [97] rfl rfl).1
      ⟨by decide, by decide, by decide, by decide⟩
  have hi : i = 0 := by
    by_contra hne
    obtain ⟨e1, he1, hf1⟩ := hlow 0 (by omega)
    have : e1 = zero_entry small := by
      have h0 : small_empty.fs.root[0]? = some (zero_entry small) := rfl
      rw [h0] at he1
      cases he1
      rfl
    rw [this] at hf1
    exact absurd hf1 (by decide)
  subst hi
  exact ⟨e, h⟩

/-! ## fs_open, fs_stat -/

/-- After a successful `fs_create`, the lookup of the same name finds the slot
that was claimed. -/
theorem find_name_created (c : Consts) (root : List root_entry) (name : List Nat) (i : Nat)
    (e : root_entry) (h1 : strlen name < c.FS_FILENAME_LEN)
    (hfind : find_name c root name = some none)
    (hslot : find_free_entry c root = some (some i)) (he : root[i]? = some e) :
    find_name c (root.set i (created_entry c e name)) name = some (some i) := by
  unfold find_name at hfind ⊢
  unfold find_free_entry at hslot
  have hi := ((first_index_some_iff _ _ _).1 hslot).1
  have hnone := (first_index_none_iff _ _).1 hfind
  have hilt : i < root.length := by
    by_contra hcon
    rw [List.getElem?_eq_none (by omega)] at he
    simp at he
  rw [first_index_some_iff]
  refine ⟨hi, ?_, fun j hj => ?_⟩
  · rw [List.getElem?_set_self hilt]
    simp only [Option.map_some', Option.some.injEq, decide_eq_true_eq]
    rw [strncmp_entry_iff c _ name h1]
    exact created_entry_name c e name h1
  · rw [List.getElem?_set_ne (by omega)]
    exact hnone j (by omega)

theorem handle_of_used (c : Consts) (s : State) (j : Nat) (h : open_file_entry)
    (hm : s.fs.mounted_status = true) (hj : j < c.FS_OPEN_MAX_COUNT) (hh : s.oft[j]? = some h)
    (hu : h.used = true) : handle_of c s (j : Int) = some (some h) := by
  unfold handle_of
  have h1 : ¬ ((j : Int) < 0) := by omega
  have h2 : ¬ ((j : Int) ≥ (c.FS_OPEN_MAX_COUNT : Int)) := by omega
  simp only [hm, Bool.true_eq_false, h1, h2, or_self, if_false, Int.toNat_ofNat, hh, hu]

theorem root_at_nat (root : List root_entry) (i : Nat) : root_at root (i : Int) = root[i]? := by
  unfold root_at
  have h1 : ¬ ((i : Int) < 0) := by omega
  simp only [h1, if_false, Int.toNat_ofNat]

theorem to_int_zero : to_int 0 = 0 := by
  unfold to_int
  norm_num

/-- C9. If `fs_create` of a name returns 0 and the `fs_open` of that name that
follows returns a handle, then the handle is the lowest one that was not in use,
it is bound to the directory slot that the creation claimed, its offset is 0,
and `fs_stat` on it returns 0.  (A creation that returns 0 was given a mounted
volume and a name of length at least 1 and below `FS_FILENAME_LEN`.) -/
theorem create_open_stat (c : Consts) (s s1 s2 : State) (name : List Nat) (fd : Int)
    (hc : fs_create c s (some name) = some (0, s1))
    (ho : fs_open c s1 (some name) = some (fd, s2)) (hfd : 0 ≤ fd) :
    1 ≤ strlen name ∧ strlen name < c.FS_FILENAME_LEN ∧ s.fs.mounted_status = true ∧
    ∃ (i : Nat) (e : root_entry) (j : Nat),
      s.fs.root[i]? = some e ∧ is_free e = true ∧
      s1.fs.root[i]? = some (created_entry c e name) ∧
      fd = (j : Int) ∧ j < c.FS_OPEN_MAX_COUNT ∧
      (∃ h, s1.oft[j]? = some h ∧ h.used = false) ∧
      (∀ k, k < j → ∃ h, s1.oft[k]? = some h ∧ h.used = true) ∧
      s2.oft[j]? = some { used := true, root_index := (i : Int), offset := 0 } ∧
      (∀ k, k ≠ j → s2.oft[k]? = s1.oft[k]?) ∧ s2.fs = s1.fs ∧ s2.disk = s1.disk ∧
      fs_stat c s2 fd = some 0 := by
  obtain ⟨hm, h0, h1, hfind, i, e, hslot, he, hs1⟩ := fs_create_zero_inv c s s1 name hc
  refine ⟨by omega, h1, hm, ?_⟩
  have hfree : is_free e = true := by
    unfold find_free_entry at hslot
    obtain ⟨_, ⟨x, hx, hq⟩, _⟩ := (first_index_list_some _ _ _ _).1 hslot
    rw [he] at hx
    cases hx
    exact hq
  have hilt : i < s.fs.root.length := by
    by_contra hcon
    rw [List.getElem?_eq_none (by omega)] at he
    simp at he
  have hfind1 : find_name c s1.fs.root name = some (some i) := by
    rw [hs1]
    exact find_name_created c s.fs.root name i e h1 hfind hslot he
  have hm1 : s1.fs.mounted_status = true := by rw [hs1]; exact hm
  have hroot1 : s1.fs.root[i]? = some (created_entry c e name) := by
    rw [hs1]
    exact List.getElem?_set_self hilt
  unfold fs_open at ho
  simp only [hm1, Bool.true_eq_false, if_false, hfind1] at ho
  cases hh : find_free_handle c s1.oft with
  | none => rw [hh] at ho; simp at ho
  | some r =>
    cases r with
    | none =>
      rw [hh] at ho
      simp only [Option.some.injEq, Prod.mk.injEq] at ho
      omega
    | some j =>
      rw [hh] at ho
      simp only [Option.some.injEq, Prod.mk.injEq] at ho
      obtain ⟨hfdj, hs2⟩ := ho
      unfold find_free_handle at hh
      obtain ⟨hj, ⟨x, hx, hxu⟩, hlow⟩ := (first_index_list_some _ _ _ _).1 hh
      have hjlt : j < s1.oft.length := by
        by_contra hcon
        rw [List.getElem?_eq_none (by omega)] at hx
        simp at hx
      have hnew : s2.oft[j]? = some { used := true, root_index := (i : Int), offset := 0 } := by
        rw [← hs2]
        exact List.getElem?_set_self hjlt
      refine ⟨i, e, j, he, hfree, hroot1, hfdj.symm, hj, ⟨x, hx, by simpa using hxu⟩, ?_, hnew,
        ?_, by rw [← hs2], by rw [← hs2], ?_⟩
      · intro k hk
        obtain ⟨y, hy, hyu⟩ := hlow k hk
        exact ⟨y, hy, by simpa using hyu⟩
      · intro k hk
        rw [← hs2]
        exact List.getElem?_set_ne (fun h => hk h.symm)
      · rw [← hfdj]
        unfold fs_stat
        have hm2 : s2.fs.mounted_status = true := by rw [← hs2]; exact hm1
        rw [handle_of_used c s2 j _ hm2 hj hnew rfl]
        simp only [root_at_nat]
        have : s2.fs.root[i]? = some (created_entry c e name) := by rw [← hs2]; exact hroot1
        rw [this]
        simp only [created_entry, to_int_zero]

/-- C9 at a concrete input: on the freshly formatted small volume, `a` is
created and opened; the handle is 0 and `fs_stat` returns 0. -/
theorem create_open_stat_witness :
    fs_create small small_empty (some [97]) =
      some (0, { small_empty with
                 fs := { small_empty.fs with
                         root := small_empty.fs.root.set 0
                           (created_entry small (zero_entry small) [97]) } }) ∧
    ∃ s2, fs_open small
        { small_empty with
          fs := { small_empty.fs with
                  root := small_empty.fs.root.set 0
                    (created_entry small (zero_entry small) [97]) } } (some [97]) = some (0, s2) ∧
      fs_stat small s2 0 = some 0 := by
  have h1 : fs_create small small_empty (some [97]) =
      some (0, { small_empty with
                 fs := { small_empty.fs with
                         root := small_empty.fs.root.set 0
                           (created_entry small (zero_entry small) [97]) } }) := by decide
  have h2 : fs_open small
        { small_empty with
          fs := { small_empty.fs with
                  root := small_empty.fs.root.set 0
                    (created_entry small (zero_entry small) [97]) } } (some [97]) =
      some (0, { small_empty with
                 fs := { small_empty.fs with
                         root := small_empty.fs.root.set 0
                           (created_entry small (zero_entry small) [97]) }
                 oft := small_empty.oft.set 0 { used := true, root_index := 0, offset := 0 } }) := by
    decide
  refine ⟨h1, _, h2, ?_⟩
  obtain ⟨_, _, _, i, e, j, _, _, _, _, _, _, _, _, _, _, _, hstat⟩ :=
    create_open_stat small _ _ _ [97] 0 h1 h2 (le_refl _)
  exact hstat

/-! ## The empty name in fs_open and fs_delete -/

/-- The comparison that the directory loops make equates the empty name with
the file name field of a free slot. -/
theorem strncmp_free_empty (e : root_entry) (n : Nat) (hf : is_free e = true) :
    strncmp e.filename [] n = 0 := by
  cases n with
  | zero => rfl
  | succ n =>
    unfold is_free at hf
    have h0 : e.filename.headD 0 = 0 := by simpa using hf
    unfold strncmp
    rw [h0]
    simp

/-- The lookup of the empty name stops at slot 0 when that slot is free. -/
theorem find_name_empty (c : Consts) (root : List root_entry) (e : root_entry)
    (hn : 0 < c.FS_FILE_MAX_COUNT) (he : root[0]? = some e) (hf : is_free e = true) :
    find_name c root [] = some (some 0) := by
  unfold find_name
  rw [first_index_some_iff]
  refine ⟨hn, ?_, fun j hj => by omega⟩
  rw [he]
  simp [strncmp_free_empty e _ hf]

/-- On a mounted volume whose directory slot 0 is free and whose handle 0 is
not in use, `fs_open` of the empty name returns handle 0, bound to that free
slot. -/
theorem fs_open_empty_name (c : Consts) (s : State) (e : root_entry) (h : open_file_entry)
    (hm : s.fs.mounted_status = true) (hn : 0 < c.FS_FILE_MAX_COUNT)
    (he : s.fs.root[0]? = some e) (hf : is_free e = true)
    (ho : 0 < c.FS_OPEN_MAX_COUNT) (hh : s.oft[0]? = some h) (hu : h.used = false) :
    fs_open c s (some []) =
      some (0, { s with oft := s.oft.set 0 { used := true, root_index := 0, offset := 0 } }) := by
  have hfree : find_free_handle c s.oft = some (some 0) := by
    unfold find_free_handle
    rw [first_index_some_iff]
    refine ⟨ho, ?_, fun j hj => by omega⟩
    rw [hh]
    simp [hu]
  unfold fs_open
  simp only [hm, Bool.true_eq_false, if_false, find_name_empty c s.fs.root e hn he hf, hfree]
  rfl

/-- On a mounted volume whose directory slot 0 is free (first block field 0),
with no handle bound to slot 0 and `FAT_EOC` in slot 0 of the table, `fs_delete`
of the empty name returns 0 and marks slot 0 of the table free. -/
theorem fs_delete_empty_name (c : Consts) (s : State) (e : root_entry) (fuel : Nat)
    (hm : s.fs.mounted_status = true) (hn : 0 < c.FS_FILE_MAX_COUNT)
    (he : s.fs.root[0]? = some e) (hf : is_free e = true) (hd : e.data_index = 0)
    (hoft : ∀ j, j < c.FS_OPEN_MAX_COUNT → ∃ h, s.oft[j]? = some h ∧ h.used = false)
    (hfat : s.fs.fat[0]? = some FAT_EOC) :
    fs_delete c (fuel + 2) s (some []) =
      some (0, { s with fs := { s.fs with fat := s.fs.fat.set 0 0,
                                           root := s.fs.root.set 0 (zeroed_entry e) } }) := by
  have hopen : find_open_on c s.oft 0 = some none := by
    unfold find_open_on
    rw [first_index_none_iff]
    intro j hj
    obtain ⟨h, hh, hu⟩ := hoft j hj
    rw [hh]
    simp [hu]
  have hchain : free_chain (fuel + 2) s.fs.fat 0 = some (s.fs.fat.set 0 0) := by
    have h0 : (0 : Nat) ≠ FAT_EOC := by decide
    simp only [free_chain, h0, if_false, hfat, if_true]
  unfold fs_delete
  simp only [hm, Bool.true_eq_false, if_false, find_name_empty c s.fs.root e hn he hf, hopen, he,
    hd, hchain]

theorem fresh_volume_root_zero : fresh_volume.fs.root[0]? = some (zero_entry ecs150) := by
  show (List.replicate 128 (zero_entry ecs150))[0]? = _
  rw [List.getElem?_replicate]
  rfl

theorem fresh_volume_oft (j : Nat) (hj : j < 32) :
    fresh_volume.oft[j]? = some { used := false, root_index := 0, offset := 0 } := by
  show (List.replicate 32 _)[j]? = _
  rw [List.getElem?_replicate, if_pos hj]

theorem fresh_volume_fat_zero : fresh_volume.fs.fat[0]? = some FAT_EOC := by
  show (FAT_EOC :: List.replicate 2047 0)[0]? = some FAT_EOC
  rw [List.getElem?_cons_zero]

theorem fresh_volume_all_free : ∀ e ∈ fresh_volume.fs.root, is_free e = true := by
  intro e he
  have he2 : e ∈ List.replicate 128 (zero_entry ecs150) := he
  rw [List.mem_replicate] at he2
  rw [he2.2]
  rfl

/-- C8 at a failing input.  On a freshly formatted volume no entry is in use,
so the empty name is the name of none; `fs_open` of the empty name returns
handle 0 and marks it in use, bound to the free directory slot 0. -/
theorem fs_open_empty_name_fresh :
    (∀ e ∈ fresh_volume.fs.root, is_free e = true) ∧
    fs_open ecs150 fresh_volume (some []) =
      some (0, { fresh_volume with
                 oft := fresh_volume.oft.set 0 { used := true, root_index := 0, offset := 0 } }) :=
  ⟨fresh_volume_all_free,
    fs_open_empty_name ecs150 fresh_volume (zero_entry ecs150)
      { used := false, root_index := 0, offset := 0 } rfl (by decide) fresh_volume_root_zero rfl
      (by decide) (fresh_volume_oft 0 (by decide)) rfl⟩

/-- C7 at a failing input.  On a freshly formatted volume no entry is in use,
so the empty name is the name of none; `fs_delete` of the empty name returns 0
and overwrites the `FAT_EOC` in slot 0 of the table with the free mark. -/
theorem fs_delete_empty_name_fresh :
    (∀ e ∈ fresh_volume.fs.root, is_free e = true) ∧
    fresh_volume.fs.fat[0]? = some FAT_EOC ∧
    fs_delete ecs150 2 fresh_volume (some []) =
      some (0, { fresh_volume with
                 fs := { fresh_volume.fs with
                         fat := fresh_volume.fs.fat.set 0 0
                         root := fresh_volume.fs.root.set 0 (zeroed_entry (zero_entry ecs150)) } }) :=
  ⟨fresh_volume_all_free, fresh_volume_fat_zero,
    fs_delete_empty_name ecs150 fresh_volume (zero_entry ecs150) 0 rfl (by decide)
      fresh_volume_root_zero rfl rfl
      (fun j hj => ⟨{ used := false, root_index := 0, offset := 0 }, fresh_volume_oft j hj, rfl⟩)
      fresh_volume_fat_zero⟩

/-! ## Chains -/

theorem is_chain_nil (fat : List Nat) (dc a : Nat) : is_chain fat dc a [] = true ↔ a = FAT_EOC := by
  simp [is_chain]

theorem is_chain_cons (fat : List Nat) (dc a b : Nat) (l : List Nat) :
    is_chain fat dc a (b :: l) = true ↔
      a = b ∧ b ≠ FAT_EOC ∧ b < dc ∧
        ∃ v, fat[b]? = some v ∧ v ≠ 0 ∧ is_chain fat dc v l = true := by
  rw [is_chain]
  cases hb : fat[b]? with
  | none => simp
  | some v => simp [and_assoc]

/-- From one slot the table leads along one chain only. -/
theorem is_chain_functional (fat : List Nat) (dc : Nat) (l1 : List Nat) :
    ∀ (a : Nat) (l2 : List Nat), is_chain fat dc a l1 = true → is_chain fat dc a l2 = true →
      l1 = l2 := by
  induction l1 with
  | nil =>
    intro a l2 h1 h2
    rw [is_chain_nil] at h1
    cases l2 with
    | nil => rfl
    | cons b l =>
      rw [is_chain_cons] at h2
      exact absurd (h2.1.symm.trans h1) h2.2.1
  | cons b1 l1 ih =>
    intro a l2 h1 h2
    rw [is_chain_cons] at h1
    obtain ⟨ha, hne, _, v, hv, _, hrest⟩ := h1
    cases l2 with
    | nil =>
      rw [is_chain_nil] at h2
      exact absurd (ha.symm.trans h2) hne
    | cons b2 l2 =>
      rw [is_chain_cons] at h2
      obtain ⟨ha2, _, _, v2, hv2, _, hrest2⟩ := h2
      have hb : b1 = b2 := ha.symm.trans ha2
      subst hb
      rw [hv] at hv2
      cases hv2
      rw [ih v l2 hrest hrest2]

theorem is_chain_suffix (fat : List Nat) (dc : Nat) (p : List Nat) :
    ∀ (a b : Nat) (q : List Nat), is_chain fat dc a (p ++ b :: q) = true →
      is_chain fat dc b (b :: q) = true := by
  induction p with
  | nil =>
    intro a b q h
    rw [List.nil_append, is_chain_cons] at h
    rw [is_chain_cons]
    exact ⟨rfl, h.2⟩
  | cons x p ih =>
    intro a b q h
    rw [List.cons_append, is_chain_cons] at h
    obtain ⟨_, _, _, v, _, _, hrest⟩ := h
    exact ih v b q hrest

/-- A chain that reaches `FAT_EOC` visits no slot twice. -/
theorem is_chain_nodup (fat : List Nat) (dc : Nat) (l : List Nat) :
    ∀ a, is_chain fat dc a l = true → l.Nodup := by
  induction l with
  | nil => intro _ _; exact List.nodup_nil
  | cons b l ih =>
    intro a h
    have h0 := h
    rw [is_chain_cons] at h
    obtain ⟨ha, _, _, v, _, _, hrest⟩ := h
    rw [List.nodup_cons]
    refine ⟨fun hmem => ?_, ih v hrest⟩
    obtain ⟨p, q, hpq⟩ := List.append_of_mem hmem
    rw [hpq] at hrest
    have h1 := is_chain_suffix fat dc p v b q hrest
    rw [ha] at h0
    have h2 := is_chain_functional fat dc _ b _ h1 h0
    have h3 := congrArg List.length h2
    rw [hpq] at h3
    simp at h3
    omega

theorem is_chain_mem (fat : List Nat) (dc : Nat) (l : List Nat) :
    ∀ a, is_chain fat dc a l = true →
      ∀ b ∈ l, b ≠ FAT_EOC ∧ b < dc ∧ ∃ v, fat[b]? = some v ∧ v ≠ 0 := by
  induction l with
  | nil => intro _ _ b hb; simp at hb
  | cons x l ih =>
    intro a h b hb
    rw [is_chain_cons] at h
    obtain ⟨_, hne, hlt, v, hv, hv0, hrest⟩ := h
    rw [List.mem_cons] at hb
    rcases hb with hb | hb
    · subst hb; exact ⟨hne, hlt, v, hv, hv0⟩
    · exact ih v hrest b hb

/-- A chain has no more slots than the volume has data blocks. -/
theorem is_chain_length_le (fat : List Nat) (dc a : Nat) (l : List Nat)
    (h : is_chain fat dc a l = true) : l.length ≤ dc := by
  have hnd := is_chain_nodup fat dc l a h
  have hsub : l ⊆ List.range dc := by
    intro b hb
    rw [List.mem_range]
    exact (is_chain_mem fat dc l a h b hb).2.1
  have := (List.subperm_of_subset hnd hsub).length_le
  simpa using this

/-- A store outside a chain leaves the chain as it is. -/
theorem is_chain_set_other (fat : List Nat) (dc x y : Nat) (l : List Nat) (hx : x ∉ l) :
    ∀ a, is_chain (fat.set x y) dc a l = is_chain fat dc a l := by
  induction l with
  | nil => intro a; rfl
  | cons b l ih =>
    intro a
    rw [List.mem_cons, not_or] at hx
    rw [is_chain, is_chain, List.getElem?_set_ne hx.1]
    cases hb : fat[b]? with
    | none => rfl
    | some v => simp only [ih hx.2 v]

/-- The head of a chain list is the slot the chain starts at. -/
theorem is_chain_head (fat : List Nat) (dc a b : Nat) (l : List Nat)
    (h : is_chain fat dc a (b :: l) = true) : a = b :=
  ((is_chain_cons fat dc a b l).1 h).1

/-! ## The count of free slots -/

theorem filter_zero_set (xs : List Nat) :
    ∀ (i : Nat) (v : Nat), xs[i]? = some v → v ≠ 0 →
      ((xs.set i 0).filter (fun v => decide (v = 0))).length =
        (xs.filter (fun v => decide (v = 0))).length + 1 := by
  induction xs with
  | nil => intro i v h; simp at h
  | cons x xs ih =>
    intro i v h hv
    cases i with
    | zero =>
      simp only [List.getElem?_cons_zero, Option.some.injEq] at h
      subst h
      simp [List.filter_cons, hv]
    | succ i =>
      simp only [List.getElem?_cons_succ] at h
      simp only [List.set_cons_succ, List.filter_cons]
      by_cases hx : x = 0
      · simp only [hx, decide_True, if_true, List.length_cons]
        rw [ih i v h hv]
      · simp only [hx, decide_False, Bool.false_eq_true, if_false]
        exact ih i v h hv

/-- Marking a used slot free raises the count of free slots by one. -/
theorem fat_free_set_zero (fat : List Nat) (dc b v : Nat) (hb : b < dc) (hv : fat[b]? = some v)
    (hv0 : v ≠ 0) : fat_free (fat.set b 0) dc = fat_free fat dc + 1 := by
  unfold fat_free
  rw [List.set_take]
  apply filter_zero_set _ b v _ hv0
  rw [List.getElem?_take_of_lt hb]
  exact hv

/-! ## The loop of fs_delete that frees a chain -/

/-- On a chain that reaches `FAT_EOC` the freeing loop ends; it marks free the
slots of the chain and no other, so the count of free slots grows by the length
of the chain. -/
theorem free_chain_spec (dc : Nat) (l : List Nat) :
    ∀ (fat : List Nat) (a fuel : Nat), is_chain fat dc a l = true → l.length < fuel →
      ∃ fat1, free_chain fuel fat a = some fat1 ∧ fat1.length = fat.length ∧
        (∀ j, fat1[j]? = if j ∈ l then some 0 else fat[j]?) ∧
        fat_free fat1 dc = fat_free fat dc + l.length := by
  induction l with
  | nil =>
    intro fat a fuel h hf
    rw [is_chain_nil] at h
    cases fuel with
    | zero => omega
    | succ fuel =>
      refine ⟨fat, ?_, rfl, fun j => by simp, rfl⟩
      simp [free_chain, h]
  | cons b l ih =>
    intro fat a fuel h hf
    have hnd := is_chain_nodup fat dc _ a h
    rw [List.nodup_cons] at hnd
    rw [is_chain_cons] at h
    obtain ⟨ha, hne, hlt, v, hv, hv0, hrest⟩ := h
    subst ha
    cases fuel with
    | zero => omega
    | succ fuel =>
      have hrest1 : is_chain (fat.set a 0) dc v l = true := by
        rw [is_chain_set_other fat dc a 0 l hnd.1 v]; exact hrest
      obtain ⟨fat1, h1, h2, h3, h4⟩ := ih (fat.set a 0) v fuel hrest1 (by simpa using hf)
      refine ⟨fat1, ?_, by rw [h2, List.length_set], fun j => ?_, ?_⟩
      · simp only [free_chain, hne, if_false, hv]
        exact h1
      · rw [h3 j]
        by_cases hj : j = a
        · subst hj
          have hjlt : j < fat.length := by
            by_contra hcon
            rw [List.getElem?_eq_none (by omega)] at hv
            simp at hv
          simp [hnd.1, List.getElem?_set_self hjlt]
        · have hj2 : a ≠ j := fun h => hj h.symm
          by_cases hjl : j ∈ l
          · simp [hjl]
          · simp [hjl, hj, List.getElem?_set_ne hj2]
      · rw [h4, fat_free_set_zero fat dc a v hlt hv hv0, List.length_cons]
        omega

/-! ## fs_delete and fs_close -/

theorem cstr_length_le (a : List Nat) : (cstr a).length ≤ a.length := by
  induction a with
  | nil => simp [cstr_nil]
  | cons x xs ih =>
    rw [cstr_cons]
    by_cases hx : x = 0
    · simp [hx]
    · simp only [hx, if_false, List.length_cons]
      omega

theorem entry_name_length_le (c : Consts) (e : root_entry) :
    (entry_name c e).length ≤ c.FS_FILENAME_LEN := by
  unfold entry_name cstrn
  have h1 := cstr_length_le (e.filename.take c.FS_FILENAME_LEN)
  have h2 := List.length_take_le c.FS_FILENAME_LEN e.filename
  omega

/-- Cutting a byte array at or after the end of its string keeps the string. -/
theorem cstrn_eq_cstr_of_le (n : Nat) (a : List Nat) (h : (cstr a).length ≤ n) :
    cstrn n a = cstr a := by
  by_cases hlt : (cstr a).length < n
  · exact cstrn_eq_cstr n a hlt
  · have heq : (cstr a).length = n := by omega
    unfold cstrn
    apply cstr_eq_of_prefix _ (cstr_ne_zero a)
    · intro i hi
      rw [List.getElem?_take_of_lt (by omega)]
      exact cstr_getElem?_eq a i hi
    · rw [List.getD_eq_getElem?_getD, List.getElem?_eq_none]
      · rfl
      · rw [heq]; exact List.length_take_le n a

/-- The comparison of the directory loops finds the entry that has the name. -/
theorem strncmp_of_entry_name (c : Consts) (e : root_entry) (name : List Nat)
    (h : entry_name c e = cstr name) : strncmp e.filename name c.FS_FILENAME_LEN = 0 := by
  rw [strncmp_eq_zero_iff]
  have hle : (cstr name).length ≤ c.FS_FILENAME_LEN := by
    rw [← h]; exact entry_name_length_le c e
  rw [cstrn_eq_cstr_of_le _ name hle]
  exact h

theorem entry_name_of_strncmp (c : Consts) (e e1 : root_entry) (name : List Nat)
    (h : entry_name c e = cstr name) (h1 : strncmp e1.filename name c.FS_FILENAME_LEN = 0) :
    entry_name c e1 = cstr name := by
  rw [strncmp_eq_zero_iff] at h1
  have hle : (cstr name).length ≤ c.FS_FILENAME_LEN := by
    rw [← h]; exact entry_name_length_le c e
  rw [cstrn_eq_cstr_of_le _ name hle] at h1
  exact h1

/-- An entry in use has a non-empty name. -/
theorem entry_name_ne_nil (c : Consts) (e : root_entry) (hc : 0 < c.FS_FILENAME_LEN)
    (h : is_free e = false) : entry_name c e ≠ [] := by
  unfold is_free at h
  unfold entry_name cstrn
  cases hf : e.filename with
  | nil => rw [hf] at h; simp at h
  | cons y ys =>
    rw [hf] at h
    have hy : y ≠ 0 := by simpa using h
    obtain ⟨n, hn⟩ : ∃ n, c.FS_FILENAME_LEN = n + 1 := ⟨c.FS_FILENAME_LEN - 1, by omega⟩
    rw [hn, List.take_succ_cons, cstr_cons]
    simp [hy]

/-- The lookup of the name of an entry in use finds that entry, when no other
entry in use has the same name. -/
theorem find_name_of_entry (c : Consts) (root : List root_entry) (name : List Nat) (i : Nat)
    (e : root_entry) (hlen : root.length = c.FS_FILE_MAX_COUNT) (hc : 0 < c.FS_FILENAME_LEN)
    (he : root[i]? = some e) (hact : is_free e = false) (hname : entry_name c e = cstr name)
    (huniq : ∀ j e1, root[j]? = some e1 → is_free e1 = false → entry_name c e1 = cstr name →
      j = i) :
    find_name c root name = some (some i) := by
  have hilt : i < root.length := by
    by_contra hcon
    rw [List.getElem?_eq_none (by omega)] at he
    simp at he
  unfold find_name
  rw [first_index_list_some]
  refine ⟨by omega, ⟨e, he, ?_⟩, fun j hj => ?_⟩
  · simp [strncmp_of_entry_name c e name hname]
  · have hjlt : j < root.length := by omega
    refine ⟨root[j], List.getElem?_eq_getElem hjlt, ?_⟩
    rw [decide_eq_false_iff_not]
    intro hz
    have hn1 := entry_name_of_strncmp c e root[j] name hname hz
    have hact1 : is_free root[j] = false := by
      cases hfr : is_free root[j] with
      | false => rfl
      | true =>
        exfalso
        have := entry_name_of_free c root[j] hfr
        rw [hn1, ← hname] at this
        exact entry_name_ne_nil c e hc hact this
    have := huniq j root[j] (List.getElem?_eq_getElem hjlt) hact1 hn1
    omega

theorem fs_delete_blocked (c : Consts) (s : State) (name : List Nat) (fuel i k : Nat)
    (hm : s.fs.mounted_status = true) (hfind : find_name c s.fs.root name = some (some i))
    (hopen : find_open_on c s.oft i = some (some k)) :
    fs_delete c fuel s (some name) = some (-1, s) := by
  unfold fs_delete
  simp only [hm, Bool.true_eq_false, if_false, hfind, hopen]

/-- The loop of `fs_delete` over the open-file table finds nothing exactly when
no handle in use is bound to the entry. -/
theorem find_open_on_none (c : Consts) (oft : List open_file_entry) (i : Nat)
    (hlen : c.FS_OPEN_MAX_COUNT ≤ oft.length)
    (hno : ∀ j h, j < c.FS_OPEN_MAX_COUNT → oft[j]? = some h → h.used = true →
      h.root_index ≠ (i : Int)) :
    find_open_on c oft i = some none := by
  unfold find_open_on
  rw [first_index_none_iff]
  intro j hj
  have hjlt : j < oft.length := by omega
  rw [List.getElem?_eq_getElem hjlt]
  simp only [Option.map_some', Option.some.injEq, Bool.and_eq_false_imp, decide_eq_false_iff_not]
  intro hu
  exact hno j _ hj (List.getElem?_eq_getElem hjlt) hu

/-- The run of `fs_delete` on an entry that no handle is bound to and whose
chain reaches `FAT_EOC`. -/
theorem fs_delete_run (c : Consts) (s : State) (name : List Nat) (i : Nat) (e : root_entry)
    (l : List Nat) (fuel : Nat)
    (hm : s.fs.mounted_status = true) (hfind : find_name c s.fs.root name = some (some i))
    (hopen : find_open_on c s.oft i = some none) (he : s.fs.root[i]? = some e)
    (hchain : is_chain s.fs.fat s.fs.sb.data_count e.data_index l = true)
    (hfuel : l.length < fuel) :
    ∃ fat1, fs_delete c fuel s (some name) =
        some (0, { s with fs := { s.fs with fat := fat1, root := s.fs.root.set i (zeroed_entry e) } }) ∧
      fat1.length = s.fs.fat.length ∧
      (∀ j, fat1[j]? = if j ∈ l then some 0 else s.fs.fat[j]?) ∧
      fat_free fat1 s.fs.sb.data_count = fat_free s.fs.fat s.fs.sb.data_count + l.length := by
  obtain ⟨fat1, h1, h2, h3, h4⟩ :=
    free_chain_spec s.fs.sb.data_count l s.fs.fat e.data_index fuel hchain hfuel
  refine ⟨fat1, ?_, h2, h3, h4⟩
  unfold fs_delete
  simp only [hm, Bool.true_eq_false, if_false, hfind, hopen, he, h1]

theorem zeroed_entry_free (e : root_entry) : is_free (zeroed_entry e) = true := by
  unfold is_free zeroed_entry
  cases e.filename.length with
  | zero => rfl
  | succ n => rfl

/-- C6, as amended.  On a mounted volume, for an entry in use that has the
given name, to which no handle in use is bound, and whose chain from its first
block visits the slots `l` (in range, none of them holding the free mark 0) and
then reaches `FAT_EOC`: `fs_delete` ends and returns 0; the table afterwards holds 0 in the slots of `l`, each of
which occurs once in `l`, and is unchanged elsewhere; the count of free slots
has grown by the length of `l`; and the entry is all zero, a free slot with the
empty name. -/
theorem fs_delete_frees_chain (c : Consts) (s : State) (name : List Nat) (i : Nat)
    (e : root_entry) (l : List Nat)
    (hm : s.fs.mounted_status = true) (hlen : s.fs.root.length = c.FS_FILE_MAX_COUNT)
    (holen : s.oft.length = c.FS_OPEN_MAX_COUNT) (hc : 0 < c.FS_FILENAME_LEN)
    (he : s.fs.root[i]? = some e) (hact : is_free e = false)
    (hname : entry_name c e = cstr name)
    (huniq : ∀ j e1, s.fs.root[j]? = some e1 → is_free e1 = false →
      entry_name c e1 = cstr name → j = i)
    (hno : ∀ (j : Nat) (h : open_file_entry), s.oft[j]? = some h → h.used = true →
      h.root_index ≠ (i : Int))
    (hchain : is_chain s.fs.fat s.fs.sb.data_count e.data_index l = true) :
    ∀ fuel, l.length < fuel →
      ∃ fat1, fs_delete c fuel s (some name) =
          some (0, { s with fs := { s.fs with fat := fat1,
                                               root := s.fs.root.set i (zeroed_entry e) } }) ∧
        fat1.length = s.fs.fat.length ∧
        (∀ j, fat1[j]? = if j ∈ l then some 0 else s.fs.fat[j]?) ∧
        l.Nodup ∧
        fat_free fat1 s.fs.sb.data_count = fat_free s.fs.fat s.fs.sb.data_count + l.length ∧
        (s.fs.root.set i (zeroed_entry e))[i]? = some (zeroed_entry e) ∧
        is_free (zeroed_entry e) = true ∧ entry_name c (zeroed_entry e) = [] ∧
        (zeroed_entry e).filename = List.replicate e.filename.length 0 ∧
        (zeroed_entry e).size = 0 ∧ (zeroed_entry e).data_index = 0 ∧
        (zeroed_entry e).padding = List.replicate e.padding.length 0 := by
  intro fuel hfuel
  have hfind := find_name_of_entry c s.fs.root name i e hlen hc he hact hname huniq
  have hopen := find_open_on_none c s.oft i (by omega) (fun j h _ hh hu => hno j h hh hu)
  obtain ⟨fat1, h1, h2, h3, h4⟩ := fs_delete_run c s name i e l fuel hm hfind hopen he hchain hfuel
  have hilt : i < s.fs.root.length := by
    by_contra hcon
    rw [List.getElem?_eq_none (by omega)] at he
    simp at he
  exact ⟨fat1, h1, h2, h3, is_chain_nodup _ _ l _ hchain, h4, List.getElem?_set_self hilt,
    zeroed_entry_free e, entry_name_of_free c _ (zeroed_entry_free e), rfl, rfl, rfl, rfl⟩

/-- What `fs_close` does on a mounted volume: the handles still in use
afterwards were in use before and are not the one named in the call. -/
theorem fs_close_spec (c : Consts) (s : State) (fd : Int)
    (hm : s.fs.mounted_status = true) (holen : s.oft.length = c.FS_OPEN_MAX_COUNT) :
    ∃ r s1, fs_close c s fd = some (r, s1) ∧ s1.fs = s.fs ∧ s1.disk = s.disk ∧
      s1.oft.length = s.oft.length ∧
      ∀ (j : Nat) (h : open_file_entry), s1.oft[j]? = some h → h.used = true →
        s.oft[j]? = some h ∧ (j : Int) ≠ fd := by
  have hrange : ∀ (j : Nat) (h : open_file_entry), s.oft[j]? = some h → j < c.FS_OPEN_MAX_COUNT := by
    intro j h hj
    by_contra hcon
    rw [List.getElem?_eq_none (by omega)] at hj
    simp at hj
  unfold fs_close handle_of
  by_cases hg : fd < 0 ∨ fd ≥ (c.FS_OPEN_MAX_COUNT : Int)
  · refine ⟨-1, s, ?_, rfl, rfl, rfl, fun j h hj _ => ⟨hj, ?_⟩⟩
    · have : s.fs.mounted_status = false ∨ fd < 0 ∨ fd ≥ (c.FS_OPEN_MAX_COUNT : Int) := Or.inr hg
      simp only [this, if_true]
    · have := hrange j h hj
      omega
  · have hg2 : ¬ (s.fs.mounted_status = false ∨ fd < 0 ∨ fd ≥ (c.FS_OPEN_MAX_COUNT : Int)) := by
      rw [hm]
      simpa using hg
    have hlt : fd.toNat < s.oft.length := by omega
    simp only [hg2, if_false, List.getElem?_eq_getElem hlt]
    cases hu : (s.oft[fd.toNat]).used with
    | false =>
      refine ⟨-1, s, by simp, rfl, rfl, rfl, fun j h hj hused => ⟨hj, fun hjfd => ?_⟩⟩
      have hjn : j = fd.toNat := by omega
      subst hjn
      rw [List.getElem?_eq_getElem hlt] at hj
      cases hj
      rw [hu] at hused
      simp at hused
    | true =>
      refine ⟨0, { s with oft := s.oft.set fd.toNat { used := false, root_index := -1, offset := 0 } },
        by simp, rfl, rfl, by simp, fun j h hj hused => ?_⟩
      simp only [] at hj
      by_cases hjn : j = fd.toNat
      · subst hjn
        rw [List.getElem?_set_self hlt] at hj
        cases hj
        simp at hused
      · rw [List.getElem?_set_ne (fun h => hjn h.symm)] at hj
        exact ⟨hj, by omega⟩

theorem close_all_spec (c : Consts) (fds : List Int) :
    ∀ (s : State), s.fs.mounted_status = true → s.oft.length = c.FS_OPEN_MAX_COUNT →
      ∃ rs s1, close_all c s fds = some (rs, s1) ∧ s1.fs = s.fs ∧ s1.disk = s.disk ∧
        s1.oft.length = s.oft.length ∧
        ∀ (j : Nat) (h : open_file_entry), s1.oft[j]? = some h → h.used = true →
          s.oft[j]? = some h ∧ (j : Int) ∉ fds := by
  induction fds with
  | nil =>
    intro s _ _
    exact ⟨[], s, rfl, rfl, rfl, rfl, fun j h hj _ => ⟨hj, by simp⟩⟩
  | cons fd rest ih =>
    intro s hm holen
    obtain ⟨r, s1, h1, h2, h3, h4, h5⟩ := fs_close_spec c s fd hm holen
    obtain ⟨rs, s2, g1, g2, g3, g4, g5⟩ := ih s1 (by rw [h2]; exact hm) (by rw [h4]; exact holen)
    refine ⟨r :: rs, s2, ?_, g2.trans h2, g3.trans h3, g4.trans h4, fun j h hj hu => ?_⟩
    · simp only [close_all, h1, g1]
    · obtain ⟨k1, k2⟩ := g5 j h hj hu
      obtain ⟨k3, k4⟩ := h5 j h k1 hu
      refine ⟨k3, ?_⟩
      rw [List.mem_cons, not_or]
      exact ⟨k4, k2⟩

/-- C5. On a mounted volume, for an entry in use that has the given name:
while a handle in use is bound to the entry, `fs_delete` returns -1 and leaves
the whole state (table, directory, open-file table, device) as it was; and once
`fs_close` was called on every handle bound to the entry, `fs_delete` returns 0
(the chain of the entry reaching `FAT_EOC`, so that the freeing loop ends). -/
theorem fs_delete_open_handles (c : Consts) (s : State) (name : List Nat) (i : Nat)
    (e : root_entry)
    (hm : s.fs.mounted_status = true) (hlen : s.fs.root.length = c.FS_FILE_MAX_COUNT)
    (holen : s.oft.length = c.FS_OPEN_MAX_COUNT) (hc : 0 < c.FS_FILENAME_LEN)
    (he : s.fs.root[i]? = some e) (hact : is_free e = false)
    (hname : entry_name c e = cstr name)
    (huniq : ∀ j e1, s.fs.root[j]? = some e1 → is_free e1 = false →
      entry_name c e1 = cstr name → j = i) :
    ((∃ (j : Nat) (h : open_file_entry), s.oft[j]? = some h ∧ h.used = true ∧
        h.root_index = (i : Int)) →
      ∀ fuel, fs_delete c fuel s (some name) = some (-1, s)) ∧
    (∀ (fds : List Int) (l : List Nat),
      (∀ (j : Nat) (h : open_file_entry), s.oft[j]? = some h → h.used = true →
        h.root_index = (i : Int) → (j : Int) ∈ fds) →
      is_chain s.fs.fat s.fs.sb.data_count e.data_index l = true →
      ∃ rs s1, close_all c s fds = some (rs, s1) ∧
        ∀ fuel, l.length < fuel → ∃ s2, fs_delete c fuel s1 (some name) = some (0, s2)) := by
  have hfind := find_name_of_entry c s.fs.root name i e hlen hc he hact hname huniq
  constructor
  · rintro ⟨j, h, hj, hu, hri⟩ fuel
    have hjlt : j < s.oft.length := by
      by_contra hcon
      rw [List.getElem?_eq_none (by omega)] at hj
      simp at hj
    obtain ⟨k, hk, _⟩ := first_index_exists
      (fun j => (s.oft[j]?).map (fun h => h.used && decide (h.root_index = (i : Int))))
      c.FS_OPEN_MAX_COUNT j (by omega) (by simp [hj, hu, hri])
      (fun k hk => by
        show (Option.map _ s.oft[k]?).isSome = true
        rw [List.getElem?_eq_getElem (by omega)]
        rfl)
    exact fs_delete_blocked c s name fuel i k hm hfind hk
  · intro fds l hfds hchain
    obtain ⟨rs, s1, h1, h2, h3, h4, h5⟩ := close_all_spec c fds s hm holen
    refine ⟨rs, s1, h1, fun fuel hfuel => ?_⟩
    have hopen : find_open_on c s1.oft i = some none := by
      apply find_open_on_none c s1.oft i (by omega)
      intro j h _ hj hu hri
      obtain ⟨k1, k2⟩ := h5 j h hj hu
      exact k2 (hfds j h k1 hu hri)
    obtain ⟨fat1, g1, _⟩ := fs_delete_run c s1 name i e l fuel (by rw [h2]; exact hm)
      (by rw [h2]; exact hfind) hopen (by rw [h2]; exact he) (by rw [h2]; exact hchain) hfuel
    exact ⟨_, g1⟩

theorem small_file_unique (j : Nat) (e1 : root_entry) (hj : small_file.fs.root[j]? = some e1)
    (hf : is_free e1 = false) : j = 0 := by
  match j with
  | 0 => rfl
  | 1 =>
    have h0 : small_file.fs.root[1]? = some (zero_entry small) := rfl
    rw [h0] at hj
    cases hj
    exact absurd hf (by decide)
  | 2 =>
    have h0 : small_file.fs.root[2]? = some (zero_entry small) := rfl
    rw [h0] at hj
    cases hj
    exact absurd hf (by decide)
  | n + 3 =>
    have h0 : small_file.fs.root[n + 3]? = none := rfl
    rw [h0] at hj
    cases hj

/-- C6 at a concrete input: on the small volume the file `ab`, not open, is
deleted; its chain is made of the slots 1 and 2. -/
theorem fs_delete_frees_chain_witness :
    is_chain small_file.fs.fat small_file.fs.sb.data_count 1 [1, 2] = true ∧
    ∃ fat1, fs_delete small 3 small_file (some [97, 98]) =
        some (0, { small_file with
                   fs := { small_file.fs with
                           fat := fat1
                           root := small_file.fs.root.set 0
                             (zeroed_entry { filename := [97, 98, 0, 0], size := 6, data_index := 1,
                                             padding := List.replicate 10 0 }) } }) ∧
      fat_free fat1 6 = fat_free small_file.fs.fat 6 + 2 := by
  refine ⟨by decide, ?_⟩
  obtain ⟨fat1, h1, _, _, _, h5, _⟩ :=
    fs_delete_frees_chain small small_file [97, 98] 0
      { filename := [97, 98, 0, 0], size := 6, data_index := 1, padding := List.replicate 10 0 }
      [1, 2] rfl rfl rfl (by decide) rfl (by decide) (by decide)
      (fun j e1 hj hf _ => small_file_unique j e1 hj hf)
      (fun j h hj hu => by
        match j with
        | 0 => cases hj; exact absurd hu (by decide)
        | 1 => cases hj; exact absurd hu (by decide)
        | n + 2 => cases hj)
      (by decide) 3 (by decide)
  exact ⟨fat1, h1, h5⟩

/-- C5 at a concrete input: on the small volume the file `ab` is open through
the handles 0 and 1; `fs_delete` returns -1, and returns 0 after both were
closed. -/
theorem fs_delete_open_handles_witness :
    fs_delete small 3 small_open (some [97, 98]) = some (-1, small_open) ∧
    ∃ rs s1, close_all small small_open [0, 1] = some (rs, s1) ∧
      ∃ s2, fs_delete small 3 s1 (some [97, 98]) = some (0, s2) := by
  have h := fs_delete_open_handles small small_open [97, 98] 0
    { filename := [97, 98, 0, 0], size := 6, data_index := 1, padding := List.replicate 10 0 }
    rfl rfl rfl (by decide) rfl (by decide) (by decide)
    (fun j e1 hj hf _ => small_file_unique j e1 hj hf)
  refine ⟨h.1 ⟨0, { used := true, root_index := 0, offset := 0 }, rfl, rfl, rfl⟩ 3, ?_⟩
  obtain ⟨rs, s1, h1, h2⟩ := h.2 [0, 1] [1, 2]
    (fun j hh hj _ _ => by
      match j with
      | 0 => simp
      | 1 => simp
      | n + 2 => cases hj)
    (by decide)
  exact ⟨rs, s1, h1, h2 3 (by decide)⟩

/-! ## Walking a chain and the bytes of a chain -/

/-- The walk of `n` links along a chain ends at the chain's slot number `n`,
or at `FAT_EOC` when the chain is shorter. -/
theorem walk_spec (fat : List Nat) (dc : Nat) (n : Nat) :
    ∀ (a : Nat) (l : List Nat), is_chain fat dc a l = true →
      ∃ f, walk fat n a = some f ∧ is_chain fat dc f (l.drop n) = true := by
  induction n with
  | zero => intro a l h; exact ⟨a, rfl, by simpa using h⟩
  | succ n ih =>
    intro a l h
    cases l with
    | nil =>
      rw [is_chain_nil] at h
      refine ⟨a, ?_, by simp [is_chain_nil, h]⟩
      simp [walk, h]
    | cons b l =>
      rw [is_chain_cons] at h
      obtain ⟨ha, hne, _, v, hv, _, hrest⟩ := h
      subst ha
      obtain ⟨f, hf1, hf2⟩ := ih v l hrest
      refine ⟨f, ?_, by simpa using hf2⟩
      simp only [walk, hne, if_false, hv]
      exact hf1

theorem chain_bytes_cons (disk : List (List Nat)) (di b : Nat) (l : List Nat) :
    chain_bytes disk di (b :: l) = disk.getD (di + b) [] ++ chain_bytes disk di l := rfl

theorem disk_getD_length (c : Consts) (disk : List (List Nat)) (n : Nat)
    (hblk : ∀ blk ∈ disk, blk.length = c.BLOCK_SIZE) (hn : n < disk.length) :
    (disk.getD n []).length = c.BLOCK_SIZE := by
  rw [List.getD_eq_getElem?_getD, List.getElem?_eq_getElem hn]
  exact hblk _ (List.getElem_mem hn)

theorem chain_bytes_length (c : Consts) (disk : List (List Nat)) (di : Nat) (l : List Nat)
    (hblk : ∀ blk ∈ disk, blk.length = c.BLOCK_SIZE) (hin : ∀ b ∈ l, di + b < disk.length) :
    (chain_bytes disk di l).length = l.length * c.BLOCK_SIZE := by
  induction l with
  | nil => simp [chain_bytes]
  | cons b l ih =>
    rw [chain_bytes_cons, List.length_append,
      disk_getD_length c disk _ hblk (hin b (by simp)), ih (fun x hx => hin x (by simp [hx])),
      List.length_cons, Nat.succ_mul]
    omega

/-- The bytes of the chain from its slot number `k` on are the bytes of the
whole chain without the first `k` blocks. -/
theorem chain_bytes_drop (c : Consts) (disk : List (List Nat)) (di : Nat) (l : List Nat)
    (hblk : ∀ blk ∈ disk, blk.length = c.BLOCK_SIZE) (hin : ∀ b ∈ l, di + b < disk.length) :
    ∀ k, chain_bytes disk di (l.drop k) = (chain_bytes disk di l).drop (k * c.BLOCK_SIZE) := by
  induction l with
  | nil => intro k; simp [chain_bytes]
  | cons b l ih =>
    intro k
    cases k with
    | zero => simp
    | succ k =>
      rw [List.drop_succ_cons, ih (fun x hx => hin x (by simp [hx])) k, chain_bytes_cons,
        Nat.succ_mul, Nat.add_comm (k * c.BLOCK_SIZE)]
      have hlen := disk_getD_length c disk _ hblk (hin b (by simp))
      rw [← hlen, List.drop_append]

/-! ## The main loop of fs_read -/

theorem size_t_add_eq (a b : Nat) (h : a + b < 2 ^ 64) : size_t_add a b = a + b := by
  unfold size_t_add
  exact Nat.mod_eq_of_lt h

/-- The bytes that a pass of the read loop and the passes after it copy. -/
theorem take_drop_block (tmp rest : List Nat) (bo remaining n : Nat) (hbo : bo < n)
    (htmp : tmp.length = n) :
    ((tmp ++ rest).drop bo).take remaining =
      (tmp.drop bo).take (if n - bo > remaining then remaining else n - bo) ++
        rest.take (remaining - (if n - bo > remaining then remaining else n - bo)) := by
  rw [List.drop_append_of_le_length (by omega), List.take_append_eq_append_take,
    List.length_drop, htmp]
  by_cases h : n - bo > remaining
  · rw [if_pos h]
    have : remaining - (n - bo) = 0 := by omega
    rw [this, Nat.sub_self]
  · rw [if_neg h]
    congr 1
    rw [List.take_of_length_le (by rw [List.length_drop]; omega),
      List.take_of_length_le (by rw [List.length_drop]; omega)]

/-- The read loop on a chain that holds the bytes asked for: it copies exactly
`remaining` bytes, those of the chain from position `block_offset` on. -/
theorem read_loop_spec (c : Consts) (di dc : Nat) (fat : List Nat) (disk : List (List Nat))
    (hBS : 0 < c.BLOCK_SIZE) (hblk : ∀ blk ∈ disk, blk.length = c.BLOCK_SIZE)
    (hdisk : di + dc ≤ disk.length) (l : List Nat) :
    ∀ (fuel : Nat) (copied dest : List Nat) (remaining co act bo f : Nat),
      is_chain fat dc f l = true → bo < c.BLOCK_SIZE →
      remaining + bo ≤ l.length * c.BLOCK_SIZE → remaining ≤ dest.length → remaining < fuel →
      co + remaining < 2 ^ 64 → act + remaining < 2 ^ 64 →
      read_loop c di fat disk fuel copied dest remaining co act bo f =
        some (co + remaining, act + remaining,
          copied ++ (((chain_bytes disk di l).drop bo).take remaining ++ dest.drop remaining)) := by
  induction l with
  | nil =>
    intro fuel copied dest remaining co act bo f _ _ hcap _ hfuel _ _
    have hr : remaining = 0 := by simp at hcap; omega
    subst hr
    cases fuel with
    | zero => omega
    | succ fuel => simp [read_loop]
  | cons b l ih =>
    intro fuel copied dest remaining co act bo f hchain hbo hcap hdest hfuel hco hact
    cases fuel with
    | zero => omega
    | succ fuel =>
      by_cases hr : remaining = 0
      · subst hr
        simp [read_loop]
      · rw [is_chain_cons] at hchain
        obtain ⟨ha, hne, hlt, v, hv, _, hrest⟩ := hchain
        subst ha
        have hin : di + f < disk.length := by omega
        have hg : ¬ (remaining = 0 ∨ f = FAT_EOC) := by
          rw [not_or]; exact ⟨hr, hne⟩
        have hrd : block_read disk (di + f) = some (disk.getD (di + f) []) := by
          unfold block_read
          rw [List.getD_eq_getElem?_getD, List.getElem?_eq_getElem hin]
          rfl
        have htc : (if c.BLOCK_SIZE - bo > remaining then remaining else c.BLOCK_SIZE - bo)
            ≤ remaining := by split <;> omega
        have htc0 : 0 < (if c.BLOCK_SIZE - bo > remaining then remaining else c.BLOCK_SIZE - bo) := by
          split <;> omega
        have hnd : ¬ dest.length
            < (if c.BLOCK_SIZE - bo > remaining then remaining else c.BLOCK_SIZE - bo) := by
          omega
        rw [read_loop]
        simp only [hg, if_false, hrd, hnd, hv]
        rw [size_t_add_eq _ _ (by omega), size_t_add_eq _ _ (by omega)]
        have hcap2 : remaining
            - (if c.BLOCK_SIZE - bo > remaining then remaining else c.BLOCK_SIZE - bo) + 0
            ≤ l.length * c.BLOCK_SIZE := by
          rw [List.length_cons, Nat.succ_mul] at hcap
          split <;> omega
        rw [ih fuel _ _ _ _ _ 0 v hrest hBS hcap2 (by rw [List.length_drop]; omega) (by omega)
          (by omega) (by omega)]
        have hlen := disk_getD_length c disk _ hblk hin
        rw [chain_bytes_cons, take_drop_block _ _ bo remaining c.BLOCK_SIZE hbo hlen]
        simp only [List.drop_zero, List.drop_drop, List.append_assoc]
        have e1 : co + (if c.BLOCK_SIZE - bo > remaining then remaining else c.BLOCK_SIZE - bo)
            + (remaining
              - (if c.BLOCK_SIZE - bo > remaining then remaining else c.BLOCK_SIZE - bo))
            = co + remaining := by omega
        have e2 : act + (if c.BLOCK_SIZE - bo > remaining then remaining else c.BLOCK_SIZE - bo)
            + (remaining
              - (if c.BLOCK_SIZE - bo > remaining then remaining else c.BLOCK_SIZE - bo))
            = act + remaining := by omega
        have e3 : (if c.BLOCK_SIZE - bo > remaining then remaining else c.BLOCK_SIZE - bo)
            + (remaining
              - (if c.BLOCK_SIZE - bo > remaining then remaining else c.BLOCK_SIZE - bo))
            = remaining := by omega
        rw [e1, e2, e3]

/-! ## fs_read -/

theorem handle_of_ok (c : Consts) (s : State) (fd : Int) (h : open_file_entry)
    (hm : s.fs.mounted_status = true) (h0 : 0 ≤ fd) (h1 : fd < (c.FS_OPEN_MAX_COUNT : Int))
    (hh : s.oft[fd.toNat]? = some h) (hu : h.used = true) :
    handle_of c s fd = some (some h) := by
  unfold handle_of
  have g1 : ¬ (fd < 0) := by omega
  have g2 : ¬ (fd ≥ (c.FS_OPEN_MAX_COUNT : Int)) := by omega
  simp only [hm, Bool.true_eq_false, g1, g2, or_self, if_false, hh, hu]

theorem to_int_of_lt (n : Nat) (h : n < 2 ^ 31) : to_int n = (n : Int) := by
  unfold to_int
  have h1 : n % 2 ^ 32 = n := Nat.mod_eq_of_lt (by omega)
  rw [h1, if_pos h]

/-- The size of a file whose chain holds it fits the `int` that the calls
return. -/
theorem chain_capacity_lt (c : Consts) (fat : List Nat) (dc a : Nat) (l : List Nat)
    (hint : c.BLOCK_SIZE * 65535 < 2 ^ 31) (hdc : dc ≤ 65535)
    (hchain : is_chain fat dc a l = true) : l.length * c.BLOCK_SIZE < 2 ^ 31 := by
  have h1 := is_chain_length_le fat dc a l hchain
  have h2 : l.length * c.BLOCK_SIZE ≤ 65535 * c.BLOCK_SIZE :=
    Nat.mul_le_mul_right _ (by omega)
  rw [Nat.mul_comm 65535] at h2
  omega

/-- What `fs_read` does on a handle in use whose entry has a chain `l` with
room for the size of the file: nothing when the offset is at the end of the
file, else `min count (size - offset)` bytes of the chain are stored at the
start of the buffer and the offset moves forward by as much. -/
theorem fs_read_spec (c : Consts) (s : State) (fd : Int) (h : open_file_entry) (e : root_entry)
    (l : List Nat) (dest : List Nat) (count : Nat)
    (hBS : 0 < c.BLOCK_SIZE) (hint : c.BLOCK_SIZE * 65535 < 2 ^ 31)
    (hm : s.fs.mounted_status = true) (hfd0 : 0 ≤ fd) (hfd1 : fd < (c.FS_OPEN_MAX_COUNT : Int))
    (hh : s.oft[fd.toNat]? = some h) (hu : h.used = true)
    (he : root_at s.fs.root h.root_index = some e)
    (hdc : s.fs.sb.data_count ≤ 65535)
    (hchain : is_chain s.fs.fat s.fs.sb.data_count e.data_index l = true)
    (hcap : e.size ≤ l.length * c.BLOCK_SIZE)
    (hdisk : s.fs.sb.data_index + s.fs.sb.data_count ≤ s.disk.length)
    (hblk : ∀ blk ∈ s.disk, blk.length = c.BLOCK_SIZE)
    (hdest : count ≤ dest.length) (hcount : h.offset + count < 2 ^ 64) :
    (e.size ≤ h.offset → fs_read c s fd (some dest) count = some (0, s, some dest)) ∧
    (h.offset < e.size →
      fs_read c s fd (some dest) count =
        some (((min count (e.size - h.offset) : Nat) : Int),
          { s with oft := s.oft.set fd.toNat
                     { h with offset := h.offset + min count (e.size - h.offset) } },
          some (((chain_bytes s.disk s.fs.sb.data_index l).drop h.offset).take
                  (min count (e.size - h.offset)) ++
                dest.drop (min count (e.size - h.offset)))) ∧
      h.offset + min count (e.size - h.offset) ≤ e.size) := by
  have hhandle := handle_of_ok c s fd h hm hfd0 hfd1 hh hu
  constructor
  · intro hge
    unfold fs_read
    simp only [hhandle, he]
    rw [if_pos hge]
  · intro hlt
    refine ⟨?_, by omega⟩
    have hng : ¬ (h.offset ≥ e.size) := by omega
    obtain ⟨f, hf1, hf2⟩ :=
      walk_spec s.fs.fat s.fs.sb.data_count (h.offset / c.BLOCK_SIZE) e.data_index l hchain
    have hread : (if size_t_add h.offset count > e.size then e.size - h.offset else count)
        = min count (e.size - h.offset) := by
      rw [size_t_add_eq _ _ hcount]
      split <;> omega
    have hin : ∀ b ∈ l, s.fs.sb.data_index + b < s.disk.length := by
      intro b hb
      have := (is_chain_mem _ _ l _ hchain b hb).2.1
      omega
    have hdm := Nat.mod_add_div h.offset c.BLOCK_SIZE
    have hmul : c.BLOCK_SIZE * (h.offset / c.BLOCK_SIZE) = h.offset / c.BLOCK_SIZE * c.BLOCK_SIZE :=
      Nat.mul_comm _ _
    have hcap31 := chain_capacity_lt c _ _ _ l hint hdc hchain
    have hloop := read_loop_spec c s.fs.sb.data_index s.fs.sb.data_count s.fs.fat s.disk hBS hblk
      hdisk (l.drop (h.offset / c.BLOCK_SIZE)) (min count (e.size - h.offset) + 1) [] dest
      (min count (e.size - h.offset)) h.offset 0 (h.offset % c.BLOCK_SIZE) f hf2
      (Nat.mod_lt _ hBS)
      (by rw [List.length_drop, Nat.sub_mul]; omega)
      (by omega) (by omega) (by omega) (by omega)
    unfold fs_read
    simp only [hhandle, he, hng, if_false, hf1, hread, hloop]
    rw [chain_bytes_drop c s.disk s.fs.sb.data_index l hblk hin, List.drop_drop,
      Nat.zero_add, List.nil_append, to_int_of_lt _ (by omega)]
    have hoff : h.offset / c.BLOCK_SIZE * c.BLOCK_SIZE + h.offset % c.BLOCK_SIZE = h.offset := by
      omega
    rw [hoff]

/-- The clamp of `fs_read` when `offset + count` stays below `2^64` (the sum is
made in `size_t`).  On a mounted volume, for a handle in use at offset `off` on an entry
of size `s` whose chain reaches `FAT_EOC` and has room for `s` bytes, the data
blocks being on the device: if `off` is at or after `s`, `fs_read` returns 0 and
changes nothing; otherwise it returns `min count (s - off)`, the bytes it stores
in the buffer are the bytes of the file from position `off` up to, at most,
position `s`, the rest of the buffer is left as it was, and the offset of the
handle moves forward by the value returned. -/
theorem fs_read_clamp (c : Consts) (s : State) (fd : Int) (h : open_file_entry) (e : root_entry)
    (l : List Nat) (dest : List Nat) (count : Nat)
    (hBS : 0 < c.BLOCK_SIZE) (hint : c.BLOCK_SIZE * 65535 < 2 ^ 31)
    (hm : s.fs.mounted_status = true) (hfd0 : 0 ≤ fd) (hfd1 : fd < (c.FS_OPEN_MAX_COUNT : Int))
    (hh : s.oft[fd.toNat]? = some h) (hu : h.used = true)
    (he : root_at s.fs.root h.root_index = some e)
    (hdc : s.fs.sb.data_count ≤ 65535)
    (hchain : is_chain s.fs.fat s.fs.sb.data_count e.data_index l = true)
    (hcap : e.size ≤ l.length * c.BLOCK_SIZE)
    (hdisk : s.fs.sb.data_index + s.fs.sb.data_count ≤ s.disk.length)
    (hblk : ∀ blk ∈ s.disk, blk.length = c.BLOCK_SIZE)
    (hdest : count ≤ dest.length) (hcount : h.offset + count < 2 ^ 64) :
    (e.size ≤ h.offset → fs_read c s fd (some dest) count = some (0, s, some dest)) ∧
    (h.offset < e.size →
      fs_read c s fd (some dest) count =
        some (((min count (e.size - h.offset) : Nat) : Int),
          { s with oft := s.oft.set fd.toNat
                     { h with offset := h.offset + min count (e.size - h.offset) } },
          some (((chain_bytes s.disk s.fs.sb.data_index l).drop h.offset).take
                  (min count (e.size - h.offset)) ++
                dest.drop (min count (e.size - h.offset)))) ∧
      h.offset + min count (e.size - h.offset) ≤ e.size) :=
  fs_read_spec c s fd h e l dest count hBS hint hm hfd0 hfd1 hh hu he hdc hchain hcap hdisk hblk
    hdest hcount

/-- The file of 6 bytes read through the handle at offset 5 with room for 4
bytes: one byte is read, the byte at position 5, and the offset becomes 6. -/
theorem fs_read_clamp_witness :
    fs_read small small_open 1 (some [0, 0, 0, 0]) 4 =
      some (1,
        { small_open with
          oft := [{ used := true, root_index := 0, offset := 0 },
                  { used := true, root_index := 0, offset := 6 }] },
        some [15, 0, 0, 0]) :=
  (fs_read_clamp small small_open 1 { used := true, root_index := 0, offset := 5 }
    { filename := [97, 98, 0, 0], size := 6, data_index := 1, padding := List.replicate 10 0 }
    [1, 2] [0, 0, 0, 0] 4 (by decide) (by decide) rfl (by decide) (by decide) rfl rfl rfl
    (by decide) (by decide) (by decide) (by decide) (by decide) (by decide) (by decide)).2
    (by decide) |>.1

/-! ## Free slots and the first-fit scan -/

theorem mem_free_slots (fat : List Nat) (dc i : Nat) :
    i ∈ free_slots fat dc ↔ i < dc ∧ fat[i]? = some 0 := by
  unfold free_slots
  rw [List.mem_filter, List.mem_range]
  simp

theorem free_slots_sorted (fat : List Nat) (dc : Nat) :
    (free_slots fat dc).Sorted (fun a b => a < b) :=
  List.Sorted.filter _ (List.sorted_lt_range dc)

/-- A list in rising order with exactly the free slots is the list of free
slots. -/
theorem free_slots_eq_of (fat : List Nat) (dc : Nat) (F : List Nat)
    (hs : F.Sorted (fun a b => a < b)) (hm : ∀ i, i ∈ F ↔ i < dc ∧ fat[i]? = some 0) :
    free_slots fat dc = F := by
  apply List.eq_of_perm_of_sorted _ (free_slots_sorted fat dc) hs
  rw [List.perm_ext_iff_of_nodup (free_slots_sorted fat dc).nodup hs.nodup]
  intro i
  rw [mem_free_slots, hm]

/-- The first-fit scan returns the lowest free slot. -/
theorem find_free_block_eq (fat : List Nat) (dc : Nat) (hdc : dc ≤ fat.length) :
    find_free_block fat dc = some (free_slots fat dc).head? := by
  unfold find_free_block
  cases hF : free_slots fat dc with
  | nil =>
    rw [List.head?_nil, first_index_none_iff]
    intro j hj
    have hjlt : j < fat.length := by omega
    rw [List.getElem?_eq_getElem hjlt]
    simp only [Option.map_some', Option.some.injEq, decide_eq_false_iff_not]
    intro h0
    have : j ∈ free_slots fat dc := by
      rw [mem_free_slots]
      exact ⟨hj, by rw [List.getElem?_eq_getElem hjlt, h0]⟩
    rw [hF] at this
    simp at this
  | cons nb F =>
    rw [List.head?_cons, first_index_some_iff]
    have hmem : nb ∈ free_slots fat dc := by rw [hF]; simp
    rw [mem_free_slots] at hmem
    have hs := free_slots_sorted fat dc
    rw [hF, List.sorted_cons] at hs
    refine ⟨hmem.1, by simp [hmem.2], fun j hj => ?_⟩
    have hjlt : j < fat.length := by omega
    rw [List.getElem?_eq_getElem hjlt]
    simp only [Option.map_some', Option.some.injEq, decide_eq_false_iff_not]
    intro h0
    have hjm : j ∈ free_slots fat dc := by
      rw [mem_free_slots]
      exact ⟨by omega, by rw [List.getElem?_eq_getElem hjlt, h0]⟩
    rw [hF, List.mem_cons] at hjm
    rcases hjm with hjm | hjm
    · omega
    · have := hs.1 j hjm
      omega

/-- The free slots after an allocation: the lowest one is gone.  The table may
have changed in the slot allocated and in one slot `f` that was not free, and
neither holds the free mark afterwards. -/
theorem free_slots_after (fat fat1 : List Nat) (dc nb f : Nat) (F : List Nat)
    (hF : free_slots fat dc = nb :: F)
    (hsame : ∀ i, i ≠ nb → i ≠ f → fat1[i]? = fat[i]?)
    (hnb : fat1[nb]? ≠ some 0) (hf : fat1[f]? ≠ some 0) (hf0 : f ≠ nb → fat[f]? ≠ some 0) :
    free_slots fat1 dc = F := by
  have hs := free_slots_sorted fat dc
  rw [hF] at hs
  have hnd := hs.nodup
  rw [List.nodup_cons] at hnd
  apply free_slots_eq_of fat1 dc F hs.tail
  intro i
  have hi := mem_free_slots fat dc i
  rw [hF, List.mem_cons] at hi
  by_cases h1 : i = nb
  · subst h1
    constructor
    · intro h; exact absurd h hnd.1
    · intro h; exact absurd h.2 hnb
  · by_cases h2 : i = f
    · subst h2
      constructor
      · intro h
        exact absurd (hi.1 (Or.inr h)).2 (hf0 h1)
      · intro h; exact absurd h.2 hf
    · rw [hsame i h1 h2]
      constructor
      · intro h; exact hi.1 (Or.inr h)
      · intro h
        rcases hi.2 h with h3 | h3
        · exact absurd h3 h1
        · exact h3

theorem countP_take_eq (xs : List Nat) (p : Nat → Bool) :
    ∀ n, n ≤ xs.length →
      ((xs.take n).filter p).length =
        ((List.range n).filter (fun i => (xs[i]?).any p)).length := by
  intro n
  induction n with
  | zero => intro _; simp
  | succ n ih =>
    intro hn
    have hlt : n < xs.length := by omega
    rw [List.take_succ, List.range_succ, List.filter_append, List.filter_append,
      List.length_append, List.length_append, ih (by omega), List.getElem?_eq_getElem hlt]
    congr 1
    by_cases hp : p xs[n] = true
    · simp [hp, List.getElem?_eq_getElem hlt]
    · simp [hp, List.getElem?_eq_getElem hlt]

/-- The count that `fs_info` reports is the number of free slots. -/
theorem fat_free_eq_length (fat : List Nat) (dc : Nat) (hdc : dc ≤ fat.length) :
    fat_free fat dc = (free_slots fat dc).length := by
  unfold fat_free free_slots
  rw [countP_take_eq fat _ dc hdc]
  congr 1
  apply List.filter_congr
  intro i _
  cases h : fat[i]? with
  | none => simp
  | some v =>
    by_cases hv : v = 0
    · simp [hv]
    · simp [hv]

/-! ## Storing bytes in blocks -/

theorem store_bytes_length (dst src : List Nat) (pos : Nat) (h : pos + src.length ≤ dst.length) :
    (store_bytes dst pos src).length = dst.length := by
  unfold store_bytes
  simp only [List.length_append, List.length_take, List.length_drop]
  omega

/-- A store that ends inside the first block leaves the later blocks alone. -/
theorem store_bytes_append_first (old rest src : List Nat) (pos : Nat)
    (h : pos + src.length ≤ old.length) :
    store_bytes (old ++ rest) pos src = store_bytes old pos src ++ rest := by
  unfold store_bytes
  rw [List.take_append_of_le_length (by omega), List.drop_append_of_le_length h,
    List.append_assoc, List.append_assoc, List.append_assoc]

/-- A store that runs on after the end of the first block: the first block
takes the first bytes, the later blocks the others from their start. -/
theorem store_bytes_split (old rest data : List Nat) (pos tc r : Nat)
    (hpos : pos + tc = old.length) (hd : tc + r ≤ data.length) :
    store_bytes (old ++ rest) pos (data.take (tc + r)) =
      store_bytes old pos (data.take tc) ++ store_bytes rest 0 ((data.drop tc).take r) := by
  unfold store_bytes
  have h1 : (data.take (tc + r)).length = tc + r := by rw [List.length_take]; omega
  have h2 : (data.take tc).length = tc := by rw [List.length_take]; omega
  have h3 : ((data.drop tc).take r).length = r := by
    rw [List.length_take, List.length_drop]; omega
  rw [h1, h2, h3, List.take_append_of_le_length (by omega), List.take_add, List.take_zero,
    List.nil_append, Nat.zero_add]
  have h4 : pos + (tc + r) = old.length + r := by omega
  rw [h4, List.drop_append, List.drop_of_length_le (by omega : old.length ≤ pos + tc),
    List.append_nil]
  simp only [List.append_assoc]

/-- A store after the first `pre.length` bytes leaves those bytes alone. -/
theorem store_bytes_append_right (pre rest src : List Nat) (pos : Nat) :
    store_bytes (pre ++ rest) (pre.length + pos) src = pre ++ store_bytes rest pos src := by
  unfold store_bytes
  rw [List.take_append, Nat.add_assoc, List.drop_append]
  simp only [List.append_assoc]

theorem store_bytes_nil (dst : List Nat) (pos : Nat) : store_bytes dst pos [] = dst := by
  unfold store_bytes
  simp

theorem chain_bytes_congr (disk disk1 : List (List Nat)) (di : Nat) (l : List Nat)
    (h : ∀ b ∈ l, disk1[di + b]? = disk[di + b]?) :
    chain_bytes disk1 di l = chain_bytes disk di l := by
  induction l with
  | nil => rfl
  | cons b l ih =>
    rw [chain_bytes_cons, chain_bytes_cons, ih (fun x hx => h x (by simp [hx])),
      List.getD_eq_getElem?_getD, List.getD_eq_getElem?_getD, h b (by simp)]

theorem chain_bytes_append (disk : List (List Nat)) (di : Nat) (l1 l2 : List Nat) :
    chain_bytes disk di (l1 ++ l2) = chain_bytes disk di l1 ++ chain_bytes disk di l2 := by
  induction l1 with
  | nil => rfl
  | cons b l ih => rw [List.cons_append, chain_bytes_cons, chain_bytes_cons, ih, List.append_assoc]

/-- The device calls of one pass of the write loop store the caller's bytes
over the old bytes of the block. -/
theorem write_block_eq (c : Consts) (disk : List (List Nat)) (n bo tc : Nat)
    (data old : List Nat) (hn : disk[n]? = some old) (hold : old.length = c.BLOCK_SIZE)
    (hd : tc ≤ data.length) :
    write_block c disk n bo tc data = some (disk.set n (store_bytes old bo (data.take tc))) := by
  have hlt : n < disk.length := by
    by_contra hcon
    rw [List.getElem?_eq_none (by omega)] at hn
    simp at hn
  unfold write_block
  by_cases hfull : bo = 0 ∧ tc = c.BLOCK_SIZE
  · rw [if_pos hfull]
    unfold block_write
    rw [if_pos hlt]
    obtain ⟨h1, h2⟩ := hfull
    subst h1
    rw [h2]
    unfold store_bytes
    have h3 : (data.take c.BLOCK_SIZE).length = c.BLOCK_SIZE := by
      rw [List.length_take]; omega
    rw [h3, List.take_zero, List.nil_append, Nat.zero_add,
      List.drop_of_length_le (by omega), List.append_nil]
  · rw [if_neg hfull]
    unfold block_read block_write memcpy
    simp only [hn]
    rw [if_pos hlt]

/-- The offset after a pass that fills its block lies on a block boundary. -/
theorem offset_after_block (co bs : Nat) (hbs : 0 < bs) : (co + (bs - co % bs)) % bs = 0 := by
  have h1 := Nat.mod_add_div co bs
  have h2 : co % bs < bs := Nat.mod_lt _ hbs
  have h3 : co + (bs - co % bs) = bs * (co / bs + 1) := by
    rw [Nat.mul_add, Nat.mul_one]
    omega
  rw [h3]
  exact Nat.mul_mod_right _ _

/-! ## The main loop of fs_write -/

/-- The bytes of a chain after the pass that wrote its first block and was the
last one. -/
theorem chain_bytes_last (disk disk1 : List (List Nat)) (di f : Nat) (X old data : List Nat)
    (bo tc : Nat) (hold : disk[di + f]? = some old) (hlen : bo + tc ≤ old.length)
    (hd : tc ≤ data.length)
    (h1 : disk1[di + f]? = some (store_bytes old bo (data.take tc)))
    (h2 : chain_bytes disk1 di X = chain_bytes disk di X) :
    chain_bytes disk1 di (f :: X) =
      store_bytes (chain_bytes disk di (f :: X)) bo (data.take tc) := by
  rw [chain_bytes_cons, chain_bytes_cons, h2, List.getD_eq_getElem?_getD,
    List.getD_eq_getElem?_getD, h1, hold]
  simp only [Option.getD_some]
  rw [store_bytes_append_first]
  rw [List.length_take]
  omega

/-- The bytes of a chain after the pass that filled its first block and the
passes that went on from the start of the next block. -/
theorem chain_bytes_step (disk disk1 : List (List Nat)) (di f : Nat) (X old data : List Nat)
    (bo tc r : Nat) (hold : disk[di + f]? = some old) (hlen : bo + tc = old.length)
    (hd : tc + r ≤ data.length)
    (h1 : disk1[di + f]? = some (store_bytes old bo (data.take tc)))
    (h2 : chain_bytes disk1 di X =
      store_bytes (chain_bytes disk di X) 0 ((data.drop tc).take r)) :
    chain_bytes disk1 di (f :: X) =
      store_bytes (chain_bytes disk di (f :: X)) bo (data.take (tc + r)) := by
  rw [chain_bytes_cons, chain_bytes_cons, h2, List.getD_eq_getElem?_getD,
    List.getD_eq_getElem?_getD, h1, hold]
  simp only [Option.getD_some]
  rw [store_bytes_split old _ data bo tc r hlen hd]

theorem mem_set_block (c : Consts) (disk : List (List Nat)) (n : Nat) (blk : List Nat)
    (hblk : ∀ b ∈ disk, b.length = c.BLOCK_SIZE) (hlen : blk.length = c.BLOCK_SIZE) :
    ∀ b ∈ disk.set n blk, b.length = c.BLOCK_SIZE := by
  intro b hb
  rcases List.mem_or_eq_of_mem_set hb with h | h
  · exact hblk b h
  · rw [h]; exact hlen

/-- A chain that starts at `FAT_EOC` has no slot. -/
theorem is_chain_eoc (fat : List Nat) (dc : Nat) (l : List Nat)
    (h : is_chain fat dc FAT_EOC l = true) : l = [] := by
  cases l with
  | nil => rfl
  | cons b l =>
    rw [is_chain_cons] at h
    exact absurd h.1.symm h.2.1

/-- A chain that starts at a slot has that slot first. -/
theorem is_chain_ne_eoc (fat : List Nat) (dc v : Nat) (l : List Nat) (hv : v ≠ FAT_EOC)
    (h : is_chain fat dc v l = true) : ∃ l1, l = v :: l1 := by
  cases l with
  | nil => rw [is_chain_nil] at h; exact absurd h hv
  | cons b l =>
    rw [is_chain_cons] at h
    exact ⟨l, by rw [h.1]⟩

theorem block_count_succ (a b bs : Nat) : (1 + (a + 1) + b) * bs = (1 + a + b) * bs + bs := by
  ring

theorem block_count_one (a b bs : Nat) : (1 + a + b) * bs = bs + (a + b) * bs := by
  ring

/-! ### One pass of the main loop of fs_write -/

/-- The pass that stores the last bytes. -/
theorem write_loop_last (c : Consts) (di dc fuel : Nat) (data : List Nat) (tw co act f : Nat)
    (fat : List Nat) (disk disk1 : List (List Nat)) (htw : 0 < tw)
    (hlast : tw ≤ c.BLOCK_SIZE - co % c.BLOCK_SIZE) (hdata : tw ≤ data.length)
    (hwb : write_block c disk (di + f) (co % c.BLOCK_SIZE) tw data = some disk1)
    (hco : co + tw < 2 ^ 64) (hact : act + tw < 2 ^ 64) :
    write_loop c di dc (fuel + 2) data tw co act f fat disk =
      some (write_exit.finished (co + tw) (act + tw) fat disk1) := by
  have htc : (if c.BLOCK_SIZE - co % c.BLOCK_SIZE > tw then tw
      else c.BLOCK_SIZE - co % c.BLOCK_SIZE) = tw := by split <;> omega
  rw [write_loop]
  simp only [Nat.ne_of_gt htw, if_false, htc, Nat.not_lt.2 hdata, hwb, Nat.sub_self, lt_irrefl]
  rw [write_loop]
  simp only [if_true, size_t_add_eq _ _ hco, size_t_add_eq _ _ hact]

/-- A pass that fills its block, with bytes left and a next slot in the chain. -/
theorem write_loop_next (c : Consts) (di dc fuel : Nat) (data : List Nat) (tw co act f v : Nat)
    (fat : List Nat) (disk disk1 : List (List Nat))
    (hmore : c.BLOCK_SIZE - co % c.BLOCK_SIZE < tw) (hdata : tw ≤ data.length)
    (hwb : write_block c disk (di + f) (co % c.BLOCK_SIZE) (c.BLOCK_SIZE - co % c.BLOCK_SIZE) data
      = some disk1)
    (hv : fat[f]? = some v) (hne : v ≠ FAT_EOC)
    (hco : co + tw < 2 ^ 64) (hact : act + tw < 2 ^ 64) :
    write_loop c di dc (fuel + 1) data tw co act f fat disk =
      write_loop c di dc fuel (data.drop (c.BLOCK_SIZE - co % c.BLOCK_SIZE))
        (tw - (c.BLOCK_SIZE - co % c.BLOCK_SIZE)) (co + (c.BLOCK_SIZE - co % c.BLOCK_SIZE))
        (act + (c.BLOCK_SIZE - co % c.BLOCK_SIZE)) v fat disk1 := by
  have htc : (if c.BLOCK_SIZE - co % c.BLOCK_SIZE > tw then tw
      else c.BLOCK_SIZE - co % c.BLOCK_SIZE) = c.BLOCK_SIZE - co % c.BLOCK_SIZE := by
    split <;> omega
  have htw : tw ≠ 0 := by omega
  have hd : ¬ data.length < c.BLOCK_SIZE - co % c.BLOCK_SIZE := by omega
  have hpos : tw - (c.BLOCK_SIZE - co % c.BLOCK_SIZE) > 0 := by omega
  rw [write_loop]
  simp only [htw, if_false, htc, hd, hwb, hpos, if_true, hv, hne,
    size_t_add_eq _ _ (show co + (c.BLOCK_SIZE - co % c.BLOCK_SIZE) < 2 ^ 64 by omega),
    size_t_add_eq _ _ (show act + (c.BLOCK_SIZE - co % c.BLOCK_SIZE) < 2 ^ 64 by omega)]

/-- A pass that fills the last block of the chain, with bytes left and no free
slot: the loop is left. -/
theorem write_loop_full (c : Consts) (di dc fuel : Nat) (data : List Nat) (tw co act f : Nat)
    (fat : List Nat) (disk disk1 : List (List Nat))
    (hmore : c.BLOCK_SIZE - co % c.BLOCK_SIZE < tw) (hdata : tw ≤ data.length)
    (hwb : write_block c disk (di + f) (co % c.BLOCK_SIZE) (c.BLOCK_SIZE - co % c.BLOCK_SIZE) data
      = some disk1)
    (hv : fat[f]? = some FAT_EOC) (hfree : find_free_block fat dc = some none)
    (hco : co + tw < 2 ^ 64) (hact : act + tw < 2 ^ 64) :
    write_loop c di dc (fuel + 1) data tw co act f fat disk =
      some (write_exit.finished (co + (c.BLOCK_SIZE - co % c.BLOCK_SIZE))
        (act + (c.BLOCK_SIZE - co % c.BLOCK_SIZE)) fat disk1) := by
  have htc : (if c.BLOCK_SIZE - co % c.BLOCK_SIZE > tw then tw
      else c.BLOCK_SIZE - co % c.BLOCK_SIZE) = c.BLOCK_SIZE - co % c.BLOCK_SIZE := by
    split <;> omega
  have htw : tw ≠ 0 := by omega
  have hd : ¬ data.length < c.BLOCK_SIZE - co % c.BLOCK_SIZE := by omega
  have hpos : tw - (c.BLOCK_SIZE - co % c.BLOCK_SIZE) > 0 := by omega
  rw [write_loop]
  simp only [htw, if_false, htc, hd, hwb, hpos, if_true, hv, hfree, Option.getD_none,
    size_t_add_eq _ _ (show co + (c.BLOCK_SIZE - co % c.BLOCK_SIZE) < 2 ^ 64 by omega),
    size_t_add_eq _ _ (show act + (c.BLOCK_SIZE - co % c.BLOCK_SIZE) < 2 ^ 64 by omega)]

/-- A pass that fills the last block of the chain, with bytes left and a free
slot: the slot is linked after the chain and the loop goes on there. -/
theorem write_loop_alloc (c : Consts) (di dc fuel : Nat) (data : List Nat)
    (tw co act f nb : Nat) (fat : List Nat) (disk disk1 : List (List Nat))
    (hmore : c.BLOCK_SIZE - co % c.BLOCK_SIZE < tw) (hdata : tw ≤ data.length)
    (hwb : write_block c disk (di + f) (co % c.BLOCK_SIZE) (c.BLOCK_SIZE - co % c.BLOCK_SIZE) data
      = some disk1)
    (hv : fat[f]? = some FAT_EOC) (hfree : find_free_block fat dc = some (some nb))
    (hnbe : nb ≠ FAT_EOC) (hflt : f < fat.length) (hnblt : nb < fat.length) (hnbf : nb ≠ f)
    (hco : co + tw < 2 ^ 64) (hact : act + tw < 2 ^ 64) :
    write_loop c di dc (fuel + 1) data tw co act f fat disk =
      write_loop c di dc fuel (data.drop (c.BLOCK_SIZE - co % c.BLOCK_SIZE))
        (tw - (c.BLOCK_SIZE - co % c.BLOCK_SIZE)) (co + (c.BLOCK_SIZE - co % c.BLOCK_SIZE))
        (act + (c.BLOCK_SIZE - co % c.BLOCK_SIZE)) nb ((fat.set f nb).set nb FAT_EOC) disk1 := by
  have htc : (if c.BLOCK_SIZE - co % c.BLOCK_SIZE > tw then tw
      else c.BLOCK_SIZE - co % c.BLOCK_SIZE) = c.BLOCK_SIZE - co % c.BLOCK_SIZE := by
    split <;> omega
  have htw : tw ≠ 0 := by omega
  have hd : ¬ data.length < c.BLOCK_SIZE - co % c.BLOCK_SIZE := by omega
  have hpos : tw - (c.BLOCK_SIZE - co % c.BLOCK_SIZE) > 0 := by omega
  have hfat2f : ((fat.set f nb).set nb FAT_EOC)[f]? = some nb := by
    rw [List.getElem?_set_ne hnbf, List.getElem?_set_self hflt]
  rw [write_loop]
  simp only [htw, if_false, htc, hd, hwb, hpos, if_true, hv, hfree, Option.getD_some, hnbe,
    store, hflt, List.length_set, hnblt, hfat2f,
    size_t_add_eq _ _ (show co + (c.BLOCK_SIZE - co % c.BLOCK_SIZE) < 2 ^ 64 by omega),
    size_t_add_eq _ _ (show act + (c.BLOCK_SIZE - co % c.BLOCK_SIZE) < 2 ^ 64 by omega)]

/-! ### Counting bytes and blocks -/

theorem stored_alloc (tw tc bo bs x r : Nat) (htc : bo + tc = bs) (hmore : tc < tw)
    (hr : r = min (tw - tc) (bs + x)) : tc + r = min tw (bs + bs + x - bo) := by
  omega

theorem stored_alloc_le (tc bo bs y r : Nat) (htc : bo + tc = bs) (hs : r ≤ bs + y) :
    bo + (tc + r) ≤ bs + bs + y := by
  omega

theorem stored_alloc_gt (tw tc bo bs x y k r : Nat) (htc : bo + tc = bs) (hbs : 0 < bs)
    (hmore : tc < tw) (hr : r = min (tw - tc) (bs + x)) (hs : 0 < k → y < r)
    (hy : k = 0 → y = 0) : bs + y < bo + (tc + r) := by
  by_cases hk : 0 < k
  · have := hs hk
    omega
  · have := hy (by omega)
    omega

theorem stored_fits (tw tc r n x : Nat) (hmore : tc < tw) (hr : r = min (tw - tc) x)
    (hd : tw ≤ n) : tc + r ≤ n := by
  omega

theorem stored_last (tw bo bs x : Nat) (hlast : tw ≤ bs - bo) (hbo : bo < bs) :
    tw = min tw (bs + x - bo) := by
  omega

theorem stored_full (tw bo bs : Nat) (hmore : bs - bo < tw) :
    bs - bo = min tw (bs - bo) := by
  omega

theorem no_wrap_step (co tw tc : Nat) (h : co + tw < 2 ^ 64) (htc : tc ≤ tw) :
    co + tc + (tw - tc) < 2 ^ 64 := by
  omega

/-! ### What the passes of the main loop leave behind -/

/-- The pass after which the loop is left: the caller's bytes are in the block
of slot `f`, nothing else changed. -/
theorem write_post_last (c : Consts) (di dc : Nat) (data : List Nat) (tw bo tc f : Nat)
    (rest F fat : List Nat) (disk : List (List Nat)) (old : List Nat)
    (hchain : is_chain fat dc f (f :: rest) = true) (hF : free_slots fat dc = F)
    (hdisk : di + dc ≤ disk.length) (hblk : ∀ blk ∈ disk, blk.length = c.BLOCK_SIZE)
    (hold : disk[di + f]? = some old) (hbt : bo + tc ≤ c.BLOCK_SIZE) (hd : tc ≤ data.length)
    (hr : tc = min tw ((1 + rest.length + F.length) * c.BLOCK_SIZE - bo)) :
    write_post c di dc data tw bo f rest F fat disk 0 fat
      (disk.set (di + f) (store_bytes old bo (data.take tc))) tc := by
  have hnd := is_chain_nodup fat dc _ f hchain
  rw [List.nodup_cons] at hnd
  have hlt := ((is_chain_cons fat dc f f rest).1 hchain).2.2.1
  have hin : di + f < disk.length := by omega
  have holdlen : old.length = c.BLOCK_SIZE := by
    rw [List.getElem?_eq_getElem hin] at hold
    cases hold
    exact hblk _ (List.getElem_mem hin)
  have hnewlen : (store_bytes old bo (data.take tc)).length = c.BLOCK_SIZE := by
    rw [store_bytes_length _ _ _ (by rw [List.length_take]; omega), holdlen]
  have h2 : (1 + rest.length + 0) * c.BLOCK_SIZE = c.BLOCK_SIZE + rest.length * c.BLOCK_SIZE := by
    ring
  refine ⟨hr, Nat.zero_le _, ?_, ?_, rfl, ?_, mem_set_block c disk _ _ hblk hnewlen,
    fun j _ _ => rfl, ?_, ?_, ?_, fun h => absurd h (lt_irrefl 0)⟩
  · rw [List.take_zero, List.append_nil]; exact hchain
  · rw [List.drop_zero]; exact hF
  · rw [List.length_set]
  · intro n hn
    have := hn f (List.mem_cons_self _ _)
    rw [List.getElem?_set_ne (fun h => this h.symm)]
  · rw [List.take_zero, List.append_nil]
    apply chain_bytes_last disk _ di f rest old data bo tc hold (by omega) hd
    · rw [List.getElem?_set_self hin]
    · apply chain_bytes_congr
      intro b hb
      have hbf : b ≠ f := fun h => hnd.1 (h ▸ hb)
      rw [List.getElem?_set_ne (by omega)]
  · rw [h2]
    omega

/-- A pass that filled the block of slot `f` and went on at the next slot `v`
of the chain: what the later passes left behind, seen from `f`. -/
theorem write_post_next (c : Consts) (di dc : Nat) (data : List Nat) (tw bo f v : Nat)
    (rest1 F fat : List Nat) (disk : List (List Nat)) (old : List Nat) (k : Nat)
    (fat1 : List Nat) (disk1 : List (List Nat)) (r : Nat)
    (hchain : is_chain fat dc f (f :: v :: rest1) = true) (hF : free_slots fat dc = F)
    (hdisk : di + dc ≤ disk.length)
    (hold : disk[di + f]? = some old) (holdlen : old.length = c.BLOCK_SIZE)
    (hbo : bo < c.BLOCK_SIZE) (hmore : c.BLOCK_SIZE - bo < tw) (hdata : tw ≤ data.length)
    (hpost : write_post c di dc (data.drop (c.BLOCK_SIZE - bo)) (tw - (c.BLOCK_SIZE - bo)) 0 v
      rest1 F fat (disk.set (di + f) (store_bytes old bo (data.take (c.BLOCK_SIZE - bo)))) k fat1
      disk1 r) :
    write_post c di dc data tw bo f (v :: rest1) F fat disk k fat1 disk1
      (c.BLOCK_SIZE - bo + r) := by
  obtain ⟨hr, hk, hch, hfr, hfl, hdl, hb1, hff, hdf, hcb, hs1, hs2⟩ := hpost
  have hnd := is_chain_nodup fat dc _ f hchain
  rw [List.nodup_cons] at hnd
  rw [is_chain_cons] at hchain
  obtain ⟨_, hne, hlt, v1, hv, hv0, hrest⟩ := hchain
  have hv1 : v1 = v := (is_chain_head fat dc v1 v rest1 hrest)
  subst hv1
  have hin : di + f < disk.length := by omega
  have hffree : f ∉ F := by
    intro hmem
    rw [← hF, mem_free_slots, hv] at hmem
    exact hv0 (by simpa using hmem.2)
  have hfX : f ∉ v1 :: (rest1 ++ F.take k) := by
    intro hmem
    rw [List.mem_cons, List.mem_append] at hmem
    rcases hmem with h | h | h
    · exact hnd.1 (by rw [h]; exact List.mem_cons_self _ _)
    · exact hnd.1 (List.mem_cons_of_mem _ h)
    · exact hffree (List.mem_of_mem_take h)
  have hfat1f : fat1[f]? = some v1 := by
    rw [hff f hnd.1 (fun h => hffree (List.mem_of_mem_take h)), hv]
  have hdisk1f : disk1[di + f]? = some (store_bytes old bo (data.take (c.BLOCK_SIZE - bo))) := by
    rw [hdf (di + f) (fun b hb => by
      have : b ≠ f := fun h => hfX (h ▸ hb)
      omega), List.getElem?_set_self hin]
  have hY := block_count_succ rest1.length F.length c.BLOCK_SIZE
  have hK := block_count_succ rest1.length k c.BLOCK_SIZE
  have hK3 : (rest1.length + 1 + k) * c.BLOCK_SIZE
      = (rest1.length + k) * c.BLOCK_SIZE + c.BLOCK_SIZE := by ring
  rw [Nat.sub_zero] at hr
  rw [Nat.zero_add] at hs1 hs2
  refine ⟨?_, hk, ?_, hfr, hfl, ?_, hb1, ?_, ?_, ?_, ?_, ?_⟩
  · rw [List.length_cons, hY]
    omega
  · rw [List.cons_append, is_chain_cons]
    exact ⟨rfl, hne, hlt, v1, hfat1f, hv0, hch⟩
  · rw [hdl, List.length_set]
  · intro j hj1 hj2
    rw [hff j (fun h => hj1 (List.mem_cons_of_mem _ h)) hj2]
  · intro n hn
    rw [List.cons_append] at hn
    rw [hdf n (fun b hb => hn b (List.mem_cons_of_mem _ hb)),
      List.getElem?_set_ne (fun h => hn f (List.mem_cons_self _ _) h.symm)]
  · rw [List.cons_append]
    apply chain_bytes_step disk disk1 di f _ old data bo _ r hold (by omega) (by omega) hdisk1f
    rw [hcb]
    congr 1
    apply chain_bytes_congr
    intro b hb
    have : b ≠ f := fun h => hfX (h ▸ hb)
    rw [List.getElem?_set_ne (by omega)]
  · rw [List.length_cons, hK]
    omega
  · intro hk0
    rw [List.length_cons, hK3]
    have := hs2 hk0
    omega
/-- A pass that filled the block of the last slot `f` of the chain, linked the
lowest free slot `nb` after it and went on there: what the later passes left
behind, seen from `f`. -/
theorem write_post_alloc (c : Consts) (di dc : Nat) (data : List Nat) (tw bo tc f nb : Nat)
    (F1 fat : List Nat) (disk : List (List Nat)) (old : List Nat) (k : Nat)
    (fat1 : List Nat) (disk1 : List (List Nat)) (r : Nat)
    (hchain : is_chain fat dc f [f] = true) (hF : free_slots fat dc = nb :: F1)
    (h0 : 0 ∉ nb :: F1) (hdisk : di + dc ≤ disk.length)
    (hold : disk[di + f]? = some old) (holdlen : old.length = c.BLOCK_SIZE)
    (htc : bo + tc = c.BLOCK_SIZE) (hmore : tc < tw) (hdata : tw ≤ data.length)
    (hBS : 0 < c.BLOCK_SIZE)
    (hpost : write_post c di dc (data.drop tc) (tw - tc) 0 nb
      [] F1 ((fat.set f nb).set nb FAT_EOC)
      (disk.set (di + f) (store_bytes old bo (data.take tc))) k fat1 disk1 r) :
    write_post c di dc data tw bo f [] (nb :: F1) fat disk (k + 1) fat1 disk1
      (tc + r) := by
  obtain ⟨hr, hk, hch, hfr, hfl, hdl, hb1, hff, hdf, hcb, hs1, hs2⟩ := hpost
  rw [is_chain_cons] at hchain
  obtain ⟨_, hne, hlt, v, hv, hv0, _⟩ := hchain
  have hin : di + f < disk.length := by omega
  have hffree : f ∉ nb :: F1 := by
    intro hmem
    rw [← hF, mem_free_slots, hv] at hmem
    exact hv0 (by simpa using hmem.2)
  have hnbf : nb ≠ f := fun h => hffree (by rw [← h]; exact List.mem_cons_self _ _)
  have hnb0 : nb ≠ 0 := fun h => h0 (by rw [h]; exact List.mem_cons_self _ _)
  have hflt : f < fat.length := by
    by_contra hcon
    rw [List.getElem?_eq_none (by omega)] at hv
    cases hv
  have hfat2f : ((fat.set f nb).set nb FAT_EOC)[f]? = some nb := by
    rw [List.getElem?_set_ne hnbf, List.getElem?_set_self hflt]
  have hfk : f ∉ nb :: F1.take k := by
    intro hmem
    rw [List.mem_cons] at hmem
    rcases hmem with h | h
    · exact hnbf h.symm
    · exact hffree (List.mem_cons_of_mem _ (List.mem_of_mem_take h))
  have hfat1f : fat1[f]? = some nb := by
    rw [hff f (fun h => hnbf (List.mem_singleton.1 h).symm)
      (fun h => hfk (List.mem_cons_of_mem _ h)), hfat2f]
  rw [List.nil_append] at hch hdf hcb
  have hdisk1f : disk1[di + f]? = some (store_bytes old bo (data.take tc)) := by
    rw [hdf (di + f) (fun b hb h => hfk ((Nat.add_left_cancel h) ▸ hb)),
      List.getElem?_set_self hin]
  have hY : (1 + 0 + F1.length) * c.BLOCK_SIZE = c.BLOCK_SIZE + F1.length * c.BLOCK_SIZE := by
    ring
  have hY2 : (1 + 0 + (F1.length + 1)) * c.BLOCK_SIZE
      = c.BLOCK_SIZE + c.BLOCK_SIZE + F1.length * c.BLOCK_SIZE := by ring
  have hK : (1 + 0 + k) * c.BLOCK_SIZE = c.BLOCK_SIZE + k * c.BLOCK_SIZE := by ring
  have hK2 : (1 + 0 + (k + 1)) * c.BLOCK_SIZE
      = c.BLOCK_SIZE + c.BLOCK_SIZE + k * c.BLOCK_SIZE := by ring
  have hK3 : (0 + (k + 1)) * c.BLOCK_SIZE = c.BLOCK_SIZE + k * c.BLOCK_SIZE := by ring
  have hK4 : (0 + k) * c.BLOCK_SIZE = k * c.BLOCK_SIZE := by ring
  rw [List.length_nil, hY, Nat.sub_zero] at hr
  rw [List.length_nil, hK, Nat.zero_add] at hs1
  rw [List.length_nil, hK4, Nat.zero_add] at hs2
  have hfit : tc + r ≤ data.length := stored_fits tw tc r _ _ hmore hr hdata
  have hlen : bo + tc = old.length := by rw [holdlen]; exact htc
  refine ⟨?_, ?_, ?_, ?_, ?_, ?_, hb1, ?_, ?_, ?_, ?_, ?_⟩
  · rw [List.length_nil, List.length_cons, hY2]
    exact stored_alloc tw tc bo _ _ r htc hmore hr
  · rw [List.length_cons]; exact Nat.succ_le_succ hk
  · rw [List.nil_append, List.take_succ_cons, is_chain_cons]
    exact ⟨rfl, hne, hlt, nb, hfat1f, hnb0, hch⟩
  · rw [List.drop_succ_cons]; exact hfr
  · rw [hfl, List.length_set, List.length_set]
  · rw [hdl, List.length_set]
  · intro j hj1 hj2
    rw [List.take_succ_cons, List.mem_cons, not_or] at hj2
    have hjf : j ≠ f := fun h => hj1 (by rw [h]; exact List.mem_cons_self _ _)
    rw [hff j (fun h => hj2.1 (List.mem_singleton.1 h)) hj2.2,
      List.getElem?_set_ne (fun h => hj2.1 h.symm), List.getElem?_set_ne (fun h => hjf h.symm)]
  · intro n hn
    rw [List.nil_append, List.take_succ_cons] at hn
    rw [hdf n (fun b hb => hn b (List.mem_cons_of_mem _ hb)),
      List.getElem?_set_ne (fun h => hn f (List.mem_cons_self _ _) h.symm)]
  · rw [List.nil_append, List.take_succ_cons]
    apply chain_bytes_step disk disk1 di f _ old data bo _ r hold hlen hfit hdisk1f
    rw [hcb]
    congr 1
    apply chain_bytes_congr
    intro b hb
    have hbf : b ≠ f := fun h => hfk (h ▸ hb)
    rw [List.getElem?_set_ne (fun h => hbf (Nat.add_left_cancel h).symm)]
  · rw [List.length_nil, hK2]
    exact stored_alloc_le tc bo _ _ r htc hs1
  · intro _
    rw [List.length_nil, hK3]
    exact stored_alloc_gt tw tc bo _ _ _ k r htc hBS hmore hr hs2
      (fun h => by rw [h, Nat.zero_mul])

/-- The main loop of `fs_write`, entered at a slot of a chain that reaches
`FAT_EOC`, with `tw` bytes to store from offset `co`: it is left by its
condition or its `break`, never by a failed device call, and leaves behind what
`write_post` says. -/
theorem write_loop_spec (c : Consts) (di dc : Nat) (hBS : 0 < c.BLOCK_SIZE) (hdc : dc ≤ 65535) :
    ∀ (fuel : Nat) (data : List Nat) (tw co act f : Nat) (rest F : List Nat) (fat : List Nat)
      (disk : List (List Nat)),
      is_chain fat dc f (f :: rest) = true → free_slots fat dc = F → 0 ∉ F →
      dc ≤ fat.length → di + dc ≤ disk.length → (∀ blk ∈ disk, blk.length = c.BLOCK_SIZE) →
      tw ≤ data.length → tw < fuel → 0 < tw → co + tw < 2 ^ 64 → act + tw < 2 ^ 64 →
      ∃ (k : Nat) (fat1 : List Nat) (disk1 : List (List Nat)) (r : Nat),
        write_loop c di dc fuel data tw co act f fat disk =
          some (write_exit.finished (co + r) (act + r) fat1 disk1) ∧
        write_post c di dc data tw (co % c.BLOCK_SIZE) f rest F fat disk k fat1 disk1 r := by
  intro fuel
  induction fuel with
  | zero => intro data tw co act f rest F fat disk _ _ _ _ _ _ _ hfuel; exact absurd hfuel (Nat.not_lt_zero _)
  | succ fuel ih =>
    intro data tw co act f rest F fat disk hchain hF h0 hdcfat hdisk hblk hdata hfuel htw hco hact
    have hchain0 := hchain
    rw [is_chain_cons] at hchain
    obtain ⟨_, hne, hlt, v, hv, hv0, hrest⟩ := hchain
    have hbo : co % c.BLOCK_SIZE < c.BLOCK_SIZE := Nat.mod_lt _ hBS
    have hin : di + f < disk.length := Nat.lt_of_lt_of_le (Nat.add_lt_add_left hlt di) hdisk
    have hold : disk[di + f]? = some disk[di + f] := List.getElem?_eq_getElem hin
    have holdlen : (disk[di + f]).length = c.BLOCK_SIZE := hblk _ (List.getElem_mem hin)
    have hflt : f < fat.length := Nat.lt_of_lt_of_le hlt hdcfat
    have hone := block_count_one rest.length F.length c.BLOCK_SIZE
    by_cases hlast : tw ≤ c.BLOCK_SIZE - co % c.BLOCK_SIZE
    · -- the pass stores the last bytes
      have hwb := write_block_eq c disk (di + f) (co % c.BLOCK_SIZE) tw data _ hold holdlen hdata
      have hf1 : 1 ≤ fuel := Nat.le_trans htw (Nat.lt_succ_iff.1 hfuel)
      obtain ⟨fuel1, rfl⟩ : ∃ fuel1, fuel = fuel1 + 1 :=
        ⟨fuel - 1, (Nat.sub_add_cancel hf1).symm⟩
      refine ⟨0, fat, _, tw,
        write_loop_last c di dc fuel1 data tw co act f fat disk _ htw hlast hdata hwb hco hact,
        write_post_last c di dc data tw _ tw f rest F fat disk _ hchain0 hF hdisk hblk hold
          ?_ hdata ?_⟩
      · exact (Nat.le_sub_iff_add_le' (Nat.le_of_lt hbo)).1 hlast
      · rw [hone]
        exact stored_last tw _ _ _ hlast hbo
    · -- the pass fills its block and more bytes are left
      have hmore : c.BLOCK_SIZE - co % c.BLOCK_SIZE < tw := Nat.lt_of_not_le hlast
      have htcd : c.BLOCK_SIZE - co % c.BLOCK_SIZE ≤ data.length :=
        Nat.le_trans (Nat.le_of_lt hmore) hdata
      have hwb := write_block_eq c disk (di + f) (co % c.BLOCK_SIZE)
        (c.BLOCK_SIZE - co % c.BLOCK_SIZE) data _ hold holdlen htcd
      have hmod := offset_after_block co c.BLOCK_SIZE hBS
      have hbt : co % c.BLOCK_SIZE + (c.BLOCK_SIZE - co % c.BLOCK_SIZE) = c.BLOCK_SIZE :=
        Nat.add_sub_cancel' (Nat.le_of_lt hbo)
      have hnewlen : (store_bytes disk[di + f] (co % c.BLOCK_SIZE)
          (data.take (c.BLOCK_SIZE - co % c.BLOCK_SIZE))).length = c.BLOCK_SIZE := by
        rw [store_bytes_length _ _ _ (by
          rw [List.length_take, Nat.min_eq_left htcd, hbt, holdlen]), holdlen]
      have hblk1 := mem_set_block c disk (di + f) _ hblk hnewlen
      have hdisk1 : di + dc ≤ (disk.set (di + f) (store_bytes disk[di + f] (co % c.BLOCK_SIZE)
          (data.take (c.BLOCK_SIZE - co % c.BLOCK_SIZE)))).length := by
        rw [List.length_set]; exact hdisk
      have hdrop : tw - (c.BLOCK_SIZE - co % c.BLOCK_SIZE)
          ≤ (data.drop (c.BLOCK_SIZE - co % c.BLOCK_SIZE)).length := by
        rw [List.length_drop]; exact Nat.sub_le_sub_right hdata _
      have hfuel1 : tw - (c.BLOCK_SIZE - co % c.BLOCK_SIZE) < fuel :=
        Nat.lt_of_lt_of_le (Nat.sub_lt htw (Nat.sub_pos_of_lt hbo)) (Nat.lt_succ_iff.1 hfuel)
      have hpos : 0 < tw - (c.BLOCK_SIZE - co % c.BLOCK_SIZE) := Nat.sub_pos_of_lt hmore
      have hco1 := no_wrap_step co tw _ hco (Nat.le_of_lt hmore)
      have hact1 := no_wrap_step act tw _ hact (Nat.le_of_lt hmore)
      by_cases hveoc : v = FAT_EOC
      · -- the chain ends here
        subst hveoc
        have hrest0 := is_chain_eoc fat dc rest hrest
        subst hrest0
        have hscan := find_free_block_eq fat dc hdcfat
        rw [hF] at hscan
        cases F with
        | nil =>
          refine ⟨0, fat, _, c.BLOCK_SIZE - co % c.BLOCK_SIZE,
            write_loop_full c di dc fuel data tw co act f fat disk _ hmore hdata hwb hv hscan hco
              hact,
            write_post_last c di dc data tw _ _ f [] [] fat disk _ hchain0 hF hdisk hblk hold
              (Nat.le_of_eq hbt) htcd ?_⟩
          rw [List.length_nil, Nat.add_zero, Nat.one_mul]
          exact stored_full tw _ _ hmore
        | cons nb F1 =>
          have hnbmem : nb ∈ free_slots fat dc := by rw [hF]; exact List.mem_cons_self _ _
          rw [mem_free_slots] at hnbmem
          have hnb0 : nb ≠ 0 := fun h => h0 (by rw [h]; exact List.mem_cons_self _ _)
          have hnbe : nb ≠ FAT_EOC := by
            intro h
            have h1 := Nat.lt_of_lt_of_le hnbmem.1 hdc
            rw [h] at h1
            exact absurd h1 (by decide)
          have hnbf : nb ≠ f := by
            intro h
            rw [h, hv] at hnbmem
            exact absurd hnbmem.2 (by decide)
          have hnblt : nb < fat.length := Nat.lt_of_lt_of_le hnbmem.1 hdcfat
          have hfat2f : ((fat.set f nb).set nb FAT_EOC)[f]? = some nb := by
            rw [List.getElem?_set_ne hnbf, List.getElem?_set_self hflt]
          have hfat2nb : ((fat.set f nb).set nb FAT_EOC)[nb]? = some FAT_EOC := by
            rw [List.getElem?_set_self (by rw [List.length_set]; exact hnblt)]
          have hF2 : free_slots ((fat.set f nb).set nb FAT_EOC) dc = F1 := by
            apply free_slots_after fat _ dc nb f F1 hF
            · intro i h1 h2
              rw [List.getElem?_set_ne (fun h => h1 h.symm),
                List.getElem?_set_ne (fun h => h2 h.symm)]
            · rw [hfat2nb]; decide
            · rw [hfat2f]; exact fun h => hnb0 (Option.some.inj h)
            · intro _; rw [hv]; decide
          have hchain2 : is_chain ((fat.set f nb).set nb FAT_EOC) dc nb [nb] = true := by
            rw [is_chain_cons]
            exact ⟨rfl, hnbe, hnbmem.1, FAT_EOC, hfat2nb, by decide, by rw [is_chain_nil]⟩
          obtain ⟨k, fat1, disk1, r, hrun, hpost⟩ :=
            ih (data.drop (c.BLOCK_SIZE - co % c.BLOCK_SIZE))
              (tw - (c.BLOCK_SIZE - co % c.BLOCK_SIZE))
              (co + (c.BLOCK_SIZE - co % c.BLOCK_SIZE))
              (act + (c.BLOCK_SIZE - co % c.BLOCK_SIZE)) nb [] F1
              ((fat.set f nb).set nb FAT_EOC)
              (disk.set (di + f) (store_bytes disk[di + f] (co % c.BLOCK_SIZE)
                (data.take (c.BLOCK_SIZE - co % c.BLOCK_SIZE))))
              hchain2 hF2 (fun h => h0 (List.mem_cons_of_mem _ h))
              (by rw [List.length_set, List.length_set]; exact hdcfat) hdisk1 hblk1
              hdrop hfuel1 hpos hco1 hact1
          rw [hmod] at hpost
          refine ⟨k + 1, fat1, disk1, c.BLOCK_SIZE - co % c.BLOCK_SIZE + r, ?_,
            write_post_alloc c di dc data tw _ _ f nb F1 fat disk _ k fat1 disk1 r hchain0 hF h0
              hdisk hold holdlen hbt hmore hdata hBS hpost⟩
          rw [write_loop_alloc c di dc fuel data tw co act f nb fat disk _ hmore hdata hwb hv
            hscan hnbe hflt hnblt hnbf hco hact, hrun, Nat.add_assoc, Nat.add_assoc]
      · -- the chain goes on
        obtain ⟨rest1, hrest1⟩ := is_chain_ne_eoc fat dc v rest hveoc hrest
        subst hrest1
        obtain ⟨k, fat1, disk1, r, hrun, hpost⟩ :=
          ih (data.drop (c.BLOCK_SIZE - co % c.BLOCK_SIZE))
            (tw - (c.BLOCK_SIZE - co % c.BLOCK_SIZE))
            (co + (c.BLOCK_SIZE - co % c.BLOCK_SIZE))
            (act + (c.BLOCK_SIZE - co % c.BLOCK_SIZE)) v rest1 F fat
            (disk.set (di + f) (store_bytes disk[di + f] (co % c.BLOCK_SIZE)
              (data.take (c.BLOCK_SIZE - co % c.BLOCK_SIZE))))
            hrest hF h0 hdcfat hdisk1 hblk1 hdrop hfuel1 hpos hco1 hact1
        rw [hmod] at hpost
        refine ⟨k, fat1, disk1, c.BLOCK_SIZE - co % c.BLOCK_SIZE + r, ?_,
          write_post_next c di dc data tw _ f v rest1 F fat disk _ k fat1 disk1 r hchain0 hF
            hdisk hold holdlen hbo hmore hdata hpost⟩
        rw [write_loop_next c di dc fuel data tw co act f v fat disk _ hmore hdata hwb hv hveoc
          hco hact, hrun, Nat.add_assoc, Nat.add_assoc]

/-! ## Around the main loop of fs_write -/

theorem set_same {α : Type} (xs : List α) (i : Nat) (x : α) (h : xs[i]? = some x) :
    xs.set i x = xs := by
  induction xs generalizing i with
  | nil => rfl
  | cons a as ih =>
    cases i with
    | zero =>
      rw [List.getElem?_cons_zero] at h
      cases h
      rfl
    | succ i =>
      rw [List.getElem?_cons_succ] at h
      rw [List.set_cons_succ, ih i h]

theorem getElem?_lt_length {α : Type} (xs : List α) (i : Nat) (x : α) (h : xs[i]? = some x) :
    i < xs.length := by
  by_contra hcon
  rw [List.getElem?_eq_none (Nat.le_of_not_lt hcon)] at h
  cases h

/-- The loop that looks for the last block of a chain ends at the last slot of
the chain. -/
theorem last_block_spec (fat : List Nat) (dc : Nat) (l : List Nat) :
    ∀ (a p : Nat) (fuel : Nat), is_chain fat dc a l = true → l.getLast? = some p →
      l.length ≤ fuel → last_block fat fuel a = some p := by
  induction l with
  | nil => intro a p fuel _ hp; cases hp
  | cons b l ih =>
    intro a p fuel hchain hp hfuel
    rw [is_chain_cons] at hchain
    obtain ⟨ha, _, _, v, hv, _, hrest⟩ := hchain
    subst ha
    obtain ⟨fuel1, rfl⟩ : ∃ fuel1, fuel = fuel1 + 1 :=
      ⟨fuel - 1, (Nat.sub_add_cancel (Nat.le_trans (Nat.succ_le_succ (Nat.zero_le _)) hfuel)).symm⟩
    rw [last_block, hv]
    cases l with
    | nil =>
      rw [is_chain_nil] at hrest
      rw [List.getLast?_singleton] at hp
      cases hp
      simp only [hrest, if_true]
    | cons b2 l2 =>
      have hne : v ≠ FAT_EOC := by
        rw [is_chain_cons] at hrest
        rw [hrest.1]; exact hrest.2.1
      simp only [hne, if_false]
      apply ih v p fuel1 hrest
      · rw [List.getLast?_cons_cons] at hp; exact hp
      · exact Nat.le_of_succ_le_succ hfuel

/-- A chain cut in two: the second part is a chain from the slot it starts at,
and the first part leads there in every table that has the same links in the
slots of the first part. -/
theorem is_chain_split (fat : List Nat) (dc : Nat) (p : List Nat) :
    ∀ (a : Nat) (q : List Nat), is_chain fat dc a (p ++ q) = true →
      ∃ m, is_chain fat dc m q = true ∧
        ∀ (fat1 : List Nat) (q1 : List Nat), (∀ j ∈ p, fat1[j]? = fat[j]?) →
          is_chain fat1 dc m q1 = true → is_chain fat1 dc a (p ++ q1) = true := by
  induction p with
  | nil =>
    intro a q h
    exact ⟨a, h, fun fat1 q1 _ h1 => h1⟩
  | cons b p ih =>
    intro a q h
    rw [List.cons_append, is_chain_cons] at h
    obtain ⟨ha, hne, hlt, v, hv, hv0, hrest⟩ := h
    obtain ⟨m, hm, hglue⟩ := ih v q hrest
    refine ⟨m, hm, fun fat1 q1 hsame h1 => ?_⟩
    rw [List.cons_append, is_chain_cons]
    refine ⟨ha, hne, hlt, v, ?_, hv0, hglue fat1 q1 (fun j hj => hsame j (List.mem_cons_of_mem _ hj)) h1⟩
    rw [hsame b (List.mem_cons_self _ _), hv]

/-- The slot at which the second part of a chain starts. -/
theorem is_chain_split_head (fat : List Nat) (dc a : Nat) (p q : List Nat) (m1 m2 : Nat)
    (_h : is_chain fat dc a (p ++ q) = true)
    (h1 : is_chain fat dc m1 q = true) (h2 : is_chain fat dc m2 q = true) : m1 = m2 := by
  cases q with
  | nil =>
    rw [is_chain_nil] at h1 h2
    rw [h1, h2]
  | cons b q =>
    rw [is_chain_head fat dc m1 b q h1, is_chain_head fat dc m2 b q h2]

/-- What the main loop of `fs_write` and the statements after it return. -/
theorem write_from_eq (c : Consts) (s2 : State) (fd : Int) (h : open_file_entry)
    (file_size f : Nat) (data : List Nat) (count r : Nat) (fat1 : List Nat)
    (disk1 : List (List Nat)) (e2 : root_entry)
    (hrun : write_loop c s2.fs.sb.data_index s2.fs.sb.data_count (count + 1) data count
      h.offset 0 f s2.fs.fat s2.disk =
        some (write_exit.finished (h.offset + r) (0 + r) fat1 disk1))
    (he2 : root_at s2.fs.root h.root_index = some e2) (hr31 : h.offset + r < 2 ^ 31) :
    write_from c s2 fd h file_size f data count =
      some ((r : Int),
        { fs := { s2.fs with
                  fat := fat1
                  root := if h.offset + r > file_size then
                      s2.fs.root.set h.root_index.toNat { e2 with size := h.offset + r }
                    else s2.fs.root }
          oft := s2.oft.set fd.toNat { h with offset := h.offset + r }
          disk := disk1 }) := by
  have h1 : to_u32 (h.offset + r) = h.offset + r := by
    unfold to_u32
    exact Nat.mod_eq_of_lt (Nat.lt_trans hr31 (by decide))
  have h2 : to_int (0 + r) = (r : Int) := by
    rw [Nat.zero_add]
    exact to_int_of_lt r (Nat.lt_of_le_of_lt (Nat.le_add_left _ _) hr31)
  unfold write_from
  rw [hrun]
  simp only [he2, h1, h2]

/-! ## fs_write, case by case -/

theorem root_at_some (root : List root_entry) (k : Int) (e : root_entry)
    (h : root_at root k = some e) : 0 ≤ k ∧ root[k.toNat]? = some e := by
  unfold root_at at h
  by_cases hk : k < 0
  · rw [if_pos hk] at h; cases h
  · rw [if_neg hk] at h
    exact ⟨Int.not_lt.1 hk, h⟩

theorem chain_headD (fat : List Nat) (dc a : Nat) (l : List Nat)
    (h : is_chain fat dc a l = true) : l.headD FAT_EOC = a := by
  cases l with
  | nil => rw [is_chain_nil] at h; rw [h]; rfl
  | cons b l => rw [is_chain_head fat dc a b l h]; rfl

theorem entry_eta (e : root_entry) : { e with data_index := e.data_index, size := e.size } = e := by
  cases e
  rfl

theorem size_t_add_zero (a : Nat) (h : a < 2 ^ 64) : size_t_add a 0 = a := by
  unfold size_t_add
  rw [Nat.add_zero]
  exact Nat.mod_eq_of_lt h

/-- The start of `fs_write` when no block has to be added before the main
loop. -/
theorem fs_write_no_extend (c : Consts) (fuel : Nat) (s : State) (fd : Int)
    (h : open_file_entry) (e : root_entry) (data : List Nat) (count f : Nat)
    (hh : handle_of c s fd = some (some h)) (he : root_at s.fs.root h.root_index = some e)
    (hstart : (if e.size = 0 ∨ e.data_index = FAT_EOC then some FAT_EOC
      else walk s.fs.fat (h.offset / c.BLOCK_SIZE) e.data_index) = some f)
    (hno : ¬ (f = FAT_EOC ∧ h.offset < size_t_add e.size count)) :
    fs_write c fuel s fd (some data) count = write_from c s fd h e.size f data count := by
  unfold fs_write
  simp only [hh, he, hstart]
  rw [if_neg hno]

/-- The start of `fs_write` when a block has to be added and none is free. -/
theorem fs_write_no_space (c : Consts) (fuel : Nat) (s : State) (fd : Int)
    (h : open_file_entry) (e : root_entry) (data : List Nat) (count prev : Nat)
    (hh : handle_of c s fd = some (some h)) (he : root_at s.fs.root h.root_index = some e)
    (hstart : (if e.size = 0 ∨ e.data_index = FAT_EOC then some FAT_EOC
      else walk s.fs.fat (h.offset / c.BLOCK_SIZE) e.data_index) = some FAT_EOC)
    (hext : h.offset < size_t_add e.size count)
    (hprev : (if e.size > 0 ∧ e.data_index ≠ FAT_EOC then last_block s.fs.fat fuel e.data_index
      else some FAT_EOC) = some prev)
    (hscan : find_free_block s.fs.fat s.fs.sb.data_count = some none) :
    fs_write c fuel s fd (some data) count = some (0, s) := by
  unfold fs_write
  simp only [hh, he, hstart, hext, hprev, hscan, and_self, if_true, Option.getD_none, to_int_zero]

/-- The start of `fs_write` when the first block of a file is added. -/
theorem fs_write_extend_head (c : Consts) (fuel : Nat) (s : State) (fd : Int)
    (h : open_file_entry) (e : root_entry) (data : List Nat) (count nb : Nat)
    (hh : handle_of c s fd = some (some h)) (he : root_at s.fs.root h.root_index = some e)
    (hstart : (if e.size = 0 ∨ e.data_index = FAT_EOC then some FAT_EOC
      else walk s.fs.fat (h.offset / c.BLOCK_SIZE) e.data_index) = some FAT_EOC)
    (hext : h.offset < size_t_add e.size count)
    (hprev : (if e.size > 0 ∧ e.data_index ≠ FAT_EOC then last_block s.fs.fat fuel e.data_index
      else some FAT_EOC) = some FAT_EOC)
    (hscan : find_free_block s.fs.fat s.fs.sb.data_count = some (some nb))
    (hnbe : nb ≠ FAT_EOC) (hnblt : nb < s.fs.fat.length) :
    fs_write c fuel s fd (some data) count =
      write_from c
        { s with fs := { s.fs with
                         fat := s.fs.fat.set nb FAT_EOC
                         root := s.fs.root.set h.root_index.toNat { e with data_index := nb } } }
        fd h e.size nb data count := by
  unfold fs_write
  simp only [hh, he, hstart, hext, hprev, hscan, and_self, if_true, Option.getD_some, hnbe,
    if_false, store, hnblt]

/-- The start of `fs_write` when a block is added after the last block of a
file. -/
theorem fs_write_extend_append (c : Consts) (fuel : Nat) (s : State) (fd : Int)
    (h : open_file_entry) (e : root_entry) (data : List Nat) (count nb prev : Nat)
    (hh : handle_of c s fd = some (some h)) (he : root_at s.fs.root h.root_index = some e)
    (hstart : (if e.size = 0 ∨ e.data_index = FAT_EOC then some FAT_EOC
      else walk s.fs.fat (h.offset / c.BLOCK_SIZE) e.data_index) = some FAT_EOC)
    (hext : h.offset < size_t_add e.size count)
    (hprev : (if e.size > 0 ∧ e.data_index ≠ FAT_EOC then last_block s.fs.fat fuel e.data_index
      else some FAT_EOC) = some prev)
    (hscan : find_free_block s.fs.fat s.fs.sb.data_count = some (some nb))
    (hnbe : nb ≠ FAT_EOC) (hnblt : nb < s.fs.fat.length) (hpe : prev ≠ FAT_EOC)
    (hplt : prev < s.fs.fat.length) :
    fs_write c fuel s fd (some data) count =
      write_from c { s with fs := { s.fs with fat := (s.fs.fat.set nb FAT_EOC).set prev nb } }
        fd h e.size nb data count := by
  unfold fs_write
  simp only [hh, he, hstart, hext, hprev, hscan, and_self, if_true, Option.getD_some, hnbe,
    if_false, store, hnblt, hpe, List.length_set, hplt]

theorem write_ready_handle (c : Consts) (s : State) (fd : Int) (h : open_file_entry)
    (e : root_entry) (l : List Nat) (H : write_ready c s fd h e l) :
    handle_of c s fd = some (some h) :=
  handle_of_ok c s fd h H.mounted H.fd_nonneg H.fd_lt H.handle H.handle_used

theorem write_ready_size (c : Consts) (s : State) (fd : Int) (h : open_file_entry)
    (e : root_entry) (l : List Nat) (H : write_ready c s fd h e l) : e.size < 2 ^ 31 :=
  Nat.lt_of_le_of_lt H.capacity
    (chain_capacity_lt c _ _ _ l H.sizes_fit_int H.data_count_le H.chain)

/-- Where the walk to the starting block of `fs_write` ends: at `FAT_EOC` when
the offset lies after the last block of the chain, else at the slot of the block
that holds the offset. -/
theorem write_start (c : Consts) (s : State) (fd : Int) (h : open_file_entry)
    (e : root_entry) (l : List Nat) (H : write_ready c s fd h e l) :
    ∃ f, (if e.size = 0 ∨ e.data_index = FAT_EOC then some FAT_EOC
        else walk s.fs.fat (h.offset / c.BLOCK_SIZE) e.data_index) = some f ∧
      is_chain s.fs.fat s.fs.sb.data_count f (l.drop (h.offset / c.BLOCK_SIZE)) = true := by
  by_cases hc : e.size = 0 ∨ e.data_index = FAT_EOC
  · have hl : l = [] := by
      rcases hc with h0 | h0
      · exact H.empty_no_block h0
      · have := H.chain
        rw [h0] at this
        exact is_chain_eoc _ _ l this
    refine ⟨FAT_EOC, by rw [if_pos hc], ?_⟩
    rw [hl, List.drop_nil, is_chain_nil]
  · obtain ⟨f, hf1, hf2⟩ := walk_spec s.fs.fat s.fs.sb.data_count (h.offset / c.BLOCK_SIZE)
      e.data_index l H.chain
    exact ⟨f, by rw [if_neg hc]; exact hf1, hf2⟩

theorem div_lt_of_lt_mul (off bs n x : Nat) (hbs : 0 < bs) (h1 : off < x) (h2 : x ≤ n * bs) :
    off / bs < n := by
  rw [Nat.div_lt_iff_lt_mul hbs]
  omega

/-- A call with `count` 0 stores nothing and changes nothing. -/
theorem fs_write_case_zero (c : Consts) (s : State) (fd : Int) (h : open_file_entry)
    (e : root_entry) (l : List Nat) (data : List Nat) (H : write_ready c s fd h e l) :
    write_result c s fd h e l data 0 0 s.fs.fat s.disk 0 := by
  have hh := write_ready_handle c s fd h e l H
  have hsz := write_ready_size c s fd h e l H
  have hroot := (root_at_some _ _ _ H.entry).2
  obtain ⟨f, hstart, hf⟩ := write_start c s fd h e l H
  have hno : ¬ (f = FAT_EOC ∧ h.offset < size_t_add e.size 0) := by
    rw [size_t_add_zero _ (Nat.lt_trans hsz (by decide))]
    rintro ⟨hfe, hlt⟩
    rw [hfe] at hf
    have hd := is_chain_eoc _ _ _ hf
    have hk := div_lt_of_lt_mul h.offset c.BLOCK_SIZE l.length e.size H.block_size_pos hlt
      H.capacity
    have hlen := congrArg List.length hd
    rw [List.length_drop, List.length_nil] at hlen
    omega
  have hrun : write_loop c s.fs.sb.data_index s.fs.sb.data_count (0 + 1) data 0 h.offset 0 f
      s.fs.fat s.disk = some (write_exit.finished (h.offset + 0) (0 + 0) s.fs.fat s.disk) := by
    rw [write_loop]
    simp only [if_true, Nat.add_zero]
  have hhead := chain_headD _ _ _ _ H.chain
  have hmax : max e.size (h.offset + 0) = e.size := by
    rw [Nat.add_zero]; exact Nat.max_eq_left H.offset_le
  refine ⟨(Nat.zero_min _).symm, fun fuel _ => ?_, Nat.zero_le _, ?_, ?_, rfl, rfl, H.block_length,
    fun j _ _ => rfl, fun n _ => rfl, ?_, ?_, fun hk => absurd hk (lt_irrefl 0)⟩
  · rw [fs_write_no_extend c fuel s fd h e data 0 f hh H.entry hstart hno,
      write_from_eq c s fd h e.size f data 0 0 s.fs.fat s.disk e hrun H.entry
        (by rw [Nat.add_zero]; exact Nat.lt_of_le_of_lt H.offset_le hsz)]
    rw [if_neg (by rw [Nat.add_zero]; exact Nat.not_lt.2 H.offset_le), List.take_zero,
      List.append_nil, hhead, hmax, entry_eta, set_same _ _ _ hroot]
  · rw [List.take_zero, List.append_nil, hhead]; exact H.chain
  · rw [List.drop_zero]
  · simp only [List.take_zero, store_bytes_nil]
  · rw [hmax, Nat.add_zero]; exact H.capacity

/-! ## fs_write from an offset inside the chain -/

theorem room_inside (L k0 rl Fn bs off : Nat) (h1 : k0 + (1 + rl) = L)
    (hoff : k0 * bs + off % bs = off) :
    (1 + rl + Fn) * bs - off % bs = (L + Fn) * bs - off := by
  subst h1
  have e : (k0 + (1 + rl) + Fn) * bs = (1 + rl + Fn) * bs + k0 * bs := by ring
  rw [e]
  omega

theorem end_inside (L k0 rl k bs off r : Nat) (h1 : k0 + (1 + rl) = L)
    (hoff : k0 * bs + off % bs = off) (hs : off % bs + r ≤ (1 + rl + k) * bs) :
    off + r ≤ (L + k) * bs := by
  subst h1
  have e : (k0 + (1 + rl) + k) * bs = (1 + rl + k) * bs + k0 * bs := by ring
  rw [e]
  omega

theorem gt_inside (L k0 rl k bs off r : Nat) (h1 : k0 + (1 + rl) = L)
    (hoff : k0 * bs + off % bs = off) (hs : (rl + k) * bs < off % bs + r) :
    (L + k - 1) * bs < off + r := by
  subst h1
  have e : k0 + (1 + rl) + k - 1 = k0 + (rl + k) := by omega
  rw [e, Nat.add_mul]
  omega

theorem drop_length_cons (l : List Nat) (k b : Nat) (rest : List Nat)
    (h : l.drop k = b :: rest) : k + (1 + rest.length) = l.length := by
  have := congrArg List.length h
  rw [List.length_drop, List.length_cons] at this
  omega

theorem drop_ne_nil (l : List Nat) (k : Nat) (h : k < l.length) :
    ∃ b rest, l.drop k = b :: rest := by
  cases hd : l.drop k with
  | nil =>
    have := congrArg List.length hd
    rw [List.length_drop, List.length_nil] at this
    omega
  | cons b rest => exact ⟨b, rest, rfl⟩

theorem no_wrap_count (off count : Nat) (h1 : off < 2 ^ 31) (h2 : count < 2 ^ 63) :
    off + count < 2 ^ 64 := by
  omega

theorem zero_count (count : Nat) (h2 : count < 2 ^ 63) : 0 + count < 2 ^ 64 := by
  omega

theorem mul_le_add_mul (L k bs x : Nat) (h : x ≤ L * bs) : x ≤ (L + k) * bs := by
  rw [Nat.add_mul]
  omega

/-- A slot of a chain is not a free slot. -/
theorem chain_not_free (fat : List Nat) (dc a : Nat) (l : List Nat)
    (h : is_chain fat dc a l = true) (b : Nat) (hb : b ∈ l) : b ∉ free_slots fat dc := by
  intro hf
  obtain ⟨_, _, v, hv, hv0⟩ := is_chain_mem fat dc l a h b hb
  rw [mem_free_slots, hv] at hf
  exact hv0 (Option.some.inj hf.2)

/-- The state after a write that did not change the first block of the
entry, in the form `write_result` gives it. -/
theorem root_after_write (root : List root_entry) (i : Nat) (e : root_entry) (off r : Nat)
    (hroot : root[i]? = some e) :
    (if off + r > e.size then root.set i { e with size := off + r } else root) =
      root.set i { e with data_index := e.data_index, size := max e.size (off + r) } := by
  by_cases hgt : off + r > e.size
  · rw [if_pos hgt, Nat.max_eq_right (Nat.le_of_lt hgt)]
  · rw [if_neg hgt, Nat.max_eq_left (Nat.not_lt.1 hgt), entry_eta, set_same _ _ _ hroot]

theorem fs_write_case_inside (c : Consts) (s : State) (fd : Int) (h : open_file_entry)
    (e : root_entry) (l : List Nat) (data : List Nat) (count : Nat)
    (H : write_ready c s fd h e l) (hdata : count ≤ data.length) (hcount : count < 2 ^ 63)
    (hpos : 0 < count) (hin : h.offset / c.BLOCK_SIZE < l.length) :
    ∃ k fat1 disk1 r, write_result c s fd h e l data count k fat1 disk1 r := by
  have hh := write_ready_handle c s fd h e l H
  have hsz := write_ready_size c s fd h e l H
  have hroot := (root_at_some _ _ _ H.entry).2
  obtain ⟨f, hstart, hf⟩ := write_start c s fd h e l H
  obtain ⟨b, rest, hdrop⟩ := drop_ne_nil l _ hin
  rw [hdrop] at hf
  have hfb := is_chain_head _ _ _ _ _ hf
  subst hfb
  have hlne : l ≠ [] := by
    intro h0
    rw [h0] at hin
    exact Nat.not_lt_zero _ hin
  have h0F : 0 ∉ free_slots s.fs.fat s.fs.sb.data_count := H.slot_zero.resolve_left hlne
  have hfe : f ≠ FAT_EOC := ((is_chain_cons _ _ _ _ _).1 hf).2.1
  have hno : ¬ (f = FAT_EOC ∧ h.offset < size_t_add e.size count) := fun hx => hfe hx.1
  have hoffsz : h.offset < 2 ^ 31 := Nat.lt_of_le_of_lt H.offset_le hsz
  obtain ⟨k, fat1, disk1, r, hrun, hpost⟩ := write_loop_spec c s.fs.sb.data_index
    s.fs.sb.data_count H.block_size_pos H.data_count_le (count + 1) data count h.offset 0 f rest
    _ s.fs.fat s.disk hf rfl h0F H.fat_length H.disk_length H.block_length hdata
    (Nat.lt_succ_self _) hpos (no_wrap_count _ _ hoffsz hcount) (zero_count _ hcount)
  obtain ⟨hr, hk, hchain1, hfree1, hfl, hdl, hblk1, hff, hdf, hcb, hs1, hs2⟩ := hpost
  have hlen := drop_length_cons l _ f rest hdrop
  have hoffeq : h.offset / c.BLOCK_SIZE * c.BLOCK_SIZE + h.offset % c.BLOCK_SIZE = h.offset := by
    rw [Nat.mul_comm]
    exact Nat.div_add_mod _ _
  have hl : l.take (h.offset / c.BLOCK_SIZE) ++ f :: rest = l := by
    rw [← hdrop]
    exact List.take_append_drop _ _
  have hnodup := is_chain_nodup _ _ l _ H.chain
  have hdisj : ∀ j ∈ l.take (h.offset / c.BLOCK_SIZE), j ∉ f :: rest := by
    intro j hj hj2
    have hd := List.disjoint_take_drop hnodup (Nat.le_refl (h.offset / c.BLOCK_SIZE))
    rw [hdrop] at hd
    exact hd hj hj2
  have hnotfree : ∀ j ∈ l,
      j ∉ (free_slots s.fs.fat s.fs.sb.data_count).take k := fun j hj hj2 =>
    chain_not_free _ _ _ _ H.chain j hj (List.mem_of_mem_take hj2)
  have hpre_same : ∀ j ∈ l.take (h.offset / c.BLOCK_SIZE), fat1[j]? = s.fs.fat[j]? :=
    fun j hj => hff j (hdisj j hj) (hnotfree j (List.mem_of_mem_take hj))
  have hlk : l ++ (free_slots s.fs.fat s.fs.sb.data_count).take k =
      l.take (h.offset / c.BLOCK_SIZE) ++
        f :: (rest ++ (free_slots s.fs.fat s.fs.sb.data_count).take k) := by
    rw [← List.cons_append, ← List.append_assoc, hl]
  obtain ⟨m, hm, hglue⟩ := is_chain_split s.fs.fat s.fs.sb.data_count
    (l.take (h.offset / c.BLOCK_SIZE)) e.data_index (f :: rest) (by rw [hl]; exact H.chain)
  have hmf := (is_chain_head _ _ _ _ _ hm).symm
  subst hmf
  have hnew : is_chain fat1 s.fs.sb.data_count e.data_index
      (l ++ (free_slots s.fs.fat s.fs.sb.data_count).take k) = true := by
    rw [hlk]
    exact hglue fat1 _ hpre_same hchain1
  have hhead := chain_headD _ _ _ _ hnew
  have hend : h.offset + r ≤ (l.length + k) * c.BLOCK_SIZE :=
    end_inside _ _ _ _ _ _ _ hlen hoffeq hs1
  have hnewlen : (l ++ (free_slots s.fs.fat s.fs.sb.data_count).take k).length =
      l.length + k := by
    rw [List.length_append, List.length_take, Nat.min_eq_left hk]
  have hr31 : h.offset + r < 2 ^ 31 := by
    have := chain_capacity_lt c _ _ _ _ H.sizes_fit_int H.data_count_le hnew
    rw [hnewlen] at this
    exact Nat.lt_of_le_of_lt hend this
  have hpre_disk : ∀ b ∈ l.take (h.offset / c.BLOCK_SIZE),
      disk1[s.fs.sb.data_index + b]? = s.disk[s.fs.sb.data_index + b]? := by
    intro b hb
    apply hdf
    intro b2 hb2 heq
    have hbb : b = b2 := Nat.add_left_cancel heq
    subst hbb
    rw [← List.cons_append] at hb2
    rcases List.mem_append.1 hb2 with h1 | h1
    · exact hdisj b hb h1
    · exact hnotfree b (List.mem_of_mem_take hb) h1
  have hpl : (chain_bytes s.disk s.fs.sb.data_index (l.take (h.offset / c.BLOCK_SIZE))).length +
      h.offset % c.BLOCK_SIZE = h.offset := by
    rw [chain_bytes_length c _ _ _ H.block_length, List.length_take,
      Nat.min_eq_left (Nat.le_of_lt hin)]
    · exact hoffeq
    · intro b hb
      have hb2 := (is_chain_mem _ _ l _ H.chain b (List.mem_of_mem_take hb)).2.1
      exact Nat.lt_of_lt_of_le (Nat.add_lt_add_left hb2 _) H.disk_length
  refine ⟨k, fat1, disk1, r, ?_, fun fuel _ => ?_, hk, ?_, hfree1, hfl, hdl, hblk1, ?_, ?_, ?_, ?_,
    ?_⟩
  · rw [hr]
    exact congrArg (min count) (room_inside _ _ _ _ _ _ hlen hoffeq)
  · rw [fs_write_no_extend c fuel s fd h e data count f hh H.entry hstart hno,
      write_from_eq c s fd h e.size f data count r fat1 disk1 e hrun H.entry hr31,
      root_after_write _ _ _ _ _ hroot, hhead]
  · rw [hhead]
    exact hnew
  · intro j hj1 hj2
    exact hff j (fun hj => hj1 (by rw [← hl]; exact List.mem_append_right _ hj)) hj2
  · intro n hn
    apply hdf
    intro b hb
    apply hn
    rw [hlk]
    exact List.mem_append_right _ hb
  · rw [hlk, chain_bytes_append, chain_bytes_append, hcb,
      chain_bytes_congr _ _ _ _ hpre_disk]
    have := store_bytes_append_right
      (chain_bytes s.disk s.fs.sb.data_index (l.take (h.offset / c.BLOCK_SIZE)))
      (chain_bytes s.disk s.fs.sb.data_index
        (f :: (rest ++ (free_slots s.fs.fat s.fs.sb.data_count).take k)))
      (data.take r) (h.offset % c.BLOCK_SIZE)
    rw [hpl] at this
    exact this.symm
  · exact Nat.max_le.2 ⟨mul_le_add_mul _ _ _ _ H.capacity, hend⟩
  · intro hk0
    exact gt_inside _ _ _ _ _ _ _ hlen hoffeq (hs2 hk0)

/-! ## fs_write from the end of the chain -/

theorem le_of_not_div_lt (off bs L : Nat) (hbs : 0 < bs) (h : ¬ off / bs < L) : L * bs ≤ off :=
  (Nat.le_div_iff_mul_le hbs).1 (Nat.not_lt.1 h)

/-- An offset after the last block of the chain is the end of a file that
fills its chain. -/
theorem write_at_end (c : Consts) (s : State) (fd : Int) (h : open_file_entry)
    (e : root_entry) (l : List Nat) (H : write_ready c s fd h e l)
    (hout : ¬ h.offset / c.BLOCK_SIZE < l.length) :
    h.offset = l.length * c.BLOCK_SIZE ∧ e.size = l.length * c.BLOCK_SIZE := by
  have h1 := le_of_not_div_lt _ _ _ H.block_size_pos hout
  have h2 := H.offset_le
  have h3 := H.capacity
  exact ⟨Nat.le_antisymm (Nat.le_trans h2 h3) h1, Nat.le_antisymm h3 (Nat.le_trans h1 h2)⟩

theorem write_start_end (c : Consts) (s : State) (fd : Int) (h : open_file_entry)
    (e : root_entry) (l : List Nat) (H : write_ready c s fd h e l)
    (hout : ¬ h.offset / c.BLOCK_SIZE < l.length) :
    (if e.size = 0 ∨ e.data_index = FAT_EOC then some FAT_EOC
      else walk s.fs.fat (h.offset / c.BLOCK_SIZE) e.data_index) = some FAT_EOC := by
  obtain ⟨f, hstart, hf⟩ := write_start c s fd h e l H
  rw [List.drop_eq_nil_of_le (Nat.not_lt.1 hout), is_chain_nil] at hf
  rw [hstart, hf]

theorem size_t_add_gt (off size count : Nat) (h1 : off ≤ size) (h2 : size < 2 ^ 31)
    (h3 : count < 2 ^ 63) (h4 : 0 < count) : off < size_t_add size count := by
  rw [size_t_add_eq _ _ (no_wrap_count _ _ h2 h3)]
  omega

/-- The loop that looks for the last block of the file ends, at the last slot
of the chain, or at `FAT_EOC` when the file has no block. -/
theorem write_prev (c : Consts) (s : State) (fd : Int) (h : open_file_entry)
    (e : root_entry) (l : List Nat) (H : write_ready c s fd h e l) (fuel : Nat)
    (hfuel : l.length ≤ fuel) :
    ∃ prev, (if e.size > 0 ∧ e.data_index ≠ FAT_EOC then last_block s.fs.fat fuel e.data_index
        else some FAT_EOC) = some prev ∧
      ((l = [] ∧ prev = FAT_EOC) ∨ l.getLast? = some prev) := by
  cases l with
  | nil =>
    have hd := (is_chain_nil _ _ _).1 H.chain
    refine ⟨FAT_EOC, ?_, Or.inl ⟨rfl, rfl⟩⟩
    rw [if_neg (fun hx => hx.2 hd)]
  | cons b l =>
    have hsize : e.size > 0 := by
      rcases Nat.eq_zero_or_pos e.size with h0 | h0
      · exact absurd (H.empty_no_block h0) (List.cons_ne_nil _ _)
      · exact h0
    have hd : e.data_index ≠ FAT_EOC := by
      have := (is_chain_cons _ _ _ _ _).1 H.chain
      rw [this.1]
      exact this.2.1
    have hlast : (b :: l).getLast? = some ((b :: l).getLast (List.cons_ne_nil _ _)) :=
      List.getLast?_eq_getLast _ _
    refine ⟨_, ?_, Or.inr hlast⟩
    rw [if_pos ⟨hsize, hd⟩]
    exact last_block_spec _ _ _ _ _ fuel H.chain hlast hfuel

theorem room_full (L bs off count : Nat) (hoff : off = L * bs) :
    0 = min count ((L + 0) * bs - off) := by
  rw [hoff, Nat.add_zero, Nat.sub_self, Nat.min_zero]

/-- No block is free and the offset is the end of a file that fills its
chain: nothing is stored and nothing changes. -/
theorem fs_write_case_full (c : Consts) (s : State) (fd : Int) (h : open_file_entry)
    (e : root_entry) (l : List Nat) (data : List Nat) (count : Nat)
    (H : write_ready c s fd h e l) (hcount : count < 2 ^ 63) (hpos : 0 < count)
    (hout : ¬ h.offset / c.BLOCK_SIZE < l.length)
    (hF : free_slots s.fs.fat s.fs.sb.data_count = []) :
    write_result c s fd h e l data count 0 s.fs.fat s.disk 0 := by
  have hh := write_ready_handle c s fd h e l H
  have hsz := write_ready_size c s fd h e l H
  have hroot := (root_at_some _ _ _ H.entry).2
  have hstart := write_start_end c s fd h e l H hout
  have hext := size_t_add_gt _ _ _ H.offset_le hsz hcount hpos
  have hend := write_at_end c s fd h e l H hout
  have hscan : find_free_block s.fs.fat s.fs.sb.data_count = some none := by
    rw [find_free_block_eq _ _ H.fat_length, hF]
    rfl
  have hhead := chain_headD _ _ _ _ H.chain
  have hmax : max e.size (h.offset + 0) = e.size := by
    rw [Nat.add_zero]; exact Nat.max_eq_left H.offset_le
  unfold write_result
  rw [hF]
  refine ⟨room_full _ _ _ _ hend.1, fun fuel hfuel => ?_, Nat.zero_le _, ?_, rfl, rfl, rfl,
    H.block_length, fun j _ _ => rfl, fun n _ => rfl, ?_, ?_, fun hk => absurd hk (lt_irrefl 0)⟩
  · obtain ⟨prev, hprev, _⟩ := write_prev c s fd h e l H fuel hfuel
    rw [fs_write_no_space c fuel s fd h e data count prev hh H.entry hstart hext hprev hscan]
    rw [List.take_nil, List.append_nil, hhead, hmax, entry_eta, set_same _ _ _ hroot,
      Nat.add_zero, set_same _ _ _ H.handle]
    rfl
  · rw [List.take_nil, List.append_nil, hhead]; exact H.chain
  · simp only [List.take_zero, store_bytes_nil]
  · rw [hmax, Nat.add_zero]; exact H.capacity

/-! ## fs_write from the end of the chain, with a free block -/

theorem room_end (L Fn bs off count r : Nat) (hoff : off = L * bs)
    (hr : r = min count ((1 + 0 + Fn) * bs - off % bs)) :
    r = min count ((L + (Fn + 1)) * bs - off) := by
  subst hoff
  rw [Nat.mul_mod_left] at hr
  have e : (L + (Fn + 1)) * bs = (1 + 0 + Fn) * bs + L * bs := by ring
  rw [e, hr]
  congr 1
  omega

theorem end_end (L k bs off r x : Nat) (hoff : off = L * bs) (hx : x = L * bs)
    (hs : off % bs + r ≤ (1 + 0 + k) * bs) : max x (off + r) ≤ (L + (k + 1)) * bs := by
  subst hoff
  subst hx
  rw [Nat.mul_mod_left] at hs
  have e : (L + (k + 1)) * bs = (1 + 0 + k) * bs + L * bs := by ring
  rw [e]
  exact Nat.max_le.2 ⟨by omega, by omega⟩

theorem gt_end (L k bs off r count Fn : Nat) (hoff : off = L * bs) (hbs : 0 < bs)
    (hpos : 0 < count) (hr : r = min count ((1 + 0 + Fn) * bs - off % bs))
    (hs : 0 < k → (0 + k) * bs < off % bs + r) : (L + (k + 1) - 1) * bs < off + r := by
  subst hoff
  rw [Nat.mul_mod_left] at hr hs
  have e1 : L + (k + 1) - 1 = L + k := by omega
  have e2 : (1 + 0 + Fn) * bs = bs + Fn * bs := by ring
  rw [e1, Nat.add_mul]
  rw [e2] at hr
  rcases Nat.eq_zero_or_pos k with hk | hk
  · subst hk
    omega
  · have := hs hk
    rw [Nat.zero_add] at this
    omega

theorem lt_dc_ne_eoc (nb dc : Nat) (h : nb < dc) (hdc : dc ≤ 65535) : nb ≠ FAT_EOC := by
  unfold FAT_EOC
  omega

theorem root_at_set (root : List root_entry) (k : Int) (e x : root_entry)
    (h : root_at root k = some e) : root_at (root.set k.toNat x) k = some x := by
  obtain ⟨hk, hroot⟩ := root_at_some root k e h
  unfold root_at
  rw [if_neg (Int.not_lt.2 hk)]
  exact List.getElem?_set_self (getElem?_lt_length _ _ _ hroot)

/-- The directory after a write that gave the file its first block, in the
form `write_result` gives it. -/
theorem root_after_first (root : List root_entry) (i : Nat) (e : root_entry) (nb off r : Nat) :
    (if off + r > e.size then
        (root.set i { e with data_index := nb }).set i
          { e with data_index := nb, size := off + r }
      else root.set i { e with data_index := nb }) =
      root.set i { e with data_index := nb, size := max e.size (off + r) } := by
  by_cases hgt : off + r > e.size
  · rw [if_pos hgt, Nat.max_eq_right (Nat.le_of_lt hgt), List.set_set]
  · rw [if_neg hgt, Nat.max_eq_left (Nat.not_lt.1 hgt)]

/-- A chain with a new slot linked after its last slot. -/
theorem is_chain_extend (fat fat1 : List Nat) (dc prev nb : Nat) (q : List Nat) (l : List Nat) :
    ∀ a, is_chain fat dc a l = true → l.getLast? = some prev →
      (∀ j ∈ l, j ≠ prev → fat1[j]? = fat[j]?) → fat1[prev]? = some nb → nb ≠ 0 →
      is_chain fat1 dc nb q = true → is_chain fat1 dc a (l ++ q) = true := by
  induction l with
  | nil => intro a _ hl; cases hl
  | cons b l ih =>
    intro a hchain hlast hsame hprev hnb hq
    have hnodup := is_chain_nodup _ _ _ _ hchain
    rw [is_chain_cons] at hchain
    obtain ⟨ha, hne, hlt, v, hv, hv0, hrest⟩ := hchain
    rw [List.cons_append, is_chain_cons]
    cases l with
    | nil =>
      rw [List.getLast?_singleton] at hlast
      cases hlast
      exact ⟨ha, hne, hlt, nb, hprev, hnb, hq⟩
    | cons b2 l2 =>
      rw [List.getLast?_cons_cons] at hlast
      have hmem := List.mem_of_getLast?_eq_some hlast
      have hbp : b ≠ prev := fun hx => (List.nodup_cons.1 hnodup).1 (hx ▸ hmem)
      refine ⟨ha, hne, hlt, v, ?_, hv0,
        ih v hrest hlast (fun j hj => hsame j (List.mem_cons_of_mem _ hj)) hprev hnb hq⟩
      rw [hsame b (List.mem_cons_self _ _) hbp, hv]

/-- The free slots after the lowest one do not hold slot 0. -/
theorem zero_not_mem_tail (fat : List Nat) (dc nb : Nat) (F1 : List Nat)
    (hF : free_slots fat dc = nb :: F1) : 0 ∉ F1 := by
  have hs := free_slots_sorted fat dc
  rw [hF] at hs
  intro h0
  exact Nat.not_lt_zero _ (List.rel_of_sorted_cons hs 0 h0)

/-- From what the main loop leaves behind when it starts in a block that was
linked after the chain, to what `fs_write` leaves behind. -/
theorem write_end_result (c : Consts) (s : State) (fd : Int) (h : open_file_entry)
    (e : root_entry) (l : List Nat) (data : List Nat) (count nb : Nat) (F1 fat2 : List Nat)
    (k : Nat) (fat1 : List Nat) (disk1 : List (List Nat)) (r : Nat)
    (H : write_ready c s fd h e l) (hpos : 0 < count)
    (hout : ¬ h.offset / c.BLOCK_SIZE < l.length)
    (hF : free_slots s.fs.fat s.fs.sb.data_count = nb :: F1)
    (hfat2 : ∀ j, j ∉ l → j ≠ nb → fat2[j]? = s.fs.fat[j]?)
    (hfat2len : fat2.length = s.fs.fat.length)
    (hpost : write_post c s.fs.sb.data_index s.fs.sb.data_count data count
      (h.offset % c.BLOCK_SIZE) nb [] F1 fat2 s.disk k fat1 disk1 r)
    (hnew : is_chain fat1 s.fs.sb.data_count ((l ++ nb :: F1.take k).headD FAT_EOC)
      (l ++ nb :: F1.take k) = true)
    (hrun : ∀ fuel, l.length ≤ fuel →
      fs_write c fuel s fd (some data) count =
        some ((r : Int),
          { fs := { s.fs with
                    fat := fat1
                    root := s.fs.root.set h.root_index.toNat
                      { e with
                        data_index := (l ++ nb :: F1.take k).headD FAT_EOC
                        size := max e.size (h.offset + r) } }
            oft := s.oft.set fd.toNat { h with offset := h.offset + r }
            disk := disk1 })) :
    write_result c s fd h e l data count (k + 1) fat1 disk1 r := by
  have hend := write_at_end c s fd h e l H hout
  unfold write_post at hpost
  simp only [List.nil_append, List.length_nil] at hpost
  obtain ⟨hr, hk, hchain1, hfree1, hfl, hdl, hblk1, hff, hdf, hcb, hs1, hs2⟩ := hpost
  have hnotfree : ∀ j ∈ l, j ∉ nb :: F1.take k := by
    intro j hj hj2
    apply chain_not_free _ _ _ _ H.chain j hj
    rw [hF]
    rcases List.mem_cons.1 hj2 with h1 | h1
    · rw [h1]; exact List.mem_cons_self _ _
    · exact List.mem_cons_of_mem _ (List.mem_of_mem_take h1)
  have hpre_disk : ∀ b ∈ l,
      disk1[s.fs.sb.data_index + b]? = s.disk[s.fs.sb.data_index + b]? := by
    intro b hb
    apply hdf
    intro b2 hb2 heq
    have hbb : b = b2 := Nat.add_left_cancel heq
    subst hbb
    exact hnotfree b hb hb2
  have hpl : (chain_bytes s.disk s.fs.sb.data_index l).length + 0 = h.offset := by
    rw [chain_bytes_length c _ _ _ H.block_length, Nat.add_zero]
    · exact hend.1.symm
    · intro b hb
      have hb2 := (is_chain_mem _ _ l _ H.chain b hb).2.1
      exact Nat.lt_of_lt_of_le (Nat.add_lt_add_left hb2 _) H.disk_length
  have hmod : h.offset % c.BLOCK_SIZE = 0 := by
    rw [hend.1]
    exact Nat.mul_mod_left _ _
  unfold write_result
  rw [hF]
  simp only [List.take_succ_cons, List.drop_succ_cons, List.length_cons]
  refine ⟨room_end _ _ _ _ _ _ hend.1 hr, hrun, Nat.succ_le_succ hk, hnew, hfree1,
    hfl.trans hfat2len, hdl, hblk1, ?_, ?_, ?_, end_end _ _ _ _ _ _ hend.1 hend.2 hs1,
    fun _ => gt_end _ _ _ _ _ _ _ hend.1 H.block_size_pos hpos hr hs2⟩
  · intro j hj1 hj2
    have hjnb : j ≠ nb := fun hx => hj2 (hx ▸ List.mem_cons_self _ _)
    rw [hff j (fun hx => hjnb (List.mem_singleton.1 hx))
      (fun hx => hj2 (List.mem_cons_of_mem _ hx))]
    exact hfat2 j hj1 hjnb
  · intro n hn
    apply hdf
    intro b hb
    exact hn b (List.mem_append_right _ hb)
  · rw [chain_bytes_append, chain_bytes_append, hcb, chain_bytes_congr _ _ _ _ hpre_disk, hmod]
    have := store_bytes_append_right (chain_bytes s.disk s.fs.sb.data_index l)
      (chain_bytes s.disk s.fs.sb.data_index (nb :: F1.take k)) (data.take r) 0
    rw [hpl] at this
    exact this.symm

/-! ## fs_write: the two ways a block is linked before the main loop -/

/-- Facts about the lowest free slot. -/
theorem lowest_free (c : Consts) (s : State) (fd : Int) (h : open_file_entry)
    (e : root_entry) (l : List Nat) (H : write_ready c s fd h e l) (nb : Nat) (F1 : List Nat)
    (hF : free_slots s.fs.fat s.fs.sb.data_count = nb :: F1) :
    nb < s.fs.sb.data_count ∧ nb ≠ FAT_EOC ∧ nb < s.fs.fat.length ∧
      find_free_block s.fs.fat s.fs.sb.data_count = some (some nb) ∧ nb ∉ l := by
  have hmem : nb ∈ free_slots s.fs.fat s.fs.sb.data_count := by
    rw [hF]; exact List.mem_cons_self _ _
  have hlt := ((mem_free_slots _ _ _).1 hmem).1
  refine ⟨hlt, lt_dc_ne_eoc _ _ hlt H.data_count_le, Nat.lt_of_lt_of_le hlt H.fat_length, ?_,
    fun hx => chain_not_free _ _ _ _ H.chain nb hx hmem⟩
  rw [find_free_block_eq _ _ H.fat_length, hF]
  rfl

/-- The file has no block yet and a block is free. -/
theorem fs_write_case_head (c : Consts) (s : State) (fd : Int) (h : open_file_entry)
    (e : root_entry) (data : List Nat) (count nb : Nat) (F1 : List Nat)
    (H : write_ready c s fd h e []) (hdata : count ≤ data.length) (hcount : count < 2 ^ 63)
    (hpos : 0 < count) (hF : free_slots s.fs.fat s.fs.sb.data_count = nb :: F1) :
    ∃ k fat1 disk1 r, write_result c s fd h e [] data count k fat1 disk1 r := by
  have hh := write_ready_handle c s fd h e [] H
  have hsz := write_ready_size c s fd h e [] H
  have hout : ¬ h.offset / c.BLOCK_SIZE < ([] : List Nat).length := Nat.not_lt_zero _
  have hstart := write_start_end c s fd h e [] H hout
  have hext := size_t_add_gt _ _ _ H.offset_le hsz hcount hpos
  have hend := write_at_end c s fd h e [] H hout
  obtain ⟨hnblt, hnbe, hnbfat, hscan, _⟩ := lowest_free c s fd h e [] H nb F1 hF
  have hoffsz : h.offset < 2 ^ 31 := Nat.lt_of_le_of_lt H.offset_le hsz
  have hset : (s.fs.fat.set nb FAT_EOC)[nb]? = some FAT_EOC := List.getElem?_set_self hnbfat
  have hchain2 : is_chain (s.fs.fat.set nb FAT_EOC) s.fs.sb.data_count nb [nb] = true := by
    rw [is_chain_cons]
    exact ⟨rfl, hnbe, hnblt, FAT_EOC, hset, by decide, (is_chain_nil _ _ _).2 rfl⟩
  have hfree2 : free_slots (s.fs.fat.set nb FAT_EOC) s.fs.sb.data_count = F1 := by
    apply free_slots_after s.fs.fat _ _ nb nb F1 hF
    · intro i hi _
      exact List.getElem?_set_ne (Ne.symm hi)
    · rw [hset]; exact fun hx => absurd (Option.some.inj hx) (by decide)
    · rw [hset]; exact fun hx => absurd (Option.some.inj hx) (by decide)
    · exact fun hx => absurd rfl hx
  obtain ⟨k, fat1, disk1, r, hrun, hpost⟩ := write_loop_spec c s.fs.sb.data_index
    s.fs.sb.data_count H.block_size_pos H.data_count_le (count + 1) data count h.offset 0 nb []
    F1 (s.fs.fat.set nb FAT_EOC) s.disk hchain2 hfree2 (zero_not_mem_tail _ _ _ _ hF)
    (by rw [List.length_set]; exact H.fat_length) H.disk_length H.block_length hdata
    (Nat.lt_succ_self _) hpos (no_wrap_count _ _ hoffsz hcount) (zero_count _ hcount)
  have hnew : is_chain fat1 s.fs.sb.data_count (([] ++ nb :: F1.take k).headD FAT_EOC)
      ([] ++ nb :: F1.take k) = true := hpost.2.2.1
  have hr31 : h.offset + r < 2 ^ 31 := by
    have h1 := chain_capacity_lt c _ _ _ _ H.sizes_fit_int H.data_count_le hnew
    have h2 := hpost.2.2.2.2.2.2.2.2.2.2.1
    have h3 := hpost.2.1
    have h4 : h.offset % c.BLOCK_SIZE = h.offset := by
      rw [hend.1, List.length_nil, Nat.zero_mul]; rfl
    rw [h4] at h2
    rw [List.nil_append, List.length_cons, List.length_take, Nat.min_eq_left h3] at h1
    rw [List.length_nil, Nat.add_zero, Nat.add_comm 1 k] at h2
    exact Nat.lt_of_le_of_lt h2 h1
  refine ⟨k + 1, fat1, disk1, r, write_end_result c s fd h e [] data count nb F1
    (s.fs.fat.set nb FAT_EOC) k fat1 disk1 r H hpos hout hF
    (fun j _ hj => List.getElem?_set_ne (Ne.symm hj)) (List.length_set _ _ _) hpost hnew ?_⟩
  intro fuel hfuel
  obtain ⟨prev, hprev, hp⟩ := write_prev c s fd h e [] H fuel hfuel
  have hpe : prev = FAT_EOC := by
    rcases hp with hp | hp
    · exact hp.2
    · cases hp
  rw [hpe] at hprev
  rw [fs_write_extend_head c fuel s fd h e data count nb hh H.entry hstart hext hprev hscan hnbe
      hnbfat,
    write_from_eq c
      { s with fs := { s.fs with
                       fat := s.fs.fat.set nb FAT_EOC
                       root := s.fs.root.set h.root_index.toNat { e with data_index := nb } } }
      fd h e.size nb data count r fat1 disk1 { e with data_index := nb } hrun
      (root_at_set _ _ _ _ H.entry) hr31]
  exact congrArg (fun x => some ((r : Int),
    ({ fs := { s.fs with fat := fat1, root := x }
       oft := s.oft.set fd.toNat { h with offset := h.offset + r }
       disk := disk1 } : State)))
    (root_after_first s.fs.root h.root_index.toNat e nb h.offset r)

/-- The offset is the end of a file that fills its chain and a block is
free: the block is linked after the last block of the chain. -/
theorem fs_write_case_append (c : Consts) (s : State) (fd : Int) (h : open_file_entry)
    (e : root_entry) (l : List Nat) (data : List Nat) (count nb : Nat) (F1 : List Nat)
    (H : write_ready c s fd h e l) (hdata : count ≤ data.length) (hcount : count < 2 ^ 63)
    (hpos : 0 < count) (hout : ¬ h.offset / c.BLOCK_SIZE < l.length) (hlne : l ≠ [])
    (hF : free_slots s.fs.fat s.fs.sb.data_count = nb :: F1) :
    ∃ k fat1 disk1 r, write_result c s fd h e l data count k fat1 disk1 r := by
  have hh := write_ready_handle c s fd h e l H
  have hsz := write_ready_size c s fd h e l H
  have hroot := (root_at_some _ _ _ H.entry).2
  have hstart := write_start_end c s fd h e l H hout
  have hext := size_t_add_gt _ _ _ H.offset_le hsz hcount hpos
  have hend := write_at_end c s fd h e l H hout
  obtain ⟨hnblt, hnbe, hnbfat, hscan, hnbl⟩ := lowest_free c s fd h e l H nb F1 hF
  have hoffsz : h.offset < 2 ^ 31 := Nat.lt_of_le_of_lt H.offset_le hsz
  have hlast : l.getLast? = some (l.getLast hlne) := List.getLast?_eq_getLast _ _
  have hpmem : l.getLast hlne ∈ l := List.getLast_mem hlne
  obtain ⟨hpe, hplt, v, hpv, hpv0⟩ := is_chain_mem _ _ l _ H.chain _ hpmem
  have hpfat : l.getLast hlne < s.fs.fat.length := Nat.lt_of_lt_of_le hplt H.fat_length
  have hpnb : l.getLast hlne ≠ nb := fun hx => hnbl (hx ▸ hpmem)
  have hnb0 : nb ≠ 0 := by
    intro hx
    apply H.slot_zero.resolve_left hlne
    rw [hF, ← hx]
    exact List.mem_cons_self _ _
  have hset1 : ((s.fs.fat.set nb FAT_EOC).set (l.getLast hlne) nb)[nb]? = some FAT_EOC := by
    rw [List.getElem?_set_ne hpnb]
    exact List.getElem?_set_self hnbfat
  have hset2 : ((s.fs.fat.set nb FAT_EOC).set (l.getLast hlne) nb)[l.getLast hlne]? =
      some nb :=
    List.getElem?_set_self (by rw [List.length_set]; exact hpfat)
  have hset3 : ∀ i, i ≠ nb → i ≠ l.getLast hlne →
      ((s.fs.fat.set nb FAT_EOC).set (l.getLast hlne) nb)[i]? = s.fs.fat[i]? := by
    intro i h1 h2
    rw [List.getElem?_set_ne (Ne.symm h2), List.getElem?_set_ne (Ne.symm h1)]
  have hchain2 : is_chain ((s.fs.fat.set nb FAT_EOC).set (l.getLast hlne) nb)
      s.fs.sb.data_count nb [nb] = true := by
    rw [is_chain_cons]
    exact ⟨rfl, hnbe, hnblt, FAT_EOC, hset1, by decide, (is_chain_nil _ _ _).2 rfl⟩
  have hfree2 : free_slots ((s.fs.fat.set nb FAT_EOC).set (l.getLast hlne) nb)
      s.fs.sb.data_count = F1 := by
    apply free_slots_after s.fs.fat _ _ nb (l.getLast hlne) F1 hF hset3
    · rw [hset1]; exact fun hx => absurd (Option.some.inj hx) (by decide)
    · rw [hset2]; exact fun hx => hnb0 (Option.some.inj hx)
    · intro _
      rw [hpv]
      exact fun hx => hpv0 (Option.some.inj hx)
  obtain ⟨k, fat1, disk1, r, hrun, hpost⟩ := write_loop_spec c s.fs.sb.data_index
    s.fs.sb.data_count H.block_size_pos H.data_count_le (count + 1) data count h.offset 0 nb []
    F1 ((s.fs.fat.set nb FAT_EOC).set (l.getLast hlne) nb) s.disk hchain2 hfree2
    (zero_not_mem_tail _ _ _ _ hF)
    (by rw [List.length_set, List.length_set]; exact H.fat_length) H.disk_length H.block_length
    hdata (Nat.lt_succ_self _) hpos (no_wrap_count _ _ hoffsz hcount) (zero_count _ hcount)
  have hchain1 : is_chain fat1 s.fs.sb.data_count nb (nb :: F1.take k) = true := hpost.2.2.1
  have hff := hpost.2.2.2.2.2.2.2.1
  have hnotfree : ∀ j ∈ l, j ≠ nb ∧ j ∉ F1.take k := by
    intro j hj
    have := chain_not_free _ _ _ _ H.chain j hj
    rw [hF] at this
    exact ⟨fun hx => this (hx ▸ List.mem_cons_self _ _),
      fun hx => this (List.mem_cons_of_mem _ (List.mem_of_mem_take hx))⟩
  have hnew0 : is_chain fat1 s.fs.sb.data_count e.data_index (l ++ nb :: F1.take k) = true := by
    apply is_chain_extend s.fs.fat fat1 _ (l.getLast hlne) nb _ l _ H.chain hlast ?_ ?_ hnb0
      hchain1
    · intro j hj hjp
      rw [hff j (fun hx => (hnotfree j hj).1 (List.mem_singleton.1 hx)) (hnotfree j hj).2]
      exact hset3 j (hnotfree j hj).1 hjp
    · rw [hff _ (fun hx => hpnb (List.mem_singleton.1 hx)) (hnotfree _ hpmem).2]
      exact hset2
  have hhead := chain_headD _ _ _ _ hnew0
  have hr31 : h.offset + r < 2 ^ 31 := by
    have h1 := chain_capacity_lt c _ _ _ _ H.sizes_fit_int H.data_count_le hnew0
    have h2 := end_end _ _ _ _ _ _ hend.1 hend.2 hpost.2.2.2.2.2.2.2.2.2.2.1
    have h3 := hpost.2.1
    rw [List.length_append, List.length_cons, List.length_take, Nat.min_eq_left h3] at h1
    exact Nat.lt_of_le_of_lt (Nat.le_trans (Nat.le_max_right _ _) h2) h1
  refine ⟨k + 1, fat1, disk1, r, write_end_result c s fd h e l data count nb F1
    ((s.fs.fat.set nb FAT_EOC).set (l.getLast hlne) nb) k fat1 disk1 r H hpos hout hF
    (fun j hj1 hj2 => hset3 j hj2 (fun hx => hj1 (hx ▸ hpmem)))
    (by rw [List.length_set, List.length_set]) hpost (by rw [hhead]; exact hnew0) ?_⟩
  intro fuel hfuel
  obtain ⟨prev, hprev, hp⟩ := write_prev c s fd h e l H fuel hfuel
  have hpeq : prev = l.getLast hlne := by
    rcases hp with hp | hp
    · exact absurd hp.1 hlne
    · rw [hlast] at hp
      exact (Option.some.inj hp).symm
  subst hpeq
  rw [fs_write_extend_append c fuel s fd h e data count nb _ hh H.entry hstart hext hprev
      hscan hnbe hnbfat hpe hpfat,
    write_from_eq c
      { s with fs := { s.fs with fat := (s.fs.fat.set nb FAT_EOC).set (l.getLast hlne) nb } }
      fd h e.size nb data count r fat1 disk1 e hrun H.entry hr31, hhead]
  exact congrArg (fun x => some ((r : Int),
    ({ fs := { s.fs with fat := fat1, root := x }
       oft := s.oft.set fd.toNat { h with offset := h.offset + r }
       disk := disk1 } : State)))
    (root_after_write s.fs.root h.root_index.toNat e h.offset r hroot)

/-- What `fs_write` does: for every call on a handle in use of a mounted
volume, with a buffer of at least `count` bytes, there are a number `k` of
slots linked, a table, a device and a count `r` of bytes stored that satisfy
`write_result`. -/
theorem fs_write_spec (c : Consts) (s : State) (fd : Int) (h : open_file_entry)
    (e : root_entry) (l : List Nat) (data : List Nat) (count : Nat)
    (H : write_ready c s fd h e l) (hdata : count ≤ data.length) (hcount : count < 2 ^ 63) :
    ∃ k fat1 disk1 r, write_result c s fd h e l data count k fat1 disk1 r := by
  rcases Nat.eq_zero_or_pos count with h0 | hpos
  · subst h0
    exact ⟨0, _, _, 0, fs_write_case_zero c s fd h e l data H⟩
  · by_cases hin : h.offset / c.BLOCK_SIZE < l.length
    · exact fs_write_case_inside c s fd h e l data count H hdata hcount hpos hin
    · cases hF : free_slots s.fs.fat s.fs.sb.data_count with
      | nil => exact ⟨0, _, _, 0, fs_write_case_full c s fd h e l data count H hcount hpos hin hF⟩
      | cons nb F1 =>
        cases l with
        | nil => exact fs_write_case_head c s fd h e data count nb F1 H hdata hcount hpos hF
        | cons b l =>
          exact fs_write_case_append c s fd h e (b :: l) data count nb F1 H hdata hcount hpos
            hin (List.cons_ne_nil _ _) hF

/-! ## The state after fs_write -/

theorem fs_lseek_ok (c : Consts) (s : State) (fd : Int) (h : open_file_entry) (e : root_entry)
    (o : Nat) (hh : handle_of c s fd = some (some h))
    (he : root_at s.fs.root h.root_index = some e) (ho : o ≤ e.size) :
    fs_lseek c s fd o =
      some (0, { s with oft := s.oft.set fd.toNat { h with offset := o } }) := by
  unfold fs_lseek
  simp only [hh, he]
  rw [if_neg (Nat.not_lt.2 ho)]

theorem fs_lseek_beyond (c : Consts) (s : State) (fd : Int) (h : open_file_entry)
    (e : root_entry) (o : Nat) (hh : handle_of c s fd = some (some h))
    (he : root_at s.fs.root h.root_index = some e) (ho : e.size < o) :
    fs_lseek c s fd o = some (-1, s) := by
  unfold fs_lseek
  simp only [hh, he]
  rw [if_pos ho]

theorem fs_stat_ok (c : Consts) (s : State) (fd : Int) (h : open_file_entry) (e : root_entry)
    (hh : handle_of c s fd = some (some h)) (he : root_at s.fs.root h.root_index = some e) :
    fs_stat c s fd = some (to_int e.size) := by
  unfold fs_stat
  simp only [hh, he]

/-- After the first of the free slots, none of them is slot 0. -/
theorem zero_not_mem_drop (F : List Nat) (hs : F.Sorted (fun a b => a < b)) (k : Nat)
    (hk : 0 < k) : 0 ∉ F.drop k := by
  cases F with
  | nil => rw [List.drop_nil]; exact List.not_mem_nil _
  | cons a F1 =>
    obtain ⟨k1, rfl⟩ : ∃ k1, k = k1 + 1 := ⟨k - 1, (Nat.sub_add_cancel hk).symm⟩
    rw [List.drop_succ_cons]
    intro h0
    exact Nat.not_lt_zero _ (List.rel_of_sorted_cons hs 0 (List.mem_of_mem_drop h0))

theorem pos_of_linked (L k bs x : Nat) (_hk : 0 < k) (h : (L + k - 1) * bs < x) : 0 < x :=
  Nat.lt_of_le_of_lt (Nat.zero_le _) h

/-- The state that `write_result` describes is ready for the next call: the
chain of the file, longer by the slots linked, holds the new size, and the
offset of the handle is not after the end of the file. -/
theorem write_ready_after (c : Consts) (s : State) (fd : Int) (h : open_file_entry)
    (e : root_entry) (l : List Nat) (data : List Nat) (count k : Nat) (fat1 : List Nat)
    (disk1 : List (List Nat)) (r : Nat) (H : write_ready c s fd h e l)
    (hres : write_result c s fd h e l data count k fat1 disk1 r) :
    write_ready c
      { fs := { s.fs with
                fat := fat1
                root := s.fs.root.set h.root_index.toNat
                  { e with
                    data_index :=
                      (l ++ (free_slots s.fs.fat s.fs.sb.data_count).take k).headD FAT_EOC
                    size := max e.size (h.offset + r) } }
        oft := s.oft.set fd.toNat { h with offset := h.offset + r }
        disk := disk1 }
      fd { h with offset := h.offset + r }
      { e with
        data_index := (l ++ (free_slots s.fs.fat s.fs.sb.data_count).take k).headD FAT_EOC
        size := max e.size (h.offset + r) }
      (l ++ (free_slots s.fs.fat s.fs.sb.data_count).take k) := by
  obtain ⟨_, _, hk, hchain, hfree, hfl, hdl, hblk, _, _, _, hcap, hgt⟩ := hres
  refine
    { block_size_pos := H.block_size_pos
      sizes_fit_int := H.sizes_fit_int
      mounted := H.mounted
      fd_nonneg := H.fd_nonneg
      fd_lt := H.fd_lt
      handle := List.getElem?_set_self (getElem?_lt_length _ _ _ H.handle)
      handle_used := H.handle_used
      entry := root_at_set _ _ _ _ H.entry
      data_count_le := H.data_count_le
      fat_length := by rw [hfl]; exact H.fat_length
      disk_length := by rw [hdl]; exact H.disk_length
      block_length := hblk
      chain := hchain
      capacity := ?_
      empty_no_block := ?_
      offset_le := Nat.le_max_right _ _
      slot_zero := ?_ }
  · rw [List.length_append, List.length_take, Nat.min_eq_left hk]
    exact hcap
  · intro h0
    have h1 : e.size = 0 := Nat.le_antisymm (h0 ▸ Nat.le_max_left _ _) (Nat.zero_le _)
    have h2 : h.offset + r = 0 := Nat.le_antisymm (h0 ▸ Nat.le_max_right _ _) (Nat.zero_le _)
    have hl := H.empty_no_block h1
    have hk0 : k = 0 := by
      rcases Nat.eq_zero_or_pos k with hk0 | hk0
      · exact hk0
      · have := pos_of_linked _ _ _ _ hk0 (hgt hk0)
        rw [h2] at this
        exact absurd this (Nat.lt_irrefl 0)
    rw [hl, hk0, List.take_zero, List.append_nil]
  · rcases Nat.eq_zero_or_pos k with hk0 | hk0
    · rcases H.slot_zero with hl | h0
      · left
        rw [hl, hk0, List.take_zero, List.append_nil]
      · right
        rw [hfree]
        exact fun hx => h0 (List.mem_of_mem_drop hx)
    · right
      rw [hfree]
      exact zero_not_mem_drop _ (free_slots_sorted _ _) k hk0

/-! ## Reading what was written -/

theorem ceil_le_mul (n bs F : Nat) (hbs : 0 < bs) (h : (n + bs - 1) / bs ≤ F) : n ≤ F * bs := by
  have h1 : (n + bs - 1) / bs < F + 1 := Nat.lt_succ_of_le h
  rw [Nat.div_lt_iff_lt_mul hbs, Nat.add_mul] at h1
  omega

theorem free_slots_length_le (fat : List Nat) (dc : Nat) : (free_slots fat dc).length ≤ dc := by
  unfold free_slots
  exact Nat.le_trans (List.length_filter_le _ _) (Nat.le_of_eq (List.length_range dc))

/-- The bytes stored are the bytes found again at the place they were stored. -/
theorem stored_sub (X src : List Nat) (off o m : Nat) (hoff : off ≤ X.length)
    (hm : o + m ≤ src.length) :
    ((store_bytes X off src).drop (off + o)).take m = (src.drop o).take m := by
  unfold store_bytes
  have h1 : (X.take off).length = off := by
    rw [List.length_take]; exact Nat.min_eq_left hoff
  rw [List.append_assoc, ← List.drop_drop]
  have h2 : (X.take off ++ (src ++ X.drop (off + src.length))).drop off =
      src ++ X.drop (off + src.length) := by
    have := List.drop_left (X.take off) (src ++ X.drop (off + src.length))
    rw [h1] at this
    exact this
  rw [h2, List.drop_append_of_le_length (by omega),
    List.take_append_of_le_length (by rw [List.length_drop]; omega)]

/-- A byte away from the place where bytes were stored is left as it was. -/
theorem stored_other (X src : List Nat) (off p : Nat) (hlen : off + src.length ≤ X.length)
    (hp : p < off ∨ off + src.length ≤ p) : (store_bytes X off src)[p]? = X[p]? := by
  unfold store_bytes
  have h1 : (X.take off).length = off := by
    rw [List.length_take]; exact Nat.min_eq_left (by omega)
  rcases hp with hp | hp
  · rw [List.append_assoc, List.getElem?_append_left (by rw [h1]; exact hp),
      List.getElem?_take_of_lt hp]
  · rw [List.getElem?_append_right (by rw [List.length_append, h1]; exact hp),
      List.length_append, h1, List.getElem?_drop]
    congr 1
    omega

/-- The conditions of `write_ready` for another handle on the same entry. -/
theorem write_ready_other (c : Consts) (s : State) (fd fd2 : Int) (h h2 : open_file_entry)
    (e : root_entry) (l : List Nat) (H : write_ready c s fd h e l) (h0 : 0 ≤ fd2)
    (h1 : fd2 < (c.FS_OPEN_MAX_COUNT : Int)) (hh : s.oft[fd2.toNat]? = some h2)
    (hu : h2.used = true) (hr : h2.root_index = h.root_index) (ho : h2.offset ≤ e.size) :
    write_ready c s fd2 h2 e l :=
  { block_size_pos := H.block_size_pos
    sizes_fit_int := H.sizes_fit_int
    mounted := H.mounted
    fd_nonneg := h0
    fd_lt := h1
    handle := hh
    handle_used := hu
    entry := by rw [hr]; exact H.entry
    data_count_le := H.data_count_le
    fat_length := H.fat_length
    disk_length := H.disk_length
    block_length := H.block_length
    chain := H.chain
    capacity := H.capacity
    empty_no_block := H.empty_no_block
    offset_le := ho
    slot_zero := H.slot_zero }

/-- On a handle in use, `fs_lseek` to a place `o` in the file followed by
`fs_read` of `len` bytes: both return, and the buffer gets the bytes of the
chain from position `o` on, up to the end of the file. -/
theorem seek_read (c : Consts) (s : State) (fd : Int) (h : open_file_entry) (e : root_entry)
    (l : List Nat) (dest : List Nat) (o len : Nat) (H : write_ready c s fd h e l)
    (ho : o ≤ e.size) (hdest : len ≤ dest.length) (hlen : len < 2 ^ 63) :
    ∃ s3, fs_lseek c s fd o =
        some (0, { s with oft := s.oft.set fd.toNat { h with offset := o } }) ∧
      fs_read c { s with oft := s.oft.set fd.toNat { h with offset := o } } fd (some dest) len =
        some (((min len (e.size - o) : Nat) : Int), s3,
          some (((chain_bytes s.disk s.fs.sb.data_index l).drop o).take (min len (e.size - o)) ++
            dest.drop (min len (e.size - o)))) := by
  have hh := write_ready_handle c s fd h e l H
  have hsz := write_ready_size c s fd h e l H
  have hread := fs_read_spec c { s with oft := s.oft.set fd.toNat { h with offset := o } } fd
    { h with offset := o } e l dest len H.block_size_pos H.sizes_fit_int H.mounted H.fd_nonneg
    H.fd_lt (List.getElem?_set_self (getElem?_lt_length _ _ _ H.handle)) H.handle_used H.entry
    H.data_count_le H.chain H.capacity H.disk_length H.block_length hdest
    (no_wrap_count _ _ (Nat.lt_of_le_of_lt ho hsz) hlen)
  rcases Nat.lt_or_ge o e.size with hlt | hge
  · exact ⟨_, fs_lseek_ok c s fd h e o hh H.entry ho, (hread.2 hlt).1⟩
  · refine ⟨{ s with oft := s.oft.set fd.toNat { h with offset := o } },
      fs_lseek_ok c s fd h e o hh H.entry ho, ?_⟩
    rw [hread.1 hge, Nat.sub_eq_zero_of_le hge, Nat.min_zero, List.take_zero, List.nil_append,
      List.drop_zero]
    rfl

/-! ## Claims about fs_write followed by fs_read -/

theorem stored_zero (X src : List Nat) (o m : Nat) (hm : o + m ≤ src.length) :
    ((store_bytes X 0 src).drop o).take m = (src.drop o).take m := by
  have := stored_sub X src 0 o m (Nat.zero_le _) hm
  rw [Nat.zero_add] at this
  exact this

theorem room_empty (n F bs : Nat) (h : n ≤ F * bs) : min n ((0 + F) * bs - 0) = n := by
  rw [Nat.zero_add, Nat.sub_zero]
  exact Nat.min_eq_left h

theorem fits_int (n F dc bs : Nat) (h : n ≤ F * bs) (hF : F ≤ dc) (hdc : dc ≤ 65535)
    (hint : bs * 65535 < 2 ^ 31) : n < 2 ^ 31 := by
  have h1 : F * bs ≤ 65535 * bs := Nat.mul_le_mul_right _ (Nat.le_trans hF hdc)
  rw [Nat.mul_comm 65535 bs] at h1
  omega

/-- A file without a block has no byte and its handles are at offset 0. -/
theorem write_ready_nil (c : Consts) (s : State) (fd : Int) (h : open_file_entry)
    (e : root_entry) (H : write_ready c s fd h e []) :
    e.size = 0 ∧ h.offset = 0 ∧ e.data_index = FAT_EOC := by
  have h1 : e.size = 0 := by
    have := H.capacity
    rw [List.length_nil, Nat.zero_mul] at this
    exact Nat.le_antisymm this (Nat.zero_le _)
  have h2 := H.offset_le
  rw [h1] at h2
  exact ⟨h1, Nat.le_antisymm h2 (Nat.zero_le _), (is_chain_nil _ _ _).1 H.chain⟩

/-- Read-after-write round trip for read counts below `2^63`.  On a mounted volume, for a file just
created and opened through `fd` (no byte, no block, offset 0) and bytes `data`
of length `n` for which enough slots of the table are free (`n / BLOCK_SIZE`
rounded up), `fs_write(fd, data, n)` returns `n`; then, for every `o ≤ n` and
every `len`, `fs_lseek(fd, o)` returns 0 and `fs_read(fd, buf, len)` returns
`min len (n - o)` and stores the bytes `data[o .. o + min len (n - o))` at the
start of the buffer, the rest of the buffer being left as it was. -/
theorem write_read_round_trip (c : Consts) (s : State) (fd : Int) (h : open_file_entry)
    (e : root_entry) (data dest : List Nat) (o len fuel : Nat)
    (H : write_ready c s fd h e [])
    (hfree : (data.length + c.BLOCK_SIZE - 1) / c.BLOCK_SIZE ≤
      (free_slots s.fs.fat s.fs.sb.data_count).length)
    (ho : o ≤ data.length) (hdest : len ≤ dest.length) (hlen : len < 2 ^ 63) :
    ∃ s1 s2 s3,
      fs_write c fuel s fd (some data) data.length = some ((data.length : Int), s1) ∧
      fs_lseek c s1 fd o = some (0, s2) ∧
      fs_read c s2 fd (some dest) len =
        some (((min len (data.length - o) : Nat) : Int), s3,
          some ((data.drop o).take (min len (data.length - o)) ++
            dest.drop (min len (data.length - o)))) := by
  have hn := ceil_le_mul _ _ _ H.block_size_pos hfree
  have hn31 := fits_int _ _ _ _ hn (free_slots_length_le _ _) H.data_count_le H.sizes_fit_int
  obtain ⟨hsize0, hoff0, _⟩ := write_ready_nil c s fd h e H
  obtain ⟨k, fat1, disk1, r, hres⟩ := fs_write_spec c s fd h e [] data data.length H
    (Nat.le_refl _) (Nat.lt_trans hn31 (by decide))
  have H1 := write_ready_after c s fd h e [] data data.length k fat1 disk1 r H hres
  obtain ⟨hr, hrun, _, _, _, _, _, _, _, _, hcb, _, _⟩ := hres
  have hrn : r = data.length := by
    rw [hr, hoff0, List.length_nil]
    exact room_empty _ _ _ hn
  subst hrn
  have hsz1 : max e.size (h.offset + data.length) = data.length := by
    rw [hsize0, hoff0, Nat.zero_add]
    exact Nat.max_eq_right (Nat.zero_le _)
  obtain ⟨s3, hseek, hread⟩ := seek_read c _ fd _ _ _ dest o len H1
    (by show o ≤ max e.size (h.offset + data.length); rw [hsz1]; exact ho) hdest hlen
  refine ⟨_, _, s3, hrun fuel (Nat.zero_le _), hseek, ?_⟩
  rw [hread]
  show some (((min len (max e.size (h.offset + data.length) - o) : Nat) : Int), s3,
    some (((chain_bytes disk1 s.fs.sb.data_index
      ([] ++ (free_slots s.fs.fat s.fs.sb.data_count).take k)).drop o).take
        (min len (max e.size (h.offset + data.length) - o)) ++
      dest.drop (min len (max e.size (h.offset + data.length) - o)))) = _
  rw [hsz1, hcb, hoff0, List.take_length,
    stored_zero _ _ _ _ (by have := Nat.min_le_right len (data.length - o); omega)]

/-! ## Worked volumes -/

theorem small_new_ready :
    write_ready small small_new 0 { used := true, root_index := 0, offset := 0 }
      { filename := [97, 98, 0, 0], size := 0, data_index := FAT_EOC,
        padding := List.replicate 10 0 } [] :=
  { block_size_pos := by decide
    sizes_fit_int := by decide
    mounted := rfl
    fd_nonneg := by decide
    fd_lt := by decide
    handle := rfl
    handle_used := rfl
    entry := rfl
    data_count_le := by decide
    fat_length := by decide
    disk_length := by decide
    block_length := by decide
    chain := by decide
    capacity := by decide
    empty_no_block := fun _ => rfl
    offset_le := by decide
    slot_zero := Or.inl rfl }

theorem small_open_ready :
    write_ready small small_open 0 { used := true, root_index := 0, offset := 0 }
      { filename := [97, 98, 0, 0], size := 6, data_index := 1,
        padding := List.replicate 10 0 } [1, 2] :=
  { block_size_pos := by decide
    sizes_fit_int := by decide
    mounted := rfl
    fd_nonneg := by decide
    fd_lt := by decide
    handle := rfl
    handle_used := rfl
    entry := rfl
    data_count_le := by decide
    fat_length := by decide
    disk_length := by decide
    block_length := by decide
    chain := by decide
    capacity := by decide
    empty_no_block := by decide
    offset_le := by decide
    slot_zero := Or.inr (by decide) }

/-- Five bytes written to the new file of the small volume (two blocks of 4
bytes), a seek to position 4 and a read of up to 2 bytes: the last byte written
comes back. -/
theorem write_read_round_trip_witness :
    ∃ s1 s2 s3,
      fs_write small 0 small_new 0 (some [21, 22, 23, 24, 25]) 5 = some (5, s1) ∧
      fs_lseek small s1 0 4 = some (0, s2) ∧
      fs_read small s2 0 (some [0, 0]) 2 = some (1, s3, some [25, 0]) :=
  write_read_round_trip small small_new 0 { used := true, root_index := 0, offset := 0 }
    { filename := [97, 98, 0, 0], size := 0, data_index := FAT_EOC,
      padding := List.replicate 10 0 }
    [21, 22, 23, 24, 25] [0, 0] 4 2 0 small_new_ready (by decide) (by decide) (by decide)
    (by decide)

/-! ## Short writes -/

theorem short_room (L F bs off N x : Nat) (h : (L + F) * bs < off + N) (h1 : off ≤ x)
    (h2 : x ≤ L * bs) :
    min N ((L + F) * bs - off) = (L + F) * bs - off ∧ (L + F) * bs - off < N := by
  have h3 : L * bs ≤ (L + F) * bs := Nat.mul_le_mul_right _ (Nat.le_add_right _ _)
  constructor
  · exact Nat.min_eq_right (by omega)
  · omega

/-- A short write under `write_ready`: when the bytes to store end after the
room that the chain and the free slots have, `fs_write` returns the room left
after the offset, which is less than the count, and `fs_stat` then returns the
larger of the old size and the offset after the call. -/
theorem short_write_ready (c : Consts) (s : State) (fd : Int) (h : open_file_entry)
    (e : root_entry) (l : List Nat) (data : List Nat) (N fuel : Nat)
    (H : write_ready c s fd h e l) (hdata : N ≤ data.length) (hN : N < 2 ^ 63)
    (hfuel : l.length ≤ fuel)
    (hbig : (l.length + (free_slots s.fs.fat s.fs.sb.data_count).length) * c.BLOCK_SIZE <
      h.offset + N) :
    ∃ (r : Nat) (s1 : State), fs_write c fuel s fd (some data) N = some ((r : Int), s1) ∧
      r = (l.length + (free_slots s.fs.fat s.fs.sb.data_count).length) * c.BLOCK_SIZE -
        h.offset ∧
      r < N ∧ fs_stat c s1 fd = some ((max e.size (h.offset + r) : Nat) : Int) := by
  obtain ⟨k, fat1, disk1, r, hres⟩ := fs_write_spec c s fd h e l data N H hdata hN
  have H1 := write_ready_after c s fd h e l data N k fat1 disk1 r H hres
  have hroom := short_room _ _ _ _ _ _ hbig H.offset_le H.capacity
  have hr : r = _ := hres.1
  rw [hroom.1] at hr
  refine ⟨r, _, hres.2.1 fuel hfuel, hr, by rw [hr]; exact hroom.2, ?_⟩
  rw [fs_stat_ok c _ fd _ _ (write_ready_handle c _ fd _ _ _ H1) H1.entry]
  exact congrArg some (to_int_of_lt _ (write_ready_size c _ fd _ _ _ H1))

/-! ## The contract of fs_write -/

/-- The guard of `fs_write` rejects the call. -/
theorem fs_write_rejected (c : Consts) (fuel : Nat) (s : State) (fd : Int)
    (buf : Option (List Nat)) (count : Nat) (hoft : c.FS_OPEN_MAX_COUNT ≤ s.oft.length)
    (hrej : s.fs.mounted_status = false ∨ fd < 0 ∨ fd ≥ (c.FS_OPEN_MAX_COUNT : Int) ∨
      (∃ h, s.oft[fd.toNat]? = some h ∧ h.used = false) ∨ buf = none) :
    fs_write c fuel s fd buf count = some (-1, s) := by
  unfold fs_write handle_of
  by_cases hg : s.fs.mounted_status = false ∨ fd < 0 ∨ fd ≥ (c.FS_OPEN_MAX_COUNT : Int)
  · rw [if_pos hg]
  · rw [if_neg hg]
    have hfd : fd.toNat < s.oft.length := by
      have h1 : ¬ fd < 0 := fun hx => hg (Or.inr (Or.inl hx))
      have h2 : ¬ fd ≥ (c.FS_OPEN_MAX_COUNT : Int) := fun hx => hg (Or.inr (Or.inr hx))
      omega
    rw [List.getElem?_eq_getElem hfd]
    rcases hrej with h1 | h1 | h1 | ⟨h, hh, hu⟩ | h1
    · exact absurd (Or.inl h1) hg
    · exact absurd (Or.inr (Or.inl h1)) hg
    · exact absurd (Or.inr (Or.inr h1)) hg
    · rw [List.getElem?_eq_getElem hfd] at hh
      cases hh
      simp only [hu, if_true]
    · subst h1
      by_cases hu : (s.oft[fd.toNat]).used = false
      · simp only [hu, if_true]
      · rw [Bool.not_eq_false] at hu
        simp only [hu]
        rfl

/-! ## Guards of fs_mount and fs_umount, contract of fs_lseek -/

/-- The scan of `fs_umount` for a handle in use finds one when one is in use. -/
theorem umount_scan_found (c : Consts) (s : State) (hlen : c.FS_OPEN_MAX_COUNT ≤ s.oft.length)
    (hused : ∃ (i : Nat) (h : open_file_entry),
      i < c.FS_OPEN_MAX_COUNT ∧ s.oft[i]? = some h ∧ h.used = true) :
    ∃ j, first_index c.FS_OPEN_MAX_COUNT (fun i => (s.oft[i]?).map (fun h => h.used)) =
      some (some j) := by
  obtain ⟨r, hr⟩ := first_index_total (fun i => (s.oft[i]?).map (fun h => h.used))
    c.FS_OPEN_MAX_COUNT (by
      intro j hj
      have hj2 : j < s.oft.length := Nat.lt_of_lt_of_le hj hlen
      show ((s.oft[j]?).map (fun h => h.used)).isSome = true
      rw [List.getElem?_eq_getElem hj2]
      rfl)
  cases r with
  | some j => exact ⟨j, hr⟩
  | none =>
    obtain ⟨i, h, hi, hh, hu⟩ := hused
    have := (first_index_none_iff _ _).1 hr i hi
    rw [hh] at this
    simp only [Option.map_some', hu, Option.some.injEq] at this
    exact absurd this (by decide)

/-- C11. Guards of mounting and unmounting.  When a volume is mounted,
`fs_mount` returns `-1` and leaves the superblock, the table, the directory,
the open-file table and the device as they are; when a volume is mounted and a
handle is in use, `fs_umount` returns `-1`, writes nothing to the device and
leaves the state, still mounted, as it is; when no volume is mounted,
`fs_umount` returns `-1`. -/
theorem mount_guards (c : Consts) (s : State) (opened : Option (List (List Nat)))
    (malloc_ok close_ok : Bool) :
    (s.fs.mounted_status = true → fs_mount c s opened malloc_ok = some (-1, s)) ∧
    (s.fs.mounted_status = true → c.FS_OPEN_MAX_COUNT ≤ s.oft.length →
      (∃ (i : Nat) (h : open_file_entry),
        i < c.FS_OPEN_MAX_COUNT ∧ s.oft[i]? = some h ∧ h.used = true) →
      fs_umount c s close_ok = some (-1, s)) ∧
    (s.fs.mounted_status = false → fs_umount c s close_ok = some (-1, s)) := by
  refine ⟨fun hm => ?_, fun hm hlen hused => ?_, fun hm => ?_⟩
  · unfold fs_mount
    rw [if_pos hm]
  · obtain ⟨j, hj⟩ := umount_scan_found c s hlen hused
    unfold fs_umount
    rw [if_neg (by rw [hm]; decide)]
    simp only [hj]
  · unfold fs_umount
    rw [if_pos hm]

/-- On the small volume with the file open, mounting again and unmounting
both return `-1` and change nothing. -/
theorem mount_guards_witness :
    fs_mount small small_open (some []) true = some (-1, small_open) ∧
    fs_umount small small_open true = some (-1, small_open) :=
  ⟨(mount_guards small small_open (some []) true true).1 rfl,
    (mount_guards small small_open (some []) true true).2.1 rfl (by decide)
      ⟨0, { used := true, root_index := 0, offset := 0 }, by decide, rfl, rfl⟩⟩

/-- C12. Contract of `fs_lseek`.  On a mounted volume whose handles in use
are bound to directory entries, `fs_lseek(fd, offset)` returns 0 exactly when
`fd` is in range, in use, and `offset` is at most the size of the entry of the
handle (the size itself is allowed); then the offset of that handle becomes
`offset` and nothing else changes; otherwise it returns `-1` and nothing
changes. -/
theorem fs_lseek_contract (c : Consts) (s : State) (fd : Int) (offset : Nat)
    (hm : s.fs.mounted_status = true) (hlen : c.FS_OPEN_MAX_COUNT ≤ s.oft.length)
    (hbound : ∀ (h : open_file_entry), s.oft[fd.toNat]? = some h → h.used = true →
      ∃ e, root_at s.fs.root h.root_index = some e) :
    ∃ (r : Int) (s1 : State), fs_lseek c s fd offset = some (r, s1) ∧
      (r = 0 ↔ 0 ≤ fd ∧ fd < (c.FS_OPEN_MAX_COUNT : Int) ∧
        ∃ (h : open_file_entry) (e : root_entry), s.oft[fd.toNat]? = some h ∧ h.used = true ∧
          root_at s.fs.root h.root_index = some e ∧ offset ≤ e.size) ∧
      (r = 0 → ∃ (h : open_file_entry), s.oft[fd.toNat]? = some h ∧
        s1 = { s with oft := s.oft.set fd.toNat { h with offset := offset } }) ∧
      (r ≠ 0 → r = -1 ∧ s1 = s) := by
  by_cases hr : 0 ≤ fd ∧ fd < (c.FS_OPEN_MAX_COUNT : Int)
  · obtain ⟨h0, h1⟩ := hr
    have hfd : fd.toNat < s.oft.length := by omega
    have hh : s.oft[fd.toNat]? = some s.oft[fd.toNat] := List.getElem?_eq_getElem hfd
    by_cases hu : (s.oft[fd.toNat]).used = true
    · obtain ⟨e, he⟩ := hbound _ hh hu
      have hhandle := handle_of_ok c s fd _ hm h0 h1 hh hu
      by_cases ho : offset ≤ e.size
      · refine ⟨0, _, fs_lseek_ok c s fd _ e offset hhandle he ho, ?_, ?_, ?_⟩
        · exact ⟨fun _ => ⟨h0, h1, _, e, hh, hu, he, ho⟩, fun _ => rfl⟩
        · exact fun _ => ⟨_, hh, rfl⟩
        · exact fun hx => absurd rfl hx
      · refine ⟨-1, s, fs_lseek_beyond c s fd _ e offset hhandle he (Nat.lt_of_not_le ho),
          ?_, ?_, ?_⟩
        · constructor
          · intro hx
            exact absurd hx (by decide)
          · rintro ⟨_, _, h2, e2, hh2, _, he2, ho2⟩
            rw [hh] at hh2
            cases hh2
            rw [he] at he2
            cases he2
            exact absurd ho2 ho
        · exact fun hx => absurd hx (by decide)
        · exact fun _ => ⟨rfl, rfl⟩
    · rw [Bool.not_eq_true] at hu
      have hhandle : handle_of c s fd = some none := by
        unfold handle_of
        have g1 : ¬ (fd < 0) := by omega
        have g2 : ¬ (fd ≥ (c.FS_OPEN_MAX_COUNT : Int)) := by omega
        simp only [hm, Bool.true_eq_false, g1, g2, or_self, if_false, hh, hu, if_true]
      refine ⟨-1, s, by unfold fs_lseek; rw [hhandle], ?_, ?_, ?_⟩
      · constructor
        · intro hx
          exact absurd hx (by decide)
        · rintro ⟨_, _, h2, e2, hh2, hu2, _, _⟩
          rw [hh] at hh2
          cases hh2
          rw [hu] at hu2
          exact absurd hu2 (by decide)
      · exact fun hx => absurd hx (by decide)
      · exact fun _ => ⟨rfl, rfl⟩
  · have hhandle : handle_of c s fd = some none := by
      unfold handle_of
      rw [if_pos]
      right
      by_cases h0 : fd < 0
      · exact Or.inl h0
      · exact Or.inr (by omega)
    refine ⟨-1, s, by unfold fs_lseek; rw [hhandle], ?_, ?_, ?_⟩
    · constructor
      · intro hx
        exact absurd hx (by decide)
      · rintro ⟨h0, h1, _⟩
        exact absurd ⟨h0, h1⟩ hr
    · exact fun hx => absurd hx (by decide)
    · exact fun _ => ⟨rfl, rfl⟩

/-- On the small volume, a seek of handle 1 to position 6, the size of the
file, is accepted. -/
theorem fs_lseek_contract_witness :
    ∃ (r : Int) (s1 : State), fs_lseek small small_open 1 6 = some (r, s1) ∧
      (r = 0 ↔ (0 : Int) ≤ 1 ∧ (1 : Int) < (small.FS_OPEN_MAX_COUNT : Int) ∧
        ∃ (h : open_file_entry) (e : root_entry), small_open.oft[(1 : Int).toNat]? = some h ∧
          h.used = true ∧ root_at small_open.fs.root h.root_index = some e ∧ 6 ≤ e.size) ∧
      (r = 0 → ∃ (h : open_file_entry), small_open.oft[(1 : Int).toNat]? = some h ∧
        s1 = { small_open with
               oft := small_open.oft.set (1 : Int).toNat { h with offset := 6 } }) ∧
      (r ≠ 0 → r = -1 ∧ s1 = small_open) :=
  fs_lseek_contract small small_open 1 6 rfl (by decide)
    (fun h hh _ =>
      ⟨{ filename := [97, 98, 0, 0], size := 6, data_index := 1, padding := List.replicate 10 0 },
        by rw [← Option.some.inj hh]; rfl⟩)

/-! ## Writing to a file without blocks -/

theorem ceil_eq (x bs n : Nat) (hbs : 0 < bs) (h1 : x ≤ n * bs)
    (h2 : 0 < n → (n - 1) * bs < x) : (x + bs - 1) / bs = n := by
  cases n with
  | zero =>
    rw [Nat.zero_mul] at h1
    have hx : x = 0 := Nat.le_antisymm h1 (Nat.zero_le _)
    rw [hx, Nat.zero_add]
    exact Nat.div_eq_of_lt (Nat.sub_lt hbs (by decide))
  | succ m =>
    have h3 := h2 (Nat.succ_pos m)
    rw [Nat.add_sub_cancel] at h3
    have e1 : (m + 1) * bs = m * bs + bs := Nat.succ_mul m bs
    apply Nat.div_eq_of_lt_le
    · rw [e1]; omega
    · rw [Nat.succ_mul, e1]; omega

/-- The last slot of a chain holds `FAT_EOC`. -/
theorem is_chain_last (fat : List Nat) (dc : Nat) (l : List Nat) :
    ∀ (a b : Nat), is_chain fat dc a l = true → l.getLast? = some b →
      fat[b]? = some FAT_EOC := by
  induction l with
  | nil => intro a b _ hb; cases hb
  | cons x l ih =>
    intro a b hchain hb
    rw [is_chain_cons] at hchain
    obtain ⟨_, _, _, v, hv, _, hrest⟩ := hchain
    cases l with
    | nil =>
      rw [List.getLast?_singleton] at hb
      cases hb
      rw [is_chain_nil] at hrest
      rw [hv, hrest]
    | cons y l2 =>
      rw [List.getLast?_cons_cons] at hb
      exact ih v b hrest hb

/-- The first-fit scan returns the lowest free slot. -/
theorem find_free_block_lowest (fat : List Nat) (dc i : Nat)
    (h : find_free_block fat dc = some (some i)) :
    i < dc ∧ fat[i]? = some 0 ∧ ∀ j, j < i → fat[j]? ≠ some 0 := by
  unfold find_free_block at h
  rw [first_index_some_iff] at h
  obtain ⟨h1, h2, h3⟩ := h
  refine ⟨h1, ?_, ?_⟩
  · cases hv : fat[i]? with
    | none => rw [hv] at h2; cases h2
    | some v =>
      rw [hv] at h2
      simp only [Option.map_some', Option.some.injEq, decide_eq_true_eq] at h2
      rw [h2]
  · intro j hj hz
    have := h3 j hj
    rw [hz] at this
    revert this
    decide

theorem drop_length_sub (F : List Nat) (k : Nat) : (F.drop k).length = F.length - k :=
  List.length_drop k F

/-- What a call of `fs_write` does to a file without blocks, in the terms of
`write_result`: the count returned, the slots linked and their number. -/
theorem fs_write_empty (c : Consts) (s : State) (fd : Int) (h : open_file_entry)
    (e : root_entry) (data : List Nat) (N : Nat) (H : write_ready c s fd h e [])
    (hdata : N ≤ data.length) (hN : N < 2 ^ 63) :
    ∃ (k : Nat) (fat1 : List Nat) (disk1 : List (List Nat)),
      write_result c s fd h e [] data N k fat1 disk1
        (min N ((free_slots s.fs.fat s.fs.sb.data_count).length * c.BLOCK_SIZE)) ∧
      k = (min N ((free_slots s.fs.fat s.fs.sb.data_count).length * c.BLOCK_SIZE) +
        c.BLOCK_SIZE - 1) / c.BLOCK_SIZE := by
  obtain ⟨hsize0, hoff0, _⟩ := write_ready_nil c s fd h e H
  obtain ⟨k, fat1, disk1, r, hres⟩ := fs_write_spec c s fd h e [] data N H hdata hN
  have hr : r = min N ((free_slots s.fs.fat s.fs.sb.data_count).length * c.BLOCK_SIZE) := by
    have := hres.1
    rw [hoff0, List.length_nil, Nat.zero_add, Nat.sub_zero] at this
    exact this
  have hcap := hres.2.2.2.2.2.2.2.2.2.2.2.1
  have hgt := hres.2.2.2.2.2.2.2.2.2.2.2.2
  rw [hsize0, hoff0, Nat.zero_add, Nat.max_eq_right (Nat.zero_le _), List.length_nil,
    Nat.zero_add] at hcap
  rw [hoff0, Nat.zero_add, List.length_nil, Nat.zero_add] at hgt
  have hk := (ceil_eq r c.BLOCK_SIZE k H.block_size_pos hcap hgt).symm
  subst hr
  exact ⟨k, fat1, disk1, hres, hk⟩

/-- C20. Exact count on a file without blocks.  On a mounted volume with `F`
free slots among the `data_count` slots of the table, for a handle in use on an
entry of size 0 whose first block is `FAT_EOC`, `fs_write(fd, buf, N)` returns
`min N (F * BLOCK_SIZE)`, the size of the entry becomes that value and the
number of free slots becomes `F` minus that value divided by `BLOCK_SIZE`,
rounded up; with `F = 0` and `N > 0` it returns 0 and changes nothing. -/
theorem empty_file_transfer (c : Consts) (s : State) (fd : Int) (h : open_file_entry)
    (e : root_entry) (data : List Nat) (N fuel : Nat) (H : write_ready c s fd h e [])
    (hdata : N ≤ data.length) (hN : N < 2 ^ 63) :
    ∃ (s1 : State) (e1 : root_entry),
      fs_write c fuel s fd (some data) N =
        some (((min N (fat_free s.fs.fat s.fs.sb.data_count * c.BLOCK_SIZE) : Nat) : Int), s1) ∧
      root_at s1.fs.root h.root_index = some e1 ∧
      e1.size = min N (fat_free s.fs.fat s.fs.sb.data_count * c.BLOCK_SIZE) ∧
      fat_free s1.fs.fat s1.fs.sb.data_count =
        fat_free s.fs.fat s.fs.sb.data_count -
          (min N (fat_free s.fs.fat s.fs.sb.data_count * c.BLOCK_SIZE) + c.BLOCK_SIZE - 1) /
            c.BLOCK_SIZE ∧
      (fat_free s.fs.fat s.fs.sb.data_count = 0 → 0 < N → s1 = s) := by
  obtain ⟨hsize0, hoff0, hd0⟩ := write_ready_nil c s fd h e H
  obtain ⟨k, fat1, disk1, hres, hk⟩ := fs_write_empty c s fd h e data N H hdata hN
  have H1 := write_ready_after c s fd h e [] data N k fat1 disk1 _ H hres
  obtain ⟨_, hrun, _, _, hfree, hfl, _, _, hff, hdf, _, _, _⟩ := hres
  rw [fat_free_eq_length _ _ H.fat_length]
  refine ⟨_, _, hrun fuel (Nat.zero_le _), H1.entry, ?_, ?_, ?_⟩
  · show max e.size (h.offset + _) = _
    rw [hsize0, hoff0, Nat.zero_add]
    exact Nat.max_eq_right (Nat.zero_le _)
  · show fat_free fat1 s.fs.sb.data_count = _
    rw [fat_free_eq_length _ _ (by rw [hfl]; exact H.fat_length), hfree, drop_length_sub, hk]
  · intro hF _
    have hnil : free_slots s.fs.fat s.fs.sb.data_count = [] := List.eq_nil_of_length_eq_zero hF
    have hfat : fat1 = s.fs.fat := by
      apply List.ext_getElem?
      intro j
      exact hff j (List.not_mem_nil _) (by rw [hnil, List.take_nil]; exact List.not_mem_nil _)
    have hdisk : disk1 = s.disk := by
      apply List.ext_getElem?
      intro n
      apply hdf
      intro b hb
      rw [hnil, List.take_nil] at hb
      exact absurd hb (List.not_mem_nil _)
    have hroot : s.fs.root.set h.root_index.toNat
        { e with
          data_index := ([] ++ (free_slots s.fs.fat s.fs.sb.data_count).take k).headD FAT_EOC
          size := (max e.size (h.offset +
            min N ((free_slots s.fs.fat s.fs.sb.data_count).length * c.BLOCK_SIZE))) } =
        s.fs.root := by
      rw [hnil, List.take_nil, List.length_nil, Nat.zero_mul, Nat.min_zero, Nat.add_zero,
        Nat.max_eq_left H.offset_le]
      show s.fs.root.set h.root_index.toNat { e with data_index := FAT_EOC, size := e.size } = _
      rw [← hd0, entry_eta, set_same _ _ _ (root_at_some _ _ _ H.entry).2]
    have hoft : s.oft.set fd.toNat
        { h with
          offset := (h.offset +
            min N ((free_slots s.fs.fat s.fs.sb.data_count).length * c.BLOCK_SIZE)) } =
        s.oft := by
      rw [hnil, List.length_nil, Nat.zero_mul, Nat.min_zero, Nat.add_zero]
      exact set_same _ _ _ H.handle
    rw [hfat, hdisk, hroot, hoft]

/-- On the small volume with the new file open and five free slots of 4
bytes, a call with 5 bytes returns 5, the size becomes 5 and 3 slots stay
free. -/
theorem empty_file_transfer_witness :
    ∃ (s1 : State) (e1 : root_entry),
      fs_write small 0 small_new 0 (some [1, 2, 3, 4, 5]) 5 =
        some (((min 5 (fat_free small_new.fs.fat small_new.fs.sb.data_count *
          small.BLOCK_SIZE) : Nat) : Int), s1) ∧
      root_at s1.fs.root 0 = some e1 ∧
      e1.size = min 5 (fat_free small_new.fs.fat small_new.fs.sb.data_count * small.BLOCK_SIZE) ∧
      fat_free s1.fs.fat s1.fs.sb.data_count =
        fat_free small_new.fs.fat small_new.fs.sb.data_count -
          (min 5 (fat_free small_new.fs.fat small_new.fs.sb.data_count * small.BLOCK_SIZE) +
            small.BLOCK_SIZE - 1) / small.BLOCK_SIZE ∧
      (fat_free small_new.fs.fat small_new.fs.sb.data_count = 0 → 0 < 5 → s1 = small_new) :=
  empty_file_transfer small small_new 0 { used := true, root_index := 0, offset := 0 }
    { filename := [97, 98, 0, 0], size := 0, data_index := FAT_EOC,
      padding := List.replicate 10 0 }
    [1, 2, 3, 4, 5] 5 0 small_new_ready (by decide) (by decide)

/-- Writing `n > 0` bytes at offset 0 of a file without blocks, on a volume
with at least `n / BLOCK_SIZE` (rounded up) free slots, returns `n` and leaves a
chain made of the lowest free slots, that many, in rising order: the first one
is the entry's first block and the last one holds `FAT_EOC`. -/
theorem first_fit_ready (c : Consts) (s : State) (fd : Int) (h : open_file_entry)
    (e : root_entry) (data : List Nat) (n fuel : Nat) (H : write_ready c s fd h e [])
    (hn : 0 < n) (hdata : n ≤ data.length)
    (hfree : (n + c.BLOCK_SIZE - 1) / c.BLOCK_SIZE ≤
      (free_slots s.fs.fat s.fs.sb.data_count).length) :
    ∃ (s1 : State) (e1 : root_entry) (first : Nat),
      fs_write c fuel s fd (some data) n = some ((n : Int), s1) ∧
      root_at s1.fs.root h.root_index = some e1 ∧
      ((free_slots s.fs.fat s.fs.sb.data_count).take
        ((n + c.BLOCK_SIZE - 1) / c.BLOCK_SIZE)).head? = some first ∧
      e1.data_index = first ∧
      is_chain s1.fs.fat s1.fs.sb.data_count first
        ((free_slots s.fs.fat s.fs.sb.data_count).take
          ((n + c.BLOCK_SIZE - 1) / c.BLOCK_SIZE)) = true ∧
      ((free_slots s.fs.fat s.fs.sb.data_count).take
        ((n + c.BLOCK_SIZE - 1) / c.BLOCK_SIZE)).length = (n + c.BLOCK_SIZE - 1) / c.BLOCK_SIZE ∧
      ((free_slots s.fs.fat s.fs.sb.data_count).take
        ((n + c.BLOCK_SIZE - 1) / c.BLOCK_SIZE)).Sorted (fun a b => a < b) ∧
      (∀ b, ((free_slots s.fs.fat s.fs.sb.data_count).take
          ((n + c.BLOCK_SIZE - 1) / c.BLOCK_SIZE)).getLast? = some b →
        s1.fs.fat[b]? = some FAT_EOC) := by
  have hnle := ceil_le_mul _ _ _ H.block_size_pos hfree
  have hn31 := fits_int _ _ _ _ hnle (free_slots_length_le _ _) H.data_count_le H.sizes_fit_int
  obtain ⟨k, fat1, disk1, hres, hk⟩ := fs_write_empty c s fd h e data n H hdata
    (Nat.lt_trans hn31 (by decide))
  rw [Nat.min_eq_left hnle] at hres hk
  have H1 := write_ready_after c s fd h e [] data n k fat1 disk1 _ H hres
  obtain ⟨_, hrun, hkle, hchain, _, _, _, _, _, _, _, _, _⟩ := hres
  subst hk
  have hkpos : 0 < (n + c.BLOCK_SIZE - 1) / c.BLOCK_SIZE := by
    rw [Nat.div_pos_iff (Nat.ne_of_gt H.block_size_pos)]
    omega
  have hlen : ((free_slots s.fs.fat s.fs.sb.data_count).take
      ((n + c.BLOCK_SIZE - 1) / c.BLOCK_SIZE)).length = (n + c.BLOCK_SIZE - 1) / c.BLOCK_SIZE := by
    rw [List.length_take]
    exact Nat.min_eq_left hkle
  obtain ⟨first, rest, hfr⟩ : ∃ first rest, (free_slots s.fs.fat s.fs.sb.data_count).take
      ((n + c.BLOCK_SIZE - 1) / c.BLOCK_SIZE) = first :: rest := by
    cases hx : (free_slots s.fs.fat s.fs.sb.data_count).take
        ((n + c.BLOCK_SIZE - 1) / c.BLOCK_SIZE) with
    | nil =>
      rw [hx, List.length_nil] at hlen
      omega
    | cons a r => exact ⟨a, r, rfl⟩
  rw [List.nil_append] at hchain
  have hhead : ((free_slots s.fs.fat s.fs.sb.data_count).take
      ((n + c.BLOCK_SIZE - 1) / c.BLOCK_SIZE)).headD FAT_EOC = first := by
    rw [hfr]; rfl
  rw [hhead] at hchain
  refine ⟨_, _, first, hrun fuel (Nat.zero_le _), H1.entry, by rw [hfr]; rfl, ?_, hchain, hlen,
    ?_, fun b hb => is_chain_last _ _ _ _ b hchain hb⟩
  · show ([] ++ (free_slots s.fs.fat s.fs.sb.data_count).take
      ((n + c.BLOCK_SIZE - 1) / c.BLOCK_SIZE)).headD FAT_EOC = first
    rw [List.nil_append]
    exact hhead
  · exact List.Pairwise.sublist (List.take_sublist _ _) (free_slots_sorted _ _)

/-! ## Capacity, frame and chains after fs_write -/

theorem ceil_gt (x bs : Nat) (h : 0 < (x + bs - 1) / bs) :
    ((x + bs - 1) / bs - 1) * bs < x := by
  have h1 := Nat.div_mul_le_self (x + bs - 1) bs
  have h2 : ((x + bs - 1) / bs - 1) * bs + bs = (x + bs - 1) / bs * bs := by
    rw [← Nat.succ_mul]
    congr 1
    omega
  have hbs : 0 < bs := by
    rcases Nat.eq_zero_or_pos bs with h0 | h0
    · rw [h0, Nat.div_zero] at h
      exact absurd h (Nat.lt_irrefl 0)
    · exact h0
  omega

/-- The number of blocks follows the size: a file whose chain had one block
for each started block of its size has that again after the call. -/
theorem ceil_after (L k bs size size1 : Nat) (hbs : 0 < bs) (hL : L = (size + bs - 1) / bs)
    (hle : size ≤ size1) (hcap : size1 ≤ (L + k) * bs)
    (hgt : 0 < k → (L + k - 1) * bs < size1) : L + k = (size1 + bs - 1) / bs := by
  symm
  apply ceil_eq _ _ _ hbs hcap
  intro hpos
  rcases Nat.eq_zero_or_pos k with hk | hk
  · subst hk
    rw [Nat.add_zero] at hpos ⊢
    have := ceil_gt size bs (hL ▸ hpos)
    rw [← hL] at this
    omega
  · exact hgt hk

/-- C17, as amended.  On a mounted volume, for a handle whose offset is at
most the size of its entry, the chain of the entry being well formed with room
for the size (an entry of size 0 having `FAT_EOC` as first block) and slot 0 of
the table not being free unless the file has no block: after `fs_write` the
chain of the entry ends in `FAT_EOC` and has room for the new size, and if the
chain had one block for each started block of the size before the call, it has
that after the call. -/
theorem fs_write_capacity (c : Consts) (s : State) (fd : Int) (h : open_file_entry)
    (e : root_entry) (l : List Nat) (data : List Nat) (count fuel : Nat)
    (H : write_ready c s fd h e l) (hdata : count ≤ data.length) (hcount : count < 2 ^ 63)
    (hfuel : l.length ≤ fuel) :
    ∃ (r : Nat) (s1 : State) (e1 : root_entry) (l1 : List Nat),
      fs_write c fuel s fd (some data) count = some ((r : Int), s1) ∧
      root_at s1.fs.root h.root_index = some e1 ∧
      is_chain s1.fs.fat s1.fs.sb.data_count e1.data_index l1 = true ∧
      e1.size ≤ l1.length * c.BLOCK_SIZE ∧
      (l.length = (e.size + c.BLOCK_SIZE - 1) / c.BLOCK_SIZE →
        l1.length = (e1.size + c.BLOCK_SIZE - 1) / c.BLOCK_SIZE) := by
  obtain ⟨k, fat1, disk1, r, hres⟩ := fs_write_spec c s fd h e l data count H hdata hcount
  have H1 := write_ready_after c s fd h e l data count k fat1 disk1 r H hres
  obtain ⟨_, hrun, hk, _, _, _, _, _, _, _, _, hcap, hgt⟩ := hres
  refine ⟨r, _, _, _, hrun fuel hfuel, H1.entry, H1.chain, H1.capacity, ?_⟩
  intro hL
  rw [List.length_append, List.length_take, Nat.min_eq_left hk]
  exact ceil_after _ _ _ _ _ H.block_size_pos hL (Nat.le_max_left _ _) hcap
    (fun hk0 => Nat.lt_of_lt_of_le (hgt hk0) (Nat.le_max_right _ _))

/-- On the small volume, 7 bytes written at offset 5 of the file of 6 bytes
in two blocks: the chain gets a third block for the 12 bytes. -/
theorem fs_write_capacity_witness :
    ∃ (r : Nat) (s1 : State) (e1 : root_entry) (l1 : List Nat),
      fs_write small 2 small_open 1 (some [1, 2, 3, 4, 5, 6, 7]) 7 = some ((r : Int), s1) ∧
      root_at s1.fs.root 0 = some e1 ∧
      is_chain s1.fs.fat s1.fs.sb.data_count e1.data_index l1 = true ∧
      e1.size ≤ l1.length * small.BLOCK_SIZE ∧
      (([1, 2] : List Nat).length = (6 + small.BLOCK_SIZE - 1) / small.BLOCK_SIZE →
        l1.length = (e1.size + small.BLOCK_SIZE - 1) / small.BLOCK_SIZE) :=
  fs_write_capacity small small_open 1 { used := true, root_index := 0, offset := 5 }
    { filename := [97, 98, 0, 0], size := 6, data_index := 1, padding := List.replicate 10 0 }
    [1, 2] [1, 2, 3, 4, 5, 6, 7] 7 2
    (write_ready_other small small_open 0 1 _ _ _ _ small_open_ready (by decide) (by decide) rfl
      rfl rfl (by decide))
    (by decide) (by decide) (by decide)

/-- C19, as amended.  On a mounted, well-formed volume whose table has slot 0
not free unless the file has no block, after `fs_write(fd, data, count)`
returned `r`: the bytes of the file at the positions before the old size and
outside `[off, off + r)` are the old ones, the blocks of the device that are not
blocks of the chain of the file are the old ones, so are the bytes of every
chain that shares no slot with it, and no other directory entry changes. -/
theorem fs_write_frame (c : Consts) (s : State) (fd : Int) (h : open_file_entry)
    (e : root_entry) (l : List Nat) (data : List Nat) (count fuel : Nat)
    (H : write_ready c s fd h e l) (hdata : count ≤ data.length) (hcount : count < 2 ^ 63)
    (hfuel : l.length ≤ fuel) :
    ∃ (r : Nat) (s1 : State) (e1 : root_entry) (l1 : List Nat),
      fs_write c fuel s fd (some data) count = some ((r : Int), s1) ∧
      root_at s1.fs.root h.root_index = some e1 ∧
      is_chain s1.fs.fat s1.fs.sb.data_count e1.data_index l1 = true ∧
      (∀ p, p < e.size → (p < h.offset ∨ h.offset + r ≤ p) →
        (chain_bytes s1.disk s.fs.sb.data_index l1)[p]? =
          (chain_bytes s.disk s.fs.sb.data_index l)[p]?) ∧
      (∀ n, (∀ b ∈ l1, n ≠ s.fs.sb.data_index + b) → s1.disk[n]? = s.disk[n]?) ∧
      (∀ l2 : List Nat, (∀ b ∈ l2, b ∉ l1) →
        chain_bytes s1.disk s.fs.sb.data_index l2 = chain_bytes s.disk s.fs.sb.data_index l2) ∧
      (∀ j, j ≠ h.root_index.toNat → s1.fs.root[j]? = s.fs.root[j]?) := by
  obtain ⟨k, fat1, disk1, r, hres⟩ := fs_write_spec c s fd h e l data count H hdata hcount
  have H1 := write_ready_after c s fd h e l data count k fat1 disk1 r H hres
  obtain ⟨hr, hrun, hk, _, _, _, _, _, _, hdf, hcb, hcap, _⟩ := hres
  have hrle : r ≤ data.length := by
    rw [hr]
    exact Nat.le_trans (Nat.min_le_left _ _) hdata
  have hin : ∀ b ∈ l ++ (free_slots s.fs.fat s.fs.sb.data_count).take k,
      s.fs.sb.data_index + b < s.disk.length := by
    intro b hb
    have hb2 := (is_chain_mem _ _ _ _ H1.chain b hb).2.1
    exact Nat.lt_of_lt_of_le (Nat.add_lt_add_left hb2 _) H.disk_length
  have hlenX : (chain_bytes s.disk s.fs.sb.data_index
      (l ++ (free_slots s.fs.fat s.fs.sb.data_count).take k)).length =
      (l.length + k) * c.BLOCK_SIZE := by
    rw [chain_bytes_length c _ _ _ H.block_length hin, List.length_append, List.length_take,
      Nat.min_eq_left hk]
  have hlenA : (chain_bytes s.disk s.fs.sb.data_index l).length = l.length * c.BLOCK_SIZE :=
    chain_bytes_length c _ _ _ H.block_length
      (fun b hb => hin b (List.mem_append_left _ hb))
  refine ⟨r, _, _, _, hrun fuel hfuel, H1.entry, H1.chain, ?_, hdf, ?_, ?_⟩
  · intro p hp hout
    show (chain_bytes disk1 s.fs.sb.data_index _)[p]? = _
    rw [hcb, stored_other _ _ _ _ (by
        rw [hlenX, List.length_take, Nat.min_eq_left hrle]
        exact Nat.le_trans (Nat.le_max_right _ _) hcap)
      (by rw [List.length_take, Nat.min_eq_left hrle]; exact hout),
      chain_bytes_append, List.getElem?_append_left (by
        rw [hlenA]
        exact Nat.lt_of_lt_of_le hp H.capacity)]
  · intro l2 hl2
    apply chain_bytes_congr
    intro b hb
    apply hdf
    intro b2 hb2 heq
    have hbb : b = b2 := Nat.add_left_cancel heq
    subst hbb
    exact hl2 b hb hb2
  · intro j hj
    exact List.getElem?_set_ne (Ne.symm hj)

/-- On the small volume, 3 bytes written at offset 0 of the open file. -/
theorem fs_write_frame_witness :
    ∃ (r : Nat) (s1 : State) (e1 : root_entry) (l1 : List Nat),
      fs_write small 2 small_open 0 (some [1, 2, 3]) 3 = some ((r : Int), s1) ∧
      root_at s1.fs.root 0 = some e1 ∧
      is_chain s1.fs.fat s1.fs.sb.data_count e1.data_index l1 = true ∧
      (∀ p, p < 6 → (p < 0 ∨ 0 + r ≤ p) →
        (chain_bytes s1.disk small_open.fs.sb.data_index l1)[p]? =
          (chain_bytes small_open.disk small_open.fs.sb.data_index [1, 2])[p]?) ∧
      (∀ n, (∀ b ∈ l1, n ≠ small_open.fs.sb.data_index + b) →
        s1.disk[n]? = small_open.disk[n]?) ∧
      (∀ l2 : List Nat, (∀ b ∈ l2, b ∉ l1) →
        chain_bytes s1.disk small_open.fs.sb.data_index l2 =
          chain_bytes small_open.disk small_open.fs.sb.data_index l2) ∧
      (∀ j, j ≠ (0 : Int).toNat → s1.fs.root[j]? = small_open.fs.root[j]?) :=
  fs_write_frame small small_open 0 { used := true, root_index := 0, offset := 0 }
    { filename := [97, 98, 0, 0], size := 6, data_index := 1, padding := List.replicate 10 0 }
    [1, 2] [1, 2, 3] 3 2 small_open_ready (by decide) (by decide) (by decide)

/-! ## Two handles on one file, and the chains of the other files -/

theorem toNat_ne (a b : Int) (ha : 0 ≤ a) (hb : 0 ≤ b) (h : a ≠ b) : a.toNat ≠ b.toNat := by
  omega

theorem read_back (X data : List Nat) (off r size : Nat) (hoff : off ≤ X.length)
    (hr : r ≤ data.length) (hsize : off + r ≤ size) :
    ((store_bytes X off (data.take r)).drop off).take (min r (size - off)) = data.take r := by
  have h1 : min r (size - off) = r := Nat.min_eq_left (by omega)
  have h2 := stored_sub X (data.take r) off 0 r hoff
    (by rw [List.length_take, Nat.min_eq_left hr]; omega)
  rw [Nat.add_zero, List.drop_zero, List.take_take, Nat.min_self] at h2
  rw [h1, h2]

/-- C13, as amended.  On a mounted, well-formed volume whose table has slot 0
not free unless the file has no block, with two handles in use on one directory
entry: after `fs_write(h1, data, n)` returned `r`, `fs_stat(h2)` is the larger
of the old size and the old offset of `h1` plus `r`, the offset of `h2` is as
it was, and after `fs_lseek(h2, old offset of h1)` a call
`fs_read(h2, buf, r)` returns `r` and stores `data[0 .. r)`. -/
theorem write_visible (c : Consts) (s : State) (fd1 fd2 : Int) (h1 h2 : open_file_entry)
    (e : root_entry) (l : List Nat) (data : List Nat) (n fuel : Nat)
    (H : write_ready c s fd1 h1 e l) (hne : fd1 ≠ fd2) (h20 : 0 ≤ fd2)
    (h21 : fd2 < (c.FS_OPEN_MAX_COUNT : Int)) (hh2 : s.oft[fd2.toNat]? = some h2)
    (hu2 : h2.used = true) (hr2 : h2.root_index = h1.root_index) (ho2 : h2.offset ≤ e.size)
    (hdata : n ≤ data.length) (hn : n < 2 ^ 63) (hfuel : l.length ≤ fuel) :
    ∃ (r : Nat) (s1 : State), fs_write c fuel s fd1 (some data) n = some ((r : Int), s1) ∧
      fs_stat c s1 fd2 = some ((max e.size (h1.offset + r) : Nat) : Int) ∧
      s1.oft[fd2.toNat]? = some h2 ∧
      ∀ dest : List Nat, r ≤ dest.length →
        ∃ (s2 s3 : State), fs_lseek c s1 fd2 h1.offset = some (0, s2) ∧
          fs_read c s2 fd2 (some dest) r =
            some ((r : Int), s3, some (data.take r ++ dest.drop r)) := by
  obtain ⟨k, fat1, disk1, r, hres⟩ := fs_write_spec c s fd1 h1 e l data n H hdata hn
  have H1 := write_ready_after c s fd1 h1 e l data n k fat1 disk1 r H hres
  obtain ⟨hr, hrun, hk, _, _, _, _, _, _, _, hcb, hcap, _⟩ := hres
  have hrle : r ≤ data.length := by
    rw [hr]
    exact Nat.le_trans (Nat.min_le_left _ _) hdata
  have hr63 : r < 2 ^ 63 := by
    rw [hr]
    exact Nat.lt_of_le_of_lt (Nat.min_le_left _ _) hn
  have hoft2 : (s.oft.set fd1.toNat { h1 with offset := h1.offset + r })[fd2.toNat]? =
      some h2 := by
    rw [List.getElem?_set_ne (toNat_ne _ _ H.fd_nonneg h20 hne)]
    exact hh2
  have H2 := write_ready_other c _ fd1 fd2 _ h2 _ _ H1 h20 h21 hoft2 hu2 hr2
    (Nat.le_trans ho2 (Nat.le_max_left _ _))
  have hin : ∀ b ∈ l ++ (free_slots s.fs.fat s.fs.sb.data_count).take k,
      s.fs.sb.data_index + b < s.disk.length := by
    intro b hb
    have hb2 := (is_chain_mem _ _ _ _ H1.chain b hb).2.1
    exact Nat.lt_of_lt_of_le (Nat.add_lt_add_left hb2 _) H.disk_length
  have hlenX : (chain_bytes s.disk s.fs.sb.data_index
      (l ++ (free_slots s.fs.fat s.fs.sb.data_count).take k)).length =
      (l.length + k) * c.BLOCK_SIZE := by
    rw [chain_bytes_length c _ _ _ H.block_length hin, List.length_append, List.length_take,
      Nat.min_eq_left hk]
  refine ⟨r, _, hrun fuel hfuel, ?_, hoft2, ?_⟩
  · rw [fs_stat_ok c _ fd2 _ _ (write_ready_handle c _ fd2 _ _ _ H2) H2.entry]
    exact congrArg some (to_int_of_lt _ (write_ready_size c _ fd2 _ _ _ H2))
  · intro dest hdest
    obtain ⟨s3, hseek, hread⟩ := seek_read c _ fd2 h2 _ _ dest h1.offset r H2
      (Nat.le_trans (Nat.le_add_right _ _) (Nat.le_max_right _ _)) hdest hr63
    refine ⟨_, s3, hseek, ?_⟩
    rw [hread]
    show some (((min r (max e.size (h1.offset + r) - h1.offset) : Nat) : Int), s3,
      some (((chain_bytes disk1 s.fs.sb.data_index
        (l ++ (free_slots s.fs.fat s.fs.sb.data_count).take k)).drop h1.offset).take
          (min r (max e.size (h1.offset + r) - h1.offset)) ++
        dest.drop (min r (max e.size (h1.offset + r) - h1.offset)))) = _
    have hm : min r (max e.size (h1.offset + r) - h1.offset) = r :=
      Nat.min_eq_left (by have := Nat.le_max_right e.size (h1.offset + r); omega)
    rw [hcb, read_back _ _ _ _ _ (by
        rw [hlenX]
        exact Nat.le_trans H.offset_le (mul_le_add_mul _ _ _ _ H.capacity)) hrle
      (Nat.le_max_right _ _), hm]

/-- On the small volume, 3 bytes written through handle 1, at offset 5, are
read through handle 0. -/
theorem write_visible_witness :
    ∃ (r : Nat) (s1 : State),
      fs_write small 2 small_open 1 (some [1, 2, 3]) 3 = some ((r : Int), s1) ∧
      fs_stat small s1 0 = some ((max 6 (5 + r) : Nat) : Int) ∧
      s1.oft[(0 : Int).toNat]? = some { used := true, root_index := 0, offset := 0 } ∧
      ∀ dest : List Nat, r ≤ dest.length →
        ∃ (s2 s3 : State), fs_lseek small s1 0 5 = some (0, s2) ∧
          fs_read small s2 0 (some dest) r =
            some ((r : Int), s3, some ([1, 2, 3].take r ++ dest.drop r)) :=
  write_visible small small_open 1 0 { used := true, root_index := 0, offset := 5 }
    { used := true, root_index := 0, offset := 0 }
    { filename := [97, 98, 0, 0], size := 6, data_index := 1, padding := List.replicate 10 0 }
    [1, 2] [1, 2, 3] 3 2
    (write_ready_other small small_open 0 1 _ _ _ _ small_open_ready (by decide) (by decide) rfl
      rfl rfl (by decide))
    (by decide) (by decide) (by decide) rfl rfl rfl (by decide) (by decide) (by decide)
    (by decide)

/-- A chain stays a chain in a table that has the same links in its slots. -/
theorem is_chain_same (fat fat1 : List Nat) (dc : Nat) (l : List Nat) :
    ∀ a, (∀ b ∈ l, fat1[b]? = fat[b]?) → is_chain fat dc a l = true →
      is_chain fat1 dc a l = true := by
  induction l with
  | nil =>
    intro a _ h
    rw [is_chain_nil] at h ⊢
    exact h
  | cons x l ih =>
    intro a hsame h
    rw [is_chain_cons] at h ⊢
    obtain ⟨h1, h2, h3, v, hv, hv0, hrest⟩ := h
    refine ⟨h1, h2, h3, v, ?_, hv0, ih v (fun b hb => hsame b (List.mem_cons_of_mem _ hb)) hrest⟩
    rw [hsame x (List.mem_cons_self _ _), hv]

/-- The chains of the small volume with its one file. -/
theorem small_open_chains :
    volume_chains small_open.fs (fun i => if i = 0 then [1, 2] else []) := by
  constructor
  · intro i e hi ha
    rcases i with _ | _ | _ | i
    · injection hi with hi
      subst hi
      decide
    · injection hi with hi
      subst hi
      exact absurd ha (by decide)
    · injection hi with hi
      subst hi
      exact absurd ha (by decide)
    · cases hi
  · intro i j e1 e2 hij hi hj ha1 ha2
    rcases i with _ | _ | _ | i
    · rcases j with _ | _ | _ | j
      · exact absurd rfl hij
      · injection hj with hj
        subst hj
        exact absurd ha2 (by decide)
      · injection hj with hj
        subst hj
        exact absurd ha2 (by decide)
      · cases hj
    · injection hi with hi
      subst hi
      exact absurd ha1 (by decide)
    · injection hi with hi
      subst hi
      exact absurd ha1 (by decide)
    · cases hi

/-! ## A table whose slot 0 is free

The scan for a free block starts at slot 0.  When slot 0 is free it is handed
out, and the link to it, the value 0, reads as the free mark in the slot that
holds it. -/

theorem write_loop_last_fuel (c : Consts) (di dc fuel : Nat) (data : List Nat)
    (tw co act f : Nat) (fat : List Nat) (disk disk1 : List (List Nat)) (hfuel : 2 ≤ fuel)
    (htw : 0 < tw) (hlast : tw ≤ c.BLOCK_SIZE - co % c.BLOCK_SIZE) (hdata : tw ≤ data.length)
    (hwb : write_block c disk (di + f) (co % c.BLOCK_SIZE) tw data = some disk1)
    (hco : co + tw < 2 ^ 64) (hact : act + tw < 2 ^ 64) :
    write_loop c di dc fuel data tw co act f fat disk =
      some (write_exit.finished (co + tw) (act + tw) fat disk1) := by
  obtain ⟨m, rfl⟩ : ∃ m, fuel = m + 2 := ⟨fuel - 2, (Nat.sub_add_cancel hfuel).symm⟩
  exact write_loop_last c di dc m data tw co act f fat disk disk1 htw hlast hdata hwb hco hact

theorem scan_zero (fat : List Nat) (dc : Nat) (hdc : 0 < dc) (h0 : fat[0]? = some 0) :
    find_free_block fat dc = some (some 0) := by
  unfold find_free_block
  rw [first_index_some_iff]
  refine ⟨hdc, ?_, fun j hj => absurd hj (Nat.not_lt_zero _)⟩
  rw [h0]
  rfl

theorem scan_one (fat : List Nat) (dc v : Nat) (hdc : 1 < dc) (h0 : fat[0]? = some v)
    (hv : v ≠ 0) (h1 : fat[1]? = some 0) : find_free_block fat dc = some (some 1) := by
  unfold find_free_block
  rw [first_index_some_iff]
  refine ⟨hdc, ?_, ?_⟩
  · rw [h1]
    rfl
  · intro j hj
    have hj0 : j = 0 := by omega
    subst hj0
    rw [h0]
    simp only [Option.map_some', Option.some.injEq, decide_eq_false_iff_not]
    exact hv

theorem eoc_ne_zero : FAT_EOC ≠ 0 := by decide

theorem zero_ne_eoc : 0 ≠ FAT_EOC := by decide

theorem one_ne_eoc : 1 ≠ FAT_EOC := by decide

theorem three_blocks_fit (bs off : Nat) (hoff : off = bs) (hint : bs * 65535 < 2 ^ 31) :
    off + (bs + bs) < 2 ^ 31 ∧ off + bs < 2 ^ 31 ∧ bs < 2 ^ 31 := by
  omega

/-- The start of `fs_write` at the end of a file of one block, the block of
slot 1, when slot 0 is free: slot 0 is linked after slot 1, which then holds the
value 0. -/
theorem append_slot_zero (c : Consts) (fuel : Nat) (s : State) (fd : Int)
    (h : open_file_entry) (e : root_entry) (data : List Nat) (count : Nat)
    (hh : handle_of c s fd = some (some h)) (he : root_at s.fs.root h.root_index = some e)
    (hBS : 0 < c.BLOCK_SIZE) (hint : c.BLOCK_SIZE * 65535 < 2 ^ 31)
    (hsize : e.size = c.BLOCK_SIZE) (hdi : e.data_index = 1) (hoff : h.offset = c.BLOCK_SIZE)
    (h0 : s.fs.fat[0]? = some 0) (h1 : s.fs.fat[1]? = some FAT_EOC)
    (hdc : 0 < s.fs.sb.data_count) (hfuel : 0 < fuel) (hpos : 0 < count)
    (hcount : count < 2 ^ 63) :
    fs_write c fuel s fd (some data) count =
      write_from c { s with fs := { s.fs with fat := (s.fs.fat.set 0 FAT_EOC).set 1 0 } }
        fd h e.size 0 data count := by
  have hsz : e.size < 2 ^ 31 := by
    rw [hsize]
    exact (three_blocks_fit _ _ rfl hint).2.2
  have hs0 : ¬ (e.size = 0 ∨ e.data_index = FAT_EOC) := by
    rw [hsize, hdi]
    rintro (hx | hx)
    · exact absurd hx (Nat.ne_of_gt hBS)
    · exact one_ne_eoc hx
  have hstart : (if e.size = 0 ∨ e.data_index = FAT_EOC then some FAT_EOC
      else walk s.fs.fat (h.offset / c.BLOCK_SIZE) e.data_index) = some FAT_EOC := by
    rw [if_neg hs0, hoff, Nat.div_self hBS, hdi, walk, if_neg one_ne_eoc, h1]
    rfl
  obtain ⟨m, rfl⟩ : ∃ m, fuel = m + 1 := ⟨fuel - 1, (Nat.sub_add_cancel hfuel).symm⟩
  have hprev : (if e.size > 0 ∧ e.data_index ≠ FAT_EOC then
      last_block s.fs.fat (m + 1) e.data_index else some FAT_EOC) = some 1 := by
    rw [if_pos ⟨by rw [hsize]; exact hBS, by rw [hdi]; exact one_ne_eoc⟩, hdi, last_block, h1]
    rfl
  exact fs_write_extend_append c (m + 1) s fd h e data count 0 1 hh he hstart
    (size_t_add_gt _ _ _ (by rw [hoff, hsize]) hsz hcount hpos) hprev
    (scan_zero _ _ hdc h0) zero_ne_eoc (getElem?_lt_length _ _ _ h0) one_ne_eoc
    (getElem?_lt_length _ _ _ h1)

/-- One block written at the end of a file of one block when slot 0 is free:
the block of slot 0 gets the bytes and slot 1, the first block of the file,
holds 0 afterwards. -/
theorem slot_zero_one_block (c : Consts) (fuel : Nat) (s : State) (fd : Int)
    (h : open_file_entry) (e : root_entry) (data old0 : List Nat)
    (hh : handle_of c s fd = some (some h)) (he : root_at s.fs.root h.root_index = some e)
    (hBS : 0 < c.BLOCK_SIZE) (hint : c.BLOCK_SIZE * 65535 < 2 ^ 31)
    (hsize : e.size = c.BLOCK_SIZE) (hdi : e.data_index = 1) (hoff : h.offset = c.BLOCK_SIZE)
    (h0 : s.fs.fat[0]? = some 0) (h1 : s.fs.fat[1]? = some FAT_EOC)
    (hdc : 0 < s.fs.sb.data_count) (hfuel : 0 < fuel)
    (hb0 : s.disk[s.fs.sb.data_index + 0]? = some old0) (hl0 : old0.length = c.BLOCK_SIZE)
    (hdata : c.BLOCK_SIZE ≤ data.length) :
    fs_write c fuel s fd (some data) c.BLOCK_SIZE =
      some ((c.BLOCK_SIZE : Int),
        { fs := { s.fs with
                  fat := (s.fs.fat.set 0 FAT_EOC).set 1 0
                  root := s.fs.root.set h.root_index.toNat
                    { e with size := h.offset + c.BLOCK_SIZE } }
          oft := s.oft.set fd.toNat { h with offset := h.offset + c.BLOCK_SIZE }
          disk := s.disk.set (s.fs.sb.data_index + 0)
            (store_bytes old0 0 (data.take c.BLOCK_SIZE)) }) := by
  have hfit := three_blocks_fit _ _ hoff hint
  have hmod : h.offset % c.BLOCK_SIZE = 0 := by rw [hoff]; exact Nat.mod_self _
  have hrun : write_loop c s.fs.sb.data_index s.fs.sb.data_count (c.BLOCK_SIZE + 1) data
      c.BLOCK_SIZE h.offset 0 0 ((s.fs.fat.set 0 FAT_EOC).set 1 0) s.disk =
      some (write_exit.finished (h.offset + c.BLOCK_SIZE) (0 + c.BLOCK_SIZE)
        ((s.fs.fat.set 0 FAT_EOC).set 1 0)
        (s.disk.set (s.fs.sb.data_index + 0) (store_bytes old0 0 (data.take c.BLOCK_SIZE)))) := by
    apply write_loop_last_fuel c _ _ _ data _ _ _ _ _ _ _ (by omega) hBS
      (by rw [hmod]; exact Nat.le_refl _) hdata
    · rw [hmod]
      exact write_block_eq c _ _ 0 _ data old0 hb0 hl0 hdata
    · omega
    · omega
  rw [append_slot_zero c fuel s fd h e data c.BLOCK_SIZE hh he hBS hint hsize hdi hoff h0 h1 hdc
      hfuel hBS (by omega),
    write_from_eq c { s with fs := { s.fs with fat := (s.fs.fat.set 0 FAT_EOC).set 1 0 } }
      fd h e.size 0 data c.BLOCK_SIZE c.BLOCK_SIZE _ _ e hrun he (by omega)]
  rw [if_pos (by rw [hsize, hoff]; omega)]

/-- Two blocks written at the end of a file of one block when slot 0 is free:
the first goes to the block of slot 0; then slot 1, the block of the file, reads
as free and is taken for the second, so the bytes of the file are written
over and the chain of the file still has one block. -/
theorem slot_zero_two_blocks (c : Consts) (fuel : Nat) (s : State) (fd : Int)
    (h : open_file_entry) (e : root_entry) (data old0 old1 : List Nat)
    (hh : handle_of c s fd = some (some h)) (he : root_at s.fs.root h.root_index = some e)
    (hBS : 0 < c.BLOCK_SIZE) (hint : c.BLOCK_SIZE * 65535 < 2 ^ 31)
    (hsize : e.size = c.BLOCK_SIZE) (hdi : e.data_index = 1) (hoff : h.offset = c.BLOCK_SIZE)
    (h0 : s.fs.fat[0]? = some 0) (h1 : s.fs.fat[1]? = some FAT_EOC)
    (hdc : 1 < s.fs.sb.data_count) (hfuel : 0 < fuel)
    (hb0 : s.disk[s.fs.sb.data_index + 0]? = some old0) (hl0 : old0.length = c.BLOCK_SIZE)
    (hb1 : s.disk[s.fs.sb.data_index + 1]? = some old1) (hl1 : old1.length = c.BLOCK_SIZE)
    (hdata : c.BLOCK_SIZE + c.BLOCK_SIZE ≤ data.length) :
    fs_write c fuel s fd (some data) (c.BLOCK_SIZE + c.BLOCK_SIZE) =
      some (((c.BLOCK_SIZE + c.BLOCK_SIZE : Nat) : Int),
        { fs := { s.fs with
                  fat := ((((s.fs.fat.set 0 FAT_EOC).set 1 0).set 0 1).set 1 FAT_EOC)
                  root := s.fs.root.set h.root_index.toNat
                    { e with size := h.offset + (c.BLOCK_SIZE + c.BLOCK_SIZE) } }
          oft := s.oft.set fd.toNat
            { h with offset := h.offset + (c.BLOCK_SIZE + c.BLOCK_SIZE) }
          disk := (s.disk.set (s.fs.sb.data_index + 0)
              (store_bytes old0 0 (data.take c.BLOCK_SIZE))).set (s.fs.sb.data_index + 1)
            (store_bytes old1 0 ((data.drop c.BLOCK_SIZE).take c.BLOCK_SIZE)) }) := by
  have hfit := three_blocks_fit _ _ hoff hint
  have hmod : h.offset % c.BLOCK_SIZE = 0 := by rw [hoff]; exact Nat.mod_self _
  have hmod2 : (h.offset + c.BLOCK_SIZE) % c.BLOCK_SIZE = 0 := by
    rw [Nat.add_mod_right]; exact hmod
  have hlen0 := getElem?_lt_length _ _ _ h0
  have hlen1 := getElem?_lt_length _ _ _ h1
  have hfa0 : ((s.fs.fat.set 0 FAT_EOC).set 1 0)[0]? = some FAT_EOC := by
    rw [List.getElem?_set_ne (by decide)]
    exact List.getElem?_set_self hlen0
  have hfa1 : ((s.fs.fat.set 0 FAT_EOC).set 1 0)[1]? = some 0 :=
    List.getElem?_set_self (by rw [List.length_set]; exact hlen1)
  have hwb1 : write_block c s.disk (s.fs.sb.data_index + 0) (h.offset % c.BLOCK_SIZE)
      (c.BLOCK_SIZE - h.offset % c.BLOCK_SIZE) data =
      some (s.disk.set (s.fs.sb.data_index + 0) (store_bytes old0 0 (data.take c.BLOCK_SIZE))) := by
    rw [hmod, Nat.sub_zero]
    exact write_block_eq c _ _ 0 _ data old0 hb0 hl0 (by omega)
  have hb1' : (s.disk.set (s.fs.sb.data_index + 0)
      (store_bytes old0 0 (data.take c.BLOCK_SIZE)))[s.fs.sb.data_index + 1]? = some old1 := by
    rw [List.getElem?_set_ne (by omega)]
    exact hb1
  have hrun : write_loop c s.fs.sb.data_index s.fs.sb.data_count
      (c.BLOCK_SIZE + c.BLOCK_SIZE + 1) data (c.BLOCK_SIZE + c.BLOCK_SIZE) h.offset 0 0
      ((s.fs.fat.set 0 FAT_EOC).set 1 0) s.disk =
      some (write_exit.finished (h.offset + (c.BLOCK_SIZE + c.BLOCK_SIZE))
        (0 + (c.BLOCK_SIZE + c.BLOCK_SIZE))
        ((((s.fs.fat.set 0 FAT_EOC).set 1 0).set 0 1).set 1 FAT_EOC)
        ((s.disk.set (s.fs.sb.data_index + 0)
            (store_bytes old0 0 (data.take c.BLOCK_SIZE))).set (s.fs.sb.data_index + 1)
          (store_bytes old1 0 ((data.drop c.BLOCK_SIZE).take c.BLOCK_SIZE)))) := by
    rw [write_loop_alloc c _ _ _ data _ _ _ 0 1 _ _ _ (by rw [hmod]; omega) hdata hwb1 hfa0
      (scan_one _ _ _ hdc hfa0 eoc_ne_zero hfa1) one_ne_eoc
      (by rw [List.length_set, List.length_set]; exact hlen0)
      (by rw [List.length_set, List.length_set]; exact hlen1) (by decide) (by omega) (by omega)]
    rw [hmod, Nat.sub_zero, Nat.add_sub_cancel, ← Nat.add_assoc, ← Nat.add_assoc]
    apply write_loop_last_fuel c _ _ _ _ _ _ _ _ _ _ _ (by omega) hBS
      (by rw [hmod2]; exact Nat.le_refl _) (by rw [List.length_drop]; omega)
    · rw [hmod2]
      exact write_block_eq c _ _ 0 _ _ old1 hb1' hl1 (by rw [List.length_drop]; omega)
    · omega
    · omega
  rw [append_slot_zero c fuel s fd h e data _ hh he hBS hint hsize hdi hoff h0 h1
      (Nat.lt_trans Nat.zero_lt_one hdc) hfuel (by omega) (by omega),
    write_from_eq c { s with fs := { s.fs with fat := (s.fs.fat.set 0 FAT_EOC).set 1 0 } }
      fd h e.size 0 data _ (c.BLOCK_SIZE + c.BLOCK_SIZE) _ _ e hrun he (by omega)]
  rw [if_pos (by rw [hsize, hoff]; omega)]

/-- A read from a place of the file that its chain does not reach stores
nothing, returns 0 and leaves the offset where it is. -/
theorem fs_read_unreached (c : Consts) (s : State) (fd : Int) (h : open_file_entry)
    (e : root_entry) (dest : List Nat) (count : Nat)
    (hh : handle_of c s fd = some (some h)) (he : root_at s.fs.root h.root_index = some e)
    (hlt : h.offset < e.size)
    (hwalk : walk s.fs.fat (h.offset / c.BLOCK_SIZE) e.data_index = some FAT_EOC) :
    fs_read c s fd (some dest) count =
      some (0, { s with oft := s.oft.set fd.toNat { h with offset := h.offset } },
        some dest) := by
  unfold fs_read
  simp only [hh, he, hwalk]
  rw [if_neg (Nat.not_le.2 hlt), read_loop]
  simp only [or_true, if_true, List.nil_append, to_int_zero]

/-! ## The claims on a volume whose slot 0 is free -/

theorem worn_fat0 : worn_volume.fs.fat[0]? = some 0 := by
  show (0 :: FAT_EOC :: List.replicate 2046 0)[0]? = _
  rw [List.getElem?_cons_zero]

theorem worn_fat1 : worn_volume.fs.fat[1]? = some FAT_EOC := by
  show (0 :: FAT_EOC :: List.replicate 2046 0)[1]? = _
  rw [List.getElem?_cons_succ, List.getElem?_cons_zero]

theorem worn_root0 :
    worn_volume.fs.root[0]? =
      some { filename := 97 :: List.replicate 15 0, size := 4096, data_index := 1,
             padding := List.replicate 10 0 } := by
  show (_ :: List.replicate 127 (zero_entry ecs150))[0]? = _
  rw [List.getElem?_cons_zero]

theorem worn_disk3 :
    worn_volume.disk[worn_volume.fs.sb.data_index + 0]? = some (List.replicate 4096 0) := by
  show ([List.replicate 4096 0, List.replicate 4096 0, List.replicate 4096 0,
    List.replicate 4096 0, List.replicate 4096 7, List.replicate 4096 0,
    List.replicate 4096 0] : List (List Nat))[3]? = _
  simp only [List.getElem?_cons_succ, List.getElem?_cons_zero]

theorem worn_disk4 :
    worn_volume.disk[worn_volume.fs.sb.data_index + 1]? = some (List.replicate 4096 7) := by
  show ([List.replicate 4096 0, List.replicate 4096 0, List.replicate 4096 0,
    List.replicate 4096 0, List.replicate 4096 7, List.replicate 4096 0,
    List.replicate 4096 0] : List (List Nat))[4]? = _
  simp only [List.getElem?_cons_succ, List.getElem?_cons_zero]

theorem worn_handle0 :
    handle_of ecs150 worn_volume 0 = some (some { used := true, root_index := 0, offset := 4096 }) :=
  handle_of_ok ecs150 worn_volume 0 _ rfl (by decide) (by decide) rfl rfl

theorem worn_entry :
    root_at worn_volume.fs.root 0 =
      some { filename := 97 :: List.replicate 15 0, size := 4096, data_index := 1,
             padding := List.replicate 10 0 } := by
  unfold root_at
  rw [if_neg (by decide)]
  exact worn_root0

theorem worn_chain :
    is_chain worn_volume.fs.fat worn_volume.fs.sb.data_count 1 [1] = true := by
  rw [is_chain_cons]
  exact ⟨rfl, one_ne_eoc, by decide, FAT_EOC, worn_fat1, eoc_ne_zero, (is_chain_nil _ _ _).2 rfl⟩

theorem worn_others_free : ∀ e ∈ worn_volume.fs.root.drop 1, is_free e = true := by
  intro e he
  have h1 : e ∈ List.replicate 127 (zero_entry ecs150) := he
  rw [List.eq_of_mem_replicate h1]
  rfl

theorem worn_data_length (n : Nat) : (List.replicate n 1).length = n := List.length_replicate n 1

/-- The call that writes two blocks at the end of the file of `worn_volume`. -/
theorem worn_two_blocks :
    fs_write ecs150 1 worn_volume 0 (some (List.replicate 8192 1)) 8192 =
      some (8192,
        { fs := { worn_volume.fs with
                  fat := ((((worn_volume.fs.fat.set 0 FAT_EOC).set 1 0).set 0 1).set 1 FAT_EOC)
                  root := worn_volume.fs.root.set 0
                    { filename := 97 :: List.replicate 15 0, size := 12288, data_index := 1,
                      padding := List.replicate 10 0 } }
          oft := worn_volume.oft.set 0 { used := true, root_index := 0, offset := 12288 }
          disk := (worn_volume.disk.set 3
              (store_bytes (List.replicate 4096 0) 0 ((List.replicate 8192 1).take 4096))).set 4
            (store_bytes (List.replicate 4096 7) 0
              (((List.replicate 8192 1).drop 4096).take 4096)) }) :=
  slot_zero_two_blocks ecs150 1 worn_volume 0 _ _ (List.replicate 8192 1)
    (List.replicate 4096 0) (List.replicate 4096 7) worn_handle0 worn_entry (by decide)
    (by decide) rfl rfl rfl worn_fat0 worn_fat1 (by decide) (by decide) worn_disk3
    (List.length_replicate _ _) worn_disk4 (List.length_replicate _ _)
    (by rw [worn_data_length]; decide)

theorem worn_fat_after :
    (((((worn_volume.fs.fat.set 0 FAT_EOC).set 1 0).set 0 1).set 1 FAT_EOC))[1]? =
      some FAT_EOC :=
  List.getElem?_set_self (by
    rw [List.length_set, List.length_set, List.length_set]
    exact getElem?_lt_length worn_volume.fs.fat 1 FAT_EOC worn_fat1)

theorem worn_chain_after :
    is_chain (((((worn_volume.fs.fat.set 0 FAT_EOC).set 1 0).set 0 1).set 1 FAT_EOC))
      worn_volume.fs.sb.data_count 1 [1] = true := by
  rw [is_chain_cons]
  exact ⟨rfl, one_ne_eoc, by decide, FAT_EOC, worn_fat_after, eoc_ne_zero,
    (is_chain_nil _ _ _).2 rfl⟩

/-- C17 as stated fails when slot 0 of the table is free.  In `worn_volume`
the handle is at offset 4096, the size of its file, whose chain is the one slot
1, with room for 4096 bytes.  After 8192 bytes are written the size is 12288
and the chain of the file is still the one slot 1: the second block written
took slot 1 itself, which held 0 as the link to slot 0. -/
theorem fs_write_capacity_counterexample :
    ∃ (s1 : State) (e1 : root_entry),
      is_chain worn_volume.fs.fat worn_volume.fs.sb.data_count 1 [1] = true ∧
      fs_write ecs150 1 worn_volume 0 (some (List.replicate 8192 1)) 8192 = some (8192, s1) ∧
      root_at s1.fs.root 0 = some e1 ∧ e1.data_index = 1 ∧ e1.size = 12288 ∧
      is_chain s1.fs.fat s1.fs.sb.data_count e1.data_index [1] = true ∧
      ([1] : List Nat).length * ecs150.BLOCK_SIZE < e1.size :=
  ⟨_, _, worn_chain, worn_two_blocks, root_at_set _ _ _ _ worn_entry, rfl, rfl, worn_chain_after,
    by decide⟩

/-- C19 as stated fails when slot 0 of the table is free.  The file of
`worn_volume` has 4096 bytes, all 7, in the block of slot 1; 8192 bytes, all 1,
are written at offset 4096; afterwards the byte at position 0 of the file, which
is before the old size and outside the range written, is 1. -/
theorem fs_write_frame_counterexample :
    ∃ (s1 : State),
      fs_write ecs150 1 worn_volume 0 (some (List.replicate 8192 1)) 8192 = some (8192, s1) ∧
      is_chain worn_volume.fs.fat worn_volume.fs.sb.data_count 1 [1] = true ∧
      is_chain s1.fs.fat s1.fs.sb.data_count 1 [1] = true ∧
      (chain_bytes worn_volume.disk worn_volume.fs.sb.data_index [1])[0]? = some 7 ∧
      (chain_bytes s1.disk s1.fs.sb.data_index [1])[0]? = some 1 := by
  refine ⟨_, worn_two_blocks, worn_chain, worn_chain_after, ?_, ?_⟩
  · show ((List.replicate 4096 7 ++ []) : List Nat)[0]? = some 7
    rw [List.append_nil, List.getElem?_replicate]
    rfl
  · show ((((worn_volume.disk.set 3 _).set 4 _).getD (3 + 1) [] ++ []) : List Nat)[0]? = some 1
    rw [List.append_nil, List.getD_eq_getElem?_getD, List.getElem?_set_self (by
      rw [List.length_set]; decide)]
    show (store_bytes (List.replicate 4096 7) 0
      (((List.replicate 8192 1).drop 4096).take 4096))[0]? = some 1
    unfold store_bytes
    rw [List.take_zero, List.nil_append, List.drop_replicate, List.take_replicate,
      List.getElem?_append_left (by rw [List.length_replicate]; decide),
      List.getElem?_replicate]
    rfl

/-- C13 as stated fails when slot 0 of the table is free.  Both handles of
`worn_volume` are on the one file; 8192 bytes are written through handle 0 at
offset 4096 and 8192 is returned; through handle 1, after a seek to 4096, a read
of 8192 bytes returns 0 and stores nothing, because the chain of the file ends
after its first block. -/
theorem write_visible_counterexample :
    ∃ (s1 s2 s3 : State),
      worn_volume.oft[0]? = some { used := true, root_index := 0, offset := 4096 } ∧
      worn_volume.oft[1]? = some { used := true, root_index := 0, offset := 0 } ∧
      is_chain worn_volume.fs.fat worn_volume.fs.sb.data_count 1 [1] = true ∧
      fs_write ecs150 1 worn_volume 0 (some (List.replicate 8192 1)) 8192 = some (8192, s1) ∧
      fs_lseek ecs150 s1 1 4096 = some (0, s2) ∧
      fs_read ecs150 s2 1 (some (List.replicate 8192 0)) 8192 =
        some (0, s3, some (List.replicate 8192 0)) := by
  have hh1 : handle_of ecs150
      { fs := { worn_volume.fs with
                fat := ((((worn_volume.fs.fat.set 0 FAT_EOC).set 1 0).set 0 1).set 1 FAT_EOC)
                root := worn_volume.fs.root.set 0
                  { filename := 97 :: List.replicate 15 0, size := 12288, data_index := 1,
                    padding := List.replicate 10 0 } }
        oft := worn_volume.oft.set 0 { used := true, root_index := 0, offset := 12288 }
        disk := (worn_volume.disk.set 3
            (store_bytes (List.replicate 4096 0) 0 ((List.replicate 8192 1).take 4096))).set 4
          (store_bytes (List.replicate 4096 7) 0
            (((List.replicate 8192 1).drop 4096).take 4096)) } 1 =
      some (some { used := true, root_index := 0, offset := 0 }) :=
    handle_of_ok ecs150 _ 1 _ rfl (by decide) (by decide) rfl rfl
  exact ⟨_, _, _, rfl, rfl, worn_chain, worn_two_blocks,
    fs_lseek_ok ecs150 _ 1 _ _ 4096 hh1 (root_at_set _ _ _ _ worn_entry) (by decide),
    fs_read_unreached ecs150 _ 1 { used := true, root_index := 0, offset := 4096 }
      { filename := 97 :: List.replicate 15 0, size := 12288, data_index := 1,
        padding := List.replicate 10 0 } _ 8192
      (handle_of_ok ecs150 _ 1 _ rfl (by decide) (by decide) rfl rfl)
      (root_at_set _ _ _ _ worn_entry) (by decide) (by
        show walk _ 1 1 = some FAT_EOC
        rw [walk, if_neg one_ne_eoc, worn_fat_after]
        rfl)⟩

/-- The call that writes one block at the end of the file of `worn_volume`. -/
theorem worn_one_block :
    fs_write ecs150 1 worn_volume 0 (some (List.replicate 4096 1)) 4096 =
      some (4096,
        { fs := { worn_volume.fs with
                  fat := (worn_volume.fs.fat.set 0 FAT_EOC).set 1 0
                  root := worn_volume.fs.root.set 0
                    { filename := 97 :: List.replicate 15 0, size := 8192, data_index := 1,
                      padding := List.replicate 10 0 } }
          oft := worn_volume.oft.set 0 { used := true, root_index := 0, offset := 8192 }
          disk := worn_volume.disk.set 3
            (store_bytes (List.replicate 4096 0) 0 ((List.replicate 4096 1).take 4096)) }) :=
  slot_zero_one_block ecs150 1 worn_volume 0 _ _ (List.replicate 4096 1)
    (List.replicate 4096 0) worn_handle0 worn_entry (by decide) (by decide) rfl rfl rfl
    worn_fat0 worn_fat1 (by decide) (by decide) worn_disk3 (List.length_replicate _ _)
    (by rw [worn_data_length]; decide)

theorem worn_chains :
    volume_chains worn_volume.fs (fun i => if i = 0 then [1] else []) := by
  have hfree : ∀ (i : Nat) (e : root_entry), worn_volume.fs.root[i + 1]? = some e →
      is_free e = true := by
    intro i e hi
    have h1 := hi
    rw [show worn_volume.fs.root = _ :: List.replicate 127 (zero_entry ecs150) from rfl,
      List.getElem?_cons_succ, List.getElem?_replicate] at h1
    by_cases hlt : i < 127
    · rw [if_pos hlt] at h1
      rw [← Option.some.inj h1]
      rfl
    · rw [if_neg hlt] at h1
      cases h1
  constructor
  · intro i e hi ha
    cases i with
    | zero =>
      rw [worn_root0] at hi
      rw [← Option.some.inj hi]
      exact worn_chain
    | succ i =>
      rw [hfree i e hi] at ha
      exact absurd ha (by decide)
  · intro i j e1 e2 hij hi hj ha1 ha2
    cases i with
    | zero =>
      cases j with
      | zero => exact absurd rfl hij
      | succ j =>
        rw [hfree j e2 hj] at ha2
        exact absurd ha2 (by decide)
    | succ i =>
      rw [hfree i e1 hi] at ha1
      exact absurd ha1 (by decide)

/-- C16 as stated fails when slot 0 of the table is free.  In `worn_volume`
the one file in use has the chain made of slot 1, in range, ending in
`FAT_EOC`, without a free slot.  After 4096 bytes are written at the end of the
file, slot 1, still the first block of the file, holds 0, the free mark: the
link to the block taken, slot 0, and no list of slots is the chain of the file
any more. -/
theorem fs_write_keeps_chains_counterexample :
    ∃ (s1 : State) (e1 : root_entry),
      volume_chains worn_volume.fs (fun i => if i = 0 then [1] else []) ∧
      fs_write ecs150 1 worn_volume 0 (some (List.replicate 4096 1)) 4096 = some (4096, s1) ∧
      s1.fs.root[0]? = some e1 ∧ is_free e1 = false ∧ e1.data_index = 1 ∧
      s1.fs.fat[1]? = some 0 ∧ ¬ ∃ ch, volume_chains s1.fs ch := by
  have hfat : ((worn_volume.fs.fat.set 0 FAT_EOC).set 1 0)[1]? = some 0 :=
    List.getElem?_set_self (by
      rw [List.length_set]
      exact getElem?_lt_length worn_volume.fs.fat 1 FAT_EOC worn_fat1)
  have hroot : (worn_volume.fs.root.set 0
      { filename := 97 :: List.replicate 15 0, size := 8192, data_index := 1,
        padding := List.replicate 10 0 })[0]? =
      some { filename := 97 :: List.replicate 15 0, size := 8192, data_index := 1,
             padding := List.replicate 10 0 } :=
    List.getElem?_set_self (getElem?_lt_length _ _ _ worn_root0)
  refine ⟨_, _, worn_chains, worn_one_block, hroot, rfl, rfl, hfat, ?_⟩
  rintro ⟨ch, hch, _⟩
  have h1 := hch 0 _ hroot rfl
  cases hl : ch 0 with
  | nil =>
    rw [hl, is_chain_nil] at h1
    exact one_ne_eoc h1
  | cons b l =>
    rw [hl, is_chain_cons] at h1
    obtain ⟨hb, _, _, v, hv, hv0, _⟩ := h1
    have hb1 : b = 1 := hb.symm
    subst hb1
    have hv1 : some v = some 0 := hv.symm.trans hfat
    exact hv0 (Option.some.inj hv1)

/-! ## What fs_umount writes is what fs_mount reads -/

theorem to_bytes_length (n : Nat) : ∀ v, (to_bytes n v).length = n := by
  induction n with
  | zero => intro v; rfl
  | succ n ih => intro v; rw [to_bytes, List.length_cons, ih]

theorem of_to_bytes (n : Nat) : ∀ v, v < 256 ^ n → of_bytes (to_bytes n v) = v := by
  induction n with
  | zero =>
    intro v hv
    rw [Nat.pow_zero] at hv
    rw [to_bytes, of_bytes]
    omega
  | succ n ih =>
    intro v hv
    rw [to_bytes, of_bytes, ih (v / 256) (by
      rw [Nat.pow_succ] at hv
      exact Nat.div_lt_of_lt_mul (by rw [Nat.mul_comm]; exact hv))]
    exact Nat.mod_add_div v 256

theorem fat_of_bytes_of_fat (fat : List Nat) (h : ∀ v ∈ fat, v < 65536) :
    fat_of_bytes (bytes_of_fat fat) = fat := by
  induction fat with
  | nil => rfl
  | cons v rest ih =>
    have hv := h v (List.mem_cons_self _ _)
    rw [bytes_of_fat, fat_of_bytes, ih (fun w hw => h w (List.mem_cons_of_mem _ hw)),
      Nat.mod_eq_of_lt (show v / 256 < 256 by omega), Nat.mod_add_div]

theorem bytes_of_fat_length (fat : List Nat) : (bytes_of_fat fat).length = 2 * fat.length := by
  induction fat with
  | nil => rfl
  | cons v rest ih =>
    rw [bytes_of_fat, List.length_cons, List.length_cons, List.length_cons, ih]
    omega

theorem entry_round (c : Consts) (e : root_entry) (rest : List Nat)
    (hf : e.filename.length = c.FS_FILENAME_LEN) (hs : e.size < 2 ^ 32)
    (hd : e.data_index < 65536) (hp : e.padding.length = 10) :
    entry_of_bytes c (bytes_of_entry e ++ rest) = e ∧
      (bytes_of_entry e ++ rest).drop (c.FS_FILENAME_LEN + 16) = rest ∧
      (bytes_of_entry e).length = c.FS_FILENAME_LEN + 16 := by
  have hB := to_bytes_length 4 e.size
  have hC := to_bytes_length 2 e.data_index
  have e1 : bytes_of_entry e ++ rest =
      e.filename ++ (to_bytes 4 e.size ++ (to_bytes 2 e.data_index ++ (e.padding ++ rest))) := by
    unfold bytes_of_entry
    simp only [List.append_assoc]
  have dA := @List.drop_left' _ _ (to_bytes 4 e.size ++ (to_bytes 2 e.data_index ++
    (e.padding ++ rest))) _ hf
  have dB := @List.drop_left' _ _ (to_bytes 2 e.data_index ++ (e.padding ++ rest)) _ hB
  have dC := @List.drop_left' _ _ (e.padding ++ rest) _ hC
  have dP := @List.drop_left' _ _ (rest) _ hp
  have tA := @List.take_left' _ _ (to_bytes 4 e.size ++ (to_bytes 2 e.data_index ++
    (e.padding ++ rest))) _ hf
  have tB := @List.take_left' _ _ (to_bytes 2 e.data_index ++ (e.padding ++ rest)) _ hB
  have tC := @List.take_left' _ _ (e.padding ++ rest) _ hC
  have tP := @List.take_left' _ _ (rest) _ hp
  have o1 : of_bytes (to_bytes 4 e.size) = e.size :=
    of_to_bytes 4 _ (by show e.size < 256 ^ 4; omega)
  have o2 : of_bytes (to_bytes 2 e.data_index) = e.data_index :=
    of_to_bytes 2 _ (by show e.data_index < 256 ^ 2; omega)
  refine ⟨?_, ?_, ?_⟩
  · unfold entry_of_bytes
    rw [e1, show c.FS_FILENAME_LEN + 6 = c.FS_FILENAME_LEN + 4 + 2 from rfl,
      ← List.drop_drop, ← List.drop_drop, ← List.drop_drop, dA, dB, dC, tA, tB, tC, tP, o1, o2]
  · rw [e1, show c.FS_FILENAME_LEN + 16 = c.FS_FILENAME_LEN + 4 + 2 + 10 from rfl,
      ← List.drop_drop, ← List.drop_drop, ← List.drop_drop, dA, dB, dC, dP]
  · unfold bytes_of_entry
    rw [List.length_append, List.length_append, List.length_append, hf, hB, hC, hp]


theorem bytes_of_root_length (c : Consts) (root : List root_entry)
    (hshape : ∀ e ∈ root, e.filename.length = c.FS_FILENAME_LEN ∧ e.size < 2 ^ 32 ∧
      e.data_index < 65536 ∧ e.padding.length = 10) :
    (bytes_of_root root).length = root.length * (c.FS_FILENAME_LEN + 16) := by
  induction root with
  | nil => rw [bytes_of_root, List.length_nil, List.length_nil, Nat.zero_mul]
  | cons e rest ih =>
    obtain ⟨hf, hs, hd, hp⟩ := hshape e (List.mem_cons_self _ _)
    rw [bytes_of_root, List.length_append, (entry_round c e [] hf hs hd hp).2.2,
      ih (fun x hx => hshape x (List.mem_cons_of_mem _ hx)), List.length_cons, Nat.succ_mul]
    omega

/-- The directory read back from its bytes. -/
theorem root_of_bytes_of_root (c : Consts) (root : List root_entry)
    (hshape : ∀ e ∈ root, e.filename.length = c.FS_FILENAME_LEN ∧ e.size < 2 ^ 32 ∧
      e.data_index < 65536 ∧ e.padding.length = 10) :
    root_of_bytes c root.length (bytes_of_root root) = root := by
  induction root with
  | nil => rfl
  | cons e rest ih =>
    obtain ⟨hf, hs, hd, hp⟩ := hshape e (List.mem_cons_self _ _)
    have hr := entry_round c e (bytes_of_root rest) hf hs hd hp
    rw [List.length_cons, root_of_bytes, bytes_of_root, hr.1, hr.2.1,
      ih (fun x hx => hshape x (List.mem_cons_of_mem _ hx))]

/-- The loop of `fs_umount` over the blocks of the table: every call
succeeds when the blocks are on the device, the blocks written hold the bytes
and the other blocks are left. -/
theorem write_blocks_spec (bs : Nat) (n : Nat) :
    ∀ (bytes : List Nat) (disk : List (List Nat)) (first : Nat),
      bytes.length = n * bs → first + n ≤ disk.length →
      ∃ disk1, write_blocks bs bytes disk first n = some (true, disk1) ∧
        disk1.length = disk.length ∧ read_blocks disk1 first n = some bytes ∧
        (∀ j, j < first → disk1[j]? = disk[j]?) ∧
        (∀ j, first + n ≤ j → disk1[j]? = disk[j]?) := by
  induction n with
  | zero =>
    intro bytes disk first hlen _
    rw [Nat.zero_mul] at hlen
    refine ⟨disk, rfl, rfl, ?_, fun j _ => rfl, fun j _ => rfl⟩
    rw [List.eq_nil_of_length_eq_zero hlen]
    rfl
  | succ n ih =>
    intro bytes disk first hlen hfit
    rw [Nat.succ_mul] at hlen
    have hfirst : first < disk.length := by omega
    have hdrop : (bytes.drop bs).length = n * bs := by
      rw [List.length_drop]; omega
    obtain ⟨disk1, hw, hl1, hr1, hlo, hhi⟩ := ih (bytes.drop bs)
      (disk.set first (bytes.take bs)) (first + 1) hdrop (by rw [List.length_set]; omega)
    rw [List.length_set] at hl1
    have hblock : disk1[first]? = some (bytes.take bs) := by
      rw [hlo first (Nat.lt_succ_self _)]
      exact List.getElem?_set_self hfirst
    refine ⟨disk1, ?_, hl1, ?_, ?_, ?_⟩
    · rw [write_blocks, if_neg (by omega)]
      unfold block_write
      rw [if_pos hfirst]
      exact hw
    · rw [read_blocks]
      unfold block_read
      rw [hblock, hr1]
      exact congrArg some (List.take_append_drop bs bytes)
    · intro j hj
      rw [hlo j (Nat.lt_succ_of_lt hj), List.getElem?_set_ne (by omega)]
    · intro j hj
      rw [hhi j (by omega), List.getElem?_set_ne (by omega)]

/-- Blocks read from a device that has the same blocks in the range read. -/
theorem read_blocks_congr (disk disk1 : List (List Nat)) (n : Nat) :
    ∀ first, (∀ j, first ≤ j → j < first + n → disk1[j]? = disk[j]?) →
      read_blocks disk1 first n = read_blocks disk first n := by
  induction n with
  | zero => intro first _; rfl
  | succ n ih =>
    intro first h
    rw [read_blocks, read_blocks]
    unfold block_read
    rw [h first (Nat.le_refl _) (by omega), ih (first + 1) (fun j h1 h2 => h j (by omega) (by omega))]

/-- The scan of `fs_umount` when no handle is in use. -/
theorem umount_scan_none (c : Consts) (s : State) (hlen : c.FS_OPEN_MAX_COUNT ≤ s.oft.length)
    (hclosed : ∀ h ∈ s.oft, h.used = false) :
    first_index c.FS_OPEN_MAX_COUNT (fun i => (s.oft[i]?).map (fun h => h.used)) =
      some none := by
  rw [first_index_none_iff]
  intro j hj
  have hj2 : j < s.oft.length := Nat.lt_of_lt_of_le hj hlen
  show (s.oft[j]?).map (fun h => h.used) = some false
  rw [List.getElem?_eq_getElem hj2, Option.map_some', hclosed _ (List.getElem_mem hj2)]

theorem cleared_oft_unused (c : Consts) : ∀ h ∈ cleared_oft c, h.used = false := by
  intro h hh
  unfold cleared_oft at hh
  rw [List.eq_of_mem_replicate hh]

/-- What `fs_umount` does when no handle is in use and the device takes every
write: the bytes of the table go to the blocks from block 1 on, the bytes of the
directory to the block `root_index`. -/
theorem fs_umount_ok (c : Consts) (s : State) (disk1 : List (List Nat))
    (hm : s.fs.mounted_status = true) (hoft : c.FS_OPEN_MAX_COUNT ≤ s.oft.length)
    (hclosed : ∀ h ∈ s.oft, h.used = false)
    (hdir : c.FS_FILE_MAX_COUNT * (c.FS_FILENAME_LEN + 16) = c.BLOCK_SIZE)
    (hrootbytes : (bytes_of_root s.fs.root).length = c.BLOCK_SIZE)
    (hw : write_blocks c.BLOCK_SIZE (bytes_of_fat s.fs.fat) s.disk 1 s.fs.sb.fat_blocks =
      some (true, disk1))
    (hri : s.fs.sb.root_index < disk1.length) :
    fs_umount c s true =
      some (0, { fs := { s.fs with fat := [], mounted_status := false }
                 oft := s.oft
                 disk := disk1.set s.fs.sb.root_index (bytes_of_root s.fs.root) }) := by
  unfold fs_umount
  rw [if_neg (by rw [hm]; decide)]
  simp only [umount_scan_none c s hoft hclosed, hw]
  rw [if_neg (by
    rintro (h | h)
    · exact h hdir
    · exact h hrootbytes)]
  unfold block_write
  rw [if_pos hri]
  rfl

/-- What `fs_mount` does on a device that holds a superblock with the
signature and the number of blocks of the device, when every call succeeds. -/
theorem fs_mount_ok (c : Consts) (s : State) (disk : List (List Nat))
    (b0 fat_bytes root_bytes : List Nat) (hm : s.fs.mounted_status = false)
    (hbs1 : 17 ≤ c.BLOCK_SIZE) (hbs2 : c.BLOCK_SIZE ≤ 4096)
    (hdir : c.FS_FILE_MAX_COUNT * (c.FS_FILENAME_LEN + 16) = c.BLOCK_SIZE)
    (hb0 : disk[0]? = some b0) (hb0len : b0.length = c.BLOCK_SIZE)
    (hsig : (superblock_of_bytes b0).signature = [69, 67, 83, 49, 53, 48, 70, 83])
    (htotal : (superblock_of_bytes b0).total_blocks = disk.length)
    (hfat : read_blocks disk 1 (superblock_of_bytes b0).fat_blocks = some fat_bytes)
    (hroot : disk[(superblock_of_bytes b0).root_index]? = some root_bytes)
    (hrootlen : root_bytes.length = c.BLOCK_SIZE) :
    fs_mount c s (some disk) true =
      some (0, { fs := { sb := superblock_of_bytes b0
                         fat := fat_of_bytes fat_bytes
                         root := root_of_bytes c c.FS_FILE_MAX_COUNT root_bytes
                         mounted_status := true }
                 oft := cleared_oft c
                 disk := disk }) := by
  unfold fs_mount
  rw [if_neg (by rw [hm]; decide)]
  simp only [block_read, hb0, hfat, hroot]
  rw [if_neg (by
    rintro (h | h | h)
    · omega
    · omega
    · exact h hb0len), if_neg (fun h => h hsig), if_neg (fun h => h htotal),
    if_neg (by decide), if_neg (by
    rintro (h | h)
    · exact h hdir
    · exact h hrootlen)]

/-- C14. Persistence round trip.  For a mounted volume with no handle in use
and a layout where the directory block lies after the blocks of the table, the
device holding the superblock in block 0: `fs_umount` returns 0, the blocks 1
to `fat_blocks` of the device then hold the table and the block `root_index`
the directory, no volume is mounted; and `fs_mount` on the same device returns
0 with the table and the directory that were in memory before the unmount and
an open-file table without a handle in use. -/
theorem umount_mount_round_trip (c : Consts) (s : State) (b0 : List Nat)
    (hm : s.fs.mounted_status = true) (hoft : c.FS_OPEN_MAX_COUNT ≤ s.oft.length)
    (hclosed : ∀ h ∈ s.oft, h.used = false)
    (hbs1 : 17 ≤ c.BLOCK_SIZE) (hbs2 : c.BLOCK_SIZE ≤ 4096)
    (hdir : c.FS_FILE_MAX_COUNT * (c.FS_FILENAME_LEN + 16) = c.BLOCK_SIZE)
    (hroot_out : s.fs.sb.fat_blocks < s.fs.sb.root_index)
    (hroot_in : s.fs.sb.root_index < s.disk.length)
    (hb0 : s.disk[0]? = some b0) (hb0len : b0.length = c.BLOCK_SIZE)
    (hsb : superblock_of_bytes b0 = s.fs.sb)
    (hsig : s.fs.sb.signature = [69, 67, 83, 49, 53, 48, 70, 83])
    (htotal : s.fs.sb.total_blocks = s.disk.length)
    (hfatlen : 2 * s.fs.fat.length = s.fs.sb.fat_blocks * c.BLOCK_SIZE)
    (hfat16 : ∀ v ∈ s.fs.fat, v < 65536)
    (hrootlen : s.fs.root.length = c.FS_FILE_MAX_COUNT)
    (hshape : ∀ e ∈ s.fs.root, e.filename.length = c.FS_FILENAME_LEN ∧ e.size < 2 ^ 32 ∧
      e.data_index < 65536 ∧ e.padding.length = 10) :
    ∃ (s1 : State), fs_umount c s true = some (0, s1) ∧ s1.fs.mounted_status = false ∧
      read_blocks s1.disk 1 s.fs.sb.fat_blocks = some (bytes_of_fat s.fs.fat) ∧
      s1.disk[s.fs.sb.root_index]? = some (bytes_of_root s.fs.root) ∧
      ∃ (s2 : State), fs_mount c s1 (some s1.disk) true = some (0, s2) ∧
        s2.fs.mounted_status = true ∧ s2.fs.sb = s.fs.sb ∧ s2.fs.fat = s.fs.fat ∧
        s2.fs.root = s.fs.root ∧ s2.oft = cleared_oft c ∧ ∀ h ∈ s2.oft, h.used = false := by
  have hbytes : (bytes_of_fat s.fs.fat).length = s.fs.sb.fat_blocks * c.BLOCK_SIZE := by
    rw [bytes_of_fat_length]; exact hfatlen
  obtain ⟨disk1, hw, hl1, hr1, hlo, _⟩ := write_blocks_spec c.BLOCK_SIZE s.fs.sb.fat_blocks
    (bytes_of_fat s.fs.fat) s.disk 1 hbytes (by omega)
  have hrootbytes : (bytes_of_root s.fs.root).length = c.BLOCK_SIZE := by
    rw [bytes_of_root_length c _ hshape, hrootlen, hdir]
  have hri : s.fs.sb.root_index < disk1.length := by rw [hl1]; exact hroot_in
  have hum := fs_umount_ok c s disk1 hm hoft hclosed hdir hrootbytes hw hri
  have hfatread : read_blocks (disk1.set s.fs.sb.root_index (bytes_of_root s.fs.root)) 1
      s.fs.sb.fat_blocks = some (bytes_of_fat s.fs.fat) := by
    rw [read_blocks_congr disk1 _ _ 1 (fun j _ h2 => List.getElem?_set_ne (by omega))]
    exact hr1
  have hrootread : (disk1.set s.fs.sb.root_index (bytes_of_root s.fs.root))[s.fs.sb.root_index]? =
      some (bytes_of_root s.fs.root) := List.getElem?_set_self hri
  have hb0' : (disk1.set s.fs.sb.root_index (bytes_of_root s.fs.root))[0]? = some b0 := by
    rw [List.getElem?_set_ne (by omega), hlo 0 (by decide)]
    exact hb0
  have hmount := fs_mount_ok c
    { fs := { s.fs with fat := [], mounted_status := false }
      oft := s.oft
      disk := disk1.set s.fs.sb.root_index (bytes_of_root s.fs.root) }
    (disk1.set s.fs.sb.root_index (bytes_of_root s.fs.root)) b0 (bytes_of_fat s.fs.fat)
    (bytes_of_root s.fs.root) rfl hbs1 hbs2 hdir hb0' hb0len (by rw [hsb]; exact hsig)
    (by rw [hsb, List.length_set, hl1]; exact htotal) (by rw [hsb]; exact hfatread)
    (by rw [hsb]; exact hrootread) hrootbytes
  refine ⟨_, hum, rfl, hfatread, hrootread, _, hmount, rfl, hsb, fat_of_bytes_of_fat _ hfat16, ?_,
    rfl, cleared_oft_unused c⟩
  show root_of_bytes c c.FS_FILE_MAX_COUNT (bytes_of_root s.fs.root) = s.fs.root
  rw [← hrootlen]
  exact root_of_bytes_of_root c _ hshape

theorem formatted_disk :
    formatted_volume.disk = formatted_block :: List.replicate 6 (List.replicate 4096 0) := rfl

theorem formatted_fat : formatted_volume.fs.fat = FAT_EOC :: List.replicate 2047 0 := rfl

theorem formatted_root :
    formatted_volume.fs.root = List.replicate 128 (zero_entry ecs150) := rfl

theorem formatted_oft :
    formatted_volume.oft = List.replicate 32 { used := false, root_index := 0, offset := 0 } :=
  rfl

theorem formatted_block_length : formatted_block.length = ecs150.BLOCK_SIZE := by
  unfold formatted_block
  rw [List.length_append, List.length_replicate]
  rfl

theorem formatted_superblock : superblock_of_bytes formatted_block = formatted_volume.fs.sb := by
  unfold superblock_of_bytes formatted_block
  simp only [List.cons_append, List.take_succ_cons, List.drop_succ_cons, List.take_zero,
    List.drop_zero, of_bytes]
  rfl

/-- The volume `formatted_volume`, unmounted and mounted again. -/
theorem umount_mount_round_trip_witness :
    ∃ (s1 : State), fs_umount ecs150 formatted_volume true = some (0, s1) ∧
      s1.fs.mounted_status = false ∧
      read_blocks s1.disk 1 formatted_volume.fs.sb.fat_blocks =
        some (bytes_of_fat formatted_volume.fs.fat) ∧
      s1.disk[formatted_volume.fs.sb.root_index]? = some (bytes_of_root formatted_volume.fs.root) ∧
      ∃ (s2 : State), fs_mount ecs150 s1 (some s1.disk) true = some (0, s2) ∧
        s2.fs.mounted_status = true ∧ s2.fs.sb = formatted_volume.fs.sb ∧
        s2.fs.fat = formatted_volume.fs.fat ∧ s2.fs.root = formatted_volume.fs.root ∧
        s2.oft = cleared_oft ecs150 ∧ ∀ h ∈ s2.oft, h.used = false :=
  umount_mount_round_trip ecs150 formatted_volume formatted_block rfl
    (by rw [formatted_oft, List.length_replicate]; decide)
    (by
      intro h hh
      rw [formatted_oft] at hh
      rw [List.eq_of_mem_replicate hh])
    (by decide) (by decide) (by decide) (by decide)
    (by rw [formatted_disk, List.length_cons, List.length_replicate]; decide)
    (by rw [formatted_disk, List.getElem?_cons_zero])
    formatted_block_length formatted_superblock rfl
    (by rw [formatted_disk, List.length_cons, List.length_replicate]; rfl)
    (by rw [formatted_fat, List.length_cons, List.length_replicate]; rfl)
    (by
      intro v hv
      rw [formatted_fat] at hv
      rcases List.mem_cons.1 hv with h1 | h1
      · rw [h1]; decide
      · rw [List.eq_of_mem_replicate h1]; decide)
    (by rw [formatted_root, List.length_replicate]; rfl)
    (by
      intro e he
      rw [formatted_root] at he
      rw [List.eq_of_mem_replicate he]
      exact ⟨List.length_replicate _ _, by decide, by decide, List.length_replicate _ _⟩)

/-! ## A handle bound to a free directory slot -/

/-- The first block field of an entry of size 0 is not read by `fs_write`
when bytes are written and a slot is free: the call does the same when the field
holds `FAT_EOC`. -/
theorem fs_write_blank (c : Consts) (fuel : Nat) (s : State) (fd : Int) (h : open_file_entry)
    (e : root_entry) (data : List Nat) (count nb : Nat) (F1 : List Nat)
    (hh : handle_of c s fd = some (some h)) (he : root_at s.fs.root h.root_index = some e)
    (hsize : e.size = 0) (hoff : h.offset = 0) (hpos : 0 < count) (hcount : count < 2 ^ 63)
    (hdc : s.fs.sb.data_count ≤ 65535) (hfat : s.fs.sb.data_count ≤ s.fs.fat.length)
    (hF : free_slots s.fs.fat s.fs.sb.data_count = nb :: F1) :
    fs_write c fuel s fd (some data) count =
      fs_write c fuel
        { s with fs := { s.fs with
                         root := s.fs.root.set h.root_index.toNat
                           { e with data_index := FAT_EOC } } }
        fd (some data) count := by
  have hmem : nb ∈ free_slots s.fs.fat s.fs.sb.data_count := by
    rw [hF]; exact List.mem_cons_self _ _
  have hlt := ((mem_free_slots _ _ _).1 hmem).1
  have hnbe := lt_dc_ne_eoc _ _ hlt hdc
  have hnbfat : nb < s.fs.fat.length := Nat.lt_of_lt_of_le hlt hfat
  have hscan : find_free_block s.fs.fat s.fs.sb.data_count = some (some nb) := by
    rw [find_free_block_eq _ _ hfat, hF]
    rfl
  have hext : h.offset < size_t_add e.size count := by
    rw [hsize, hoff, size_t_add_eq _ _ (zero_count _ hcount), Nat.zero_add]
    exact hpos
  have hstart : ∀ d : Nat, (if e.size = 0 ∨ d = FAT_EOC then some FAT_EOC
      else walk s.fs.fat (h.offset / c.BLOCK_SIZE) d) = some FAT_EOC :=
    fun d => if_pos (Or.inl hsize)
  have hprev : ∀ d : Nat, (if e.size > 0 ∧ d ≠ FAT_EOC then last_block s.fs.fat fuel d
      else some FAT_EOC) = some FAT_EOC :=
    fun d => if_neg (fun hx => absurd hsize (Nat.ne_of_gt hx.1))
  rw [fs_write_extend_head c fuel s fd h e data count nb hh he (hstart _) hext (hprev _) hscan
      hnbe hnbfat,
    fs_write_extend_head c fuel
      { s with fs := { s.fs with
                       root := s.fs.root.set h.root_index.toNat
                         { e with data_index := FAT_EOC } } }
      fd h { e with data_index := FAT_EOC } data count nb hh (root_at_set _ _ _ _ he)
      (hstart _) hext (hprev _) hscan hnbe hnbfat]
  simp only [List.set_set]

/-- On a mounted volume whose directory slot 0 is free and whose handle 0 is
not in use: `fs_open` of the empty name binds handle 0 to the free slot 0, one
byte written through it moves its offset to 1, and `fs_create` of a new name
then takes slot 0 and sets its size to 0.  The handle in use is left with an
offset after the end of its entry. -/
theorem stale_offset (c : Consts) (fuel : Nat) (s : State) (e : root_entry)
    (h0 : open_file_entry) (name data : List Nat) (nb : Nat) (F1 : List Nat)
    (hm : s.fs.mounted_status = true) (hn : 0 < c.FS_FILE_MAX_COUNT)
    (hrootlen : s.fs.root.length = c.FS_FILE_MAX_COUNT)
    (hroot0 : s.fs.root[0]? = some e) (hallfree : ∀ x ∈ s.fs.root, is_free x = true)
    (hsize : e.size = 0) (ho : 0 < c.FS_OPEN_MAX_COUNT) (hh : s.oft[0]? = some h0)
    (hu : h0.used = false) (hBS : 0 < c.BLOCK_SIZE) (hint : c.BLOCK_SIZE * 65535 < 2 ^ 31)
    (hdc : s.fs.sb.data_count ≤ 65535) (hfat : s.fs.sb.data_count ≤ s.fs.fat.length)
    (hdisk : s.fs.sb.data_index + s.fs.sb.data_count ≤ s.disk.length)
    (hblk : ∀ blk ∈ s.disk, blk.length = c.BLOCK_SIZE)
    (hF : free_slots s.fs.fat s.fs.sb.data_count = nb :: F1)
    (hname0 : strlen name ≠ 0) (hname : strlen name < c.FS_FILENAME_LEN)
    (hdata : 1 ≤ data.length) :
    ∃ (s1 s2 s3 : State) (h : open_file_entry) (e3 : root_entry),
      fs_open c s (some []) = some (0, s1) ∧
      fs_write c fuel s1 0 (some data) 1 = some (1, s2) ∧
      fs_create c s2 (some name) = some (0, s3) ∧
      s3.oft[0]? = some h ∧ h.used = true ∧ root_at s3.fs.root h.root_index = some e3 ∧
      e3.size < h.offset := by
  have hfree_e := hallfree e (List.getElem?_mem hroot0)
  have hopen := fs_open_empty_name c s e h0 hm hn hroot0 hfree_e ho hh hu
  have hlt0 : 0 < s.fs.root.length := getElem?_lt_length _ _ _ hroot0
  have hoft0 : 0 < s.oft.length := getElem?_lt_length _ _ _ hh
  have hhandle : (s.oft.set 0 { used := true, root_index := 0, offset := 0 })[0]? =
      some { used := true, root_index := 0, offset := 0 } := List.getElem?_set_self hoft0
  have hh1 : handle_of c { s with oft := s.oft.set 0 { used := true, root_index := 0, offset := 0 } }
      0 = some (some { used := true, root_index := 0, offset := 0 }) :=
    handle_of_ok c _ 0 _ hm (Int.le_refl 0) (by omega) hhandle rfl
  have he0 : root_at s.fs.root 0 = some e := by
    unfold root_at
    rw [if_neg (by decide)]
    exact hroot0
  have hblank := fs_write_blank c fuel
    { s with oft := s.oft.set 0 { used := true, root_index := 0, offset := 0 } } 0
    { used := true, root_index := 0, offset := 0 } e data 1 nb F1 hh1 he0 hsize rfl
    (by decide) (by decide) hdc hfat hF
  have H : write_ready c
      { fs := { s.fs with root := s.fs.root.set 0 { e with data_index := FAT_EOC } }
        oft := s.oft.set 0 { used := true, root_index := 0, offset := 0 }
        disk := s.disk }
      0 { used := true, root_index := 0, offset := 0 } { e with data_index := FAT_EOC } [] :=
    { block_size_pos := hBS
      sizes_fit_int := hint
      mounted := hm
      fd_nonneg := Int.le_refl 0
      fd_lt := by omega
      handle := hhandle
      handle_used := rfl
      entry := root_at_set _ _ _ _ he0
      data_count_le := hdc
      fat_length := hfat
      disk_length := hdisk
      block_length := hblk
      chain := (is_chain_nil _ _ _).2 rfl
      capacity := by
        show e.size ≤ _
        rw [hsize]
        exact Nat.zero_le _
      empty_no_block := fun _ => rfl
      offset_le := Nat.zero_le _
      slot_zero := Or.inl rfl }
  obtain ⟨k, fat1, disk1, hres, _⟩ := fs_write_empty c _ 0 _ _ data 1 H hdata (by decide)
  have hr : min 1 ((free_slots s.fs.fat s.fs.sb.data_count).length * c.BLOCK_SIZE) = 1 := by
    rw [hF, List.length_cons, Nat.succ_mul]
    exact Nat.min_eq_left (by omega)
  have hrun := hres.2.1 fuel (Nat.zero_le _)
  rw [show (free_slots
      ({ fs := { s.fs with root := s.fs.root.set 0 { e with data_index := FAT_EOC } }
         oft := s.oft.set 0 { used := true, root_index := 0, offset := 0 }
         disk := s.disk } : State).fs.fat
      ({ fs := { s.fs with root := s.fs.root.set 0 { e with data_index := FAT_EOC } }
         oft := s.oft.set 0 { used := true, root_index := 0, offset := 0 }
         disk := s.disk } : State).fs.sb.data_count) =
      free_slots s.fs.fat s.fs.sb.data_count from rfl, hr] at hrun
  have hroot2 : ∀ x : root_entry,
      ((s.fs.root.set 0 { e with data_index := FAT_EOC }).set 0 x)[0]? = some x :=
    fun x => List.getElem?_set_self (by rw [List.length_set]; exact hlt0)
  have hfree2 : ∀ x : root_entry, is_free x = true →
      ∀ y ∈ (s.fs.root.set 0 { e with data_index := FAT_EOC }).set 0 x, is_free y = true := by
    intro x hx y hy
    rcases List.mem_or_eq_of_mem_set hy with h1 | h1
    · rcases List.mem_or_eq_of_mem_set h1 with h2 | h2
      · exact hallfree y h2
      · rw [h2]; exact hfree_e
    · rw [h1]; exact hx
  have hlen2 : ∀ x : root_entry,
      ((s.fs.root.set 0 { e with data_index := FAT_EOC }).set 0 x).length =
        c.FS_FILE_MAX_COUNT := by
    intro x
    rw [List.length_set, List.length_set]
    exact hrootlen
  obtain ⟨s2, hs2, hm2, hlen3, hfree3, h2, hoft2, hused2, hidx2, hoff2⟩ :
      ∃ s2 : State, fs_write c fuel
          { s with oft := s.oft.set 0 { used := true, root_index := 0, offset := 0 } } 0
          (some data) 1 = some (1, s2) ∧
        s2.fs.mounted_status = true ∧ s2.fs.root.length = c.FS_FILE_MAX_COUNT ∧
        (∀ y ∈ s2.fs.root, is_free y = true) ∧
        ∃ h2 : open_file_entry, s2.oft[0]? = some h2 ∧ h2.used = true ∧ h2.root_index = 0 ∧
          h2.offset = 1 :=
    ⟨_, hblank.trans hrun, hm, hlen2 _, hfree2 _ hfree_e, _,
      List.getElem?_set_self (by rw [List.length_set]; exact hoft0), rfl, rfl, rfl⟩
  have hpos2 : 0 < s2.fs.root.length := by rw [hlen3]; exact hn
  have hget2 : s2.fs.root[0]? = some (s2.fs.root.get ⟨0, hpos2⟩) := List.getElem?_eq_getElem hpos2
  have hcreate := fs_create_ok c s2 name 0 _ hm2 hname0 hname
    ((find_name_none_iff c _ name hlen3 hname0 hname).2 (fun y hy hfalse => by
      rw [hfree3 y hy] at hfalse
      exact absurd hfalse (by decide)))
    (by
      unfold find_free_entry
      rw [first_index_some_iff]
      refine ⟨hn, ?_, fun j hj => absurd hj (Nat.not_lt_zero _)⟩
      show Option.map is_free (s2.fs.root[0]?) = some true
      rw [hget2]
      exact congrArg some (hfree3 _ (List.get_mem _ _ _)))
    hget2
  refine ⟨_, s2, _, h2, created_entry c (s2.fs.root.get ⟨0, hpos2⟩) name, hopen, hs2, hcreate, hoft2, hused2, ?_, ?_⟩
  · rw [hidx2]
    unfold root_at
    rw [if_neg (by decide)]
    exact List.getElem?_set_self hpos2
  · rw [hoff2]
    show 0 < 1
    decide

theorem fresh_volume_free_slots :
    free_slots fresh_volume.fs.fat fresh_volume.fs.sb.data_count = 1 :: [2, 3] := by
  apply free_slots_eq_of _ _ _ (by decide)
  intro i
  show i ∈ [1, 2, 3] ↔ i < 4 ∧ (FAT_EOC :: List.replicate 2047 0)[i]? = some 0
  constructor
  · intro hi
    have hcases : i = 1 ∨ i = 2 ∨ i = 3 := by
      simpa using hi
    rcases hcases with h | h | h <;> subst h <;>
      exact ⟨by decide, by
        rw [List.getElem?_cons_succ, List.getElem?_replicate, if_pos (by decide)]⟩
  · rintro ⟨hlt, hval⟩
    match i, hlt, hval with
    | 0, _, hval =>
      rw [List.getElem?_cons_zero] at hval
      exact absurd (Option.some.inj hval) eoc_ne_zero
    | 1, _, _ => decide
    | 2, _, _ => decide
    | 3, _, _ => decide
    | n + 4, hlt, _ => exact absurd hlt (by omega)

/-- C15 (failing input).  On the freshly formatted, mounted volume
`fresh_volume`, with the constants of the headers: `fs_open` of the empty name
returns handle 0, `fs_write` of one byte through handle 0 returns 1, and
`fs_create` of the name "a" returns 0.  In the state after the three calls
handle 0 is in use and its offset is greater than the size of the directory
entry that it refers to. -/
theorem offset_after_size_fresh :
    ∃ (s1 s2 s3 : State) (h : open_file_entry) (e : root_entry),
      fs_open ecs150 fresh_volume (some []) = some (0, s1) ∧
      fs_write ecs150 0 s1 0 (some [120]) 1 = some (1, s2) ∧
      fs_create ecs150 s2 (some [97]) = some (0, s3) ∧
      s3.oft[0]? = some h ∧ h.used = true ∧ root_at s3.fs.root h.root_index = some e ∧
      e.size < h.offset :=
  stale_offset ecs150 0 fresh_volume (zero_entry ecs150)
    { used := false, root_index := 0, offset := 0 } [97] [120] 1 [2, 3] rfl (by decide)
    (List.length_replicate _ _) fresh_volume_root_zero fresh_volume_all_free rfl (by decide)
    (fresh_volume_oft 0 (by decide)) rfl (by decide) (by decide) (by decide)
    (by
      show 4 ≤ (FAT_EOC :: List.replicate 2047 0).length
      rw [List.length_cons, List.length_replicate]
      decide)
    (by
      show 3 + 4 ≤ (List.replicate 7 (List.replicate 4096 0)).length
      rw [List.length_replicate])
    (fun blk hb => by
      have h1 : blk ∈ List.replicate 7 (List.replicate 4096 0) := hb
      rw [List.eq_of_mem_replicate h1]
      exact List.length_replicate _ _)
    fresh_volume_free_slots (by decide) (by decide) (by decide)

/-! ## The claims on a volume without a free block -/

theorem full_fat0 : full_volume.fs.fat[0]? = some FAT_EOC := by
  show (FAT_EOC :: FAT_EOC :: List.replicate 2046 0)[0]? = _
  rw [List.getElem?_cons_zero]

theorem full_fat1 : full_volume.fs.fat[1]? = some FAT_EOC := by
  show (FAT_EOC :: FAT_EOC :: List.replicate 2046 0)[1]? = _
  rw [List.getElem?_cons_succ, List.getElem?_cons_zero]

theorem full_fat_length : full_volume.fs.sb.data_count ≤ full_volume.fs.fat.length := by
  show 2 ≤ (FAT_EOC :: FAT_EOC :: List.replicate 2046 0).length
  rw [List.length_cons, List.length_cons, List.length_replicate]
  decide

/-- No slot of the table of `full_volume` is free. -/
theorem full_free_slots :
    free_slots full_volume.fs.fat full_volume.fs.sb.data_count = [] := by
  apply free_slots_eq_of _ _ _ List.sorted_nil
  intro i
  constructor
  · intro hi
    exact absurd hi (List.not_mem_nil i)
  · rintro ⟨hlt, hval⟩
    have hlt2 : i < 2 := hlt
    match i, hlt2, hval with
    | 0, _, hval =>
      rw [full_fat0] at hval
      exact absurd (Option.some.inj hval) eoc_ne_zero
    | 1, _, hval =>
      rw [full_fat1] at hval
      exact absurd (Option.some.inj hval) eoc_ne_zero
    | n + 2, hlt2, _ => exact absurd hlt2 (by omega)

theorem full_entry :
    root_at full_volume.fs.root 0 =
      some { filename := 97 :: List.replicate 15 0, size := 4096, data_index := 1,
             padding := List.replicate 10 0 } := by
  unfold root_at
  rw [if_neg (by decide)]
  show (_ :: List.replicate 127 (zero_entry ecs150))[0]? = _
  rw [List.getElem?_cons_zero]

/-- The volume `full_volume` is well formed, and its handle 0 is in use at
offset 0 on the file `a`, whose chain is the slot 1. -/
theorem full_volume_ready :
    write_ready ecs150 full_volume 0 { used := true, root_index := 0, offset := 0 }
      { filename := 97 :: List.replicate 15 0, size := 4096, data_index := 1,
        padding := List.replicate 10 0 } [1] :=
  { block_size_pos := by decide
    sizes_fit_int := by decide
    mounted := rfl
    fd_nonneg := by decide
    fd_lt := by decide
    handle := rfl
    handle_used := rfl
    entry := full_entry
    data_count_le := by decide
    fat_length := full_fat_length
    disk_length := by decide
    block_length := by
      intro blk hb
      have h1 : blk ∈ [List.replicate 4096 0, List.replicate 4096 0, List.replicate 4096 0,
        List.replicate 4096 0, List.replicate 4096 7] := hb
      simp only [List.mem_cons, List.mem_singleton, List.not_mem_nil, or_false] at h1
      rcases h1 with h | h | h | h | h <;> rw [h] <;> exact List.length_replicate _ _
    chain := by
      rw [is_chain_cons]
      exact ⟨rfl, one_ne_eoc, by decide, FAT_EOC, full_fat1, eoc_ne_zero,
        (is_chain_nil _ _ _).2 rfl⟩
    capacity := by decide
    empty_no_block := fun h => absurd h (by decide)
    offset_le := by decide
    slot_zero := Or.inr (by rw [full_free_slots]; exact List.not_mem_nil 0) }

/-! ## fs_read with a count that wraps the clamp -/

/-- The read loop on a chain that ends before the bytes asked for: it copies
the bytes of the chain from position `block_offset` to the end of the chain and
stops at `FAT_EOC`. -/
theorem read_loop_end (c : Consts) (di dc : Nat) (fat : List Nat) (disk : List (List Nat))
    (hBS : 0 < c.BLOCK_SIZE) (hblk : ∀ blk ∈ disk, blk.length = c.BLOCK_SIZE)
    (hdisk : di + dc ≤ disk.length) (l : List Nat) :
    ∀ (fuel : Nat) (copied dest : List Nat) (remaining co act bo f : Nat),
      is_chain fat dc f l = true → bo < c.BLOCK_SIZE →
      l.length * c.BLOCK_SIZE ≤ remaining + bo →
      l.length * c.BLOCK_SIZE - bo ≤ dest.length → l.length < fuel →
      co + l.length * c.BLOCK_SIZE < 2 ^ 64 → act + l.length * c.BLOCK_SIZE < 2 ^ 64 →
      read_loop c di fat disk fuel copied dest remaining co act bo f =
        some (co + (l.length * c.BLOCK_SIZE - bo), act + (l.length * c.BLOCK_SIZE - bo),
          copied ++ ((chain_bytes disk di l).drop bo ++
            dest.drop (l.length * c.BLOCK_SIZE - bo))) := by
  induction l with
  | nil =>
    intro fuel copied dest remaining co act bo f hchain _ _ _ hfuel _ _
    rw [is_chain_nil] at hchain
    cases fuel with
    | zero => exact absurd hfuel (Nat.not_lt_zero _)
    | succ fuel =>
      rw [read_loop]
      simp only [hchain, or_true, if_true, List.length_nil, Nat.zero_mul, Nat.zero_sub,
        Nat.add_zero, chain_bytes, List.drop_nil, List.nil_append, List.drop_zero]
  | cons b l ih =>
    intro fuel copied dest remaining co act bo f hchain hbo hcap hdest hfuel hco hact
    cases fuel with
    | zero => exact absurd hfuel (Nat.not_lt_zero _)
    | succ fuel =>
      rw [is_chain_cons] at hchain
      obtain ⟨ha, hne, hlt, v, hv, _, hrest⟩ := hchain
      subst ha
      rw [List.length_cons, Nat.succ_mul] at hcap hdest hco hact ⊢
      have hr : remaining ≠ 0 := by omega
      have hin : di + f < disk.length := by omega
      have hg : ¬ (remaining = 0 ∨ f = FAT_EOC) := by
        rw [not_or]; exact ⟨hr, hne⟩
      have hrd : block_read disk (di + f) = some (disk.getD (di + f) []) := by
        unfold block_read
        rw [List.getD_eq_getElem?_getD, List.getElem?_eq_getElem hin]
        rfl
      have hX : (if c.BLOCK_SIZE - bo > remaining then remaining else c.BLOCK_SIZE - bo)
          = c.BLOCK_SIZE - bo := if_neg (by omega)
      have hnd : ¬ dest.length < c.BLOCK_SIZE - bo := by omega
      rw [read_loop]
      simp only [hg, if_false, hrd, hX, hnd, hv]
      rw [size_t_add_eq _ _ (by omega), size_t_add_eq _ _ (by omega)]
      rw [ih fuel _ _ _ _ _ 0 v hrest hBS (by omega) (by rw [List.length_drop]; omega)
        (Nat.lt_of_succ_lt_succ hfuel) (by omega) (by omega)]
      have hlen := disk_getD_length c disk _ hblk hin
      have e1 : co + (c.BLOCK_SIZE - bo) + (l.length * c.BLOCK_SIZE - 0)
          = co + (l.length * c.BLOCK_SIZE + c.BLOCK_SIZE - bo) := by omega
      have e2 : act + (c.BLOCK_SIZE - bo) + (l.length * c.BLOCK_SIZE - 0)
          = act + (l.length * c.BLOCK_SIZE + c.BLOCK_SIZE - bo) := by omega
      have e3 : c.BLOCK_SIZE - bo + (l.length * c.BLOCK_SIZE - 0)
          = l.length * c.BLOCK_SIZE + c.BLOCK_SIZE - bo := by omega
      rw [chain_bytes_cons, List.drop_append_of_le_length (by omega),
        List.take_of_length_le (by rw [List.length_drop]; omega), List.drop_drop, e1, e2, e3,
        List.drop_zero]
      simp only [List.append_assoc]

/-- What `fs_read` does when `offset + count` wraps around in `size_t`: the
sum is small, the clamp to the size of the file is skipped, and the loop copies
the bytes of the chain from the offset to the end of the last block. -/
theorem fs_read_wrap (c : Consts) (s : State) (fd : Int) (h : open_file_entry) (e : root_entry)
    (l : List Nat) (dest : List Nat) (count : Nat)
    (hBS : 0 < c.BLOCK_SIZE) (hint : c.BLOCK_SIZE * 65535 < 2 ^ 31)
    (hm : s.fs.mounted_status = true) (hfd0 : 0 ≤ fd) (hfd1 : fd < (c.FS_OPEN_MAX_COUNT : Int))
    (hh : s.oft[fd.toNat]? = some h) (hu : h.used = true)
    (he : root_at s.fs.root h.root_index = some e)
    (hdc : s.fs.sb.data_count ≤ 65535)
    (hchain : is_chain s.fs.fat s.fs.sb.data_count e.data_index l = true)
    (hcap : e.size ≤ l.length * c.BLOCK_SIZE)
    (hdisk : s.fs.sb.data_index + s.fs.sb.data_count ≤ s.disk.length)
    (hblk : ∀ blk ∈ s.disk, blk.length = c.BLOCK_SIZE)
    (hlt : h.offset < e.size) (hcount : count < 2 ^ 64) (hwrap : 2 ^ 64 ≤ h.offset + count)
    (hdest : l.length * c.BLOCK_SIZE - h.offset ≤ dest.length) :
    fs_read c s fd (some dest) count =
      some (((l.length * c.BLOCK_SIZE - h.offset : Nat) : Int),
        { s with oft := s.oft.set fd.toNat { h with offset := l.length * c.BLOCK_SIZE } },
        some ((chain_bytes s.disk s.fs.sb.data_index l).drop h.offset ++
          dest.drop (l.length * c.BLOCK_SIZE - h.offset))) := by
  have hhandle := handle_of_ok c s fd h hm hfd0 hfd1 hh hu
  have hng : ¬ (h.offset ≥ e.size) := by omega
  obtain ⟨f, hf1, hf2⟩ :=
    walk_spec s.fs.fat s.fs.sb.data_count (h.offset / c.BLOCK_SIZE) e.data_index l hchain
  have hcap31 := chain_capacity_lt c _ _ _ l hint hdc hchain
  have hL := is_chain_length_le _ _ _ _ hchain
  have hread : (if size_t_add h.offset count > e.size then e.size - h.offset else count)
      = count := by
    apply if_neg
    unfold size_t_add
    have h1 : (h.offset + count) % 2 ^ 64 = h.offset + count - 2 ^ 64 := by
      rw [Nat.mod_eq_sub_mod hwrap]
      exact Nat.mod_eq_of_lt (by omega)
    rw [h1]
    omega
  have hin : ∀ b ∈ l, s.fs.sb.data_index + b < s.disk.length := by
    intro b hb
    have := (is_chain_mem _ _ l _ hchain b hb).2.1
    omega
  have hdm := Nat.mod_add_div h.offset c.BLOCK_SIZE
  have hmul : c.BLOCK_SIZE * (h.offset / c.BLOCK_SIZE) = h.offset / c.BLOCK_SIZE * c.BLOCK_SIZE :=
    Nat.mul_comm _ _
  have hdiv : h.offset / c.BLOCK_SIZE < l.length :=
    div_lt_of_lt_mul _ _ _ _ hBS hlt hcap
  have hsub : (l.length - h.offset / c.BLOCK_SIZE) * c.BLOCK_SIZE =
      l.length * c.BLOCK_SIZE - h.offset / c.BLOCK_SIZE * c.BLOCK_SIZE := Nat.sub_mul _ _ _
  have hle : h.offset / c.BLOCK_SIZE * c.BLOCK_SIZE + c.BLOCK_SIZE ≤ l.length * c.BLOCK_SIZE := by
    have := Nat.mul_le_mul_right c.BLOCK_SIZE (Nat.succ_le_of_lt hdiv)
    rw [Nat.succ_mul] at this
    exact this
  have hmod : h.offset % c.BLOCK_SIZE < c.BLOCK_SIZE := Nat.mod_lt _ hBS
  have hloop := read_loop_end c s.fs.sb.data_index s.fs.sb.data_count s.fs.fat s.disk hBS hblk
    hdisk (l.drop (h.offset / c.BLOCK_SIZE)) (count + 1) [] dest count h.offset 0
    (h.offset % c.BLOCK_SIZE) f hf2 hmod
    (by rw [List.length_drop, hsub]; omega)
    (by rw [List.length_drop, hsub]; omega)
    (by
      rw [List.length_drop]
      have h63 : 65535 < count := by omega
      have hLL : l.length ≤ 65535 := Nat.le_trans hL hdc
      exact Nat.lt_of_le_of_lt (Nat.sub_le _ _) (by omega))
    (by rw [List.length_drop, hsub]; omega)
    (by rw [List.length_drop, hsub]; omega)
  have hm1 : (l.drop (h.offset / c.BLOCK_SIZE)).length * c.BLOCK_SIZE - h.offset % c.BLOCK_SIZE
      = l.length * c.BLOCK_SIZE - h.offset := by
    rw [List.length_drop, hsub]; omega
  rw [hm1] at hloop
  unfold fs_read
  simp only [hhandle, he, hng, if_false, hf1, hread, hloop]
  rw [chain_bytes_drop c s.disk s.fs.sb.data_index l hblk hin, List.drop_drop,
    Nat.zero_add, List.nil_append, to_int_of_lt _ (by omega)]
  have hoff : h.offset / c.BLOCK_SIZE * c.BLOCK_SIZE + h.offset % c.BLOCK_SIZE = h.offset := by
    omega
  have hend : h.offset + (l.length * c.BLOCK_SIZE - h.offset) = l.length * c.BLOCK_SIZE := by
    omega
  rw [hoff, hend]

theorem short_fat1 : short_volume.fs.fat[1]? = some FAT_EOC := by
  show (FAT_EOC :: FAT_EOC :: List.replicate 2046 0)[1]? = _
  rw [List.getElem?_cons_succ, List.getElem?_cons_zero]

theorem short_entry :
    root_at short_volume.fs.root 0 =
      some { filename := 97 :: List.replicate 15 0, size := 6, data_index := 1,
             padding := List.replicate 10 0 } := by
  unfold root_at
  rw [if_neg (by decide)]
  show (_ :: List.replicate 127 (zero_entry ecs150))[0]? = _
  rw [List.getElem?_cons_zero]

theorem short_chain :
    is_chain short_volume.fs.fat short_volume.fs.sb.data_count 1 [1] = true := by
  rw [is_chain_cons]
  exact ⟨rfl, one_ne_eoc, by decide, FAT_EOC, short_fat1, eoc_ne_zero, (is_chain_nil _ _ _).2 rfl⟩

theorem short_blocks : ∀ blk ∈ short_volume.disk, blk.length = ecs150.BLOCK_SIZE := by
  intro blk hb
  have h1 : blk ∈ [List.replicate 4096 0, List.replicate 4096 0, List.replicate 4096 0,
    List.replicate 4096 0, List.replicate 4096 7] := hb
  simp only [List.mem_cons, List.mem_singleton, List.not_mem_nil, or_false] at h1
  rcases h1 with h | h | h | h | h <;> rw [h] <;> exact List.length_replicate _ _

theorem short_bytes :
    chain_bytes short_volume.disk short_volume.fs.sb.data_index [1] = List.replicate 4096 7 := by
  rw [chain_bytes_cons]
  have h1 : short_volume.disk.getD (short_volume.fs.sb.data_index + 1) [] =
      List.replicate 4096 7 := by
    rw [List.getD_eq_getElem?_getD]
    show (([List.replicate 4096 0, List.replicate 4096 0, List.replicate 4096 0,
      List.replicate 4096 0, List.replicate 4096 7] : List (List Nat))[4]?).getD [] = _
    simp only [List.getElem?_cons_succ, List.getElem?_cons_zero, Option.getD_some]
  rw [h1]
  show List.replicate 4096 7 ++ [] = _
  exact List.append_nil _

/-- C4 (failing input).  In `short_volume`, with the constants of the
headers, the file has 6 bytes and handle 0 is at offset 5, so a read can return
at most 1 byte.  `fs_read(0, buf, 2^64 - 1)` with a buffer of 4096 bytes returns
4091: the sum `offset + count` wraps around to 4, the clamp is skipped, and the
loop copies the block to its end, 4090 bytes of it from positions at or after
the size of the file; the offset of the handle becomes 4096. -/
theorem fs_read_past_size :
    fs_read ecs150 short_volume 0 (some (List.replicate 4096 0)) (2 ^ 64 - 1) =
      some (4091,
        { short_volume with
          oft := short_volume.oft.set 0 { used := true, root_index := 0, offset := 4096 } },
        some ((List.replicate 4096 7).drop 5 ++ (List.replicate 4096 0).drop 4091)) := by
  have h := fs_read_wrap ecs150 short_volume 0 { used := true, root_index := 0, offset := 5 }
    { filename := 97 :: List.replicate 15 0, size := 6, data_index := 1,
      padding := List.replicate 10 0 } [1] (List.replicate 4096 0) (2 ^ 64 - 1)
    (by decide) (by decide) rfl (by decide) (by decide) rfl rfl short_entry (by decide)
    short_chain (by decide) (by decide) short_blocks (by decide) (by decide) (by decide)
    (by rw [List.length_replicate]; decide)
  rw [short_bytes] at h
  exact h

/-- On a handle in use, `fs_lseek` to a place `o` inside the file followed by
`fs_read` with a count for which `o + count` wraps around in `size_t`: the read
goes on to the end of the last block of the chain. -/
theorem seek_read_wrap (c : Consts) (s : State) (fd : Int) (h : open_file_entry)
    (e : root_entry) (l : List Nat) (dest : List Nat) (o len : Nat)
    (H : write_ready c s fd h e l) (ho : o < e.size) (hlen : len < 2 ^ 64)
    (hwrap : 2 ^ 64 ≤ o + len) (hdest : l.length * c.BLOCK_SIZE - o ≤ dest.length) :
    fs_lseek c s fd o =
        some (0, { s with oft := s.oft.set fd.toNat { h with offset := o } }) ∧
      fs_read c { s with oft := s.oft.set fd.toNat { h with offset := o } } fd (some dest) len =
        some (((l.length * c.BLOCK_SIZE - o : Nat) : Int),
          { s with oft := (s.oft.set fd.toNat { h with offset := o }).set fd.toNat
                     { h with offset := l.length * c.BLOCK_SIZE } },
          some ((chain_bytes s.disk s.fs.sb.data_index l).drop o ++
            dest.drop (l.length * c.BLOCK_SIZE - o))) :=
  ⟨fs_lseek_ok c s fd h e o (write_ready_handle c s fd h e l H) H.entry (Nat.le_of_lt ho),
    fs_read_wrap c { s with oft := s.oft.set fd.toNat { h with offset := o } } fd
      { h with offset := o } e l dest len H.block_size_pos H.sizes_fit_int H.mounted H.fd_nonneg
      H.fd_lt (List.getElem?_set_self (getElem?_lt_length _ _ _ H.handle)) H.handle_used H.entry
      H.data_count_le H.chain H.capacity H.disk_length H.block_length ho hlen hwrap hdest⟩

/-- A write to a new file, a seek into the bytes written and a read with a
count for which `offset + count` wraps around in `size_t`: the read returns the
bytes up to the end of the last block of the file, and leaves the offset of the
handle there, after the size of the file. -/
theorem write_seek_read_wrap (c : Consts) (s : State) (fd : Int) (h : open_file_entry)
    (e : root_entry) (data dest : List Nat) (o len fuel : Nat)
    (H : write_ready c s fd h e [])
    (hfree : (data.length + c.BLOCK_SIZE - 1) / c.BLOCK_SIZE ≤
      (free_slots s.fs.fat s.fs.sb.data_count).length)
    (ho : o < data.length) (hlen : len < 2 ^ 64) (hwrap : 2 ^ 64 ≤ o + len)
    (hdest : (data.length + c.BLOCK_SIZE - 1) / c.BLOCK_SIZE * c.BLOCK_SIZE - o ≤ dest.length) :
    ∃ (s1 s2 s3 : State) (out : List Nat) (e3 : root_entry),
      fs_write c fuel s fd (some data) data.length = some ((data.length : Int), s1) ∧
      fs_lseek c s1 fd o = some (0, s2) ∧
      fs_read c s2 fd (some dest) len =
        some ((((data.length + c.BLOCK_SIZE - 1) / c.BLOCK_SIZE * c.BLOCK_SIZE - o : Nat) : Int),
          s3, some out) ∧
      s3.oft[fd.toNat]? =
        some { h with
               offset := (data.length + c.BLOCK_SIZE - 1) / c.BLOCK_SIZE * c.BLOCK_SIZE } ∧
      root_at s3.fs.root h.root_index = some e3 ∧ e3.size = data.length := by
  have hn := ceil_le_mul _ _ _ H.block_size_pos hfree
  have hn31 := fits_int _ _ _ _ hn (free_slots_length_le _ _) H.data_count_le H.sizes_fit_int
  obtain ⟨hsize0, hoff0, _⟩ := write_ready_nil c s fd h e H
  obtain ⟨k, fat1, disk1, hres, hk⟩ := fs_write_empty c s fd h e data data.length H
    (Nat.le_refl _) (Nat.lt_trans hn31 (by decide))
  rw [Nat.min_eq_left hn] at hres hk
  subst hk
  have H1 := write_ready_after c s fd h e [] data data.length _ fat1 disk1 _ H hres
  have hsz1 : max e.size (h.offset + data.length) = data.length := by
    rw [hsize0, hoff0, Nat.zero_add]
    exact Nat.max_eq_right (Nat.zero_le _)
  have hL1 : ([] ++ (free_slots s.fs.fat s.fs.sb.data_count).take
      ((data.length + c.BLOCK_SIZE - 1) / c.BLOCK_SIZE)).length =
      (data.length + c.BLOCK_SIZE - 1) / c.BLOCK_SIZE := by
    rw [List.nil_append, List.length_take]
    exact Nat.min_eq_left hres.2.2.1
  have hsr := seek_read_wrap c _ fd _ _ _ dest o len H1
    (by show o < max e.size (h.offset + data.length); rw [hsz1]; exact ho) hlen hwrap
    (by rw [hL1]; exact hdest)
  rw [hL1] at hsr
  have hlt := getElem?_lt_length _ _ _ H.handle
  refine ⟨_, _, _, _, _, hres.2.1 fuel (Nat.zero_le _), hsr.1, hsr.2, ?_, H1.entry, hsz1⟩
  show ((((s.oft.set fd.toNat _).set fd.toNat _).set fd.toNat _))[fd.toNat]? = _
  rw [List.getElem?_set_self (by rw [List.length_set, List.length_set]; exact hlt)]

theorem fs_open_ok (c : Consts) (s : State) (name : List Nat) (i j : Nat)
    (hm : s.fs.mounted_status = true)
    (hfind : find_name c s.fs.root name = some (some i))
    (hfree : find_free_handle c s.oft = some (some j)) :
    fs_open c s (some name) =
      some ((j : Int),
        { s with oft := s.oft.set j { used := true, root_index := (i : Int), offset := 0 } }) := by
  unfold fs_open
  simp only [hm, hfind, hfree, Bool.true_eq_false, if_false]

/-- On a mounted volume whose directory is empty and whose handle 0 is not in
use, `fs_create` of a name followed by `fs_open` of the name: both return 0, and
handle 0 is then in use at offset 0 on the new file, which has no byte and no
block. -/
theorem create_open_ready (c : Consts) (s : State) (e : root_entry) (h0 : open_file_entry)
    (name : List Nat)
    (hm : s.fs.mounted_status = true) (hn : 0 < c.FS_FILE_MAX_COUNT)
    (hrootlen : s.fs.root.length = c.FS_FILE_MAX_COUNT)
    (hroot0 : s.fs.root[0]? = some e) (hallfree : ∀ x ∈ s.fs.root, is_free x = true)
    (ho : 0 < c.FS_OPEN_MAX_COUNT) (hh : s.oft[0]? = some h0) (hu : h0.used = false)
    (hBS : 0 < c.BLOCK_SIZE) (hint : c.BLOCK_SIZE * 65535 < 2 ^ 31)
    (hdc : s.fs.sb.data_count ≤ 65535) (hfat : s.fs.sb.data_count ≤ s.fs.fat.length)
    (hdisk : s.fs.sb.data_index + s.fs.sb.data_count ≤ s.disk.length)
    (hblk : ∀ blk ∈ s.disk, blk.length = c.BLOCK_SIZE)
    (hname0 : strlen name ≠ 0) (hname : strlen name < c.FS_FILENAME_LEN) :
    fs_create c s (some name) =
        some (0, { s with fs := { s.fs with
                                  root := s.fs.root.set 0 (created_entry c e name) } }) ∧
      fs_open c { s with fs := { s.fs with root := s.fs.root.set 0 (created_entry c e name) } }
          (some name) =
        some (0,
          { fs := { s.fs with root := s.fs.root.set 0 (created_entry c e name) }
            oft := s.oft.set 0 { used := true, root_index := 0, offset := 0 }
            disk := s.disk }) ∧
      write_ready c
        { fs := { s.fs with root := s.fs.root.set 0 (created_entry c e name) }
          oft := s.oft.set 0 { used := true, root_index := 0, offset := 0 }
          disk := s.disk }
        0 { used := true, root_index := 0, offset := 0 } (created_entry c e name) [] := by
  have hfree_e := hallfree e (List.getElem?_mem hroot0)
  have hlt0 : 0 < s.fs.root.length := getElem?_lt_length _ _ _ hroot0
  have hoft0 : 0 < s.oft.length := getElem?_lt_length _ _ _ hh
  have hfind : find_name c s.fs.root name = some none :=
    (find_name_none_iff c _ name hrootlen hname0 hname).2 (fun y hy hfalse => by
      rw [hallfree y hy] at hfalse
      exact absurd hfalse (by decide))
  have hslot : find_free_entry c s.fs.root = some (some 0) := by
    unfold find_free_entry
    rw [first_index_some_iff]
    refine ⟨hn, ?_, fun j hj => absurd hj (Nat.not_lt_zero _)⟩
    show Option.map is_free (s.fs.root[0]?) = some true
    rw [hroot0]
    exact congrArg some hfree_e
  have hhandle : find_free_handle c s.oft = some (some 0) := by
    unfold find_free_handle
    rw [first_index_some_iff]
    refine ⟨ho, ?_, fun j hj => absurd hj (Nat.not_lt_zero _)⟩
    show Option.map (fun h => !h.used) (s.oft[0]?) = some true
    rw [hh]
    show some (!h0.used) = some true
    rw [hu]
    rfl
  refine ⟨fs_create_ok c s name 0 e hm hname0 hname hfind hslot hroot0,
    fs_open_ok c _ name 0 0 hm (find_name_created c s.fs.root name 0 e hname hfind hslot hroot0)
      hhandle, ?_⟩
  exact
    { block_size_pos := hBS
      sizes_fit_int := hint
      mounted := hm
      fd_nonneg := Int.le_refl 0
      fd_lt := by omega
      handle := List.getElem?_set_self hoft0
      handle_used := rfl
      entry := by
        unfold root_at
        rw [if_neg (by decide)]
        exact List.getElem?_set_self hlt0
      data_count_le := hdc
      fat_length := hfat
      disk_length := hdisk
      block_length := hblk
      chain := (is_chain_nil _ _ _).2 rfl
      capacity := Nat.zero_le _
      empty_no_block := fun _ => rfl
      offset_le := Nat.le_refl 0
      slot_zero := Or.inl rfl }

theorem fresh_fat_length : fresh_volume.fs.sb.data_count ≤ fresh_volume.fs.fat.length := by
  show 4 ≤ (FAT_EOC :: List.replicate 2047 0).length
  rw [List.length_cons, List.length_replicate]
  decide

theorem fresh_blocks : ∀ blk ∈ fresh_volume.disk, blk.length = ecs150.BLOCK_SIZE := by
  intro blk hb
  have h1 : blk ∈ List.replicate 7 (List.replicate 4096 0) := hb
  rw [List.eq_of_mem_replicate h1]
  exact List.length_replicate _ _

/-- C1 (failing input).  On the freshly formatted volume `fresh_volume`, with
the constants of the headers: `fs_create("a")` and `fs_open("a")` return 0,
`fs_write(0, data, 5)` returns 5 and `fs_lseek(0, 4)` returns 0, so one byte of
the file lies after the offset.  `fs_read(0, buf, 2^64 - 1)` with a buffer of
4096 bytes then returns 4092: the sum `offset + count` wraps around to 3, the
clamp is skipped, and the loop copies the block to its end.  The offset of the
handle becomes 4096 while the size of the file is 5. -/
theorem round_trip_past_size :
    ∃ (s1 s2 s3 s4 s5 : State) (out : List Nat) (h : open_file_entry) (e : root_entry),
      fs_create ecs150 fresh_volume (some [97]) = some (0, s1) ∧
      fs_open ecs150 s1 (some [97]) = some (0, s2) ∧
      fs_write ecs150 0 s2 0 (some [1, 2, 3, 4, 5]) 5 = some (5, s3) ∧
      fs_lseek ecs150 s3 0 4 = some (0, s4) ∧
      fs_read ecs150 s4 0 (some (List.replicate 4096 0)) (2 ^ 64 - 1) =
        some (4092, s5, some out) ∧
      s5.oft[0]? = some h ∧ h.offset = 4096 ∧
      root_at s5.fs.root h.root_index = some e ∧ e.size = 5 := by
  obtain ⟨hcreate, hopen, H⟩ := create_open_ready ecs150 fresh_volume (zero_entry ecs150)
    { used := false, root_index := 0, offset := 0 } [97] rfl (by decide)
    (List.length_replicate _ _) fresh_volume_root_zero fresh_volume_all_free (by decide)
    (fresh_volume_oft 0 (by decide)) rfl (by decide) (by decide) (by decide) fresh_fat_length
    (by
      show 3 + 4 ≤ (List.replicate 7 (List.replicate 4096 0)).length
      rw [List.length_replicate])
    fresh_blocks (by decide) (by decide)
  obtain ⟨s3, s4, s5, out, e3, hwrite, hseek, hread, hoft, hroot, hsize⟩ :=
    write_seek_read_wrap ecs150 _ 0 _ _ [1, 2, 3, 4, 5] (List.replicate 4096 0) 4 (2 ^ 64 - 1) 0 H
      (by
        show _ ≤ (free_slots fresh_volume.fs.fat fresh_volume.fs.sb.data_count).length
        rw [fresh_volume_free_slots]
        decide)
      (by decide) (by decide) (by decide)
      (by rw [List.length_replicate]; decide)
  exact ⟨_, _, s3, s4, s5, out, _, e3, hcreate, hopen, hwrite, hseek, hread, hoft, rfl, hroot,
    hsize⟩

/-! ## Chains that may pass through slot 0 -/

theorem links_nil (fat : List Nat) (dc a : Nat) : links fat dc a [] = true ↔ a = FAT_EOC := by
  simp [links]

theorem links_cons (fat : List Nat) (dc a b : Nat) (l : List Nat) :
    links fat dc a (b :: l) = true ↔
      a = b ∧ b ≠ FAT_EOC ∧ b < dc ∧ ∃ v, fat[b]? = some v ∧ links fat dc v l = true := by
  rw [links]
  cases hb : fat[b]? with
  | none => simp
  | some v => simp [and_assoc]

/-- A chain without the free mark is a chain in the wider sense of `links`. -/
theorem links_of_is_chain (fat : List Nat) (dc : Nat) (l : List Nat) :
    ∀ a, is_chain fat dc a l = true → links fat dc a l = true := by
  induction l with
  | nil => intro a h; rw [links_nil]; exact (is_chain_nil _ _ _).1 h
  | cons b l ih =>
    intro a h
    rw [is_chain_cons] at h
    obtain ⟨ha, hne, hlt, v, hv, _, hrest⟩ := h
    rw [links_cons]
    exact ⟨ha, hne, hlt, v, hv, ih v hrest⟩

theorem links_functional (fat : List Nat) (dc : Nat) (l1 : List Nat) :
    ∀ (a : Nat) (l2 : List Nat), links fat dc a l1 = true → links fat dc a l2 = true →
      l1 = l2 := by
  induction l1 with
  | nil =>
    intro a l2 h1 h2
    rw [links_nil] at h1
    cases l2 with
    | nil => rfl
    | cons b l =>
      rw [links_cons] at h2
      exact absurd (h2.1.symm.trans h1) h2.2.1
  | cons b1 l1 ih =>
    intro a l2 h1 h2
    rw [links_cons] at h1
    obtain ⟨ha, hne, _, v, hv, hrest⟩ := h1
    cases l2 with
    | nil =>
      rw [links_nil] at h2
      exact absurd (ha.symm.trans h2) hne
    | cons b2 l2 =>
      rw [links_cons] at h2
      obtain ⟨ha2, _, _, v2, hv2, hrest2⟩ := h2
      have hb : b1 = b2 := ha.symm.trans ha2
      subst hb
      rw [hv] at hv2
      cases hv2
      rw [ih v l2 hrest hrest2]

theorem links_suffix (fat : List Nat) (dc : Nat) (p : List Nat) :
    ∀ (a b : Nat) (q : List Nat), links fat dc a (p ++ b :: q) = true →
      links fat dc b (b :: q) = true := by
  induction p with
  | nil =>
    intro a b q h
    rw [List.nil_append, links_cons] at h
    rw [links_cons]
    exact ⟨rfl, h.2⟩
  | cons x p ih =>
    intro a b q h
    rw [List.cons_append, links_cons] at h
    obtain ⟨_, _, _, v, _, hrest⟩ := h
    exact ih v b q hrest

/-- A chain that reaches `FAT_EOC` visits no slot twice. -/
theorem links_nodup (fat : List Nat) (dc : Nat) (l : List Nat) :
    ∀ a, links fat dc a l = true → l.Nodup := by
  induction l with
  | nil => intro _ _; exact List.nodup_nil
  | cons b l ih =>
    intro a h
    have h0 := h
    rw [links_cons] at h
    obtain ⟨ha, _, _, v, _, hrest⟩ := h
    rw [List.nodup_cons]
    refine ⟨fun hmem => ?_, ih v hrest⟩
    obtain ⟨p, q, hpq⟩ := List.append_of_mem hmem
    rw [hpq] at hrest
    have h1 := links_suffix fat dc p v b q hrest
    rw [ha] at h0
    have h2 := links_functional fat dc _ b _ h1 h0
    have h3 := congrArg List.length h2
    rw [hpq] at h3
    simp at h3
    omega

theorem links_mem (fat : List Nat) (dc : Nat) (l : List Nat) :
    ∀ a, links fat dc a l = true →
      ∀ b ∈ l, b ≠ FAT_EOC ∧ b < dc ∧ ∃ v, fat[b]? = some v := by
  induction l with
  | nil => intro _ _ b hb; simp at hb
  | cons x l ih =>
    intro a h b hb
    rw [links_cons] at h
    obtain ⟨_, hne, hlt, v, hv, hrest⟩ := h
    rw [List.mem_cons] at hb
    rcases hb with hb | hb
    · subst hb; exact ⟨hne, hlt, v, hv⟩
    · exact ih v hrest b hb

theorem links_length_le (fat : List Nat) (dc a : Nat) (l : List Nat)
    (h : links fat dc a l = true) : l.length ≤ dc := by
  have hnd := links_nodup fat dc l a h
  have hsub : l ⊆ List.range dc := by
    intro b hb
    rw [List.mem_range]
    exact (links_mem fat dc l a h b hb).2.1
  have := (List.subperm_of_subset hnd hsub).length_le
  simpa using this

theorem links_head (fat : List Nat) (dc a b : Nat) (l : List Nat)
    (h : links fat dc a (b :: l) = true) : a = b :=
  ((links_cons fat dc a b l).1 h).1

/-! ## fs_delete on a chain that passes through slot 0 -/

theorem linked_fat0 : linked_volume.fs.fat[0]? = some FAT_EOC := by
  show (FAT_EOC :: 0 :: List.replicate 2046 0)[0]? = _
  rw [List.getElem?_cons_zero]

theorem linked_fat1 : linked_volume.fs.fat[1]? = some 0 := by
  show (FAT_EOC :: 0 :: List.replicate 2046 0)[1]? = _
  rw [List.getElem?_cons_succ, List.getElem?_cons_zero]

theorem linked_root0 :
    linked_volume.fs.root[0]? =
      some { filename := 97 :: List.replicate 15 0, size := 8192, data_index := 1,
             padding := List.replicate 10 0 } := by
  show (_ :: List.replicate 127 (zero_entry ecs150))[0]? = _
  rw [List.getElem?_cons_zero]

theorem linked_fat_length : (linked_volume.fs.fat).length = 2048 := by
  show (FAT_EOC :: 0 :: List.replicate 2046 0).length = 2048
  rw [List.length_cons, List.length_cons, List.length_replicate]

/-- The chain of the file of `linked_volume`: from slot 1 to slot 0 and then
`FAT_EOC`. -/
theorem linked_links :
    links linked_volume.fs.fat linked_volume.fs.sb.data_count 1 [1, 0] = true := by
  rw [links_cons]
  refine ⟨rfl, one_ne_eoc, by decide, 0, linked_fat1, ?_⟩
  rw [links_cons]
  exact ⟨rfl, zero_ne_eoc, by decide, FAT_EOC, linked_fat0, (links_nil _ _ _).2 rfl⟩

theorem linked_entry_name :
    entry_name ecs150
        { filename := 97 :: List.replicate 15 0, size := 8192, data_index := 1,
          padding := List.replicate 10 0 } =
      cstr [97] := by
  show cstr (List.take 16 (97 :: List.replicate 15 0)) = cstr [97]
  have h0 : cstr (List.replicate 15 0) = [] := by
    show cstr (List.replicate (14 + 1) 0) = []
    rw [List.replicate_succ, cstr_cons, if_pos rfl]
  rw [List.take_of_length_le (by rw [List.length_cons, List.length_replicate]), cstr_cons,
    cstr_cons, if_neg (by decide), if_neg (by decide), h0, cstr_nil]

theorem linked_find :
    find_name ecs150 linked_volume.fs.root [97] = some (some 0) := by
  refine find_name_of_entry ecs150 _ [97] 0 _ ?_ (by decide) linked_root0 rfl
    linked_entry_name ?_
  · show (_ :: List.replicate 127 (zero_entry ecs150)).length = 128
    rw [List.length_cons, List.length_replicate]
  · intro j e1 hj hact _
    cases j with
    | zero => rfl
    | succ j =>
      have hroot : linked_volume.fs.root =
          { filename := 97 :: List.replicate 15 0, size := 8192, data_index := 1,
            padding := List.replicate 10 0 } :: List.replicate 127 (zero_entry ecs150) := rfl
      rw [hroot, List.getElem?_cons_succ] at hj
      have h2 := List.eq_of_mem_replicate (List.getElem?_mem hj)
      rw [h2] at hact
      exact absurd hact (by decide)

theorem linked_open : find_open_on ecs150 linked_volume.oft 0 = some none := by
  apply find_open_on_none
  · show 32 ≤ (List.replicate 32 _).length
    rw [List.length_replicate]
  · intro j h _ hj hu
    have h2 := List.eq_of_mem_replicate (List.getElem?_mem hj)
    rw [h2] at hu
    exact absurd hu (by decide)

theorem linked_free_chain :
    free_chain 3 linked_volume.fs.fat 1 = some ((linked_volume.fs.fat.set 1 0).set 0 0) := by
  have h0 : (linked_volume.fs.fat.set 1 0)[0]? = some FAT_EOC := by
    rw [List.getElem?_set_ne (by decide)]
    exact linked_fat0
  rw [free_chain, if_neg one_ne_eoc]
  simp only [linked_fat1]
  rw [free_chain, if_neg zero_ne_eoc]
  simp only [h0]
  rw [free_chain, if_pos rfl]

theorem linked_free_before :
    fat_free linked_volume.fs.fat linked_volume.fs.sb.data_count = 3 := by
  show ((List.take 4 (FAT_EOC :: 0 :: List.replicate (2044 + 2) 0)).filter
    (fun v => decide (v = 0))).length = 3
  rw [List.replicate_succ, List.replicate_succ]
  rfl

theorem linked_free_after :
    fat_free ((linked_volume.fs.fat.set 1 0).set 0 0) linked_volume.fs.sb.data_count = 4 := by
  show ((List.take 4 (((FAT_EOC :: 0 :: List.replicate (2044 + 2) 0).set 1 0).set 0 0)).filter
    (fun v => decide (v = 0))).length = 4
  rw [List.replicate_succ, List.replicate_succ]
  rfl

/-- C6 as stated fails when the chain passes through slot 0.  In
`linked_volume`, with the constants of the headers, the chain of the file `a`
goes from slot 1 to slot 0 and ends there: it is in range, visits no slot twice
and reaches `FAT_EOC` after 2 blocks, and no handle is in use.  Slot 1 holds the
value 0, the link to slot 0, so it counts as free before the call: 3 slots are
free.  `fs_delete("a")` returns 0 and sets both slots to 0, and 4 slots are free
afterwards, one more and not two more. -/
theorem fs_delete_frees_chain_counterexample :
    links linked_volume.fs.fat linked_volume.fs.sb.data_count 1 [1, 0] = true ∧
    [1, 0].Nodup ∧
    linked_volume.fs.root[0]? =
      some { filename := 97 :: List.replicate 15 0, size := 8192, data_index := 1,
             padding := List.replicate 10 0 } ∧
    (∀ h ∈ linked_volume.oft, h.used = false) ∧
    fat_free linked_volume.fs.fat linked_volume.fs.sb.data_count = 3 ∧
    fs_delete ecs150 3 linked_volume (some [97]) =
      some (0,
        { linked_volume with
          fs := { linked_volume.fs with
                  fat := (linked_volume.fs.fat.set 1 0).set 0 0
                  root := linked_volume.fs.root.set 0
                    (zeroed_entry
                      { filename := 97 :: List.replicate 15 0, size := 8192, data_index := 1,
                        padding := List.replicate 10 0 }) } }) ∧
    fat_free ((linked_volume.fs.fat.set 1 0).set 0 0) linked_volume.fs.sb.data_count = 4 := by
  refine ⟨linked_links, by decide, linked_root0, ?_, linked_free_before, ?_, linked_free_after⟩
  · intro h hh
    have h1 : h ∈ List.replicate 32
        ({ used := false, root_index := 0, offset := 0 } : open_file_entry) := hh
    rw [List.eq_of_mem_replicate h1]
  · unfold fs_delete
    simp only [linked_find, linked_open, linked_root0, linked_free_chain]
    rfl

/-! ## Short writes -/

theorem handle_ready_of (c : Consts) (s : State) (fd : Int) (h : open_file_entry)
    (e : root_entry) (l : List Nat) (H : write_ready c s fd h e l) : handle_ready c s fd h e :=
  { block_size_pos := H.block_size_pos
    sizes_fit_int := H.sizes_fit_int
    mounted := H.mounted
    fd_nonneg := H.fd_nonneg
    fd_lt := H.fd_lt
    handle := H.handle
    handle_used := H.handle_used
    entry := H.entry
    data_count_le := H.data_count_le
    fat_length := H.fat_length
    disk_length := H.disk_length
    block_length := H.block_length }

theorem handle_ready_handle (c : Consts) (s : State) (fd : Int) (h : open_file_entry)
    (e : root_entry) (H : handle_ready c s fd h e) : handle_of c s fd = some (some h) :=
  handle_of_ok c s fd h H.mounted H.fd_nonneg H.fd_lt H.handle H.handle_used

theorem write_ready_of (c : Consts) (s : State) (fd : Int) (h : open_file_entry)
    (e : root_entry) (l : List Nat) (H : handle_ready c s fd h e)
    (hchain : is_chain s.fs.fat s.fs.sb.data_count e.data_index l = true)
    (hcap : e.size ≤ l.length * c.BLOCK_SIZE) (hempty : e.size = 0 → l = [])
    (hoff : h.offset ≤ e.size)
    (hslot : l = [] ∨ 0 ∉ free_slots s.fs.fat s.fs.sb.data_count) : write_ready c s fd h e l :=
  { block_size_pos := H.block_size_pos
    sizes_fit_int := H.sizes_fit_int
    mounted := H.mounted
    fd_nonneg := H.fd_nonneg
    fd_lt := H.fd_lt
    handle := H.handle
    handle_used := H.handle_used
    entry := H.entry
    data_count_le := H.data_count_le
    fat_length := H.fat_length
    disk_length := H.disk_length
    block_length := H.block_length
    chain := hchain
    capacity := hcap
    empty_no_block := hempty
    offset_le := hoff
    slot_zero := hslot }

/-- An entry of size 0 with its first block field set to `FAT_EOC` is a file
without blocks. -/
theorem blank_ready (c : Consts) (s : State) (fd : Int) (h : open_file_entry)
    (e : root_entry) (H : handle_ready c s fd h e) (hsize : e.size = 0)
    (hoff : h.offset = 0) :
    write_ready c
      { s with fs := { s.fs with
                       root := s.fs.root.set h.root_index.toNat
                         { e with data_index := FAT_EOC } } }
      fd h { e with data_index := FAT_EOC } [] :=
  { block_size_pos := H.block_size_pos
    sizes_fit_int := H.sizes_fit_int
    mounted := H.mounted
    fd_nonneg := H.fd_nonneg
    fd_lt := H.fd_lt
    handle := H.handle
    handle_used := H.handle_used
    entry := root_at_set _ _ _ _ H.entry
    data_count_le := H.data_count_le
    fat_length := H.fat_length
    disk_length := H.disk_length
    block_length := H.block_length
    chain := (is_chain_nil _ _ _).2 rfl
    capacity := by
      show e.size ≤ _
      rw [hsize]
      exact Nat.zero_le _
    empty_no_block := fun _ => rfl
    offset_le := by
      rw [hoff]
      exact Nat.zero_le _
    slot_zero := Or.inl rfl }

theorem room_mono (L F bs x : Nat) (h : (L + F) * bs < x) : (0 + F) * bs < x :=
  Nat.lt_of_le_of_lt (Nat.mul_le_mul_right bs (by omega)) h

/-! ## The short write on volumes that the claim as stated does not fit -/

theorem pair_fat0 : worn_pair.fs.fat[0]? = some 0 := by
  show (0 :: FAT_EOC :: List.replicate 2046 0)[0]? = _
  rw [List.getElem?_cons_zero]

theorem pair_fat1 : worn_pair.fs.fat[1]? = some FAT_EOC := by
  show (0 :: FAT_EOC :: List.replicate 2046 0)[1]? = _
  rw [List.getElem?_cons_succ, List.getElem?_cons_zero]

theorem pair_entry :
    root_at worn_pair.fs.root 0 =
      some { filename := 97 :: List.replicate 15 0, size := 4096, data_index := 1,
             padding := List.replicate 10 0 } := by
  unfold root_at
  rw [if_neg (by decide)]
  show (_ :: List.replicate 127 (zero_entry ecs150))[0]? = _
  rw [List.getElem?_cons_zero]

theorem pair_handle :
    handle_of ecs150 worn_pair 0 = some (some { used := true, root_index := 0, offset := 4096 }) :=
  handle_of_ok ecs150 worn_pair 0 _ rfl (by decide) (by decide) rfl rfl

theorem pair_disk3 :
    worn_pair.disk[worn_pair.fs.sb.data_index + 0]? = some (List.replicate 4096 0) := by
  show ([List.replicate 4096 0, List.replicate 4096 0, List.replicate 4096 0,
    List.replicate 4096 0, List.replicate 4096 7] : List (List Nat))[3]? = _
  simp only [List.getElem?_cons_succ, List.getElem?_cons_zero]

theorem pair_disk4 :
    worn_pair.disk[worn_pair.fs.sb.data_index + 1]? = some (List.replicate 4096 7) := by
  show ([List.replicate 4096 0, List.replicate 4096 0, List.replicate 4096 0,
    List.replicate 4096 0, List.replicate 4096 7] : List (List Nat))[4]? = _
  simp only [List.getElem?_cons_succ, List.getElem?_cons_zero]

theorem pair_chain :
    is_chain worn_pair.fs.fat worn_pair.fs.sb.data_count 1 [1] = true := by
  rw [is_chain_cons]
  exact ⟨rfl, one_ne_eoc, by decide, FAT_EOC, pair_fat1, eoc_ne_zero, (is_chain_nil _ _ _).2 rfl⟩

theorem pair_free : fat_free worn_pair.fs.fat worn_pair.fs.sb.data_count = 1 := by
  show ((List.take 2 (0 :: FAT_EOC :: List.replicate 2046 0)).filter
    (fun v => decide (v = 0))).length = 1
  rfl

/-- The call that writes two blocks at the end of the file of `worn_pair`. -/
theorem pair_two_blocks :
    (fs_write ecs150 1 worn_pair 0 (some (List.replicate 8192 1)) 8192).map Prod.fst =
      some 8192 := by
  have h := slot_zero_two_blocks ecs150 1 worn_pair 0 _ _ (List.replicate 8192 1)
    (List.replicate 4096 0) (List.replicate 4096 7) pair_handle pair_entry (by decide)
    (by decide) rfl rfl rfl pair_fat0 pair_fat1 (by decide) (by decide) pair_disk3
    (List.length_replicate _ _) pair_disk4 (List.length_replicate _ _)
    (by rw [worn_data_length]; decide)
  show Option.map Prod.fst (fs_write ecs150 1 worn_pair 0 (some (List.replicate 8192 1))
    (ecs150.BLOCK_SIZE + ecs150.BLOCK_SIZE)) = some 8192
  rw [h]
  rfl

theorem full_one_byte :
    (fs_write ecs150 1 full_volume 0 (some [9]) 1).map Prod.fst = some 1 := by
  obtain ⟨k, fat1, disk1, r, hres⟩ :=
    fs_write_spec ecs150 full_volume 0 _ _ [1] [9] 1 full_volume_ready (by decide) (by decide)
  have hr : r = 1 := by
    have h1 := hres.1
    rw [full_free_slots] at h1
    exact h1
  rw [hres.2.1 1 (Nat.le_refl 1), Option.map_some', hr]
  rfl

/-- C2 as stated fails, in two ways, both with the constants of the headers.
In `full_volume` no slot is free, so a count of 1 exceeds the free slots times
`BLOCK_SIZE`; the volume is mounted and well formed and handle 0 is at offset 0
of a file of one block; `fs_write(0, buf, 1)` returns 1, which is not less than
1: the byte goes into the block that the file has.  In `worn_pair` one slot is
free, slot 0, and handle 0 is at the end of a file whose chain is the block of
slot 1, so that 8192 bytes exceed both the free slots times `BLOCK_SIZE` and the
room after the offset in the chain and the free slots; `fs_write(0, buf, 8192)`
returns 8192: slot 0 is linked by the value 0, which marks slot 1 free, and the
second block goes to slot 1 again. -/
theorem short_write_counterexample :
    (fat_free full_volume.fs.fat full_volume.fs.sb.data_count * ecs150.BLOCK_SIZE < 1 ∧
      write_ready ecs150 full_volume 0 { used := true, root_index := 0, offset := 0 }
        { filename := 97 :: List.replicate 15 0, size := 4096, data_index := 1,
          padding := List.replicate 10 0 } [1] ∧
      (fs_write ecs150 1 full_volume 0 (some [9]) 1).map Prod.fst = some 1) ∧
    (fat_free worn_pair.fs.fat worn_pair.fs.sb.data_count * ecs150.BLOCK_SIZE < 8192 ∧
      worn_pair.fs.mounted_status = true ∧
      worn_pair.oft[0]? = some { used := true, root_index := 0, offset := 4096 } ∧
      root_at worn_pair.fs.root 0 =
        some { filename := 97 :: List.replicate 15 0, size := 4096, data_index := 1,
               padding := List.replicate 10 0 } ∧
      is_chain worn_pair.fs.fat worn_pair.fs.sb.data_count 1 [1] = true ∧
      worn_pair.fs.fat[0]? = some 0 ∧
      ([1].length + fat_free worn_pair.fs.fat worn_pair.fs.sb.data_count) * ecs150.BLOCK_SIZE <
        4096 + 8192 ∧
      (fs_write ecs150 1 worn_pair 0 (some (List.replicate 8192 1)) 8192).map Prod.fst =
        some 8192) := by
  refine ⟨⟨?_, full_volume_ready, full_one_byte⟩, ?_, rfl, rfl, pair_entry, pair_chain,
    pair_fat0, ?_, pair_two_blocks⟩
  · rw [fat_free_eq_length _ _ full_fat_length, full_free_slots]
    decide
  · rw [pair_free]
    decide
  · rw [pair_free]
    decide

/-! ## The allocations of fs_write -/

theorem write_loop_log_fst (c : Consts) (di dc : Nat) :
    ∀ (fuel : Nat) (data : List Nat) (tw co act f : Nat) (fat : List Nat)
      (disk : List (List Nat)) (log : List (Nat × List Nat)),
      (write_loop_log c di dc fuel data tw co act f fat disk log).map Prod.fst =
        write_loop c di dc fuel data tw co act f fat disk := by
  intro fuel
  induction fuel with
  | zero => intro data tw co act f fat disk log; rfl
  | succ fuel ih =>
    intro data tw co act f fat disk log
    rw [write_loop_log, write_loop]
    dsimp only
    generalize (if c.BLOCK_SIZE - co % c.BLOCK_SIZE > tw then tw
      else c.BLOCK_SIZE - co % c.BLOCK_SIZE) = tc
    by_cases h0 : tw = 0
    · simp only [h0, if_true, Option.map_some']
    · simp only [h0, if_false]
      by_cases hd : data.length < tc
      · simp only [hd, if_true, Option.map_none']
      · simp only [hd, if_false]
        cases hwb : write_block c disk (di + f) (co % c.BLOCK_SIZE) tc data with
        | none => simp only [Option.map_some']
        | some disk1 =>
          dsimp only
          by_cases hpos : tw - tc > 0
          · simp only [hpos, if_true]
            cases hv : fat[f]? with
            | none => simp only [Option.map_none']
            | some next =>
              dsimp only
              by_cases hne : next = FAT_EOC
              · simp only [hne, if_true]
                cases hfb : find_free_block fat dc with
                | none => simp only [Option.map_none']
                | some found =>
                  dsimp only
                  by_cases hfe : found.getD FAT_EOC = FAT_EOC
                  · simp only [hfe, if_true, Option.map_some']
                  · simp only [hfe, if_false]
                    cases hs1 : store fat f (found.getD FAT_EOC) with
                    | none => simp only [Option.map_none']
                    | some fat1 =>
                      dsimp only
                      cases hs2 : store fat1 (found.getD FAT_EOC) FAT_EOC with
                      | none => simp only [Option.map_none']
                      | some fat2 =>
                        dsimp only
                        cases hf2 : fat2[f]? with
                        | none => simp only [Option.map_none']
                        | some f_next => exact ih _ _ _ _ _ _ _ _
              · simp only [hne, if_false]
                exact ih _ _ _ _ _ _ _ _
          · simp only [hpos, if_false]
            exact ih _ _ _ _ _ _ _ _

/-- What the first-fit scan found, when it found a slot, is the lowest free
slot of the table it read. -/
theorem first_free_of_scan (fat : List Nat) (dc : Nat) (found : Option Nat)
    (hfb : find_free_block fat dc = some found) (hfe : found.getD FAT_EOC ≠ FAT_EOC) :
    first_free fat dc (found.getD FAT_EOC) := by
  cases found with
  | none => exact absurd rfl hfe
  | some i => exact find_free_block_lowest fat dc i hfb

theorem write_loop_log_first_free (c : Consts) (di dc : Nat) :
    ∀ (fuel : Nat) (data : List Nat) (tw co act f : Nat) (fat : List Nat)
      (disk : List (List Nat)) (log : List (Nat × List Nat)) (x : write_exit)
      (log1 : List (Nat × List Nat)),
      write_loop_log c di dc fuel data tw co act f fat disk log = some (x, log1) →
      (∀ ev ∈ log, first_free ev.2 dc ev.1) → ∀ ev ∈ log1, first_free ev.2 dc ev.1 := by
  intro fuel
  induction fuel with
  | zero =>
    intro data tw co act f fat disk log x log1 h
    rw [write_loop_log] at h
    cases h
  | succ fuel ih =>
    intro data tw co act f fat disk log x log1 h hlog
    rw [write_loop_log] at h
    dsimp only at h
    generalize (if c.BLOCK_SIZE - co % c.BLOCK_SIZE > tw then tw
      else c.BLOCK_SIZE - co % c.BLOCK_SIZE) = tc at h
    by_cases h0 : tw = 0
    · simp only [h0, if_true, Option.some.injEq, Prod.mk.injEq] at h
      rw [← h.2]
      exact hlog
    · simp only [h0, if_false] at h
      by_cases hd : data.length < tc
      · simp only [hd, if_true] at h
        cases h
      · simp only [hd, if_false] at h
        cases hwb : write_block c disk (di + f) (co % c.BLOCK_SIZE) tc data with
        | none =>
          simp only [hwb, Option.some.injEq, Prod.mk.injEq] at h
          rw [← h.2]
          exact hlog
        | some disk1 =>
          simp only [hwb] at h
          by_cases hpos : tw - tc > 0
          · simp only [hpos, if_true] at h
            cases hv : fat[f]? with
            | none =>
              simp only [hv] at h
              cases h
            | some next =>
              simp only [hv] at h
              by_cases hne : next = FAT_EOC
              · simp only [hne, if_true] at h
                cases hfb : find_free_block fat dc with
                | none =>
                  simp only [hfb] at h
                  cases h
                | some found =>
                  simp only [hfb] at h
                  by_cases hfe : found.getD FAT_EOC = FAT_EOC
                  · simp only [hfe, if_true, Option.some.injEq, Prod.mk.injEq] at h
                    rw [← h.2]
                    exact hlog
                  · simp only [hfe, if_false] at h
                    cases hs1 : store fat f (found.getD FAT_EOC) with
                    | none =>
                      simp only [hs1] at h
                      cases h
                    | some fat1 =>
                      simp only [hs1] at h
                      cases hs2 : store fat1 (found.getD FAT_EOC) FAT_EOC with
                      | none =>
                        simp only [hs2] at h
                        cases h
                      | some fat2 =>
                        simp only [hs2] at h
                        cases hf2 : fat2[f]? with
                        | none =>
                          simp only [hf2] at h
                          cases h
                        | some f_next =>
                          simp only [hf2] at h
                          refine ih _ _ _ _ _ _ _ _ _ _ h ?_
                          intro ev hev
                          rw [List.mem_append, List.mem_singleton] at hev
                          rcases hev with hev | hev
                          · exact hlog ev hev
                          · rw [hev]
                            exact first_free_of_scan fat dc found hfb hfe
              · simp only [hne, if_false] at h
                exact ih _ _ _ _ _ _ _ _ _ _ h hlog
          · simp only [hpos, if_false] at h
            exact ih _ _ _ _ _ _ _ _ _ _ h hlog

theorem write_from_log_fst (c : Consts) (s : State) (fd : Int) (h : open_file_entry)
    (file_size f : Nat) (data : List Nat) (count : Nat) (log : List (Nat × List Nat)) :
    (write_from_log c s fd h file_size f data count log).map Prod.fst =
      write_from c s fd h file_size f data count := by
  unfold write_from_log write_from
  rw [← write_loop_log_fst c _ _ _ _ _ _ _ _ _ _ log]
  cases write_loop_log c s.fs.sb.data_index s.fs.sb.data_count (count + 1) data count h.offset 0
      f s.fs.fat s.disk log with
  | none => rfl
  | some p =>
    obtain ⟨x, l1⟩ := p
    cases x with
    | returned a b d => rfl
    | finished co a b d =>
      dsimp only [Option.map_some']
      cases root_at s.fs.root h.root_index with
      | none => rfl
      | some e => rfl

theorem write_from_log_first_free (c : Consts) (s : State) (fd : Int) (h : open_file_entry)
    (file_size f : Nat) (data : List Nat) (count : Nat) (log : List (Nat × List Nat))
    (r : Int × State) (log1 : List (Nat × List Nat))
    (hrun : write_from_log c s fd h file_size f data count log = some (r, log1))
    (hlog : ∀ ev ∈ log, first_free ev.2 s.fs.sb.data_count ev.1) :
    ∀ ev ∈ log1, first_free ev.2 s.fs.sb.data_count ev.1 := by
  unfold write_from_log at hrun
  cases hw : write_loop_log c s.fs.sb.data_index s.fs.sb.data_count (count + 1) data count
      h.offset 0 f s.fs.fat s.disk log with
  | none =>
    rw [hw] at hrun
    cases hrun
  | some p =>
    obtain ⟨x, l1⟩ := p
    have hl1 := write_loop_log_first_free c _ _ _ _ _ _ _ _ _ _ _ _ _ hw hlog
    rw [hw] at hrun
    cases x with
    | returned a b d =>
      simp only [Option.some.injEq, Prod.mk.injEq] at hrun
      rw [← hrun.2]
      exact hl1
    | finished co a b d =>
      dsimp only at hrun
      cases he : root_at s.fs.root h.root_index with
      | none =>
        rw [he] at hrun
        cases hrun
      | some e =>
        rw [he] at hrun
        simp only [Option.some.injEq, Prod.mk.injEq] at hrun
        rw [← hrun.2]
        exact hl1


theorem fs_write_log_fst (c : Consts) (fuel : Nat) (s : State) (fd : Int)
    (buf : Option (List Nat)) (count : Nat) :
    (fs_write_log c fuel s fd buf count).map Prod.fst = fs_write c fuel s fd buf count := by
  unfold fs_write_log fs_write
  cases handle_of c s fd with
  | none => rfl
  | some oh =>
    cases oh with
    | none => rfl
    | some h =>
      dsimp only
      cases buf with
      | none => rfl
      | some data =>
        dsimp only
        cases root_at s.fs.root h.root_index with
        | none => rfl
        | some e =>
          dsimp only
          cases (if e.size = 0 ∨ e.data_index = FAT_EOC then some FAT_EOC
              else walk s.fs.fat (h.offset / c.BLOCK_SIZE) e.data_index) with
          | none => rfl
          | some f_index =>
            dsimp only
            by_cases hx : f_index = FAT_EOC ∧ h.offset < size_t_add e.size count
            · simp only [hx, and_self, if_true]
              cases (if e.size > 0 ∧ e.data_index ≠ FAT_EOC then
                  last_block s.fs.fat fuel e.data_index else some FAT_EOC) with
              | none => rfl
              | some prev =>
                dsimp only
                cases find_free_block s.fs.fat s.fs.sb.data_count with
                | none => rfl
                | some found =>
                  dsimp only
                  by_cases hfe : found.getD FAT_EOC = FAT_EOC
                  · simp only [hfe, if_true, Option.map_some']
                  · simp only [hfe, if_false]
                    cases store s.fs.fat (found.getD FAT_EOC) FAT_EOC with
                    | none => rfl
                    | some fat1 =>
                      dsimp only
                      by_cases hp : prev = FAT_EOC
                      · simp only [hp, if_true]
                        exact write_from_log_fst c _ fd h _ _ data count _
                      · simp only [hp, if_false]
                        cases store fat1 prev (found.getD FAT_EOC) with
                        | none => rfl
                        | some fat2 => exact write_from_log_fst c _ fd h _ _ data count _
            · simp only [hx, if_false]
              exact write_from_log_fst c _ fd h _ _ data count _

/-- Every allocation in the record of a call of `fs_write` chose the lowest
free slot of the table as it was at that moment. -/
theorem fs_write_log_first_free (c : Consts) (fuel : Nat) (s : State) (fd : Int)
    (buf : Option (List Nat)) (count : Nat) (r : Int × State) (log : List (Nat × List Nat))
    (hrun : fs_write_log c fuel s fd buf count = some (r, log)) :
    ∀ ev ∈ log, first_free ev.2 s.fs.sb.data_count ev.1 := by
  have hnil : ∀ ev ∈ ([] : List (Nat × List Nat)), first_free ev.2 s.fs.sb.data_count ev.1 :=
    fun ev hev => absurd hev (List.not_mem_nil ev)
  unfold fs_write_log at hrun
  cases hh : handle_of c s fd with
  | none => rw [hh] at hrun; cases hrun
  | some oh =>
    cases oh with
    | none =>
      simp only [hh, Option.some.injEq, Prod.mk.injEq] at hrun
      rw [← hrun.2]
      exact hnil
    | some h =>
      simp only [hh] at hrun
      cases buf with
      | none =>
        simp only [Option.some.injEq, Prod.mk.injEq] at hrun
        rw [← hrun.2]
        exact hnil
      | some data =>
        dsimp only at hrun
        cases he : root_at s.fs.root h.root_index with
        | none => rw [he] at hrun; cases hrun
        | some e =>
          simp only [he] at hrun
          cases hst : (if e.size = 0 ∨ e.data_index = FAT_EOC then some FAT_EOC
              else walk s.fs.fat (h.offset / c.BLOCK_SIZE) e.data_index) with
          | none => rw [hst] at hrun; cases hrun
          | some f_index =>
            simp only [hst] at hrun
            by_cases hx : f_index = FAT_EOC ∧ h.offset < size_t_add e.size count
            · simp only [hx, and_self, if_true] at hrun
              cases hpv : (if e.size > 0 ∧ e.data_index ≠ FAT_EOC then
                  last_block s.fs.fat fuel e.data_index else some FAT_EOC) with
              | none => rw [hpv] at hrun; cases hrun
              | some prev =>
                simp only [hpv] at hrun
                cases hfb : find_free_block s.fs.fat s.fs.sb.data_count with
                | none => rw [hfb] at hrun; cases hrun
                | some found =>
                  simp only [hfb] at hrun
                  have hone : found.getD FAT_EOC ≠ FAT_EOC →
                      ∀ ev ∈ [(found.getD FAT_EOC, s.fs.fat)],
                        first_free ev.2 s.fs.sb.data_count ev.1 := by
                    intro hfe ev hev
                    rw [List.mem_singleton] at hev
                    rw [hev]
                    exact first_free_of_scan _ _ found hfb hfe
                  by_cases hfe : found.getD FAT_EOC = FAT_EOC
                  · simp only [hfe, if_true, Option.some.injEq, Prod.mk.injEq] at hrun
                    rw [← hrun.2]
                    exact hnil
                  · simp only [hfe, if_false] at hrun
                    cases hs1 : store s.fs.fat (found.getD FAT_EOC) FAT_EOC with
                    | none => rw [hs1] at hrun; cases hrun
                    | some fat1 =>
                      simp only [hs1] at hrun
                      by_cases hp : prev = FAT_EOC
                      · simp only [hp, if_true] at hrun
                        have hall := write_from_log_first_free c _ fd h _ _ data count _ r log
                          hrun (hone hfe)
                        exact hall
                      · simp only [hp, if_false] at hrun
                        cases hs2 : store fat1 prev (found.getD FAT_EOC) with
                        | none => rw [hs2] at hrun; cases hrun
                        | some fat2 =>
                          simp only [hs2] at hrun
                          have hall := write_from_log_first_free c _ fd h _ _ data count _ r
                            log hrun (hone hfe)
                          exact hall
            · simp only [hx, if_false] at hrun
              exact write_from_log_first_free c _ fd h _ _ data count _ r log hrun hnil

/-! ## The table and the record of allocations after fs_write -/

/-! ### One pass of the main loop, with the record of allocations -/

theorem write_loop_log_done (c : Consts) (di dc fuel : Nat) (data : List Nat) (co act f : Nat)
    (fat : List Nat) (disk : List (List Nat)) (log : List (Nat × List Nat)) :
    write_loop_log c di dc (fuel + 1) data 0 co act f fat disk log =
      some (write_exit.finished co act fat disk, log) := by
  rw [write_loop_log]
  simp only [if_true]

theorem write_loop_log_last (c : Consts) (di dc fuel : Nat) (data : List Nat) (tw co act f : Nat)
    (fat : List Nat) (disk disk1 : List (List Nat)) (log : List (Nat × List Nat)) (htw : 0 < tw)
    (hlast : tw ≤ c.BLOCK_SIZE - co % c.BLOCK_SIZE) (hdata : tw ≤ data.length)
    (hwb : write_block c disk (di + f) (co % c.BLOCK_SIZE) tw data = some disk1) :
    write_loop_log c di dc (fuel + 2) data tw co act f fat disk log =
      some (write_exit.finished (size_t_add co tw) (size_t_add act tw) fat disk1, log) := by
  have htc : (if c.BLOCK_SIZE - co % c.BLOCK_SIZE > tw then tw
      else c.BLOCK_SIZE - co % c.BLOCK_SIZE) = tw := by split <;> omega
  rw [write_loop_log]
  simp only [Nat.ne_of_gt htw, if_false, htc, Nat.not_lt.2 hdata, hwb, Nat.sub_self, lt_irrefl]
  rw [write_loop_log]
  simp only [if_true]

theorem write_loop_log_next (c : Consts) (di dc fuel : Nat) (data : List Nat)
    (tw co act f v : Nat) (fat : List Nat) (disk disk1 : List (List Nat))
    (log : List (Nat × List Nat))
    (hmore : c.BLOCK_SIZE - co % c.BLOCK_SIZE < tw) (hdata : tw ≤ data.length)
    (hwb : write_block c disk (di + f) (co % c.BLOCK_SIZE) (c.BLOCK_SIZE - co % c.BLOCK_SIZE) data
      = some disk1)
    (hv : fat[f]? = some v) (hne : v ≠ FAT_EOC) :
    write_loop_log c di dc (fuel + 1) data tw co act f fat disk log =
      write_loop_log c di dc fuel (data.drop (c.BLOCK_SIZE - co % c.BLOCK_SIZE))
        (tw - (c.BLOCK_SIZE - co % c.BLOCK_SIZE))
        (size_t_add co (c.BLOCK_SIZE - co % c.BLOCK_SIZE))
        (size_t_add act (c.BLOCK_SIZE - co % c.BLOCK_SIZE)) v fat disk1 log := by
  have htc : (if c.BLOCK_SIZE - co % c.BLOCK_SIZE > tw then tw
      else c.BLOCK_SIZE - co % c.BLOCK_SIZE) = c.BLOCK_SIZE - co % c.BLOCK_SIZE := by
    split <;> omega
  have htw : tw ≠ 0 := by omega
  have hd : ¬ data.length < c.BLOCK_SIZE - co % c.BLOCK_SIZE := by omega
  have hpos : tw - (c.BLOCK_SIZE - co % c.BLOCK_SIZE) > 0 := by omega
  rw [write_loop_log]
  simp only [htw, if_false, htc, hd, hwb, hpos, if_true, hv, hne]

theorem write_loop_log_full (c : Consts) (di dc fuel : Nat) (data : List Nat)
    (tw co act f : Nat) (fat : List Nat) (disk disk1 : List (List Nat))
    (log : List (Nat × List Nat))
    (hmore : c.BLOCK_SIZE - co % c.BLOCK_SIZE < tw) (hdata : tw ≤ data.length)
    (hwb : write_block c disk (di + f) (co % c.BLOCK_SIZE) (c.BLOCK_SIZE - co % c.BLOCK_SIZE) data
      = some disk1)
    (hv : fat[f]? = some FAT_EOC) (hfree : find_free_block fat dc = some none) :
    write_loop_log c di dc (fuel + 1) data tw co act f fat disk log =
      some (write_exit.finished (size_t_add co (c.BLOCK_SIZE - co % c.BLOCK_SIZE))
        (size_t_add act (c.BLOCK_SIZE - co % c.BLOCK_SIZE)) fat disk1, log) := by
  have htc : (if c.BLOCK_SIZE - co % c.BLOCK_SIZE > tw then tw
      else c.BLOCK_SIZE - co % c.BLOCK_SIZE) = c.BLOCK_SIZE - co % c.BLOCK_SIZE := by
    split <;> omega
  have htw : tw ≠ 0 := by omega
  have hd : ¬ data.length < c.BLOCK_SIZE - co % c.BLOCK_SIZE := by omega
  have hpos : tw - (c.BLOCK_SIZE - co % c.BLOCK_SIZE) > 0 := by omega
  rw [write_loop_log]
  simp only [htw, if_false, htc, hd, hwb, hpos, if_true, hv, hfree, Option.getD_none]

theorem write_loop_log_alloc (c : Consts) (di dc fuel : Nat) (data : List Nat)
    (tw co act f nb : Nat) (fat : List Nat) (disk disk1 : List (List Nat))
    (log : List (Nat × List Nat))
    (hmore : c.BLOCK_SIZE - co % c.BLOCK_SIZE < tw) (hdata : tw ≤ data.length)
    (hwb : write_block c disk (di + f) (co % c.BLOCK_SIZE) (c.BLOCK_SIZE - co % c.BLOCK_SIZE) data
      = some disk1)
    (hv : fat[f]? = some FAT_EOC) (hfree : find_free_block fat dc = some (some nb))
    (hnbe : nb ≠ FAT_EOC) (hflt : f < fat.length) (hnblt : nb < fat.length) (hnbf : nb ≠ f) :
    write_loop_log c di dc (fuel + 1) data tw co act f fat disk log =
      write_loop_log c di dc fuel (data.drop (c.BLOCK_SIZE - co % c.BLOCK_SIZE))
        (tw - (c.BLOCK_SIZE - co % c.BLOCK_SIZE))
        (size_t_add co (c.BLOCK_SIZE - co % c.BLOCK_SIZE))
        (size_t_add act (c.BLOCK_SIZE - co % c.BLOCK_SIZE)) nb
        ((fat.set f nb).set nb FAT_EOC) disk1 (log ++ [(nb, fat)]) := by
  have htc : (if c.BLOCK_SIZE - co % c.BLOCK_SIZE > tw then tw
      else c.BLOCK_SIZE - co % c.BLOCK_SIZE) = c.BLOCK_SIZE - co % c.BLOCK_SIZE := by
    split <;> omega
  have htw : tw ≠ 0 := by omega
  have hd : ¬ data.length < c.BLOCK_SIZE - co % c.BLOCK_SIZE := by omega
  have hpos : tw - (c.BLOCK_SIZE - co % c.BLOCK_SIZE) > 0 := by omega
  have hfat2f : ((fat.set f nb).set nb FAT_EOC)[f]? = some nb := by
    rw [List.getElem?_set_ne hnbf, List.getElem?_set_self hflt]
  rw [write_loop_log]
  simp only [htw, if_false, htc, hd, hwb, hpos, if_true, hv, hfree, Option.getD_some, hnbe,
    store, hflt, List.length_set, hnblt, hfat2f]

/-! ### The passes of the main loop -/

theorem loop_shape_zero (dc f : Nat) (rest F fat : List Nat) (log : List (Nat × List Nat))
    (hchain : is_chain fat dc f (f :: rest) = true) (hF : free_slots fat dc = F) :
    loop_shape dc f rest F fat log 0 fat log := by
  refine ⟨?_, Nat.zero_le _, ?_, ?_, rfl, fun _ _ _ => rfl⟩
  · rw [List.take_zero, List.append_nil]
  · rw [List.take_zero, List.append_nil]; exact hchain
  · rw [List.drop_zero]; exact hF

/-- The main loop of `fs_write` entered at a slot of a chain that reaches
`FAT_EOC`, on a table whose slot 0 is not free, for any count and any offset:
the loop is left by its condition or its `break`, and what it leaves is in
`loop_shape`. -/
theorem write_loop_log_shape (c : Consts) (di dc : Nat) (hBS : 0 < c.BLOCK_SIZE)
    (hdc : dc ≤ 65535) :
    ∀ (fuel : Nat) (data : List Nat) (tw co act f : Nat) (rest F : List Nat) (fat : List Nat)
      (disk : List (List Nat)) (log : List (Nat × List Nat)),
      is_chain fat dc f (f :: rest) = true → free_slots fat dc = F → 0 ∉ F →
      dc ≤ fat.length → di + dc ≤ disk.length → (∀ blk ∈ disk, blk.length = c.BLOCK_SIZE) →
      tw ≤ data.length → tw < fuel →
      ∃ (k : Nat) (fat1 : List Nat) (disk1 : List (List Nat)) (co1 act1 : Nat)
        (log1 : List (Nat × List Nat)),
        write_loop_log c di dc fuel data tw co act f fat disk log =
          some (write_exit.finished co1 act1 fat1 disk1, log1) ∧
        loop_shape dc f rest F fat log k fat1 log1 := by
  intro fuel
  induction fuel with
  | zero =>
    intro data tw co act f rest F fat disk log _ _ _ _ _ _ _ hfuel
    exact absurd hfuel (Nat.not_lt_zero _)
  | succ fuel ih =>
    intro data tw co act f rest F fat disk log hchain hF h0 hdcfat hdisk hblk hdata hfuel
    rcases Nat.eq_zero_or_pos tw with htw0 | htw
    · subst htw0
      exact ⟨0, fat, disk, co, act, log, write_loop_log_done c di dc fuel data co act f fat disk log,
        loop_shape_zero dc f rest F fat log hchain hF⟩
    have hchain0 := hchain
    rw [is_chain_cons] at hchain
    obtain ⟨_, hne, hlt, v, hv, hv0, hrest⟩ := hchain
    have hnd := is_chain_nodup fat dc _ f hchain0
    rw [List.nodup_cons] at hnd
    have hbo : co % c.BLOCK_SIZE < c.BLOCK_SIZE := Nat.mod_lt _ hBS
    have hin : di + f < disk.length := Nat.lt_of_lt_of_le (Nat.add_lt_add_left hlt di) hdisk
    have hold : disk[di + f]? = some disk[di + f] := List.getElem?_eq_getElem hin
    have holdlen : (disk[di + f]).length = c.BLOCK_SIZE := hblk _ (List.getElem_mem hin)
    have hflt : f < fat.length := Nat.lt_of_lt_of_le hlt hdcfat
    have hffree : f ∉ F := by
      intro hmem
      rw [← hF, mem_free_slots, hv] at hmem
      exact hv0 (Option.some.inj hmem.2)
    by_cases hlast : tw ≤ c.BLOCK_SIZE - co % c.BLOCK_SIZE
    · have hwb := write_block_eq c disk (di + f) (co % c.BLOCK_SIZE) tw data _ hold holdlen hdata
      have hf1 : 1 ≤ fuel := Nat.le_trans htw (Nat.lt_succ_iff.1 hfuel)
      obtain ⟨fuel1, rfl⟩ : ∃ fuel1, fuel = fuel1 + 1 :=
        ⟨fuel - 1, (Nat.sub_add_cancel hf1).symm⟩
      exact ⟨0, fat, _, _, _, log,
        write_loop_log_last c di dc fuel1 data tw co act f fat disk _ log htw hlast hdata hwb,
        loop_shape_zero dc f rest F fat log hchain0 hF⟩
    · have hmore : c.BLOCK_SIZE - co % c.BLOCK_SIZE < tw := Nat.lt_of_not_le hlast
      have htcd : c.BLOCK_SIZE - co % c.BLOCK_SIZE ≤ data.length :=
        Nat.le_trans (Nat.le_of_lt hmore) hdata
      have hwb := write_block_eq c disk (di + f) (co % c.BLOCK_SIZE)
        (c.BLOCK_SIZE - co % c.BLOCK_SIZE) data _ hold holdlen htcd
      have hbt : co % c.BLOCK_SIZE + (c.BLOCK_SIZE - co % c.BLOCK_SIZE) = c.BLOCK_SIZE :=
        Nat.add_sub_cancel' (Nat.le_of_lt hbo)
      have hnewlen : (store_bytes disk[di + f] (co % c.BLOCK_SIZE)
          (data.take (c.BLOCK_SIZE - co % c.BLOCK_SIZE))).length = c.BLOCK_SIZE := by
        rw [store_bytes_length _ _ _ (by
          rw [List.length_take, Nat.min_eq_left htcd, hbt, holdlen]), holdlen]
      have hblk1 := mem_set_block c disk (di + f) _ hblk hnewlen
      have hdisk1 : di + dc ≤ (disk.set (di + f) (store_bytes disk[di + f] (co % c.BLOCK_SIZE)
          (data.take (c.BLOCK_SIZE - co % c.BLOCK_SIZE)))).length := by
        rw [List.length_set]; exact hdisk
      have hdrop : tw - (c.BLOCK_SIZE - co % c.BLOCK_SIZE)
          ≤ (data.drop (c.BLOCK_SIZE - co % c.BLOCK_SIZE)).length := by
        rw [List.length_drop]; exact Nat.sub_le_sub_right hdata _
      have hfuel1 : tw - (c.BLOCK_SIZE - co % c.BLOCK_SIZE) < fuel :=
        Nat.lt_of_lt_of_le (Nat.sub_lt htw (Nat.sub_pos_of_lt hbo)) (Nat.lt_succ_iff.1 hfuel)
      by_cases hveoc : v = FAT_EOC
      · subst hveoc
        have hrest0 := is_chain_eoc fat dc rest hrest
        subst hrest0
        have hscan := find_free_block_eq fat dc hdcfat
        rw [hF] at hscan
        cases F with
        | nil =>
          exact ⟨0, fat, _, _, _, log,
            write_loop_log_full c di dc fuel data tw co act f fat disk _ log hmore hdata hwb hv
              hscan,
            loop_shape_zero dc f [] [] fat log hchain0 hF⟩
        | cons nb F1 =>
          have hnbmem : nb ∈ free_slots fat dc := by rw [hF]; exact List.mem_cons_self _ _
          rw [mem_free_slots] at hnbmem
          have hnb0 : nb ≠ 0 := fun h => h0 (by rw [h]; exact List.mem_cons_self _ _)
          have hnbe : nb ≠ FAT_EOC := lt_dc_ne_eoc _ _ hnbmem.1 hdc
          have hnbf : nb ≠ f := fun h => hffree (by rw [← h]; exact List.mem_cons_self _ _)
          have hnblt : nb < fat.length := Nat.lt_of_lt_of_le hnbmem.1 hdcfat
          have hfat2f : ((fat.set f nb).set nb FAT_EOC)[f]? = some nb := by
            rw [List.getElem?_set_ne hnbf, List.getElem?_set_self hflt]
          have hfat2nb : ((fat.set f nb).set nb FAT_EOC)[nb]? = some FAT_EOC := by
            rw [List.getElem?_set_self (by rw [List.length_set]; exact hnblt)]
          have hF2 : free_slots ((fat.set f nb).set nb FAT_EOC) dc = F1 := by
            apply free_slots_after fat _ dc nb f F1 hF
            · intro i h1 h2
              rw [List.getElem?_set_ne (fun h => h1 h.symm),
                List.getElem?_set_ne (fun h => h2 h.symm)]
            · rw [hfat2nb]; decide
            · rw [hfat2f]; exact fun h => hnb0 (Option.some.inj h)
            · intro _; rw [hv]; decide
          have hchain2 : is_chain ((fat.set f nb).set nb FAT_EOC) dc nb [nb] = true := by
            rw [is_chain_cons]
            exact ⟨rfl, hnbe, hnbmem.1, FAT_EOC, hfat2nb, by decide, by rw [is_chain_nil]⟩
          obtain ⟨k, fat1, disk1, co1, act1, log1, hrun, hlog, hk, hch, hfr, hfl, hff⟩ :=
            ih (data.drop (c.BLOCK_SIZE - co % c.BLOCK_SIZE))
              (tw - (c.BLOCK_SIZE - co % c.BLOCK_SIZE))
              (size_t_add co (c.BLOCK_SIZE - co % c.BLOCK_SIZE))
              (size_t_add act (c.BLOCK_SIZE - co % c.BLOCK_SIZE)) nb [] F1
              ((fat.set f nb).set nb FAT_EOC)
              (disk.set (di + f) (store_bytes disk[di + f] (co % c.BLOCK_SIZE)
                (data.take (c.BLOCK_SIZE - co % c.BLOCK_SIZE))))
              (log ++ [(nb, fat)])
              hchain2 hF2 (fun h => h0 (List.mem_cons_of_mem _ h))
              (by rw [List.length_set, List.length_set]; exact hdcfat) hdisk1 hblk1
              hdrop hfuel1
          have hfk : f ∉ nb :: F1.take k := by
            intro hmem
            rw [List.mem_cons] at hmem
            rcases hmem with h | h
            · exact hnbf h.symm
            · exact hffree (List.mem_cons_of_mem _ (List.mem_of_mem_take h))
          have hfat1f : fat1[f]? = some nb := by
            rw [hff f (fun h => hnbf (List.mem_singleton.1 h).symm)
              (fun h => hfk (List.mem_cons_of_mem _ h)), hfat2f]
          rw [List.nil_append] at hch
          refine ⟨k + 1, fat1, disk1, co1, act1, log1, ?_, ?_, Nat.succ_le_succ hk, ?_, ?_, ?_, ?_⟩
          · rw [write_loop_log_alloc c di dc fuel data tw co act f nb fat disk _ log hmore hdata
              hwb hv hscan hnbe hflt hnblt hnbf, hrun]
          · rw [hlog, List.map_append, List.take_succ_cons, List.append_assoc]
            rfl
          · rw [List.nil_append, List.take_succ_cons, is_chain_cons]
            exact ⟨rfl, hne, hlt, nb, hfat1f, hnb0, hch⟩
          · rw [List.drop_succ_cons]; exact hfr
          · rw [hfl, List.length_set, List.length_set]
          · intro j hj1 hj2
            rw [List.take_succ_cons, List.mem_cons, not_or] at hj2
            have hjf : j ≠ f := fun h => hj1 (by rw [h]; exact List.mem_cons_self _ _)
            rw [hff j (fun h => hj2.1 (List.mem_singleton.1 h)) hj2.2,
              List.getElem?_set_ne (fun h => hj2.1 h.symm),
              List.getElem?_set_ne (fun h => hjf h.symm)]
      · obtain ⟨rest1, hrest1⟩ := is_chain_ne_eoc fat dc v rest hveoc hrest
        subst hrest1
        obtain ⟨k, fat1, disk1, co1, act1, log1, hrun, hlog, hk, hch, hfr, hfl, hff⟩ :=
          ih (data.drop (c.BLOCK_SIZE - co % c.BLOCK_SIZE))
            (tw - (c.BLOCK_SIZE - co % c.BLOCK_SIZE))
            (size_t_add co (c.BLOCK_SIZE - co % c.BLOCK_SIZE))
            (size_t_add act (c.BLOCK_SIZE - co % c.BLOCK_SIZE)) v rest1 F fat
            (disk.set (di + f) (store_bytes disk[di + f] (co % c.BLOCK_SIZE)
              (data.take (c.BLOCK_SIZE - co % c.BLOCK_SIZE))))
            log hrest hF h0 hdcfat hdisk1 hblk1 hdrop hfuel1
        have hfat1f : fat1[f]? = some v := by
          rw [hff f hnd.1 (fun h => hffree (List.mem_of_mem_take h)), hv]
        refine ⟨k, fat1, disk1, co1, act1, log1, ?_, hlog, hk, ?_, hfr, hfl, ?_⟩
        · rw [write_loop_log_next c di dc fuel data tw co act f v fat disk _ log hmore hdata hwb
            hv hveoc, hrun]
        · rw [List.cons_append, is_chain_cons]
          exact ⟨rfl, hne, hlt, v, hfat1f, hv0, hch⟩
        · intro j hj1 hj2
          exact hff j (fun h => hj1 (List.mem_cons_of_mem _ h)) hj2

/-! ### fs_write with the record of allocations, case by case -/

theorem fs_write_log_no_extend (c : Consts) (fuel : Nat) (s : State) (fd : Int)
    (h : open_file_entry) (e : root_entry) (data : List Nat) (count f : Nat)
    (hh : handle_of c s fd = some (some h)) (he : root_at s.fs.root h.root_index = some e)
    (hstart : (if e.size = 0 ∨ e.data_index = FAT_EOC then some FAT_EOC
      else walk s.fs.fat (h.offset / c.BLOCK_SIZE) e.data_index) = some f)
    (hno : ¬ (f = FAT_EOC ∧ h.offset < size_t_add e.size count)) :
    fs_write_log c fuel s fd (some data) count =
      write_from_log c s fd h e.size f data count [] := by
  unfold fs_write_log
  simp only [hh, he, hstart]
  rw [if_neg hno]

theorem fs_write_log_no_space (c : Consts) (fuel : Nat) (s : State) (fd : Int)
    (h : open_file_entry) (e : root_entry) (data : List Nat) (count prev : Nat)
    (hh : handle_of c s fd = some (some h)) (he : root_at s.fs.root h.root_index = some e)
    (hstart : (if e.size = 0 ∨ e.data_index = FAT_EOC then some FAT_EOC
      else walk s.fs.fat (h.offset / c.BLOCK_SIZE) e.data_index) = some FAT_EOC)
    (hext : h.offset < size_t_add e.size count)
    (hprev : (if e.size > 0 ∧ e.data_index ≠ FAT_EOC then last_block s.fs.fat fuel e.data_index
      else some FAT_EOC) = some prev)
    (hscan : find_free_block s.fs.fat s.fs.sb.data_count = some none) :
    fs_write_log c fuel s fd (some data) count = some ((0, s), []) := by
  unfold fs_write_log
  simp only [hh, he, hstart, hext, hprev, hscan, and_self, if_true, Option.getD_none, to_int_zero]

theorem fs_write_log_extend_head (c : Consts) (fuel : Nat) (s : State) (fd : Int)
    (h : open_file_entry) (e : root_entry) (data : List Nat) (count nb : Nat)
    (hh : handle_of c s fd = some (some h)) (he : root_at s.fs.root h.root_index = some e)
    (hstart : (if e.size = 0 ∨ e.data_index = FAT_EOC then some FAT_EOC
      else walk s.fs.fat (h.offset / c.BLOCK_SIZE) e.data_index) = some FAT_EOC)
    (hext : h.offset < size_t_add e.size count)
    (hprev : (if e.size > 0 ∧ e.data_index ≠ FAT_EOC then last_block s.fs.fat fuel e.data_index
      else some FAT_EOC) = some FAT_EOC)
    (hscan : find_free_block s.fs.fat s.fs.sb.data_count = some (some nb))
    (hnbe : nb ≠ FAT_EOC) (hnblt : nb < s.fs.fat.length) :
    fs_write_log c fuel s fd (some data) count =
      write_from_log c
        { s with fs := { s.fs with
                         fat := s.fs.fat.set nb FAT_EOC
                         root := s.fs.root.set h.root_index.toNat { e with data_index := nb } } }
        fd h e.size nb data count [(nb, s.fs.fat)] := by
  unfold fs_write_log
  simp only [hh, he, hstart, hext, hprev, hscan, and_self, if_true, Option.getD_some, hnbe,
    if_false, store, hnblt]

theorem fs_write_log_extend_append (c : Consts) (fuel : Nat) (s : State) (fd : Int)
    (h : open_file_entry) (e : root_entry) (data : List Nat) (count nb prev : Nat)
    (hh : handle_of c s fd = some (some h)) (he : root_at s.fs.root h.root_index = some e)
    (hstart : (if e.size = 0 ∨ e.data_index = FAT_EOC then some FAT_EOC
      else walk s.fs.fat (h.offset / c.BLOCK_SIZE) e.data_index) = some FAT_EOC)
    (hext : h.offset < size_t_add e.size count)
    (hprev : (if e.size > 0 ∧ e.data_index ≠ FAT_EOC then last_block s.fs.fat fuel e.data_index
      else some FAT_EOC) = some prev)
    (hscan : find_free_block s.fs.fat s.fs.sb.data_count = some (some nb))
    (hnbe : nb ≠ FAT_EOC) (hnblt : nb < s.fs.fat.length) (hpe : prev ≠ FAT_EOC)
    (hplt : prev < s.fs.fat.length) :
    fs_write_log c fuel s fd (some data) count =
      write_from_log c { s with fs := { s.fs with fat := (s.fs.fat.set nb FAT_EOC).set prev nb } }
        fd h e.size nb data count [(nb, s.fs.fat)] := by
  unfold fs_write_log
  simp only [hh, he, hstart, hext, hprev, hscan, and_self, if_true, Option.getD_some, hnbe,
    if_false, store, hnblt, hpe, List.length_set, hplt]

/-- What follows the main loop of `fs_write` when the loop was left by its
condition or its `break`: the table is the one the loop left, and the entry of
the file keeps its name and its first block. -/
theorem write_from_log_run (c : Consts) (s2 : State) (fd : Int) (h : open_file_entry)
    (file_size f : Nat) (data : List Nat) (count co act : Nat) (fat1 : List Nat)
    (disk1 : List (List Nat)) (e2 : root_entry) (log log1 : List (Nat × List Nat))
    (hrun : write_loop_log c s2.fs.sb.data_index s2.fs.sb.data_count (count + 1) data count
      h.offset 0 f s2.fs.fat s2.disk log = some (write_exit.finished co act fat1 disk1, log1))
    (he2 : root_at s2.fs.root h.root_index = some e2) :
    ∃ (s1 : State) (e1 : root_entry),
      write_from_log c s2 fd h file_size f data count log = some ((to_int act, s1), log1) ∧
      s1.fs.sb = s2.fs.sb ∧ s1.fs.fat = fat1 ∧
      s1.fs.root = s2.fs.root.set h.root_index.toNat e1 ∧
      e1.filename = e2.filename ∧ e1.data_index = e2.data_index := by
  have hroot := (root_at_some _ _ _ he2).2
  unfold write_from_log
  rw [hrun]
  simp only [he2]
  by_cases hgt : co > file_size
  · refine ⟨_, { e2 with size := to_u32 co }, rfl, rfl, rfl, ?_, rfl, rfl⟩
    show (if co > file_size then _ else _) = _
    rw [if_pos hgt]
  · refine ⟨_, e2, rfl, rfl, rfl, ?_, rfl, rfl⟩
    show (if co > file_size then _ else _) = _
    rw [if_neg hgt]
    exact (set_same _ _ _ hroot).symm

theorem write_block_no_block (c : Consts) (disk : List (List Nat)) (blk bo tc : Nat)
    (data : List Nat) (h : disk.length ≤ blk) : write_block c disk blk bo tc data = none := by
  unfold write_block block_write block_read
  by_cases hx : bo = 0 ∧ tc = c.BLOCK_SIZE
  · rw [if_pos hx, if_neg (Nat.not_lt.2 h)]
  · rw [if_neg hx, List.getElem?_eq_none h]

/-- The main loop of `fs_write` entered with `f_index` equal to `FAT_EOC` and
bytes to store: the first device call names a block that the device does not
have and returns `-1`, and the loop returns at once. -/
theorem write_from_log_failed (c : Consts) (s : State) (fd : Int) (h : open_file_entry)
    (file_size : Nat) (data : List Nat) (count : Nat) (log : List (Nat × List Nat))
    (hpos : 0 < count) (hdata : count ≤ data.length)
    (hdev : s.disk.length ≤ s.fs.sb.data_index + FAT_EOC) :
    write_from_log c s fd h file_size FAT_EOC data count log =
      some ((0, { s with fs := { s.fs with fat := s.fs.fat }, disk := s.disk }), log) := by
  have htc : (if c.BLOCK_SIZE - h.offset % c.BLOCK_SIZE > count then count
      else c.BLOCK_SIZE - h.offset % c.BLOCK_SIZE) ≤ count := by split <;> omega
  have hd : ¬ data.length < (if c.BLOCK_SIZE - h.offset % c.BLOCK_SIZE > count then count
      else c.BLOCK_SIZE - h.offset % c.BLOCK_SIZE) := by omega
  unfold write_from_log
  rw [write_loop_log]
  simp only [Nat.ne_of_gt hpos, if_false, hd, write_block_no_block c s.disk _ _ _ data hdev,
    to_int_zero]

theorem free_head_facts (fat : List Nat) (dc nb : Nat) (F1 : List Nat) (hdc : dc ≤ 65535)
    (hfat : dc ≤ fat.length) (hF : free_slots fat dc = nb :: F1) :
    nb < dc ∧ nb ≠ FAT_EOC ∧ nb < fat.length ∧ find_free_block fat dc = some (some nb) ∧
      fat[nb]? = some 0 := by
  have hmem : nb ∈ free_slots fat dc := by
    rw [hF]; exact List.mem_cons_self _ _
  have hlt := (mem_free_slots _ _ _).1 hmem
  refine ⟨hlt.1, lt_dc_ne_eoc _ _ hlt.1 hdc, Nat.lt_of_lt_of_le hlt.1 hfat, ?_, hlt.2⟩
  rw [find_free_block_eq _ _ hfat, hF]
  rfl

/-- The call of `fs_write` that allocates nothing before the main loop and
enters the loop at `FAT_EOC`: nothing is linked. -/
theorem fs_write_log_stay (c : Consts) (s : State) (fd : Int) (h : open_file_entry)
    (e : root_entry) (l : List Nat) (data : List Nat) (count : Nat) (H : handle_ready c s fd h e)
    (hchain : is_chain s.fs.fat s.fs.sb.data_count e.data_index l = true)
    (hdev : s.disk.length ≤ s.fs.sb.data_index + FAT_EOC) (hdata : count ≤ data.length)
    (hstart : (if e.size = 0 ∨ e.data_index = FAT_EOC then some FAT_EOC
      else walk s.fs.fat (h.offset / c.BLOCK_SIZE) e.data_index) = some FAT_EOC)
    (hext : ¬ h.offset < size_t_add e.size count) :
    ∃ (r : Int) (s1 : State) (e1 : root_entry),
      (∀ fuel, fs_write_log c fuel s fd (some data) count = some ((r, s1), [])) ∧
      write_shape s h e l s1 e1 l 0 [] := by
  have hh := handle_ready_handle c s fd h e H
  have hroot := (root_at_some _ _ _ H.entry).2
  have hno : ¬ (FAT_EOC = FAT_EOC ∧ h.offset < size_t_add e.size count) := fun hx => hext hx.2
  have hl0 : l ++ (free_slots s.fs.fat s.fs.sb.data_count).take 0 = l := by
    rw [List.take_zero, List.append_nil]
  rcases Nat.eq_zero_or_pos count with hz | hpos
  · subst hz
    obtain ⟨s1, e1, hw, h1, h2, h3, h4, h5⟩ :=
      write_from_log_run c s fd h e.size FAT_EOC data 0 _ _ _ _ e [] []
        (write_loop_log_done c _ _ 0 data h.offset 0 FAT_EOC s.fs.fat s.disk []) H.entry
    refine ⟨_, s1, e1,
      fun fuel => (fs_write_log_no_extend c fuel s fd h e data 0 FAT_EOC hh H.entry hstart
        hno).trans hw, rfl, Nat.zero_le _, h1, h3, h4, ?_, Or.inl rfl, fun j _ _ => by rw [h2]⟩
    rw [hl0, h2, h5]
    exact hchain
  · refine ⟨0, _, e,
      fun fuel => (fs_write_log_no_extend c fuel s fd h e data count FAT_EOC hh H.entry hstart
        hno).trans (write_from_log_failed c s fd h e.size data count [] hpos hdata hdev),
      rfl, Nat.zero_le _, rfl, (set_same _ _ _ hroot).symm, rfl, ?_, Or.inl rfl,
      fun j _ _ => rfl⟩
    rw [hl0]
    exact hchain

/-- The call of `fs_write` that has to allocate before the main loop and finds
no free slot: nothing is linked and nothing changes. -/
theorem fs_write_log_full (c : Consts) (fuel : Nat) (s : State) (fd : Int)
    (h : open_file_entry) (e : root_entry) (l : List Nat) (data : List Nat) (count prev : Nat)
    (H : handle_ready c s fd h e)
    (hchain : is_chain s.fs.fat s.fs.sb.data_count e.data_index l = true)
    (hstart : (if e.size = 0 ∨ e.data_index = FAT_EOC then some FAT_EOC
      else walk s.fs.fat (h.offset / c.BLOCK_SIZE) e.data_index) = some FAT_EOC)
    (hext : h.offset < size_t_add e.size count)
    (hprev : (if e.size > 0 ∧ e.data_index ≠ FAT_EOC then last_block s.fs.fat fuel e.data_index
      else some FAT_EOC) = some prev)
    (hF : free_slots s.fs.fat s.fs.sb.data_count = []) :
    fs_write_log c fuel s fd (some data) count = some ((0, s), []) ∧
      write_shape s h e l s e l 0 [] := by
  have hh := handle_ready_handle c s fd h e H
  have hroot := (root_at_some _ _ _ H.entry).2
  have hscan := find_free_block_eq s.fs.fat s.fs.sb.data_count H.fat_length
  rw [hF] at hscan
  refine ⟨fs_write_log_no_space c fuel s fd h e data count prev hh H.entry hstart hext hprev
    hscan, rfl, Nat.zero_le _, rfl, (set_same _ _ _ hroot).symm, rfl, ?_, Or.inl rfl,
    fun j _ _ => rfl⟩
  rw [List.take_zero, List.append_nil]
  exact hchain

/-- The call of `fs_write` that gives the file its first block: the chain of
the file is made of the lowest free slots. -/
theorem fs_write_log_head (c : Consts) (fuel : Nat) (s : State) (fd : Int)
    (h : open_file_entry) (e : root_entry) (l : List Nat) (data : List Nat) (count nb : Nat)
    (F1 : List Nat) (H : handle_ready c s fd h e) (hdata : count ≤ data.length)
    (hA : e.size = 0 ∨ e.data_index = FAT_EOC) (hl : e.size = 0 ∨ l = [])
    (hext : h.offset < size_t_add e.size count)
    (hF : free_slots s.fs.fat s.fs.sb.data_count = nb :: F1) :
    ∃ (r : Int) (s1 : State) (e1 : root_entry) (k : Nat) (log : List (Nat × List Nat)),
      fs_write_log c fuel s fd (some data) count = some ((r, s1), log) ∧
      write_shape s h e l s1 e1 [] (k + 1) log := by
  have hh := handle_ready_handle c s fd h e H
  have hroot := (root_at_some _ _ _ H.entry).2
  obtain ⟨hnblt, hnbe, hnbfat, hscan, _⟩ :=
    free_head_facts _ _ nb F1 H.data_count_le H.fat_length hF
  have hstart : (if e.size = 0 ∨ e.data_index = FAT_EOC then some FAT_EOC
      else walk s.fs.fat (h.offset / c.BLOCK_SIZE) e.data_index) = some FAT_EOC := by
    rw [if_pos hA]
  have hprev : (if e.size > 0 ∧ e.data_index ≠ FAT_EOC then last_block s.fs.fat fuel e.data_index
      else some FAT_EOC) = some FAT_EOC := by
    rw [if_neg]
    rintro ⟨h1, h2⟩
    rcases hA with h3 | h3
    · omega
    · exact h2 h3
  have hfat2nb : (s.fs.fat.set nb FAT_EOC)[nb]? = some FAT_EOC :=
    List.getElem?_set_self hnbfat
  have hchain2 : is_chain (s.fs.fat.set nb FAT_EOC) s.fs.sb.data_count nb [nb] = true := by
    rw [is_chain_cons]
    exact ⟨rfl, hnbe, hnblt, FAT_EOC, hfat2nb, by decide, by rw [is_chain_nil]⟩
  have hF2 : free_slots (s.fs.fat.set nb FAT_EOC) s.fs.sb.data_count = F1 := by
    apply free_slots_after s.fs.fat _ s.fs.sb.data_count nb nb F1 hF
    · intro i h1 _
      rw [List.getElem?_set_ne (fun hx => h1 hx.symm)]
    · rw [hfat2nb]; decide
    · rw [hfat2nb]; decide
    · intro hx; exact absurd rfl hx
  obtain ⟨k, fat1, disk1, co1, act1, log1, hrun, hlog, hk, hch, _, _, hff⟩ :=
    write_loop_log_shape c s.fs.sb.data_index s.fs.sb.data_count H.block_size_pos H.data_count_le
      (count + 1) data count h.offset 0 nb [] F1 (s.fs.fat.set nb FAT_EOC) s.disk
      [(nb, s.fs.fat)] hchain2 hF2 (zero_not_mem_tail _ _ _ _ hF)
      (by rw [List.length_set]; exact H.fat_length) H.disk_length H.block_length hdata
      (Nat.lt_succ_self _)
  obtain ⟨s1, e1, hw, h1, h2, h3, h4, h5⟩ :=
    write_from_log_run c
      { s with fs := { s.fs with
                       fat := s.fs.fat.set nb FAT_EOC
                       root := s.fs.root.set h.root_index.toNat { e with data_index := nb } } }
      fd h e.size nb data count co1 act1 fat1 disk1 { e with data_index := nb }
      [(nb, s.fs.fat)] log1 hrun (root_at_set _ _ _ _ H.entry)
  refine ⟨_, s1, e1, k, log1,
    (fs_write_log_extend_head c fuel s fd h e data count nb hh H.entry hstart hext hprev hscan
      hnbe hnbfat).trans hw, ?_, ?_, h1, ?_, h4, ?_, ?_, ?_⟩
  · rw [hlog, hF, List.take_succ_cons]
    rfl
  · rw [hF]; exact Nat.succ_le_succ hk
  · rw [h3]
    exact List.set_set _ _ _ _
  · rw [List.nil_append] at hch
    rw [h2, h5, hF, List.nil_append, List.take_succ_cons]
    exact hch
  · rcases hl with h3 | h3
    · exact Or.inr ⟨h3, rfl⟩
    · exact Or.inl h3.symm
  · intro j _ hj2
    rw [hF, List.take_succ_cons, List.mem_cons, not_or] at hj2
    rw [h2, hff j (fun hx => hj2.1 (List.mem_singleton.1 hx)) hj2.2,
      List.getElem?_set_ne (fun hx => hj2.1 hx.symm)]

/-- The call of `fs_write` that links a block after the last block of the
file before the main loop: the lowest free slots follow the chain. -/
theorem fs_write_log_append (c : Consts) (fuel : Nat) (s : State) (fd : Int)
    (h : open_file_entry) (e : root_entry) (l : List Nat) (data : List Nat) (count nb : Nat)
    (F1 : List Nat) (H : handle_ready c s fd h e) (hdata : count ≤ data.length)
    (hB : ¬ (e.size = 0 ∨ e.data_index = FAT_EOC))
    (hchain : is_chain s.fs.fat s.fs.sb.data_count e.data_index l = true)
    (hstart : walk s.fs.fat (h.offset / c.BLOCK_SIZE) e.data_index = some FAT_EOC)
    (hext : h.offset < size_t_add e.size count) (hfuel : l.length ≤ fuel)
    (hF : free_slots s.fs.fat s.fs.sb.data_count = nb :: F1)
    (h0 : 0 ∉ free_slots s.fs.fat s.fs.sb.data_count) :
    ∃ (r : Int) (s1 : State) (e1 : root_entry) (k : Nat) (log : List (Nat × List Nat)),
      fs_write_log c fuel s fd (some data) count = some ((r, s1), log) ∧
      write_shape s h e l s1 e1 l k log := by
  have hh := handle_ready_handle c s fd h e H
  rw [not_or] at hB
  obtain ⟨hnblt, hnbe, hnbfat, hscan, _⟩ :=
    free_head_facts _ _ nb F1 H.data_count_le H.fat_length hF
  rw [hF] at h0
  have hnb0 : nb ≠ 0 := fun hx => h0 (by rw [hx]; exact List.mem_cons_self _ _)
  obtain ⟨l1, hl1⟩ := is_chain_ne_eoc _ _ _ l hB.2 hchain
  obtain ⟨prev, hlast⟩ : ∃ prev, l.getLast? = some prev := by
    rw [hl1]
    exact ⟨_, List.getLast?_eq_getLast _ (List.cons_ne_nil _ _)⟩
  have hpmem := List.mem_of_getLast?_eq_some hlast
  obtain ⟨hpe, hplt, pv, hpv, hpv0⟩ := is_chain_mem _ _ l _ hchain prev hpmem
  have hpfat : prev < s.fs.fat.length := Nat.lt_of_lt_of_le hplt H.fat_length
  have hnotfree : ∀ j ∈ l, j ∉ nb :: F1 := by
    intro j hj
    rw [← hF]
    exact chain_not_free _ _ _ _ hchain j hj
  have hpnb : prev ≠ nb := fun hx => hnotfree prev hpmem (by rw [hx]; exact List.mem_cons_self _ _)
  have hstart2 : (if e.size = 0 ∨ e.data_index = FAT_EOC then some FAT_EOC
      else walk s.fs.fat (h.offset / c.BLOCK_SIZE) e.data_index) = some FAT_EOC := by
    rw [if_neg (not_or.2 hB)]
    exact hstart
  have hprev : (if e.size > 0 ∧ e.data_index ≠ FAT_EOC then last_block s.fs.fat fuel e.data_index
      else some FAT_EOC) = some prev := by
    rw [if_pos ⟨Nat.pos_of_ne_zero hB.1, hB.2⟩]
    exact last_block_spec _ _ l _ prev fuel hchain hlast hfuel
  have hfat2nb : ((s.fs.fat.set nb FAT_EOC).set prev nb)[nb]? = some FAT_EOC := by
    rw [List.getElem?_set_ne hpnb, List.getElem?_set_self hnbfat]
  have hfat2p : ((s.fs.fat.set nb FAT_EOC).set prev nb)[prev]? = some nb :=
    List.getElem?_set_self (by rw [List.length_set]; exact hpfat)
  have hchain2 : is_chain ((s.fs.fat.set nb FAT_EOC).set prev nb) s.fs.sb.data_count nb [nb]
      = true := by
    rw [is_chain_cons]
    exact ⟨rfl, hnbe, hnblt, FAT_EOC, hfat2nb, by decide, by rw [is_chain_nil]⟩
  have hF2 : free_slots ((s.fs.fat.set nb FAT_EOC).set prev nb) s.fs.sb.data_count = F1 := by
    apply free_slots_after s.fs.fat _ s.fs.sb.data_count nb prev F1 hF
    · intro i h1 h2
      rw [List.getElem?_set_ne (fun hx => h2 hx.symm),
        List.getElem?_set_ne (fun hx => h1 hx.symm)]
    · rw [hfat2nb]; decide
    · rw [hfat2p]; exact fun hx => hnb0 (Option.some.inj hx)
    · intro _; rw [hpv]; exact fun hx => hpv0 (Option.some.inj hx)
  obtain ⟨k, fat1, disk1, co1, act1, log1, hrun, hlog, hk, hch, _, _, hff⟩ :=
    write_loop_log_shape c s.fs.sb.data_index s.fs.sb.data_count H.block_size_pos H.data_count_le
      (count + 1) data count h.offset 0 nb [] F1 ((s.fs.fat.set nb FAT_EOC).set prev nb) s.disk
      [(nb, s.fs.fat)] hchain2 hF2 (fun hx => h0 (List.mem_cons_of_mem _ hx))
      (by rw [List.length_set, List.length_set]; exact H.fat_length) H.disk_length H.block_length
      hdata (Nat.lt_succ_self _)
  obtain ⟨s1, e1, hw, h1, h2, h3, h4, h5⟩ :=
    write_from_log_run c { s with fs := { s.fs with fat := (s.fs.fat.set nb FAT_EOC).set prev nb } }
      fd h e.size nb data count co1 act1 fat1 disk1 e [(nb, s.fs.fat)] log1 hrun H.entry
  rw [List.nil_append] at hch
  have hkeep : ∀ j ∈ l, fat1[j]? = ((s.fs.fat.set nb FAT_EOC).set prev nb)[j]? := by
    intro j hj
    apply hff j
    · intro hx
      exact hnotfree j hj (by rw [List.mem_singleton.1 hx]; exact List.mem_cons_self _ _)
    · intro hx
      exact hnotfree j hj (List.mem_cons_of_mem _ (List.mem_of_mem_take hx))
  refine ⟨_, s1, e1, k + 1, log1,
    (fs_write_log_extend_append c fuel s fd h e data count nb prev hh H.entry hstart2 hext hprev
      hscan hnbe hnbfat hpe hpfat).trans hw, ?_, ?_, h1, h3, h4, ?_, Or.inl rfl, ?_⟩
  · rw [hlog, hF, List.take_succ_cons]
    rfl
  · rw [hF]; exact Nat.succ_le_succ hk
  · rw [h2, h5, hF, List.take_succ_cons]
    apply is_chain_extend s.fs.fat fat1 _ prev nb _ l _ hchain hlast _ _ hnb0 hch
    · intro j hj hjp
      have hjnb : j ≠ nb := fun hx => hnotfree j hj (by rw [hx]; exact List.mem_cons_self _ _)
      rw [hkeep j hj, List.getElem?_set_ne (fun hx => hjp hx.symm),
        List.getElem?_set_ne (fun hx => hjnb hx.symm)]
    · rw [hkeep prev hpmem, hfat2p]
  · intro j hj1 hj2
    rw [hF, List.take_succ_cons, List.mem_cons, not_or] at hj2
    have hjp : j ≠ prev := fun hx => hj1 (by rw [hx]; exact hpmem)
    rw [h2, hff j (fun hx => hj2.1 (List.mem_singleton.1 hx)) hj2.2,
      List.getElem?_set_ne (fun hx => hjp hx.symm),
      List.getElem?_set_ne (fun hx => hj2.1 hx.symm)]

/-- The call of `fs_write` that starts in a block of the file: the chain stays
and the lowest free slots follow it. -/
theorem fs_write_log_inside (c : Consts) (fuel : Nat) (s : State) (fd : Int)
    (h : open_file_entry) (e : root_entry) (l : List Nat) (data : List Nat) (count f : Nat)
    (H : handle_ready c s fd h e) (hdata : count ≤ data.length)
    (hB : ¬ (e.size = 0 ∨ e.data_index = FAT_EOC))
    (hchain : is_chain s.fs.fat s.fs.sb.data_count e.data_index l = true)
    (hstart : walk s.fs.fat (h.offset / c.BLOCK_SIZE) e.data_index = some f)
    (hf : is_chain s.fs.fat s.fs.sb.data_count f (l.drop (h.offset / c.BLOCK_SIZE)) = true)
    (hfe : f ≠ FAT_EOC)
    (h0 : 0 ∉ free_slots s.fs.fat s.fs.sb.data_count) :
    ∃ (r : Int) (s1 : State) (e1 : root_entry) (k : Nat) (log : List (Nat × List Nat)),
      fs_write_log c fuel s fd (some data) count = some ((r, s1), log) ∧
      write_shape s h e l s1 e1 l k log := by
  have hh := handle_ready_handle c s fd h e H
  have hstart2 : (if e.size = 0 ∨ e.data_index = FAT_EOC then some FAT_EOC
      else walk s.fs.fat (h.offset / c.BLOCK_SIZE) e.data_index) = some f := by
    rw [if_neg hB]
    exact hstart
  have hno : ¬ (f = FAT_EOC ∧ h.offset < size_t_add e.size count) := fun hx => hfe hx.1
  obtain ⟨rest, hrest⟩ := is_chain_ne_eoc _ _ f _ hfe hf
  rw [hrest] at hf
  have hsplit : l = l.take (h.offset / c.BLOCK_SIZE) ++ f :: rest := by
    rw [← hrest, List.take_append_drop]
  have hnd := is_chain_nodup _ _ _ _ hchain
  rw [hsplit] at hnd
  have hdisj := List.disjoint_of_nodup_append hnd
  obtain ⟨k, fat1, disk1, co1, act1, log1, hrun, hlog, hk, hch, _, _, hff⟩ :=
    write_loop_log_shape c s.fs.sb.data_index s.fs.sb.data_count H.block_size_pos H.data_count_le
      (count + 1) data count h.offset 0 f rest (free_slots s.fs.fat s.fs.sb.data_count) s.fs.fat
      s.disk [] hf rfl h0 H.fat_length H.disk_length H.block_length hdata (Nat.lt_succ_self _)
  obtain ⟨s1, e1, hw, h1, h2, h3, h4, h5⟩ :=
    write_from_log_run c s fd h e.size f data count co1 act1 fat1 disk1 e [] log1 hrun H.entry
  have hchain1 := hchain
  rw [hsplit] at hchain1
  obtain ⟨m, hm, hglue⟩ := is_chain_split _ _ _ _ _ hchain1
  have hmf : m = f := is_chain_head _ _ m f rest hm
  subst hmf
  refine ⟨_, s1, e1, k, log1,
    (fs_write_log_no_extend c fuel s fd h e data count m hh H.entry hstart2 hno).trans hw,
    ?_, hk, h1, h3, h4, ?_, Or.inl rfl, ?_⟩
  · rw [hlog]; rfl
  · rw [h2, h5]
    have := hglue fat1 (m :: (rest ++ (free_slots s.fs.fat s.fs.sb.data_count).take k))
      (fun j hj => hff j (fun hx => hdisj hj hx)
        (fun hx => chain_not_free _ _ _ _ hchain j
          (by rw [hsplit]; exact List.mem_append_left _ hj) (List.mem_of_mem_take hx))) hch
    rw [← List.cons_append, ← List.append_assoc, ← hsplit] at this
    exact this
  · intro j hj1 hj2
    rw [h2]
    exact hff j (fun hx => hj1 (by rw [hsplit]; exact List.mem_append_right _ hx)) hj2

/-- What `fs_write` leaves in the table, for any count, any offset of the
handle and any size of the entry.  On a mounted volume, for a handle in use on
an entry whose chain `l` is in range, holds no free slot and ends in `FAT_EOC`,
where slot 0 of the table is not free unless the file has no block in use (its
size is 0 or its first block is `FAT_EOC`): the call returns, the slots it
allocated are, in the order of the allocations, the `k` lowest free slots, and
the chain of the file afterwards is made of the slots kept and of these. -/
theorem fs_write_log_shape (c : Consts) (fuel : Nat) (s : State) (fd : Int)
    (h : open_file_entry) (e : root_entry) (l : List Nat) (data : List Nat) (count : Nat)
    (H : handle_ready c s fd h e)
    (hchain : is_chain s.fs.fat s.fs.sb.data_count e.data_index l = true)
    (hslot : e.size = 0 ∨ e.data_index = FAT_EOC ∨ 0 ∉ free_slots s.fs.fat s.fs.sb.data_count)
    (hdev : s.disk.length ≤ s.fs.sb.data_index + FAT_EOC) (hdata : count ≤ data.length)
    (hfuel : l.length ≤ fuel) :
    ∃ (r : Int) (s1 : State) (e1 : root_entry) (kept : List Nat) (k : Nat)
      (log : List (Nat × List Nat)),
      fs_write_log c fuel s fd (some data) count = some ((r, s1), log) ∧
      write_shape s h e l s1 e1 kept k log := by
  by_cases hA : e.size = 0 ∨ e.data_index = FAT_EOC
  · have hstart : (if e.size = 0 ∨ e.data_index = FAT_EOC then some FAT_EOC
        else walk s.fs.fat (h.offset / c.BLOCK_SIZE) e.data_index) = some FAT_EOC := by
      rw [if_pos hA]
    by_cases hext : h.offset < size_t_add e.size count
    · cases hF : free_slots s.fs.fat s.fs.sb.data_count with
      | nil =>
        have hprev : (if e.size > 0 ∧ e.data_index ≠ FAT_EOC
            then last_block s.fs.fat fuel e.data_index else some FAT_EOC) = some FAT_EOC := by
          rw [if_neg]
          rintro ⟨h1, h2⟩
          rcases hA with h3 | h3
          · omega
          · exact h2 h3
        obtain ⟨hw, hsh⟩ := fs_write_log_full c fuel s fd h e l data count FAT_EOC H hchain hstart
          hext hprev hF
        exact ⟨_, s, e, l, 0, [], hw, hsh⟩
      | cons nb F1 =>
        have hl : e.size = 0 ∨ l = [] := by
          rcases hA with h3 | h3
          · exact Or.inl h3
          · right
            rw [h3] at hchain
            exact is_chain_eoc _ _ l hchain
        obtain ⟨r, s1, e1, k, log, hw, hsh⟩ :=
          fs_write_log_head c fuel s fd h e l data count nb F1 H hdata hA hl hext hF
        exact ⟨r, s1, e1, [], k + 1, log, hw, hsh⟩
    · obtain ⟨r, s1, e1, hw, hsh⟩ :=
        fs_write_log_stay c s fd h e l data count H hchain hdev hdata hstart hext
      exact ⟨r, s1, e1, l, 0, [], hw fuel, hsh⟩
  · have h0 : 0 ∉ free_slots s.fs.fat s.fs.sb.data_count := by
      rcases hslot with h1 | h1 | h1
      · exact absurd (Or.inl h1) hA
      · exact absurd (Or.inr h1) hA
      · exact h1
    obtain ⟨f, hstart, hf⟩ := walk_spec s.fs.fat s.fs.sb.data_count (h.offset / c.BLOCK_SIZE)
      e.data_index l hchain
    have hstart2 : (if e.size = 0 ∨ e.data_index = FAT_EOC then some FAT_EOC
        else walk s.fs.fat (h.offset / c.BLOCK_SIZE) e.data_index) = some f := by
      rw [if_neg hA]
      exact hstart
    by_cases hfe : f = FAT_EOC
    · subst hfe
      by_cases hext : h.offset < size_t_add e.size count
      · cases hF : free_slots s.fs.fat s.fs.sb.data_count with
        | nil =>
          have hB := not_or.1 hA
          obtain ⟨l1, hl1⟩ := is_chain_ne_eoc _ _ _ l hB.2 hchain
          obtain ⟨prev, hlast⟩ : ∃ prev, l.getLast? = some prev := by
            rw [hl1]
            exact ⟨_, List.getLast?_eq_getLast _ (List.cons_ne_nil _ _)⟩
          have hprev : (if e.size > 0 ∧ e.data_index ≠ FAT_EOC
              then last_block s.fs.fat fuel e.data_index else some FAT_EOC) = some prev := by
            rw [if_pos ⟨Nat.pos_of_ne_zero hB.1, hB.2⟩]
            exact last_block_spec _ _ l _ prev fuel hchain hlast hfuel
          obtain ⟨hw, hsh⟩ := fs_write_log_full c fuel s fd h e l data count prev H hchain hstart2
            hext hprev hF
          exact ⟨_, s, e, l, 0, [], hw, hsh⟩
        | cons nb F1 =>
          obtain ⟨r, s1, e1, k, log, hw, hsh⟩ :=
            fs_write_log_append c fuel s fd h e l data count nb F1 H hdata hA hchain hstart hext
              hfuel hF h0
          exact ⟨r, s1, e1, l, k, log, hw, hsh⟩
      · obtain ⟨r, s1, e1, hw, hsh⟩ :=
          fs_write_log_stay c s fd h e l data count H hchain hdev hdata hstart2 hext
        exact ⟨r, s1, e1, l, 0, [], hw fuel, hsh⟩
    · obtain ⟨r, s1, e1, k, log, hw, hsh⟩ :=
        fs_write_log_inside c fuel s fd h e l data count f H hdata hA hchain hstart hf hfe h0
      exact ⟨r, s1, e1, l, k, log, hw, hsh⟩

/-- What `fs_write` returns is what `fs_write_log` returns, without the
record. -/
theorem fs_write_of_log (c : Consts) (fuel : Nat) (s : State) (fd : Int)
    (buf : Option (List Nat)) (count : Nat) (x : Int × State) (log : List (Nat × List Nat))
    (h : fs_write_log c fuel s fd buf count = some (x, log)) :
    fs_write c fuel s fd buf count = some x := by
  rw [← fs_write_log_fst, h]
  rfl

/-! ## The chains after fs_write, and the slots that fs_write allocates -/

/-- C16, as amended.  On a mounted volume where the chains of the directory
entries in use are in range, without a repeated slot, end in `FAT_EOC`, share no
slot with each other and hold no free slot, and where slot 0 of the table is not
free unless the file written has no block in use (its size is 0 or its first
block is `FAT_EOC`): after `fs_write` through a handle in use on an entry in
use, for any count, any offset of the handle and any size of the entry, the same
holds of the chains, and every slot linked into the chain of the file written
was free before the call.  The chain of the file written is then made of the
slots kept, all the old ones unless the size was 0, and of the slots linked.
The volume is on a device that holds its data blocks and has at most 65535
blocks, the largest count that the 16-bit field `total_blocks`, which `fs_mount`
compares with the device, can hold; the buffer holds `count` bytes. -/
theorem fs_write_keeps_chains (c : Consts) (s : State) (fd : Int) (h : open_file_entry)
    (e : root_entry) (ch : Nat → List Nat) (data : List Nat) (count fuel : Nat)
    (H : handle_ready c s fd h e) (hch : volume_chains s.fs ch) (hact : is_free e = false)
    (hslot : e.size = 0 ∨ e.data_index = FAT_EOC ∨
      0 ∉ free_slots s.fs.fat s.fs.sb.data_count)
    (hdev : s.disk.length ≤ 65535) (hdata : count ≤ data.length)
    (hfuel : (ch h.root_index.toNat).length ≤ fuel) :
    ∃ (r : Int) (s1 : State) (kept linked : List Nat),
      fs_write c fuel s fd (some data) count = some (r, s1) ∧
      volume_chains s1.fs (Function.update ch h.root_index.toNat (kept ++ linked)) ∧
      (kept = ch h.root_index.toNat ∨ (e.size = 0 ∧ kept = [])) ∧
      (∀ b ∈ linked, b < s.fs.sb.data_count ∧ s.fs.fat[b]? = some 0) := by
  have hroot := (root_at_some _ _ _ H.entry).2
  have hlt := getElem?_lt_length _ _ _ hroot
  have hchain := hch.1 _ e hroot hact
  obtain ⟨r, s1, e1, kept, k, log, hw, _, _, hsb, hroot1, _, hchain1, hkept, hff⟩ :=
    fs_write_log_shape c fuel s fd h e _ data count H hchain hslot
      (Nat.le_trans hdev (Nat.le_add_left 65535 _)) hdata hfuel
  have hsub : ∀ b ∈ kept, b ∈ ch h.root_index.toNat := by
    intro b hb
    rcases hkept with hx | hx
    · rw [← hx]; exact hb
    · rw [hx.2] at hb
      exact absurd hb (List.not_mem_nil _)
  have hlinked : ∀ b ∈ (free_slots s.fs.fat s.fs.sb.data_count).take k,
      b ∈ free_slots s.fs.fat s.fs.sb.data_count := fun b hb => List.mem_of_mem_take hb
  have hother : ∀ (i : Nat) (e2 : root_entry), i ≠ h.root_index.toNat →
      s.fs.root[i]? = some e2 → is_free e2 = false →
      is_chain s1.fs.fat s.fs.sb.data_count e2.data_index (ch i) = true := by
    intro i e2 hi he2 ha2
    apply is_chain_same s.fs.fat s1.fs.fat _ _ _ _ (hch.1 i e2 he2 ha2)
    intro b hb
    exact hff b (hch.2 i _ e2 e hi he2 hroot ha2 hact b hb)
      (fun hx => chain_not_free _ _ _ _ (hch.1 i e2 he2 ha2) b hb (hlinked b hx))
  refine ⟨r, s1, kept, (free_slots s.fs.fat s.fs.sb.data_count).take k,
    fs_write_of_log c fuel s fd _ count _ log hw, ⟨?_, ?_⟩, hkept,
    fun b hb => (mem_free_slots _ _ _).1 (hlinked b hb)⟩
  · intro i e2 he2 ha2
    rw [hsb]
    rw [hroot1] at he2
    by_cases hi : i = h.root_index.toNat
    · subst hi
      rw [Function.update_same]
      rw [List.getElem?_set_self hlt] at he2
      rw [← Option.some.inj he2]
      exact hchain1
    · rw [Function.update_noteq hi]
      rw [List.getElem?_set_ne (Ne.symm hi)] at he2
      exact hother i e2 hi he2 ha2
  · intro i j e2 e3 hij he2 he3 ha2 ha3 b hb
    rw [hroot1] at he2 he3
    by_cases hi : i = h.root_index.toNat
    · subst hi
      rw [Function.update_same] at hb
      rw [Function.update_noteq (Ne.symm hij)]
      rw [List.getElem?_set_ne hij] at he3
      rcases List.mem_append.1 hb with hb1 | hb1
      · exact hch.2 _ j e e3 hij hroot he3 hact ha3 b (hsub b hb1)
      · exact fun hx => chain_not_free _ _ _ _ (hch.1 j e3 he3 ha3) b hx (hlinked b hb1)
    · rw [Function.update_noteq hi] at hb
      rw [List.getElem?_set_ne (Ne.symm hi)] at he2
      by_cases hj : j = h.root_index.toNat
      · subst hj
        rw [Function.update_same]
        intro hx
        rcases List.mem_append.1 hx with hx1 | hx1
        · exact hch.2 i _ e2 e hi he2 hroot ha2 hact b hb (hsub b hx1)
        · exact chain_not_free _ _ _ _ (hch.1 i e2 he2 ha2) b hb (hlinked b hx1)
      · rw [Function.update_noteq hj]
        rw [List.getElem?_set_ne (Ne.symm hj)] at he3
        exact hch.2 i j e2 e3 hij he2 he3 ha2 ha3 b hb

/-- On the small volume, 7 bytes written at offset 5 of the file of two
blocks, through the second handle: the chains stay well formed. -/
theorem fs_write_keeps_chains_witness :
    ∃ (r : Int) (s1 : State) (kept linked : List Nat),
      fs_write small 2 small_open 1 (some [1, 2, 3, 4, 5, 6, 7]) 7 = some (r, s1) ∧
      volume_chains s1.fs
        (Function.update (fun i => if i = 0 then [1, 2] else []) (0 : Int).toNat
          (kept ++ linked)) ∧
      (kept = (fun i => if i = 0 then [1, 2] else []) (0 : Int).toNat ∨
        ((6 : Nat) = 0 ∧ kept = [])) ∧
      (∀ b ∈ linked, b < small_open.fs.sb.data_count ∧ small_open.fs.fat[b]? = some 0) :=
  fs_write_keeps_chains small small_open 1 { used := true, root_index := 0, offset := 5 }
    { filename := [97, 98, 0, 0], size := 6, data_index := 1, padding := List.replicate 10 0 }
    (fun i => if i = 0 then [1, 2] else []) [1, 2, 3, 4, 5, 6, 7] 7 2
    (handle_ready_of small small_open 1 _ _ [1, 2]
      (write_ready_other small small_open 0 1 _ _ _ _ small_open_ready (by decide) (by decide)
        rfl rfl rfl (by decide)))
    small_open_chains (by decide) (Or.inr (Or.inr (by decide))) (by decide) (by decide)
    (by decide)

/-- C18. First-fit allocation.  `fs_write_log` is `fs_write` with a record of
its allocations: for each block allocated during a call, by the code before the
main loop (first block of the file, or block linked after the last one) or by a
pass of the main loop, the slot chosen and the table as it was at that moment.
For every call, on every state, each slot recorded is the lowest `i` below
`data_count` with `fat[i] = 0` in the table recorded with it.  On a volume
where the chain of the file is in range, holds no free slot and ends in
`FAT_EOC`, and slot 0 is not free unless the file has no block in use, the slots
allocated by a call are then, in the order of the allocations, the lowest free
slots of the table before the call, and they follow the blocks that the file
keeps in its chain.  Consequently, writing `n > 0` bytes at offset 0 of a file
of size 0, on a volume with at least `n / BLOCK_SIZE` (rounded up) free slots,
returns `n`, allocates that many slots, the lowest free ones in rising order,
and leaves them as the chain of the file: the first one is the entry's first
block and the last one holds `FAT_EOC`. -/
theorem first_fit (c : Consts) (s : State) (fd : Int) (h : open_file_entry)
    (e : root_entry) (data : List Nat) (n fuel : Nat) (H : handle_ready c s fd h e)
    (hsize : e.size = 0) (hoff : h.offset = 0) (hn : 0 < n) (hdata : n ≤ data.length)
    (hfree : (n + c.BLOCK_SIZE - 1) / c.BLOCK_SIZE ≤
      (free_slots s.fs.fat s.fs.sb.data_count).length) :
    (∀ (fuel1 : Nat) (s0 : State) (fd0 : Int) (buf : Option (List Nat)) (count : Nat),
      (fs_write_log c fuel1 s0 fd0 buf count).map Prod.fst = fs_write c fuel1 s0 fd0 buf count ∧
      ∀ (x : Int × State) (log : List (Nat × List Nat)),
        fs_write_log c fuel1 s0 fd0 buf count = some (x, log) →
        ∀ ev ∈ log, ev.1 < s0.fs.sb.data_count ∧ ev.2[ev.1]? = some 0 ∧
          ∀ j, j < ev.1 → ev.2[j]? ≠ some 0) ∧
    (∀ (fuel1 : Nat) (s0 : State) (fd0 : Int) (h0 : open_file_entry) (e0 : root_entry)
        (l0 data0 : List Nat) (count : Nat),
      handle_ready c s0 fd0 h0 e0 →
      is_chain s0.fs.fat s0.fs.sb.data_count e0.data_index l0 = true →
      (e0.size = 0 ∨ e0.data_index = FAT_EOC ∨
        0 ∉ free_slots s0.fs.fat s0.fs.sb.data_count) →
      s0.disk.length ≤ 65535 → count ≤ data0.length → l0.length ≤ fuel1 →
      ∃ (r : Int) (s1 : State) (e1 : root_entry) (kept : List Nat) (k : Nat)
        (log : List (Nat × List Nat)),
        fs_write_log c fuel1 s0 fd0 (some data0) count = some ((r, s1), log) ∧
        log.map Prod.fst = (free_slots s0.fs.fat s0.fs.sb.data_count).take k ∧
        root_at s1.fs.root h0.root_index = some e1 ∧
        is_chain s1.fs.fat s0.fs.sb.data_count e1.data_index
          (kept ++ (free_slots s0.fs.fat s0.fs.sb.data_count).take k) = true ∧
        (kept = l0 ∨ (e0.size = 0 ∧ kept = []))) ∧
    ∃ (s1 : State) (e1 : root_entry) (first : Nat) (log : List (Nat × List Nat)),
      fs_write_log c fuel s fd (some data) n = some (((n : Int), s1), log) ∧
      fs_write c fuel s fd (some data) n = some ((n : Int), s1) ∧
      log.map Prod.fst = (free_slots s.fs.fat s.fs.sb.data_count).take
        ((n + c.BLOCK_SIZE - 1) / c.BLOCK_SIZE) ∧
      root_at s1.fs.root h.root_index = some e1 ∧
      ((free_slots s.fs.fat s.fs.sb.data_count).take
        ((n + c.BLOCK_SIZE - 1) / c.BLOCK_SIZE)).head? = some first ∧
      e1.data_index = first ∧
      is_chain s1.fs.fat s1.fs.sb.data_count first
        ((free_slots s.fs.fat s.fs.sb.data_count).take
          ((n + c.BLOCK_SIZE - 1) / c.BLOCK_SIZE)) = true ∧
      ((free_slots s.fs.fat s.fs.sb.data_count).take
        ((n + c.BLOCK_SIZE - 1) / c.BLOCK_SIZE)).length = (n + c.BLOCK_SIZE - 1) / c.BLOCK_SIZE ∧
      ((free_slots s.fs.fat s.fs.sb.data_count).take
        ((n + c.BLOCK_SIZE - 1) / c.BLOCK_SIZE)).Sorted (fun a b => a < b) ∧
      (∀ b, ((free_slots s.fs.fat s.fs.sb.data_count).take
          ((n + c.BLOCK_SIZE - 1) / c.BLOCK_SIZE)).getLast? = some b →
        s1.fs.fat[b]? = some FAT_EOC) := by
  refine ⟨fun fuel1 s0 fd0 buf count => ⟨fs_write_log_fst c fuel1 s0 fd0 buf count,
    fun x log hrun => fs_write_log_first_free c fuel1 s0 fd0 buf count x log hrun⟩, ?_, ?_⟩
  · intro fuel1 s0 fd0 h0 e0 l0 data0 count H0 hchain0 hslot0 hdev0 hdata0 hfuel0
    obtain ⟨r, s1, e1, kept, k, log, hw, hlog, _, _, hroot1, _, hchain1, hkept, _⟩ :=
      fs_write_log_shape c fuel1 s0 fd0 h0 e0 l0 data0 count H0 hchain0 hslot0
        (Nat.le_trans hdev0 (Nat.le_add_left 65535 _)) hdata0 hfuel0
    refine ⟨r, s1, e1, kept, k, log, hw, hlog, ?_, hchain1, hkept⟩
    rw [hroot1]
    exact root_at_set _ _ _ e1 H0.entry
  have hh := handle_ready_handle c s fd h e H
  have hnle := ceil_le_mul _ _ _ H.block_size_pos hfree
  have hn31 := fits_int _ _ _ _ hnle (free_slots_length_le _ _) H.data_count_le H.sizes_fit_int
  have hn63 : n < 2 ^ 63 := Nat.lt_trans hn31 (by decide)
  have hkpos : 0 < (n + c.BLOCK_SIZE - 1) / c.BLOCK_SIZE := by
    rw [Nat.div_pos_iff (Nat.ne_of_gt H.block_size_pos)]
    omega
  obtain ⟨nb, F1, hF⟩ : ∃ nb F1, free_slots s.fs.fat s.fs.sb.data_count = nb :: F1 := by
    cases hx : free_slots s.fs.fat s.fs.sb.data_count with
    | nil =>
      rw [hx, List.length_nil] at hfree
      omega
    | cons a r => exact ⟨a, r, rfl⟩
  have hext : h.offset < size_t_add e.size n := by
    rw [hsize, hoff, size_t_add_eq _ _ (zero_count _ hn63), Nat.zero_add]
    exact hn
  have hblank := fs_write_blank c fuel s fd h e data n nb F1 hh H.entry hsize hoff hn hn63
    H.data_count_le H.fat_length hF
  obtain ⟨s1, e1, first, hrun, hentry, hhead, hfirst, hchain, hlen, hsorted, hend⟩ :=
    first_fit_ready c _ fd h _ data n fuel (blank_ready c s fd h e H hsize hoff) hn hdata hfree
  obtain ⟨r, s2, e2, k, log, hw, hlog, _, hsb, hroot2, _, hchain2, _, _⟩ :=
    fs_write_log_head c fuel s fd h e [] data n nb F1 H hdata (Or.inl hsize) (Or.inl hsize)
      hext hF
  have hsame : (r, s2) = ((n : Int), s1) :=
    Option.some.inj ((fs_write_of_log c fuel s fd _ n _ log hw).symm.trans (hblank.trans hrun))
  obtain ⟨hr, hs⟩ := Prod.mk.inj hsame
  subst hr
  subst hs
  have he2 : e2 = e1 := by
    have hx := root_at_set _ _ _ e2 H.entry
    rw [← hroot2, hentry] at hx
    exact (Option.some.inj hx).symm
  subst he2
  rw [List.nil_append, hfirst] at hchain2
  have hchain3 : is_chain s2.fs.fat s.fs.sb.data_count first
      ((free_slots s.fs.fat s.fs.sb.data_count).take
        ((n + c.BLOCK_SIZE - 1) / c.BLOCK_SIZE)) = true := by
    have hx := hchain
    rw [hsb] at hx
    exact hx
  have htake := is_chain_functional _ _ _ _ _ hchain2 hchain3
  refine ⟨s2, e2, first, log, hw, hblank.trans hrun, hlog.trans htake, hentry, hhead, hfirst,
    hchain, hlen, hsorted, hend⟩

/-- On the small volume, 5 bytes written to the new file take the two lowest
free slots, 1 and 2, in this order. -/
theorem first_fit_witness :
    ∃ (s1 : State) (e1 : root_entry) (first : Nat) (log : List (Nat × List Nat)),
      fs_write_log small 0 small_new 0 (some [1, 2, 3, 4, 5]) 5 = some (((5 : Int), s1), log) ∧
      fs_write small 0 small_new 0 (some [1, 2, 3, 4, 5]) 5 = some ((5 : Int), s1) ∧
      log.map Prod.fst = (free_slots small_new.fs.fat small_new.fs.sb.data_count).take
        ((5 + small.BLOCK_SIZE - 1) / small.BLOCK_SIZE) ∧
      root_at s1.fs.root 0 = some e1 ∧
      ((free_slots small_new.fs.fat small_new.fs.sb.data_count).take
        ((5 + small.BLOCK_SIZE - 1) / small.BLOCK_SIZE)).head? = some first ∧
      e1.data_index = first ∧
      is_chain s1.fs.fat s1.fs.sb.data_count first
        ((free_slots small_new.fs.fat small_new.fs.sb.data_count).take
          ((5 + small.BLOCK_SIZE - 1) / small.BLOCK_SIZE)) = true ∧
      ((free_slots small_new.fs.fat small_new.fs.sb.data_count).take
        ((5 + small.BLOCK_SIZE - 1) / small.BLOCK_SIZE)).length =
          (5 + small.BLOCK_SIZE - 1) / small.BLOCK_SIZE ∧
      ((free_slots small_new.fs.fat small_new.fs.sb.data_count).take
        ((5 + small.BLOCK_SIZE - 1) / small.BLOCK_SIZE)).Sorted (fun a b => a < b) ∧
      (∀ b, ((free_slots small_new.fs.fat small_new.fs.sb.data_count).take
          ((5 + small.BLOCK_SIZE - 1) / small.BLOCK_SIZE)).getLast? = some b →
        s1.fs.fat[b]? = some FAT_EOC) :=
  (first_fit small small_new 0 { used := true, root_index := 0, offset := 0 }
    { filename := [97, 98, 0, 0], size := 0, data_index := FAT_EOC,
      padding := List.replicate 10 0 }
    [1, 2, 3, 4, 5] 5 0 (handle_ready_of small small_new 0 _ _ [] small_new_ready) rfl rfl
    (by decide) (by decide) (by decide)).2.2

/-! ## fs_write on any chain that reaches FAT_EOC -/

theorem links_eoc (fat : List Nat) (dc : Nat) (l : List Nat)
    (h : links fat dc FAT_EOC l = true) : l = [] := by
  cases l with
  | nil => rfl
  | cons b l =>
    rw [links_cons] at h
    exact absurd h.1.symm h.2.1

theorem links_ne_eoc (fat : List Nat) (dc v : Nat) (l : List Nat) (hv : v ≠ FAT_EOC)
    (h : links fat dc v l = true) : ∃ l1, l = v :: l1 := by
  cases l with
  | nil => rw [links_nil] at h; exact absurd h hv
  | cons b l =>
    rw [links_cons] at h
    exact ⟨l, by rw [h.1]⟩

/-- The walk of `n` links along a chain ends at the chain's slot number `n`,
or at `FAT_EOC` when the chain is shorter. -/
theorem walk_links (fat : List Nat) (dc : Nat) (n : Nat) :
    ∀ (a : Nat) (l : List Nat), links fat dc a l = true →
      ∃ f, walk fat n a = some f ∧ links fat dc f (l.drop n) = true := by
  induction n with
  | zero => intro a l h; exact ⟨a, rfl, by simpa using h⟩
  | succ n ih =>
    intro a l h
    cases l with
    | nil =>
      rw [links_nil] at h
      refine ⟨a, ?_, by simp [links_nil, h]⟩
      simp [walk, h]
    | cons b l =>
      rw [links_cons] at h
      obtain ⟨ha, hne, _, v, hv, hrest⟩ := h
      subst ha
      obtain ⟨f, hf1, hf2⟩ := ih v l hrest
      refine ⟨f, ?_, by simpa using hf2⟩
      simp only [walk, hne, if_false, hv]
      exact hf1

/-- The loop that looks for the last block of a chain ends at the last slot of
the chain, which holds `FAT_EOC`. -/
theorem last_block_links (fat : List Nat) (dc : Nat) (l : List Nat) :
    ∀ (a p : Nat) (fuel : Nat), links fat dc a l = true → l.getLast? = some p →
      l.length ≤ fuel → last_block fat fuel a = some p ∧ fat[p]? = some FAT_EOC := by
  induction l with
  | nil => intro a p fuel _ hp; cases hp
  | cons b l ih =>
    intro a p fuel hchain hp hfuel
    rw [links_cons] at hchain
    obtain ⟨ha, _, _, v, hv, hrest⟩ := hchain
    subst ha
    obtain ⟨fuel1, rfl⟩ : ∃ fuel1, fuel = fuel1 + 1 :=
      ⟨fuel - 1, (Nat.sub_add_cancel (Nat.le_trans (Nat.succ_le_succ (Nat.zero_le _)) hfuel)).symm⟩
    rw [last_block, hv]
    cases l with
    | nil =>
      rw [links_nil] at hrest
      rw [List.getLast?_singleton] at hp
      cases hp
      subst hrest
      exact ⟨by simp only [if_true], hv⟩
    | cons b2 l2 =>
      have hne : v ≠ FAT_EOC := by
        rw [links_cons] at hrest
        rw [hrest.1]; exact hrest.2.1
      simp only [hne, if_false]
      apply ih v p fuel1 hrest
      · rw [List.getLast?_cons_cons] at hp; exact hp
      · exact Nat.le_of_succ_le_succ hfuel

theorem free_room_le (fat : List Nat) (dc : Nat) : free_room fat dc ≤ dc + 1 := by
  unfold free_room
  have h1 := free_slots_length_le fat dc
  split <;> omega

/-- An allocation uses up room: after the lowest free slot `nb` was marked
`FAT_EOC` and, when the chain had a last slot `f`, linked after `f`, the table
has room for at least one allocation less. -/
theorem free_room_alloc (fat fat2 : List Nat) (dc nb f : Nat)
    (hnb : nb ∈ free_slots fat dc) (hnb2 : fat2[nb]? = some FAT_EOC)
    (hsame : ∀ i, i ≠ nb → i ≠ f → fat2[i]? = fat[i]?)
    (hf2 : f ≠ nb → fat2[f]? = some nb) :
    free_room fat2 dc + 1 ≤ free_room fat dc := by
  have hnbf := (mem_free_slots _ _ _).1 hnb
  have hnd2 := (free_slots_sorted fat2 dc).nodup
  have hlen := List.length_erase_of_mem hnb
  have hpos : 0 < (free_slots fat dc).length := List.length_pos_of_mem hnb
  have hne2 : ∀ i, i ∈ free_slots fat2 dc → i ≠ nb := by
    intro i hi hx
    rw [mem_free_slots, hx, hnb2] at hi
    exact eoc_ne_zero (Option.some.inj hi.2)
  unfold free_room
  by_cases h0 : nb = 0
  · subst h0
    have hsub : free_slots fat2 dc ⊆ f :: (free_slots fat dc).erase 0 := by
      intro i hi
      have hi0 := hne2 i hi
      by_cases hif : i = f
      · rw [hif]; exact List.mem_cons_self _ _
      · apply List.mem_cons_of_mem
        rw [List.mem_erase_of_ne hi0, mem_free_slots]
        rw [mem_free_slots, hsame i hi0 hif] at hi
        exact hi
    have hle := (List.subperm_of_subset hnd2 hsub).length_le
    rw [List.length_cons, hlen] at hle
    rw [hnb2, hnbf.2, if_neg (fun hx => eoc_ne_zero (Option.some.inj hx)), if_pos rfl]
    omega
  · have hfne : ∀ i, i ∈ free_slots fat2 dc → i ≠ f := by
      intro i hi hx
      by_cases hfn : f = nb
      · exact hne2 i hi (hx.trans hfn)
      · rw [mem_free_slots, hx, hf2 hfn] at hi
        exact h0 (Option.some.inj hi.2)
    have hsub : free_slots fat2 dc ⊆ (free_slots fat dc).erase nb := by
      intro i hi
      have hi0 := hne2 i hi
      have hif := hfne i hi
      rw [List.mem_erase_of_ne hi0, mem_free_slots]
      rw [mem_free_slots, hsame i hi0 hif] at hi
      exact hi
    have hle := (List.subperm_of_subset hnd2 hsub).length_le
    rw [hlen] at hle
    have hind : (if fat2[0]? = some 0 then 1 else 0) ≤ (if fat[0]? = some 0 then 1 else 0) := by
      by_cases hz : fat2[0]? = some 0
      · have h0f : (0 : Nat) ≠ f := by
          intro hx
          by_cases hfn : f = nb
          · exact h0 (hfn.symm.trans hx.symm)
          · have hz2 : fat2[f]? = some 0 := by rw [← hx]; exact hz
            rw [hf2 hfn] at hz2
            exact h0 (Option.some.inj hz2)
        rw [hsame 0 (fun hx => h0 hx.symm) h0f] at hz
        rw [if_pos hz]
        split <;> omega
      · rw [if_neg hz]
        exact Nat.zero_le _
    omega

theorem write_loop_done (c : Consts) (di dc fuel : Nat) (data : List Nat) (co act f : Nat)
    (fat : List Nat) (disk : List (List Nat)) :
    write_loop c di dc (fuel + 1) data 0 co act f fat disk =
      some (write_exit.finished co act fat disk) := by
  rw [write_loop]
  simp only [if_true]

theorem bytes_step (tc r tw m bs bo x : Nat) (h1 : r ≤ tw - tc) (h2 : r + x ≤ (m + 1) * bs)
    (hx : x = 0) (htc : bo + tc = bs) (hlt : tc < tw) :
    tc + r ≤ tw ∧ tc + r + bo ≤ (m + 1 + 1) * bs := by
  constructor
  · omega
  · rw [Nat.add_mul (m + 1) 1 bs, Nat.one_mul]
    omega

/-- The main loop of `fs_write` entered at a slot from which the table leads to
`FAT_EOC` through slots in range, whatever the slots hold otherwise: the loop is
left by its condition or its `break`, having stored `r` bytes, at most `tw` and
at most what is left of the first block and one block for each further slot of
the chain and each allocation that the table has room for. -/
theorem write_loop_links (c : Consts) (di dc : Nat) (hBS : 0 < c.BLOCK_SIZE) (hdc : dc ≤ 65535) :
    ∀ (fuel : Nat) (data : List Nat) (tw co act f : Nat) (rest fat : List Nat)
      (disk : List (List Nat)) (m : Nat),
      links fat dc f (f :: rest) = true → rest.length + free_room fat dc ≤ m →
      dc ≤ fat.length → di + dc ≤ disk.length → (∀ blk ∈ disk, blk.length = c.BLOCK_SIZE) →
      tw ≤ data.length → tw < fuel → co + tw < 2 ^ 64 → act + tw < 2 ^ 64 →
      ∃ (fat1 : List Nat) (disk1 : List (List Nat)) (r : Nat),
        write_loop c di dc fuel data tw co act f fat disk =
          some (write_exit.finished (co + r) (act + r) fat1 disk1) ∧
        r ≤ tw ∧ r + co % c.BLOCK_SIZE ≤ (m + 1) * c.BLOCK_SIZE := by
  intro fuel
  induction fuel with
  | zero =>
    intro data tw co act f rest fat disk m _ _ _ _ _ _ hfuel
    exact absurd hfuel (Nat.not_lt_zero _)
  | succ fuel ih =>
    intro data tw co act f rest fat disk m hchain hm hdcfat hdisk hblk hdata hfuel hco hact
    have hbo : co % c.BLOCK_SIZE < c.BLOCK_SIZE := Nat.mod_lt _ hBS
    have hone : c.BLOCK_SIZE ≤ (m + 1) * c.BLOCK_SIZE :=
      Nat.le_mul_of_pos_left _ (Nat.succ_pos m)
    rcases Nat.eq_zero_or_pos tw with htw0 | htw
    · subst htw0
      exact ⟨fat, disk, 0, write_loop_done c di dc fuel data co act f fat disk, Nat.le_refl _,
        by rw [Nat.zero_add]; exact Nat.le_trans (Nat.le_of_lt hbo) hone⟩
    rw [links_cons] at hchain
    obtain ⟨_, hne, hlt, v, hv, hrest⟩ := hchain
    have hin : di + f < disk.length := Nat.lt_of_lt_of_le (Nat.add_lt_add_left hlt di) hdisk
    have hold : disk[di + f]? = some disk[di + f] := List.getElem?_eq_getElem hin
    have holdlen : (disk[di + f]).length = c.BLOCK_SIZE := hblk _ (List.getElem_mem hin)
    have hflt : f < fat.length := Nat.lt_of_lt_of_le hlt hdcfat
    have hbt : co % c.BLOCK_SIZE + (c.BLOCK_SIZE - co % c.BLOCK_SIZE) = c.BLOCK_SIZE :=
      Nat.add_sub_cancel' (Nat.le_of_lt hbo)
    by_cases hlast : tw ≤ c.BLOCK_SIZE - co % c.BLOCK_SIZE
    · have hwb := write_block_eq c disk (di + f) (co % c.BLOCK_SIZE) tw data _ hold holdlen hdata
      have hf1 : 1 ≤ fuel := Nat.le_trans htw (Nat.lt_succ_iff.1 hfuel)
      obtain ⟨fuel1, rfl⟩ : ∃ fuel1, fuel = fuel1 + 1 :=
        ⟨fuel - 1, (Nat.sub_add_cancel hf1).symm⟩
      exact ⟨fat, _, tw,
        write_loop_last c di dc fuel1 data tw co act f fat disk _ htw hlast hdata hwb hco hact,
        Nat.le_refl _, Nat.le_trans (by omega) hone⟩
    · have hmore : c.BLOCK_SIZE - co % c.BLOCK_SIZE < tw := Nat.lt_of_not_le hlast
      have htcd : c.BLOCK_SIZE - co % c.BLOCK_SIZE ≤ data.length :=
        Nat.le_trans (Nat.le_of_lt hmore) hdata
      have hwb := write_block_eq c disk (di + f) (co % c.BLOCK_SIZE)
        (c.BLOCK_SIZE - co % c.BLOCK_SIZE) data _ hold holdlen htcd
      have hmod := offset_after_block co c.BLOCK_SIZE hBS
      have hnewlen : (store_bytes disk[di + f] (co % c.BLOCK_SIZE)
          (data.take (c.BLOCK_SIZE - co % c.BLOCK_SIZE))).length = c.BLOCK_SIZE := by
        rw [store_bytes_length _ _ _ (by
          rw [List.length_take, Nat.min_eq_left htcd, hbt, holdlen]), holdlen]
      have hblk1 := mem_set_block c disk (di + f) _ hblk hnewlen
      have hdisk1 : di + dc ≤ (disk.set (di + f) (store_bytes disk[di + f] (co % c.BLOCK_SIZE)
          (data.take (c.BLOCK_SIZE - co % c.BLOCK_SIZE)))).length := by
        rw [List.length_set]; exact hdisk
      have hdrop : tw - (c.BLOCK_SIZE - co % c.BLOCK_SIZE)
          ≤ (data.drop (c.BLOCK_SIZE - co % c.BLOCK_SIZE)).length := by
        rw [List.length_drop]; exact Nat.sub_le_sub_right hdata _
      have hfuel1 : tw - (c.BLOCK_SIZE - co % c.BLOCK_SIZE) < fuel :=
        Nat.lt_of_lt_of_le (Nat.sub_lt htw (Nat.sub_pos_of_lt hbo)) (Nat.lt_succ_iff.1 hfuel)
      have hco1 := no_wrap_step co tw _ hco (Nat.le_of_lt hmore)
      have hact1 := no_wrap_step act tw _ hact (Nat.le_of_lt hmore)
      by_cases hveoc : v = FAT_EOC
      · subst hveoc
        have hrest0 := links_eoc fat dc rest hrest
        subst hrest0
        have hscan := find_free_block_eq fat dc hdcfat
        cases hF : free_slots fat dc with
        | nil =>
          rw [hF] at hscan
          exact ⟨fat, _, c.BLOCK_SIZE - co % c.BLOCK_SIZE,
            write_loop_full c di dc fuel data tw co act f fat disk _ hmore hdata hwb hv hscan hco
              hact,
            Nat.le_of_lt hmore, Nat.le_trans (by omega) hone⟩
        | cons nb F1 =>
          rw [hF] at hscan
          have hnbmem : nb ∈ free_slots fat dc := by rw [hF]; exact List.mem_cons_self _ _
          have hnbf := (mem_free_slots _ _ _).1 hnbmem
          have hnbe : nb ≠ FAT_EOC := lt_dc_ne_eoc _ _ hnbf.1 hdc
          have hnbne : nb ≠ f := by
            intro hx
            rw [hx, hv] at hnbf
            exact eoc_ne_zero (Option.some.inj hnbf.2)
          have hnblt : nb < fat.length := Nat.lt_of_lt_of_le hnbf.1 hdcfat
          have hfat2f : ((fat.set f nb).set nb FAT_EOC)[f]? = some nb := by
            rw [List.getElem?_set_ne hnbne, List.getElem?_set_self hflt]
          have hfat2nb : ((fat.set f nb).set nb FAT_EOC)[nb]? = some FAT_EOC := by
            rw [List.getElem?_set_self (by rw [List.length_set]; exact hnblt)]
          have hchain2 : links ((fat.set f nb).set nb FAT_EOC) dc nb [nb] = true := by
            rw [links_cons]
            exact ⟨rfl, hnbe, hnbf.1, FAT_EOC, hfat2nb, by rw [links_nil]⟩
          have hroom := free_room_alloc fat ((fat.set f nb).set nb FAT_EOC) dc nb f hnbmem
            hfat2nb
            (fun i h1 h2 => by
              rw [List.getElem?_set_ne (fun hx => h1 hx.symm),
                List.getElem?_set_ne (fun hx => h2 hx.symm)])
            (fun _ => hfat2f)
          rw [List.length_nil, Nat.zero_add] at hm
          obtain ⟨m1, rfl⟩ : ∃ m1, m = m1 + 1 :=
            ⟨m - 1, (Nat.sub_add_cancel (Nat.le_trans (Nat.le_add_left 1 _)
              (Nat.le_trans hroom hm))).symm⟩
          obtain ⟨fat1, disk1, r, hrun, hr1, hr2⟩ :=
            ih (data.drop (c.BLOCK_SIZE - co % c.BLOCK_SIZE))
              (tw - (c.BLOCK_SIZE - co % c.BLOCK_SIZE))
              (co + (c.BLOCK_SIZE - co % c.BLOCK_SIZE))
              (act + (c.BLOCK_SIZE - co % c.BLOCK_SIZE)) nb []
              ((fat.set f nb).set nb FAT_EOC)
              (disk.set (di + f) (store_bytes disk[di + f] (co % c.BLOCK_SIZE)
                (data.take (c.BLOCK_SIZE - co % c.BLOCK_SIZE))))
              m1 hchain2 (by rw [List.length_nil, Nat.zero_add]; omega)
              (by rw [List.length_set, List.length_set]; exact hdcfat) hdisk1 hblk1
              hdrop hfuel1 hco1 hact1
          obtain ⟨hb1, hb2⟩ := bytes_step _ r tw m1 _ _ _ hr1 hr2 hmod hbt hmore
          refine ⟨fat1, disk1, c.BLOCK_SIZE - co % c.BLOCK_SIZE + r, ?_, hb1, hb2⟩
          rw [write_loop_alloc c di dc fuel data tw co act f nb fat disk _ hmore hdata hwb hv
            hscan hnbe hflt hnblt hnbne hco hact, hrun, Nat.add_assoc, Nat.add_assoc]
      · obtain ⟨rest1, hrest1⟩ := links_ne_eoc fat dc v rest hveoc hrest
        subst hrest1
        rw [List.length_cons] at hm
        obtain ⟨m1, rfl⟩ : ∃ m1, m = m1 + 1 :=
          ⟨m - 1, (Nat.sub_add_cancel (by omega)).symm⟩
        obtain ⟨fat1, disk1, r, hrun, hr1, hr2⟩ :=
          ih (data.drop (c.BLOCK_SIZE - co % c.BLOCK_SIZE))
            (tw - (c.BLOCK_SIZE - co % c.BLOCK_SIZE))
            (co + (c.BLOCK_SIZE - co % c.BLOCK_SIZE))
            (act + (c.BLOCK_SIZE - co % c.BLOCK_SIZE)) v rest1 fat
            (disk.set (di + f) (store_bytes disk[di + f] (co % c.BLOCK_SIZE)
              (data.take (c.BLOCK_SIZE - co % c.BLOCK_SIZE))))
            m1 hrest (by omega) hdcfat hdisk1 hblk1 hdrop hfuel1 hco1 hact1
        obtain ⟨hb1, hb2⟩ := bytes_step _ r tw m1 _ _ _ hr1 hr2 hmod hbt hmore
        refine ⟨fat1, disk1, c.BLOCK_SIZE - co % c.BLOCK_SIZE + r, ?_, hb1, hb2⟩
        rw [write_loop_next c di dc fuel data tw co act f v fat disk _ hmore hdata hwb hv hveoc
          hco hact, hrun, Nat.add_assoc, Nat.add_assoc]

/-- What follows the main loop of `fs_write` when the loop was left by its
condition or its `break`: the offset of the handle and the size of the entry. -/
theorem write_from_done (c : Consts) (s2 : State) (fd : Int) (h : open_file_entry)
    (file_size f : Nat) (data : List Nat) (count co act : Nat) (fat1 : List Nat)
    (disk1 : List (List Nat)) (e2 : root_entry)
    (hrun : write_loop c s2.fs.sb.data_index s2.fs.sb.data_count (count + 1) data count
      h.offset 0 f s2.fs.fat s2.disk = some (write_exit.finished co act fat1 disk1))
    (he2 : root_at s2.fs.root h.root_index = some e2) (hfd : s2.oft[fd.toNat]? = some h) :
    ∃ (s1 : State) (e1 : root_entry),
      write_from c s2 fd h file_size f data count = some (to_int act, s1) ∧
      s1.fs.mounted_status = s2.fs.mounted_status ∧
      s1.oft[fd.toNat]? = some { h with offset := co } ∧
      root_at s1.fs.root h.root_index = some e1 ∧
      e1.size = (if co > file_size then to_u32 co else e2.size) := by
  have hlt := getElem?_lt_length _ _ _ hfd
  unfold write_from
  rw [hrun]
  simp only [he2]
  by_cases hgt : co > file_size
  · refine ⟨_, { e2 with size := to_u32 co }, rfl, rfl, List.getElem?_set_self hlt, ?_, ?_⟩
    · show root_at (if co > file_size then _ else _) _ = _
      rw [if_pos hgt]
      exact root_at_set _ _ _ _ he2
    · rw [if_pos hgt]
  · refine ⟨_, e2, rfl, rfl, List.getElem?_set_self hlt, ?_, ?_⟩
    · show root_at (if co > file_size then _ else _) _ = _
      rw [if_neg hgt]
      exact he2
    · rw [if_neg hgt]

theorem bytes_fit_int (r x m bs dc rl fr : Nat) (hr : r + x ≤ (m + 1) * bs) (hm : m = rl + fr)
    (hrl : rl + 1 ≤ dc) (hfr : fr ≤ dc + 1) (hdc : dc ≤ 65535) (hint : bs * 131071 < 2 ^ 31) :
    r < 2 ^ 31 := by
  have h1 : m + 1 ≤ 131071 := by omega
  have h2 : (m + 1) * bs ≤ 131071 * bs := Nat.mul_le_mul_right _ h1
  rw [Nat.mul_comm 131071 bs] at h2
  omega

/-- The main loop of `fs_write` and what follows it, entered at a slot from
which the table leads to `FAT_EOC`: the count returned, the offset of the handle
and the size of the entry afterwards. -/
theorem write_from_links (c : Consts) (s2 : State) (fd : Int) (h : open_file_entry)
    (file_size f : Nat) (rest : List Nat) (data : List Nat) (count : Nat) (e2 : root_entry)
    (hBS : 0 < c.BLOCK_SIZE) (hint : c.BLOCK_SIZE * 131071 < 2 ^ 31)
    (hmount : s2.fs.mounted_status = true)
    (hdc : s2.fs.sb.data_count ≤ 65535) (hfat : s2.fs.sb.data_count ≤ s2.fs.fat.length)
    (hdisk : s2.fs.sb.data_index + s2.fs.sb.data_count ≤ s2.disk.length)
    (hblk : ∀ blk ∈ s2.disk, blk.length = c.BLOCK_SIZE)
    (hfd : s2.oft[fd.toNat]? = some h) (he2 : root_at s2.fs.root h.root_index = some e2)
    (hsz : e2.size = file_size)
    (hlinks : links s2.fs.fat s2.fs.sb.data_count f (f :: rest) = true)
    (hoff : h.offset < 2 ^ 32) (hdata : count ≤ data.length) (hcount : count < 2 ^ 63) :
    ∃ (r : Nat) (s1 : State) (e1 : root_entry),
      write_from c s2 fd h file_size f data count = some ((r : Int), s1) ∧
      write_outcome s1 fd h file_size count r e1 ∧
      r + h.offset % c.BLOCK_SIZE ≤
        (rest.length + free_room s2.fs.fat s2.fs.sb.data_count + 1) * c.BLOCK_SIZE := by
  have hlen := links_length_le _ _ _ _ hlinks
  rw [List.length_cons] at hlen
  have hroom := free_room_le s2.fs.fat s2.fs.sb.data_count
  obtain ⟨fat1, disk1, r, hrun, hr1, hr2⟩ :=
    write_loop_links c s2.fs.sb.data_index s2.fs.sb.data_count hBS hdc (count + 1) data count
      h.offset 0 f rest s2.fs.fat s2.disk _ hlinks (Nat.le_refl _) hfat hdisk hblk hdata
      (Nat.lt_succ_self _) (by omega) (zero_count _ hcount)
  have hr31 := bytes_fit_int r _ _ _ _ _ _ hr2 rfl hlen hroom hdc hint
  obtain ⟨s1, e1, hw, hm, ho, he, hs⟩ :=
    write_from_done c s2 fd h file_size f data count _ _ fat1 disk1 e2 hrun he2 hfd
  rw [Nat.zero_add, to_int_of_lt r hr31] at hw
  rw [hsz] at hs
  exact ⟨r, s1, e1, hw, ⟨hr1, hr31, hm.trans hmount, ho, he, hs⟩, hr2⟩

/-- The call of `fs_write` that stores nothing and allocates nothing. -/
theorem fs_write_nothing (c : Consts) (fuel : Nat) (s : State) (fd : Int)
    (h : open_file_entry) (e : root_entry) (data : List Nat) (f : Nat)
    (H : handle_ready c s fd h e)
    (hstart : (if e.size = 0 ∨ e.data_index = FAT_EOC then some FAT_EOC
      else walk s.fs.fat (h.offset / c.BLOCK_SIZE) e.data_index) = some f)
    (hno : ¬ (f = FAT_EOC ∧ h.offset < size_t_add e.size 0)) :
    ∃ (s1 : State) (e1 : root_entry),
      fs_write c fuel s fd (some data) 0 = some (((0 : Nat) : Int), s1) ∧
      write_outcome s1 fd h e.size 0 0 e1 := by
  have hh := handle_ready_handle c s fd h e H
  obtain ⟨s1, e1, hw, hm, ho, he, hs⟩ :=
    write_from_done c s fd h e.size f data 0 _ _ _ _ e
      (write_loop_done c _ _ 0 data h.offset 0 f s.fs.fat s.disk) H.entry H.handle
  rw [to_int_zero] at hw
  exact ⟨s1, e1, (fs_write_no_extend c fuel s fd h e data 0 f hh H.entry hstart hno).trans hw,
    Nat.le_refl _, by decide, hm.trans H.mounted, ho, he, hs⟩

/-- The call of `fs_write` that has to allocate before the main loop and finds
no free slot. -/
theorem fs_write_no_room (c : Consts) (fuel : Nat) (s : State) (fd : Int)
    (h : open_file_entry) (e : root_entry) (data : List Nat) (count prev : Nat)
    (H : handle_ready c s fd h e) (hoff : h.offset ≤ e.size)
    (hstart : (if e.size = 0 ∨ e.data_index = FAT_EOC then some FAT_EOC
      else walk s.fs.fat (h.offset / c.BLOCK_SIZE) e.data_index) = some FAT_EOC)
    (hext : h.offset < size_t_add e.size count)
    (hprev : (if e.size > 0 ∧ e.data_index ≠ FAT_EOC then last_block s.fs.fat fuel e.data_index
      else some FAT_EOC) = some prev)
    (hF : free_slots s.fs.fat s.fs.sb.data_count = []) :
    fs_write c fuel s fd (some data) count = some (((0 : Nat) : Int), s) ∧
      write_outcome s fd h e.size count 0 e := by
  have hh := handle_ready_handle c s fd h e H
  have hscan := find_free_block_eq s.fs.fat s.fs.sb.data_count H.fat_length
  rw [hF] at hscan
  refine ⟨fs_write_no_space c fuel s fd h e data count prev hh H.entry hstart hext hprev hscan,
    Nat.zero_le _, by decide, H.mounted, H.handle, H.entry, ?_⟩
  show e.size = if h.offset > e.size then to_u32 h.offset else e.size
  rw [if_neg (Nat.not_lt.2 hoff)]

theorem no_extend_zero (off size count : Nat) (hoff : off ≤ size) (hsize : size < 2 ^ 32)
    (hcount : count < 2 ^ 63) (hext : ¬ off < size_t_add size count) : count = 0 := by
  rw [size_t_add_eq _ _ (by omega)] at hext
  omega

/-- The free slots and the room for allocations after the first block of a
file was allocated: the lowest free slot is gone and slot 0 is not free. -/
theorem free_room_head (fat : List Nat) (dc nb : Nat) (F1 : List Nat)
    (hF : free_slots fat dc = nb :: F1) (hnbfat : nb < fat.length) :
    free_room (fat.set nb FAT_EOC) dc = F1.length := by
  have hmem : nb ∈ free_slots fat dc := by rw [hF]; exact List.mem_cons_self _ _
  have hnb := (mem_free_slots _ _ _).1 hmem
  have hfat2nb : (fat.set nb FAT_EOC)[nb]? = some FAT_EOC := List.getElem?_set_self hnbfat
  have hF2 : free_slots (fat.set nb FAT_EOC) dc = F1 := by
    apply free_slots_after fat _ dc nb nb F1 hF
    · intro i h1 _
      rw [List.getElem?_set_ne (fun hx => h1 hx.symm)]
    · rw [hfat2nb]; exact fun hx => eoc_ne_zero (Option.some.inj hx)
    · rw [hfat2nb]; exact fun hx => eoc_ne_zero (Option.some.inj hx)
    · intro hx; exact absurd rfl hx
  unfold free_room
  rw [hF2, if_neg, Nat.add_zero]
  intro hz
  by_cases h0 : nb = 0
  · rw [h0] at hfat2nb hz
    rw [hfat2nb] at hz
    exact eoc_ne_zero (Option.some.inj hz)
  · rw [List.getElem?_set_ne h0] at hz
    have h0mem : 0 ∈ free_slots fat dc := (mem_free_slots _ _ _).2 ⟨by omega, hz⟩
    rw [hF, List.mem_cons] at h0mem
    rcases h0mem with hx | hx
    · exact h0 hx.symm
    · exact zero_not_mem_tail fat dc nb F1 hF hx

theorem bound_of_add (r x y : Nat) (h : r + x ≤ y) : r ≤ y - x := by
  omega

/-- The result of `fs_write` on any volume whose table leads from the first
block of the file to `FAT_EOC` through slots in range: the call returns a count
`r` of bytes, at most `count`, the offset of the handle moves forward by `r`, and
the size of the entry, a field of 32 bits, is set to the new offset when that is
larger than the old size.  The count is at most the room from the offset on:
what the free slots hold when the file has no block in use, else what the blocks
of the chain from the block of the offset on hold, and the allocations that the
table has room for. -/
theorem fs_write_total (c : Consts) (fuel : Nat) (s : State) (fd : Int) (h : open_file_entry)
    (e : root_entry) (l : List Nat) (data : List Nat) (count : Nat)
    (H : handle_ready c s fd h e) (hint : c.BLOCK_SIZE * 131071 < 2 ^ 31)
    (hsize : e.size < 2 ^ 32)
    (hchain : e.size = 0 ∨ links s.fs.fat s.fs.sb.data_count e.data_index l = true)
    (hoff : h.offset ≤ e.size) (hdata : count ≤ data.length) (hcount : count < 2 ^ 63)
    (hfuel : l.length ≤ fuel) :
    ∃ (r : Nat) (s1 : State) (e1 : root_entry),
      fs_write c fuel s fd (some data) count = some ((r : Int), s1) ∧
      write_outcome s1 fd h e.size count r e1 ∧
      ((e.size = 0 ∨ e.data_index = FAT_EOC) →
        r ≤ (free_slots s.fs.fat s.fs.sb.data_count).length * c.BLOCK_SIZE -
          h.offset % c.BLOCK_SIZE) ∧
      (¬ (e.size = 0 ∨ e.data_index = FAT_EOC) →
        r ≤ (l.length - h.offset / c.BLOCK_SIZE + free_room s.fs.fat s.fs.sb.data_count) *
          c.BLOCK_SIZE - h.offset % c.BLOCK_SIZE) := by
  have hh := handle_ready_handle c s fd h e H
  have hoff32 : h.offset < 2 ^ 32 := Nat.lt_of_le_of_lt hoff hsize
  by_cases hA : e.size = 0 ∨ e.data_index = FAT_EOC
  · have hstart : (if e.size = 0 ∨ e.data_index = FAT_EOC then some FAT_EOC
        else walk s.fs.fat (h.offset / c.BLOCK_SIZE) e.data_index) = some FAT_EOC := by
      rw [if_pos hA]
    by_cases hext : h.offset < size_t_add e.size count
    · have hprev : (if e.size > 0 ∧ e.data_index ≠ FAT_EOC
          then last_block s.fs.fat fuel e.data_index else some FAT_EOC) = some FAT_EOC := by
        rw [if_neg]
        rintro ⟨h1, h2⟩
        rcases hA with h3 | h3
        · omega
        · exact h2 h3
      cases hF : free_slots s.fs.fat s.fs.sb.data_count with
      | nil =>
        obtain ⟨hw, ho⟩ := fs_write_no_room c fuel s fd h e data count FAT_EOC H hoff hstart hext
          hprev hF
        exact ⟨0, s, e, hw, ho, fun _ => Nat.zero_le _, fun _ => Nat.zero_le _⟩
      | cons nb F1 =>
        obtain ⟨hnblt, hnbe, hnbfat, hscan, _⟩ :=
          free_head_facts _ _ nb F1 H.data_count_le H.fat_length hF
        have hfat2nb : (s.fs.fat.set nb FAT_EOC)[nb]? = some FAT_EOC :=
          List.getElem?_set_self hnbfat
        obtain ⟨r, s1, e1, hw, ho, hb⟩ :=
          write_from_links c
            { s with fs := { s.fs with
                             fat := s.fs.fat.set nb FAT_EOC
                             root := s.fs.root.set h.root_index.toNat
                               { e with data_index := nb } } }
            fd h e.size nb [] data count { e with data_index := nb } H.block_size_pos hint
            H.mounted H.data_count_le (by rw [List.length_set]; exact H.fat_length)
            H.disk_length H.block_length H.handle (root_at_set _ _ _ _ H.entry) rfl
            (by
              rw [links_cons]
              exact ⟨rfl, hnbe, hnblt, FAT_EOC, hfat2nb, by rw [links_nil]⟩)
            hoff32 hdata hcount
        have hroom : free_room (s.fs.fat.set nb FAT_EOC) s.fs.sb.data_count = F1.length :=
          free_room_head _ _ nb F1 hF hnbfat
        refine ⟨r, s1, e1,
          (fs_write_extend_head c fuel s fd h e data count nb hh H.entry hstart hext hprev hscan
            hnbe hnbfat).trans hw, ho, fun _ => ?_, fun hx => absurd hA hx⟩
        apply bound_of_add
        have hb2 : r + h.offset % c.BLOCK_SIZE ≤
            (([] : List Nat).length + free_room (s.fs.fat.set nb FAT_EOC) s.fs.sb.data_count + 1) *
              c.BLOCK_SIZE := hb
        rw [hroom, List.length_nil, Nat.zero_add] at hb2
        rw [List.length_cons]
        exact hb2
    · have hz := no_extend_zero _ _ _ hoff hsize hcount hext
      subst hz
      obtain ⟨s1, e1, hw, ho⟩ :=
        fs_write_nothing c fuel s fd h e data FAT_EOC H hstart (fun hx => hext hx.2)
      exact ⟨0, s1, e1, hw, ho, fun _ => Nat.zero_le _, fun _ => Nat.zero_le _⟩
  · have hB := not_or.1 hA
    have hlinks : links s.fs.fat s.fs.sb.data_count e.data_index l = true := by
      rcases hchain with h1 | h1
      · exact absurd h1 hB.1
      · exact h1
    obtain ⟨f, hwalk, hf⟩ := walk_links s.fs.fat s.fs.sb.data_count (h.offset / c.BLOCK_SIZE)
      e.data_index l hlinks
    have hstart : (if e.size = 0 ∨ e.data_index = FAT_EOC then some FAT_EOC
        else walk s.fs.fat (h.offset / c.BLOCK_SIZE) e.data_index) = some f := by
      rw [if_neg hA]
      exact hwalk
    by_cases hfe : f = FAT_EOC
    · subst hfe
      by_cases hext : h.offset < size_t_add e.size count
      · obtain ⟨l1, hl1⟩ := links_ne_eoc _ _ _ l hB.2 hlinks
        obtain ⟨prev, hlast⟩ : ∃ prev, l.getLast? = some prev := by
          rw [hl1]
          exact ⟨_, List.getLast?_eq_getLast _ (List.cons_ne_nil _ _)⟩
        have hpmem := List.mem_of_getLast?_eq_some hlast
        obtain ⟨hpe, hplt, _⟩ := links_mem _ _ l _ hlinks prev hpmem
        have hpfat : prev < s.fs.fat.length := Nat.lt_of_lt_of_le hplt H.fat_length
        obtain ⟨hlb, hpv⟩ := last_block_links _ _ l _ prev fuel hlinks hlast hfuel
        have hprev : (if e.size > 0 ∧ e.data_index ≠ FAT_EOC
            then last_block s.fs.fat fuel e.data_index else some FAT_EOC) = some prev := by
          rw [if_pos ⟨Nat.pos_of_ne_zero hB.1, hB.2⟩]
          exact hlb
        cases hF : free_slots s.fs.fat s.fs.sb.data_count with
        | nil =>
          obtain ⟨hw, ho⟩ := fs_write_no_room c fuel s fd h e data count prev H hoff hstart hext
            hprev hF
          exact ⟨0, s, e, hw, ho, fun _ => Nat.zero_le _, fun _ => Nat.zero_le _⟩
        | cons nb F1 =>
          obtain ⟨hnblt, hnbe, hnbfat, hscan, hnb0⟩ :=
            free_head_facts _ _ nb F1 H.data_count_le H.fat_length hF
          have hnbmem : nb ∈ free_slots s.fs.fat s.fs.sb.data_count := by
            rw [hF]; exact List.mem_cons_self _ _
          have hpnb : prev ≠ nb := by
            intro hx
            rw [hx, hnb0] at hpv
            exact eoc_ne_zero (Option.some.inj hpv).symm
          have hfat2nb : ((s.fs.fat.set nb FAT_EOC).set prev nb)[nb]? = some FAT_EOC := by
            rw [List.getElem?_set_ne hpnb, List.getElem?_set_self hnbfat]
          have hfat2p : ((s.fs.fat.set nb FAT_EOC).set prev nb)[prev]? = some nb :=
            List.getElem?_set_self (by rw [List.length_set]; exact hpfat)
          obtain ⟨r, s1, e1, hw, ho, hb⟩ :=
            write_from_links c
              { s with fs := { s.fs with fat := (s.fs.fat.set nb FAT_EOC).set prev nb } }
              fd h e.size nb [] data count e H.block_size_pos hint H.mounted
              H.data_count_le (by rw [List.length_set, List.length_set]; exact H.fat_length)
              H.disk_length H.block_length H.handle H.entry rfl
              (by
                rw [links_cons]
                exact ⟨rfl, hnbe, hnblt, FAT_EOC, hfat2nb, by rw [links_nil]⟩)
              hoff32 hdata hcount
          have hroom := free_room_alloc s.fs.fat ((s.fs.fat.set nb FAT_EOC).set prev nb)
            s.fs.sb.data_count nb prev hnbmem hfat2nb
            (fun i h1 h2 => by
              rw [List.getElem?_set_ne (fun hx => h2 hx.symm),
                List.getElem?_set_ne (fun hx => h1 hx.symm)])
            (fun _ => hfat2p)
          refine ⟨r, s1, e1,
            (fs_write_extend_append c fuel s fd h e data count nb prev hh H.entry hstart hext
              hprev hscan hnbe hnbfat hpe hpfat).trans hw, ho, fun hx => absurd hx hA,
            fun _ => ?_⟩
          apply bound_of_add
          have hb2 : r + h.offset % c.BLOCK_SIZE ≤
              (([] : List Nat).length +
                free_room ((s.fs.fat.set nb FAT_EOC).set prev nb) s.fs.sb.data_count + 1) *
                c.BLOCK_SIZE := hb
          rw [List.length_nil, Nat.zero_add] at hb2
          exact Nat.le_trans hb2 (Nat.mul_le_mul_right _
            (Nat.le_trans hroom (Nat.le_add_left _ _)))
      · have hz := no_extend_zero _ _ _ hoff hsize hcount hext
        subst hz
        obtain ⟨s1, e1, hw, ho⟩ :=
          fs_write_nothing c fuel s fd h e data FAT_EOC H hstart (fun hx => hext hx.2)
        exact ⟨0, s1, e1, hw, ho, fun _ => Nat.zero_le _, fun _ => Nat.zero_le _⟩
    · obtain ⟨rest, hrest⟩ := links_ne_eoc _ _ f _ hfe hf
      rw [hrest] at hf
      obtain ⟨r, s1, e1, hw, ho, hb⟩ :=
        write_from_links c s fd h e.size f rest data count e H.block_size_pos hint H.mounted
          H.data_count_le H.fat_length H.disk_length H.block_length H.handle H.entry rfl hf
          hoff32 hdata hcount
      have hlen : l.length - h.offset / c.BLOCK_SIZE = rest.length + 1 := by
        have hx := congrArg List.length hrest
        rw [List.length_drop, List.length_cons] at hx
        exact hx
      refine ⟨r, s1, e1,
        (fs_write_no_extend c fuel s fd h e data count f hh H.entry hstart
          (fun hx => hfe hx.1)).trans hw, ho, fun hx => absurd hx hA, fun _ => ?_⟩
      apply bound_of_add
      rw [hlen, Nat.add_right_comm]
      exact hb

/-! ## The contract of fs_write -/

/-- C3, as amended.  `fs_write` returns `-1` when the volume is not mounted,
`fd` is out of range or not in use, or `buf` is `NULL`.  Otherwise, on a mounted
volume, for a handle in use whose offset is at most the size of its entry, a
buffer that holds `count` bytes, and a table that leads from the first block of
the file to `FAT_EOC` through slots below `data_count` (so that the call reads
inside the table and ends), whatever the size of the entry and the free slots
are: the call returns a count `r` with `0 ≤ r ≤ count`, not `-1`, also when no
block is free; the offset of the handle becomes the old offset plus `r`; and the
size of the entry, a field of 32 bits, stays as it is when the new offset is not
larger and else becomes the new offset modulo `2 ^ 32`, which is the larger of
the old size and the old offset plus `r` whenever that fits the field. -/
theorem fs_write_contract (c : Consts) (fuel : Nat) (s : State) (fd : Int)
    (buf : Option (List Nat)) (count : Nat) (hoft : c.FS_OPEN_MAX_COUNT ≤ s.oft.length) :
    ((s.fs.mounted_status = false ∨ fd < 0 ∨ fd ≥ (c.FS_OPEN_MAX_COUNT : Int) ∨
        (∃ h, s.oft[fd.toNat]? = some h ∧ h.used = false) ∨ buf = none) →
      fs_write c fuel s fd buf count = some (-1, s)) ∧
    (∀ (h : open_file_entry) (e : root_entry) (l data : List Nat), buf = some data →
      handle_ready c s fd h e → c.BLOCK_SIZE * 131071 < 2 ^ 31 → e.size < 2 ^ 32 →
      (e.size = 0 ∨ links s.fs.fat s.fs.sb.data_count e.data_index l = true) →
      h.offset ≤ e.size → count ≤ data.length → count < 2 ^ 63 → l.length ≤ fuel →
      ∃ (r : Nat) (s1 : State) (h1 : open_file_entry) (e1 : root_entry),
        fs_write c fuel s fd buf count = some ((r : Int), s1) ∧ (r : Int) ≠ -1 ∧ r ≤ count ∧
        s1.oft[fd.toNat]? = some h1 ∧ h1.used = true ∧ h1.root_index = h.root_index ∧
        h1.offset = h.offset + r ∧
        root_at s1.fs.root h.root_index = some e1 ∧
        e1.size = (if e.size < h.offset + r then (h.offset + r) % 2 ^ 32 else e.size) ∧
        (h.offset + r < 2 ^ 32 → e1.size = max e.size (h.offset + r)) ∧
        (e.size < 2 ^ 31 → e1.size = max e.size (h.offset + r))) := by
  refine ⟨fs_write_rejected c fuel s fd buf count hoft, ?_⟩
  intro h e l data hbuf H hint hsize hchain hoff hdata hcount hfuel
  subst hbuf
  obtain ⟨r, s1, e1, hw, ⟨hr, hr31, _, ho, he, hs⟩, _, _⟩ :=
    fs_write_total c fuel s fd h e l data count H hint hsize hchain hoff hdata hcount hfuel
  have hfits : h.offset + r < 2 ^ 32 → e1.size = max e.size (h.offset + r) := by
    intro hfit
    rw [hs]
    by_cases hgt : h.offset + r > e.size
    · rw [if_pos hgt, Nat.max_eq_right (Nat.le_of_lt hgt)]
      exact Nat.mod_eq_of_lt hfit
    · rw [if_neg hgt, Nat.max_eq_left (Nat.not_lt.1 hgt)]
  exact ⟨r, s1, _, e1, hw, by omega, hr, ho, H.handle_used, rfl, rfl, he, hs, hfits,
    fun h31 => hfits (by omega)⟩

/-- On the small volume, 3 bytes written at offset 0 of the open file of 6
bytes: a count of at most 3 is returned, the offset moves by it and the size
stays 6 when the count is at most 6. -/
theorem fs_write_contract_witness :
    ∃ (r : Nat) (s1 : State) (h1 : open_file_entry) (e1 : root_entry),
      fs_write small 2 small_open 0 (some [1, 2, 3]) 3 = some ((r : Int), s1) ∧
      (r : Int) ≠ -1 ∧ r ≤ 3 ∧
      s1.oft[0]? = some h1 ∧ h1.used = true ∧ h1.root_index = 0 ∧ h1.offset = 0 + r ∧
      root_at s1.fs.root 0 = some e1 ∧
      e1.size = (if 6 < 0 + r then (0 + r) % 2 ^ 32 else 6) ∧
      (0 + r < 2 ^ 32 → e1.size = max 6 (0 + r)) ∧
      ((6 : Nat) < 2 ^ 31 → e1.size = max 6 (0 + r)) :=
  (fs_write_contract small 2 small_open 0 (some [1, 2, 3]) 3 (by decide)).2
    { used := true, root_index := 0, offset := 0 }
    { filename := [97, 98, 0, 0], size := 6, data_index := 1, padding := List.replicate 10 0 }
    [1, 2] [1, 2, 3] rfl (handle_ready_of _ _ _ _ _ _ small_open_ready) (by decide) (by decide)
    (Or.inr (links_of_is_chain _ _ _ _ small_open_ready.chain)) (by decide) (by decide)
    (by decide) (by decide)

/-! ### The size field at its largest value -/

theorem huge_fat1 : huge_volume.fs.fat[1]? = some FAT_EOC := by
  show (FAT_EOC :: FAT_EOC :: List.replicate 2046 0)[1]? = _
  rw [List.getElem?_cons_succ, List.getElem?_cons_zero]

theorem huge_fat_length : huge_volume.fs.sb.data_count ≤ huge_volume.fs.fat.length := by
  show 4 ≤ (FAT_EOC :: FAT_EOC :: List.replicate 2046 0).length
  rw [List.length_cons, List.length_cons, List.length_replicate]
  decide

theorem huge_free_slots :
    free_slots huge_volume.fs.fat huge_volume.fs.sb.data_count = 2 :: [3] := by
  apply free_slots_eq_of _ _ _ (by decide)
  intro i
  show i ∈ [2, 3] ↔ i < 4 ∧ (FAT_EOC :: FAT_EOC :: List.replicate 2046 0)[i]? = some 0
  constructor
  · intro hi
    have hcases : i = 2 ∨ i = 3 := by
      simpa using hi
    rcases hcases with h | h <;> subst h <;>
      exact ⟨by decide, by
        rw [List.getElem?_cons_succ, List.getElem?_cons_succ, List.getElem?_replicate,
          if_pos (by decide)]⟩
  · rintro ⟨hlt, hval⟩
    match i, hlt, hval with
    | 0, _, hval =>
      rw [List.getElem?_cons_zero] at hval
      exact absurd (Option.some.inj hval) eoc_ne_zero
    | 1, _, hval =>
      rw [List.getElem?_cons_succ, List.getElem?_cons_zero] at hval
      exact absurd (Option.some.inj hval) eoc_ne_zero
    | 2, _, _ => decide
    | 3, _, _ => decide
    | n + 4, hlt, _ => exact absurd hlt (by omega)

theorem huge_entry :
    root_at huge_volume.fs.root 0 =
      some { filename := 97 :: List.replicate 15 0, size := 4294967295, data_index := 1,
             padding := List.replicate 10 0 } := by
  unfold root_at
  rw [if_neg (by decide)]
  show (_ :: List.replicate 127 (zero_entry ecs150))[0]? = _
  rw [List.getElem?_cons_zero]

theorem huge_handle :
    handle_of ecs150 huge_volume 0 =
      some (some { used := true, root_index := 0, offset := 4294967295 }) :=
  handle_of_ok ecs150 huge_volume 0 _ rfl (by decide) (by decide) rfl rfl

theorem huge_links :
    links huge_volume.fs.fat huge_volume.fs.sb.data_count 1 [1] = true := by
  rw [links_cons]
  exact ⟨rfl, one_ne_eoc, by decide, FAT_EOC, huge_fat1, (links_nil _ _ _).2 rfl⟩

theorem huge_disk5 :
    huge_volume.disk[huge_volume.fs.sb.data_index + 2]? = some (List.replicate 4096 0) := by
  show ([List.replicate 4096 0, List.replicate 4096 0, List.replicate 4096 0,
    List.replicate 4096 0, List.replicate 4096 7, List.replicate 4096 0,
    List.replicate 4096 0] : List (List Nat))[5]? = _
  simp only [List.getElem?_cons_succ, List.getElem?_cons_zero]

/-- One byte written at the end of the file of `huge_volume`: the call returns
1 and the size of the entry becomes 0. -/
theorem huge_one_byte :
    ∃ (s1 : State) (e1 : root_entry),
      fs_write ecs150 1 huge_volume 0 (some [9]) 1 = some (1, s1) ∧
      root_at s1.fs.root 0 = some e1 ∧ e1.size = 0 := by
  obtain ⟨hnblt, hnbe, hnbfat, hscan, _⟩ :=
    free_head_facts _ _ 2 [3] (by decide) huge_fat_length huge_free_slots
  obtain ⟨f, hwalk, hf⟩ := walk_links huge_volume.fs.fat huge_volume.fs.sb.data_count
    (4294967295 / 4096) 1 [1] huge_links
  rw [List.drop_eq_nil_of_le (by decide), links_nil] at hf
  subst hf
  obtain ⟨hlb, _⟩ := last_block_links _ _ [1] 1 1 1 huge_links rfl (Nat.le_refl _)
  have hplt : 1 < huge_volume.fs.fat.length := Nat.lt_of_lt_of_le (by decide) huge_fat_length
  have hw := fs_write_extend_append ecs150 1 huge_volume 0 _ _ [9] 1 2 1 huge_handle huge_entry
    (by rw [if_neg (by decide)]; exact hwalk) (by decide) (by rw [if_pos (by decide)]; exact hlb)
    hscan hnbe hnbfat one_ne_eoc hplt
  have hwb := write_block_eq ecs150 huge_volume.disk (huge_volume.fs.sb.data_index + 2)
    (4294967295 % 4096) 1 [9] _ huge_disk5 (List.length_replicate _ _) (by decide)
  have hrun := write_loop_last ecs150 huge_volume.fs.sb.data_index huge_volume.fs.sb.data_count 0
    [9] 1 4294967295 0 2 ((huge_volume.fs.fat.set 2 FAT_EOC).set 1 2) huge_volume.disk _
    (by decide) (by decide) (by decide) hwb (by decide) (by decide)
  obtain ⟨s1, e1, hfrom, _, _, he, hs⟩ :=
    write_from_done ecs150
      { huge_volume with
        fs := { huge_volume.fs with fat := (huge_volume.fs.fat.set 2 FAT_EOC).set 1 2 } }
      0 { used := true, root_index := 0, offset := 4294967295 } 4294967295 2 [9] 1 _ _ _ _ _
      hrun huge_entry rfl
  refine ⟨s1, e1, ?_, he, ?_⟩
  · rw [hw, hfrom]
    rfl
  · rw [hs]
    rfl

/-- C3 as stated fails, in two ways, both with the constants of the headers.
In `full_volume` the volume is mounted and handle 0 is in use at offset 0 of a
file of 4096 bytes, and `fs_write(0, NULL, 3)` returns `-1` and leaves the state
as it is.  In `huge_volume` the volume is mounted and handle 0 is in use at
offset 4294967295 of a file whose size field holds 4294967295; `fs_write` of one
byte returns 1, and the size of the entry afterwards is 0, not the larger of
4294967295 and 4294967295 + 1. -/
theorem fs_write_contract_counterexample :
    (full_volume.fs.mounted_status = true ∧
      full_volume.oft[0]? = some { used := true, root_index := 0, offset := 0 } ∧
      root_at full_volume.fs.root 0 =
        some { filename := 97 :: List.replicate 15 0, size := 4096, data_index := 1,
               padding := List.replicate 10 0 } ∧
      fs_write ecs150 1 full_volume 0 none 3 = some (-1, full_volume)) ∧
    (huge_volume.fs.mounted_status = true ∧
      huge_volume.oft[0]? = some { used := true, root_index := 0, offset := 4294967295 } ∧
      root_at huge_volume.fs.root 0 =
        some { filename := 97 :: List.replicate 15 0, size := 4294967295, data_index := 1,
               padding := List.replicate 10 0 } ∧
      ∃ (s1 : State) (e1 : root_entry),
        fs_write ecs150 1 huge_volume 0 (some [9]) 1 = some (1, s1) ∧
        root_at s1.fs.root 0 = some e1 ∧ e1.size = 0 ∧
        e1.size ≠ max 4294967295 (4294967295 + 1)) := by
  refine ⟨⟨rfl, rfl, full_entry, ?_⟩, rfl, rfl, huge_entry, ?_⟩
  · exact fs_write_rejected ecs150 1 full_volume 0 none 3
      (by
        show 32 ≤ (_ :: List.replicate 31 _).length
        rw [List.length_cons, List.length_replicate])
      (Or.inr (Or.inr (Or.inr (Or.inr rfl))))
  · obtain ⟨s1, e1, hw, he, hs⟩ := huge_one_byte
    refine ⟨s1, e1, hw, he, hs, ?_⟩
    rw [hs]
    decide

/-! ## The short write -/

theorem room_after (L n F bs off r : Nat) (hn : n ≤ L) (hoff : bs * n + off % bs = off)
    (hr : r ≤ (L - n + F) * bs - off % bs) (hmod : off % bs ≤ (L - n + F) * bs) :
    off + r ≤ (L + F) * bs := by
  have h1 : (L - n + F) * bs + n * bs = (L + F) * bs := by
    rw [← Nat.add_mul]
    congr 1
    omega
  rw [Nat.mul_comm bs n] at hoff
  omega

theorem blocks_fit_int (L F dc bs x : Nat) (hL : L ≤ dc) (hF : F ≤ dc) (hdc : dc ≤ 65535)
    (hint : bs * 131071 < 2 ^ 31) (hx : x ≤ (L + F) * bs) : x < 2 ^ 31 := by
  have h1 : (L + F) * bs ≤ 131071 * bs := Nat.mul_le_mul_right _ (by omega)
  rw [Nat.mul_comm 131071 bs] at h1
  omega

/-- C2, as amended.  On a mounted volume, for a handle in use at offset `off`
on an entry whose table leads from its first block through `L` slots in range
to `FAT_EOC` and has room for the size of the file, with `off` at most the size,
with `F` free slots in the table, slot 0 not being free unless the file has no
byte: when `off + N` exceeds `(L + F) * BLOCK_SIZE`, `fs_write(fd, buf, N)`
returns a value less than `N`, and `fs_stat(fd)` then returns the larger of the
old size and `off` plus the value returned. -/
theorem short_write (c : Consts) (s : State) (fd : Int) (h : open_file_entry)
    (e : root_entry) (l : List Nat) (data : List Nat) (N fuel : Nat)
    (H : handle_ready c s fd h e) (hint : c.BLOCK_SIZE * 131071 < 2 ^ 31)
    (hchain : links s.fs.fat s.fs.sb.data_count e.data_index l = true)
    (hcap : e.size ≤ l.length * c.BLOCK_SIZE) (hoff : h.offset ≤ e.size)
    (hslot : e.size = 0 ∨ 0 ∉ free_slots s.fs.fat s.fs.sb.data_count)
    (hdata : N ≤ data.length) (hN : N < 2 ^ 63) (hfuel : l.length ≤ fuel)
    (hbig : (l.length + (free_slots s.fs.fat s.fs.sb.data_count).length) * c.BLOCK_SIZE <
      h.offset + N) :
    ∃ (r : Nat) (s1 : State), fs_write c fuel s fd (some data) N = some ((r : Int), s1) ∧
      r < N ∧ fs_stat c s1 fd = some ((max e.size (h.offset + r) : Nat) : Int) := by
  have hL := links_length_le _ _ _ _ hchain
  have hFl := free_slots_length_le s.fs.fat s.fs.sb.data_count
  have hcapF : e.size ≤ (l.length + (free_slots s.fs.fat s.fs.sb.data_count).length) *
      c.BLOCK_SIZE := Nat.le_trans hcap (Nat.mul_le_mul_right _ (Nat.le_add_right _ _))
  have hsize31 : e.size < 2 ^ 31 :=
    blocks_fit_int _ _ _ _ _ hL hFl H.data_count_le hint hcapF
  obtain ⟨r, s1, e1, hw, ⟨_, _, hm, ho, he, hs⟩, hbA, hbB⟩ :=
    fs_write_total c fuel s fd h e l data N H hint (Nat.lt_trans hsize31 (by decide))
      (Or.inr hchain) hoff hdata hN hfuel
  have hroom : h.offset + r ≤
      (l.length + (free_slots s.fs.fat s.fs.sb.data_count).length) * c.BLOCK_SIZE := by
    by_cases hA : e.size = 0 ∨ e.data_index = FAT_EOC
    · have hb := hbA hA
      have hz : e.size = 0 := by
        rcases hA with h1 | h1
        · exact h1
        · rw [h1] at hchain
          rw [links_eoc _ _ l hchain, List.length_nil, Nat.zero_mul] at hcap
          exact Nat.le_antisymm hcap (Nat.zero_le _)
      have hoff0 : h.offset = 0 := Nat.le_antisymm (hz ▸ hoff) (Nat.zero_le _)
      rw [hoff0, Nat.zero_add]
      rw [hoff0, Nat.zero_mod, Nat.sub_zero] at hb
      exact Nat.le_trans hb (Nat.mul_le_mul_right _ (Nat.le_add_left _ _))
    · have hb := hbB hA
      have hB := not_or.1 hA
      obtain ⟨l1, hl1⟩ := links_ne_eoc _ _ _ l hB.2 hchain
      have hdcpos : 0 < s.fs.sb.data_count := by
        have hx := (links_mem _ _ l _ hchain e.data_index (by
          rw [hl1]; exact List.mem_cons_self _ _)).2.1
        omega
      have h0 : 0 ∉ free_slots s.fs.fat s.fs.sb.data_count :=
        hslot.elim (fun hx => absurd hx hB.1) id
      have hfr : free_room s.fs.fat s.fs.sb.data_count =
          (free_slots s.fs.fat s.fs.sb.data_count).length := by
        unfold free_room
        rw [if_neg, Nat.add_zero]
        exact fun hx => h0 ((mem_free_slots _ _ _).2 ⟨hdcpos, hx⟩)
      rw [hfr] at hb
      have hn : h.offset / c.BLOCK_SIZE ≤ l.length :=
        Nat.div_le_of_le_mul (by
          rw [Nat.mul_comm]
          exact Nat.le_trans hoff hcap)
      have hmod : h.offset % c.BLOCK_SIZE ≤
          (l.length - h.offset / c.BLOCK_SIZE +
            (free_slots s.fs.fat s.fs.sb.data_count).length) * c.BLOCK_SIZE := by
        by_cases hlt : h.offset / c.BLOCK_SIZE < l.length
        · have h1 : 1 ≤ l.length - h.offset / c.BLOCK_SIZE +
              (free_slots s.fs.fat s.fs.sb.data_count).length := by omega
          exact Nat.le_trans (Nat.le_of_lt (Nat.mod_lt _ H.block_size_pos))
            (Nat.le_mul_of_pos_left _ h1)
        · have heq : h.offset / c.BLOCK_SIZE = l.length := Nat.le_antisymm hn (Nat.not_lt.1 hlt)
          have hge : l.length * c.BLOCK_SIZE ≤ h.offset := by
            rw [← heq]
            exact Nat.div_mul_le_self _ _
          have hoffeq : h.offset = l.length * c.BLOCK_SIZE :=
            Nat.le_antisymm (Nat.le_trans hoff hcap) hge
          rw [hoffeq, Nat.mul_mod_left]
          exact Nat.zero_le _
      exact room_after _ _ _ _ _ _ hn (Nat.div_add_mod _ _) hb hmod
  have hlt : r < N := by omega
  have hfit : h.offset + r < 2 ^ 31 :=
    blocks_fit_int _ _ _ _ _ hL hFl H.data_count_le hint hroom
  have hsz : e1.size = max e.size (h.offset + r) := by
    rw [hs]
    by_cases hgt : h.offset + r > e.size
    · rw [if_pos hgt, Nat.max_eq_right (Nat.le_of_lt hgt)]
      exact Nat.mod_eq_of_lt (Nat.lt_trans hfit (by decide))
    · rw [if_neg hgt, Nat.max_eq_left (Nat.not_lt.1 hgt)]
  refine ⟨r, s1, hw, hlt, ?_⟩
  rw [fs_stat_ok c s1 fd _ e1 (handle_of_ok c s1 fd _ hm H.fd_nonneg H.fd_lt ho H.handle_used) he,
    hsz]
  exact congrArg some (to_int_of_lt _ (by
    rcases Nat.le_total e.size (h.offset + r) with hx | hx
    · rw [Nat.max_eq_right hx]; exact hfit
    · rw [Nat.max_eq_left hx]; exact hsize31))

/-- On the small volume with the file of two blocks open at offset 0 and
three free slots, a call with 21 bytes stores fewer than 21, and `fs_stat`
returns the new size. -/
theorem short_write_witness :
    ∃ (r : Nat) (s1 : State), fs_write small 2 small_open 0
        (some [1, 2, 3, 4, 5, 6, 7, 8, 9, 10, 11, 12, 13, 14, 15, 16, 17, 18, 19, 20, 21]) 21 =
          some ((r : Int), s1) ∧
      r < 21 ∧ fs_stat small s1 0 = some ((max 6 (0 + r) : Nat) : Int) :=
  short_write small small_open 0 { used := true, root_index := 0, offset := 0 }
    { filename := [97, 98, 0, 0], size := 6, data_index := 1, padding := List.replicate 10 0 }
    [1, 2] [1, 2, 3, 4, 5, 6, 7, 8, 9, 10, 11, 12, 13, 14, 15, 16, 17, 18, 19, 20, 21] 21 2
    (handle_ready_of _ _ _ _ _ _ small_open_ready) (by decide)
    (links_of_is_chain _ _ _ _ small_open_ready.chain) (by decide) (by decide)
    (Or.inr (by decide)) (by decide) (by decide) (by decide) (by decide)

end Libfs
